import Mathlib

/-!
# LEMMA: variational Bayes (VBayesX2) and randomised HE-regression (PVE)

A shallow embedding of the inference core of the repository.

Conventions of the embedding

* Scalars (`double`) are elements of a field `F`; the arithmetic is exact, except for
  the bound `1.0 / n_var` of the grid validation, which is the binary64 quotient.
  `std::log` and `std::exp` are passed in as a record `MathFns F`, so that every
  definition is generic and executable (over `ℚ` for instance) and can be
  instantiated with `Real.log` and `Real.exp`.
* An Eigen vector is a function `Nat → F` together with its length, a matrix a
  function `Nat → Nat → F` (row, column).  `std::vector` of scalars likewise.
* Mutation of an object is a function from the old record to the new record.
* The grid of hyperparameter points (`all_hyps[nn]`, `all_vp[nn]`, and the columns
  `YM.col(nn)`, `YX.col(nn)`, `ETA.col(nn)`, `ETA_SQ.col(nn)` that `all_vp[nn]`
  refers to) is a function from the grid index to a pair `(Hyps, VariationalParameters)`.
-/

open Finset

namespace LEMMA

/-! ## Numeric primitives and constants -/

/-- The two functions of `<cmath>` that the inference code calls. -/
structure MathFns (F : Type) where
  log : F → F
  exp : F → F

/-- The function `sigmoid` (src/src/vbayes.hpp:378): `1.0 / (1.0 + std::exp(-x))`. -/
def sigmoid {F : Type} [Field F] (m : MathFns F) (x : F) : F :=
  1 / (1 + m.exp (-x))

/-- The member `VBayesX2::PI = 3.1415926535897`. -/
def PI {F : Type} [Field F] : F := 31415926535897 / 10000000000000

/-- The member `VBayesX2::eps = std::numeric_limits<double>::min()`, that is `2^(-1022)`. -/
def eps {F : Type} [Field F] : F := 1 / 2 ^ 1022

/-- The member `VBayesX2::sigma_c = 10000`. -/
def sigma_c {F : Type} [Field F] : F := 10000

/-- The member `VBayesX2::alpha_tol = 1e-4`. -/
def alpha_tol {F : Type} [Field F] : F := 1 / 10000

/-- The member `VBayesX2::logw_tol = 1e-2`. -/
def logw_tol {F : Type} [Field F] : F := 1 / 100

/-- The value `std::numeric_limits<double>::max()`, that is `(2 - 2^(-52)) * 2^1023`. -/
def DBL_MAX {F : Type} [Field F] : F := (2 ^ 53 - 1) * 2 ^ 971

/-! ## Records -/

/-- The fields of `parameters` (parameters.hpp is not part of the sources at hand) that
the embedded functions read. -/
structure parameters (F : Type) where
  mode_mog_prior_beta : Bool
  mode_mog_prior_gam : Bool
  use_vb_on_covars : Bool
  mode_empirical_bayes : Bool
  burnin_maxhyps : Nat
  env_update_repeats : Nat
  main_chunk_size : Nat
  gxe_chunk_size : Nat
  vb_iter_max : Nat
  alpha_tol_set_by_user : Bool
  elbo_tol_set_by_user : Bool
  alpha_tol : F
  elbo_tol : F

/-- The fields of `Hyps` that `VBayesX2` reads and writes; the vectors are indexed by the
effect type `ee` (0 main, 1 interaction). -/
structure Hyps (F : Type) where
  sigma : F
  lambda : Nat → F
  slab_var : Nat → F
  spike_var : Nat → F
  slab_relative_var : Nat → F
  spike_relative_var : Nat → F
  s_x : Nat → F
  pve : Nat → F
  pve_large : Nat → F

/-- The fields of `VariationalParameters` that `VBayesX2` reads and writes.  `ym`, `yx`,
`eta` and `eta_sq` are the columns of `YM`, `YX`, `ETA`, `ETA_SQ` of this grid point. -/
structure VariationalParameters (F : Type) where
  ym : Nat → F
  yx : Nat → F
  eta : Nat → F
  eta_sq : Nat → F
  alpha_beta : Nat → F
  mu1_beta : Nat → F
  mu2_beta : Nat → F
  s1_beta_sq : Nat → F
  s2_beta_sq : Nat → F
  alpha_gam : Nat → F
  mu1_gam : Nat → F
  mu2_gam : Nat → F
  s1_gam_sq : Nat → F
  s2_gam_sq : Nat → F
  muc : Nat → F
  sc_sq : Nat → F
  muw : Nat → F
  sw_sq : Nat → F
  varB : Nat → F
  varG : Nat → F
  EdZtZ : Nat → F

/-- The data members of `VBayesX2` that the embedded member functions read.
`X i j` is the standardised dosage of sample `i` at variant `j`; `dXtEEX j (l * n_env + m)`
is the diagonal of `Xᵀ diag(E_l ⊙ E_m) X`.  `calcEdZtZ` stands for the member
`VariationalParameters::calcEdZtZ(dXtEEX, n_env)` (variational_parameters.hpp is not
part of the sources at hand): it returns the new `EdZtZ` vector. -/
structure VBayesX2 (F : Type) where
  n_effects : Nat
  n_samples : Nat
  n_covar : Nat
  n_env : Nat
  n_var : Nat
  p : parameters F
  X : Nat → Nat → F
  Y : Nat → F
  Cty : Nat → F
  E : Nat → Nat → F
  C : Nat → Nat → F
  dXtEEX : Nat → Nat → F
  calcEdZtZ : VariationalParameters F → Nat → F

section Field

variable {F : Type} [Field F]

/-- The member `N = (double) n_samples`. -/
def VBayesX2.N (vb : VBayesX2 F) : F := (vb.n_samples : F)

/-! ## Expected residual sum of squares -/

/-- The member `VBayesX2::calcExpLinear` (src/src/vbayes_x2.hpp:1321). -/
def calcExpLinear (vb : VBayesX2 F) (_hyps : Hyps F) (vp : VariationalParameters F) : F :=
  let int_linear : F := ∑ i ∈ range vb.n_samples, (vb.Y i - vp.ym i) * (vb.Y i - vp.ym i)
  let int_linear : F :=
    if 1 < vb.n_effects then
      let int_linear := int_linear
        - 2 * ∑ i ∈ range vb.n_samples, ((vb.Y i - vp.ym i) * vp.eta i) * vp.yx i
      if 1 < vb.n_env then
        int_linear + ∑ i ∈ range vb.n_samples, (vp.yx i * vp.eta_sq i) * vp.yx i
      else
        int_linear + ∑ i ∈ range vb.n_samples, (vp.yx i * vp.eta i) * (vp.yx i * vp.eta i)
    else int_linear
  let int_linear : F :=
    if vb.p.use_vb_on_covars then
      int_linear + (vb.N - 1) * ∑ k ∈ range vb.n_covar, vp.sc_sq k
    else int_linear
  let int_linear : F := int_linear + (vb.N - 1) * ∑ j ∈ range vb.n_var, vp.varB j
  if 1 < vb.n_effects then
    int_linear + ∑ j ∈ range vb.n_var, vp.EdZtZ j * vp.varG j
  else int_linear

/-! ## Empirical-Bayes maximisation of the hyperparameters -/

/-- The block of `VBayesX2::maximiseHyps` (src/src/vbayes_x2.hpp:943-958 for `ee = 0`,
962-976 for `ee = 1`) that maximises `lambda`, `slab_var`, `spike_var` of one effect type
from that effect's `alpha`, `mu1`, `s1_sq`, `mu2`, `s2_sq`; `mog` is the effect's
`mode_mog_prior_*` flag.  It runs after `hyps.sigma` has been assigned. -/
def maximiseHypsEffect (vb : VBayesX2 F) (ee : Nat) (mog : Bool)
    (alpha mu1 s1_sq mu2 s2_sq : Nat → F) (hyps : Hyps F) : Hyps F :=
  let hyps : Hyps F :=
    { hyps with lambda := Function.update hyps.lambda ee (∑ j ∈ range vb.n_var, alpha j) }
  let hyps : Hyps F :=
    { hyps with
      slab_var := Function.update hyps.slab_var ee
        (∑ j ∈ range vb.n_var, alpha j * (s1_sq j + mu1 j * mu1 j)) }
  let hyps : Hyps F :=
    { hyps with slab_var := Function.update hyps.slab_var ee (hyps.slab_var ee / hyps.lambda ee) }
  let hyps : Hyps F :=
    { hyps with
      slab_relative_var :=
        Function.update hyps.slab_relative_var ee (hyps.slab_var ee / hyps.sigma) }
  let hyps : Hyps F :=
    if mog then
      let hyps : Hyps F :=
        { hyps with
          spike_var := Function.update hyps.spike_var ee
            (∑ j ∈ range vb.n_var, (1 - alpha j) * (s2_sq j + mu2 j * mu2 j)) }
      let hyps : Hyps F :=
        { hyps with
          spike_var := Function.update hyps.spike_var ee
            (hyps.spike_var ee / ((vb.n_var : F) - hyps.lambda ee)) }
      { hyps with
        spike_relative_var :=
          Function.update hyps.spike_relative_var ee (hyps.spike_var ee / hyps.sigma) }
    else hyps
  { hyps with lambda := Function.update hyps.lambda ee (hyps.lambda ee / (vb.n_var : F)) }

/-- The member `VBayesX2::maximiseHyps` (src/src/vbayes_x2.hpp:931). -/
def maximiseHyps (vb : VBayesX2 F) (hyps : Hyps F) (vp : VariationalParameters F) : Hyps F :=
  let hyps : Hyps F := { hyps with sigma := calcExpLinear vb hyps vp }
  let hyps : Hyps F :=
    if vb.p.use_vb_on_covars then
      let hyps : Hyps F :=
        { hyps with
          sigma := hyps.sigma
            + (∑ k ∈ range vb.n_covar, (vp.sc_sq k + vp.muc k * vp.muc k)) / sigma_c }
      { hyps with sigma := hyps.sigma / (vb.N + (vb.n_covar : F)) }
    else
      { hyps with sigma := hyps.sigma / vb.N }
  let hyps : Hyps F :=
    maximiseHypsEffect vb 0 vb.p.mode_mog_prior_beta
      vp.alpha_beta vp.mu1_beta vp.s1_beta_sq vp.mu2_beta vp.s2_beta_sq hyps
  if 1 < vb.n_effects then
    maximiseHypsEffect vb 1 vb.p.mode_mog_prior_gam
      vp.alpha_gam vp.mu1_gam vp.s1_gam_sq vp.mu2_gam vp.s2_gam_sq hyps
  else hyps

/-! ## Evidence lower bound -/

/-- The body shared by `VBayesX2::calcIntKLBeta` (`ee = 0`, src/src/vbayes_x2.hpp:1349)
and `VBayesX2::calcIntKLGamma` (`ee = 1`, src/src/vbayes_x2.hpp:1383), which differ only in
the effect type whose vectors they read. -/
def calcIntKL (m : MathFns F) (vb : VBayesX2 F) (ee : Nat) (mog : Bool)
    (alpha mu1 s1_sq mu2 s2_sq : Nat → F) (hyps : Hyps F) : F :=
  let col_sum : F := ∑ j ∈ range vb.n_var, alpha j
  let res : F :=
    if mog then
      (vb.n_var : F) / 2
        - (∑ j ∈ range vb.n_var, alpha j * (mu1 j * mu1 j + s1_sq j)) / 2 / hyps.slab_var ee
        + (∑ j ∈ range vb.n_var, alpha j * m.log (s1_sq j)) / 2
        - (∑ j ∈ range vb.n_var, (1 - alpha j) * (mu2 j * mu2 j + s2_sq j)) / 2
            / hyps.spike_var ee
        + (∑ j ∈ range vb.n_var, (1 - alpha j) * m.log (s2_sq j)) / 2
        - m.log (hyps.slab_var ee) * col_sum / 2
        - m.log (hyps.spike_var ee) * ((vb.n_var : F) - col_sum) / 2
    else
      (∑ j ∈ range vb.n_var, alpha j * m.log (s1_sq j)) / 2
        - (∑ j ∈ range vb.n_var, alpha j * (mu1 j * mu1 j + s1_sq j)) / 2 / hyps.slab_var ee
        + col_sum * (1 - m.log (hyps.slab_var ee)) / 2
  res - ∑ kk ∈ range vb.n_var,
    (alpha kk * m.log (alpha kk + eps) + (1 - alpha kk) * m.log (1 - alpha kk + eps))

/-- The member `VBayesX2::calcIntKLBeta` (src/src/vbayes_x2.hpp:1349). -/
def calcIntKLBeta (m : MathFns F) (vb : VBayesX2 F) (hyps : Hyps F)
    (vp : VariationalParameters F) : F :=
  calcIntKL m vb 0 vb.p.mode_mog_prior_beta
    vp.alpha_beta vp.mu1_beta vp.s1_beta_sq vp.mu2_beta vp.s2_beta_sq hyps

/-- The member `VBayesX2::calcIntKLGamma` (src/src/vbayes_x2.hpp:1383). -/
def calcIntKLGamma (m : MathFns F) (vb : VBayesX2 F) (hyps : Hyps F)
    (vp : VariationalParameters F) : F :=
  calcIntKL m vb 1 vb.p.mode_mog_prior_gam
    vp.alpha_gam vp.mu1_gam vp.s1_gam_sq vp.mu2_gam vp.s2_gam_sq hyps

/-- The three lines of `VBayesX2::calc_logw` (src/src/vbayes_x2.hpp:1092-1095 for `ee = 0`,
1099-1102 for `ee = 1`) that add the prior inclusion term of one effect type. -/
def int_gamma_effect (m : MathFns F) (vb : VBayesX2 F) (ee : Nat) (alpha : Nat → F)
    (hyps : Hyps F) : F :=
  let col_sum : F := ∑ j ∈ range vb.n_var, alpha j
  col_sum * m.log (hyps.lambda ee + eps)
    - col_sum * m.log (1 - hyps.lambda ee + eps)
    + (vb.n_var : F) * m.log (1 - hyps.lambda ee + eps)

/-- The member `VBayesX2::calc_logw` (src/src/vbayes_x2.hpp:1081). -/
def calc_logw (m : MathFns F) (vb : VBayesX2 F) (hyps : Hyps F)
    (vp : VariationalParameters F) : F :=
  let int_linear : F := -1 * calcExpLinear vb hyps vp / 2 / hyps.sigma
  let int_linear : F := int_linear - vb.N * m.log (2 * PI * hyps.sigma) / 2
  let int_gamma : F := 0 + int_gamma_effect m vb 0 vp.alpha_beta hyps
  let int_gamma : F :=
    if 1 < vb.n_effects then int_gamma + int_gamma_effect m vb 1 vp.alpha_gam hyps
    else int_gamma
  let int_klbeta : F := calcIntKLBeta m vb hyps vp
  let int_klbeta : F :=
    if 1 < vb.n_effects then int_klbeta + calcIntKLGamma m vb hyps vp else int_klbeta
  let kl_covar : F :=
    if vb.p.use_vb_on_covars then
      0 + (vb.n_covar : F) * (1 - hyps.sigma * sigma_c) / 2
        + (∑ k ∈ range vb.n_covar, m.log (vp.sc_sq k)) / 2
        - (∑ k ∈ range vb.n_covar, vp.sc_sq k) / 2 / hyps.sigma / sigma_c
        - (∑ k ∈ range vb.n_covar, vp.muc k * vp.muc k) / 2 / hyps.sigma / sigma_c
    else 0
  let kl_weights : F :=
    if 1 < vb.n_env then
      0 + (vb.n_env : F) / 2
        + (∑ l ∈ range vb.n_env, m.log (vp.sw_sq l)) / 2
        - (∑ l ∈ range vb.n_env, vp.sw_sq l) / 2
        - (∑ l ∈ range vb.n_env, vp.muw l * vp.muw l) / 2
    else 0
  int_linear + int_gamma + int_klbeta + kl_covar + kl_weights

/-- The member `VBayesX2::compute_pve` (src/src/vbayes_x2.hpp:1417).  The variable `ee`
declared in the outer `if` is 0; the inner block shadows it with its own `ee = 1`. -/
def compute_pve (vb : VBayesX2 F) (hyps : Hyps F) : Hyps F :=
  let hyps : Hyps F :=
    { hyps with pve := fun ee => hyps.lambda ee * hyps.slab_relative_var ee * hyps.s_x ee }
  let hyps : Hyps F :=
    if vb.p.mode_mog_prior_beta then
      let hyps : Hyps F :=
        { hyps with pve_large := Function.update hyps.pve_large 0 (hyps.pve 0) }
      let hyps : Hyps F :=
        { hyps with
          pve := Function.update hyps.pve 0
            (hyps.pve 0 + (1 - hyps.lambda 0) * hyps.spike_relative_var 0 * hyps.s_x 0) }
      let hyps : Hyps F :=
        if vb.p.mode_mog_prior_gam && decide (1 < vb.n_effects) then
          let hyps : Hyps F :=
            { hyps with pve_large := Function.update hyps.pve_large 1 (hyps.pve 1) }
          { hyps with
            pve := Function.update hyps.pve 1
              (hyps.pve 1 + (1 - hyps.lambda 1) * hyps.spike_relative_var 1 * hyps.s_x 1) }
        else hyps
      { hyps with
        pve_large := Function.update hyps.pve_large 0
          (hyps.pve_large 0 / ((∑ e ∈ range vb.n_effects, hyps.pve e) + 1)) }
    else hyps
  { hyps with pve := fun ee => hyps.pve ee / ((∑ e ∈ range vb.n_effects, hyps.pve e) + 1) }

/-! ## Covariate and environment-weight updates -/

/-- One turn of the loop `for (int cc = 0; cc < n_covar; cc++)` of
`VBayesX2::updateCovarEffects` (src/src/vbayes_x2.hpp:621-634). -/
def updateCovarEffectsStep (vb : VBayesX2 F) (hyps : Hyps F) (vp : VariationalParameters F)
    (cc : Nat) : VariationalParameters F :=
  let rr_k : F := vp.muc cc
  let vp : VariationalParameters F :=
    { vp with
      sc_sq := Function.update vp.sc_sq cc
        (hyps.sigma * sigma_c / (sigma_c * (vb.N - 1) + 1)) }
  let A : F := vb.Cty cc
    - ∑ i ∈ range vb.n_samples, (vp.ym i + vp.yx i * vp.eta i) * vb.C i cc
  let vp : VariationalParameters F :=
    { vp with
      muc := Function.update vp.muc cc
        (vp.sc_sq cc * (A + rr_k * (vb.N - 1)) / hyps.sigma) }
  let rr_k_diff : F := vp.muc cc - rr_k
  { vp with ym := fun i => vp.ym i + rr_k_diff * vb.C i cc }

/-- The member `VBayesX2::updateCovarEffects` (src/src/vbayes_x2.hpp:618). -/
def updateCovarEffects (vb : VBayesX2 F) (vp : VariationalParameters F) (hyps : Hyps F) :
    VariationalParameters F :=
  (List.range vb.n_covar).foldl (updateCovarEffectsStep vb hyps) vp

/-- One turn of the loop `for (int ll : iter)` of `VBayesX2::updateEnvWeights`
(src/src/vbayes_x2.hpp:1018-1046). -/
def updateEnvWeightsStep (vb : VBayesX2 F) (hyps : Hyps F) (vp : VariationalParameters F)
    (ll : Nat) : VariationalParameters F :=
  let r_ll : F := vp.muw ll
  let denom : F := hyps.sigma
  let denom : F := denom
    + ∑ i ∈ range vb.n_samples, (vp.yx i * vb.E i ll) * (vp.yx i * vb.E i ll)
  let denom : F := denom
    + ∑ j ∈ range vb.n_var, vp.varG j * vb.dXtEEX j (ll * vb.n_env + ll)
  let vp : VariationalParameters F :=
    { vp with sw_sq := Function.update vp.sw_sq ll (hyps.sigma / denom) }
  let vp : VariationalParameters F :=
    { vp with eta := fun i => vp.eta i - r_ll * vb.E i ll }
  let env_vars : Nat → F := fun j =>
    ∑ mm ∈ (range vb.n_env).filter (fun mm => mm ≠ ll),
      vp.muw mm * vb.dXtEEX j (ll * vb.n_env + mm)
  let eff : F := ∑ i ∈ range vb.n_samples, (vb.Y i - vp.ym i) * vb.E i ll * vp.yx i
  let eff : F := eff
    - ∑ i ∈ range vb.n_samples, vp.yx i * vb.E i ll * vp.eta i * vp.yx i
  let eff : F := eff - ∑ j ∈ range vb.n_var, vp.varG j * env_vars j
  let vp : VariationalParameters F :=
    { vp with muw := Function.update vp.muw ll (vp.sw_sq ll * eff / hyps.sigma) }
  { vp with eta := fun i => vp.eta i + vp.muw ll * vb.E i ll }

/-- The member `VBayesX2::updateEnvWeights` (src/src/vbayes_x2.hpp:1014); it updates both
`hyps` (the entries of `s_x`) and `vp`. -/
def updateEnvWeights (vb : VBayesX2 F) (iter : List Nat)
    (hv : Hyps F × VariationalParameters F) : Hyps F × VariationalParameters F :=
  let hyps : Hyps F := hv.1
  let vp : VariationalParameters F := iter.foldl (updateEnvWeightsStep vb hyps) hv.2
  let vp : VariationalParameters F :=
    { vp with eta_sq := fun i => vp.eta i * vp.eta i }
  let vp : VariationalParameters F :=
    { vp with
      eta_sq := fun i =>
        vp.eta_sq i + ∑ l ∈ range vb.n_env, (vb.E i l * vb.E i l) * vp.sw_sq l }
  let vp : VariationalParameters F := { vp with EdZtZ := vb.calcEdZtZ vp }
  let hyps : Hyps F := { hyps with s_x := Function.update hyps.s_x 0 (vb.n_var : F) }
  let hyps : Hyps F :=
    { hyps with
      s_x := Function.update hyps.s_x 1
        ((∑ j ∈ range vb.n_var, ∑ ll ∈ range vb.n_env, ∑ mm ∈ range vb.n_env,
            vb.dXtEEX j (mm * vb.n_env + ll) * (vp.muw mm * vp.muw ll)) / (vb.N - 1)) }
  (hyps, vp)

/-! ## Coordinate ascent over the variants -/

/-- Modelled from the spec: `GenotypeMatrix::col_block3(chunk, D)` (genotype_matrix.hpp is
not part of the sources at hand), the spec's `col_block(indices, out)` "filling N×m block"
with the standardised columns of the listed variants.  The pass indices of the
interaction effects are offset by `n_var`, so the column read is `chunk[ii] % n_var`. -/
def col_block3 (vb : VBayesX2 F) (chunk : List Nat) : Nat → Nat → F :=
  fun i ii => vb.X i (chunk.getD ii 0 % vb.n_var)

/-- The member `VBayesX2::computeGeneResidualCorrelation` (src/src/vbayes_x2.hpp:742),
column `nn` of its result: entry `ii` is the correlation of column `ii` of `D` with the
residual of grid point `nn`. -/
def computeGeneResidualCorrelation (vb : VBayesX2 F) (D : Nat → Nat → F) (ee : Nat)
    (vp : VariationalParameters F) : Nat → F :=
  if vb.n_effects = 1 then
    fun ii => ∑ i ∈ range vb.n_samples, (vb.Y i - vp.ym i) * D i ii
  else if ee = 0 then
    fun ii => ∑ i ∈ range vb.n_samples, (vb.Y i - vp.ym i - vp.yx i * vp.eta i) * D i ii
  else
    fun ii => ∑ i ∈ range vb.n_samples,
      D i ii * ((vb.Y i - vp.ym i) * vp.eta i - vp.yx i * vp.eta_sq i)

/-- The vector `alpha_cnst` of `_internal_updateAlphaMu_beta` and `_internal_updateAlphaMu_gam`
(src/src/vbayes_x2.hpp:773-779 and 830-836), at entry `ee`. -/
def alpha_cnst (m : MathFns F) (mog : Bool) (hyps : Hyps F) (ee : Nat) : F :=
  if mog then
    m.log (hyps.lambda ee / (1 - hyps.lambda ee) + eps)
      - (m.log (hyps.slab_var ee) - m.log (hyps.spike_var ee)) / 2
  else
    m.log (hyps.lambda ee / (1 - hyps.lambda ee) + eps) - m.log (hyps.slab_var ee) / 2

/-- One turn of the loop `for (int ii = 0; ii < ch_len; ii++)` of
`VBayesX2::_internal_updateAlphaMu_beta` (src/src/vbayes_x2.hpp:784-817).  The state is the
pair of `vp` and the column `rr_k_diff`; the previous value `rr_k(ii)` is read inside the
turn. -/
def _internal_updateAlphaMu_beta_step (m : MathFns F) (vb : VBayesX2 F)
    (iter_chunk : List Nat) (A : Nat → F) (D_corr : Nat → Nat → F) (hyps : Hyps F)
    (st : VariationalParameters F × (Nat → F)) (ii : Nat) :
    VariationalParameters F × (Nat → F) :=
  let vp : VariationalParameters F := st.1
  let rr_k_diff : Nat → F := st.2
  let mog : Bool := vb.p.mode_mog_prior_beta
  let ee : Nat := 0
  let jj : Nat := iter_chunk.getD ii 0
  let rr_k : F := vp.alpha_beta jj * vp.mu1_beta jj
  let rr_k : F := if mog then rr_k + (1 - vp.alpha_beta jj) * vp.mu2_beta jj else rr_k
  let vp : VariationalParameters F :=
    { vp with
      s1_beta_sq := Function.update vp.s1_beta_sq jj
        (hyps.slab_var ee / (hyps.slab_relative_var ee * (vb.N - 1) + 1)) }
  let vp : VariationalParameters F :=
    if mog then
      { vp with
        s2_beta_sq := Function.update vp.s2_beta_sq jj
          (hyps.spike_var ee / (hyps.spike_relative_var ee * (vb.N - 1) + 1)) }
    else vp
  let offset : F := rr_k * (vb.N - 1) - ∑ mm ∈ range ii, rr_k_diff mm * D_corr mm ii
  let AA : F := A ii + offset
  let vp : VariationalParameters F :=
    { vp with mu1_beta := Function.update vp.mu1_beta jj (vp.s1_beta_sq jj * AA / hyps.sigma) }
  let vp : VariationalParameters F :=
    if mog then
      { vp with
        mu2_beta := Function.update vp.mu2_beta jj (vp.s2_beta_sq jj * AA / hyps.sigma) }
    else vp
  let ff_k : F := vp.mu1_beta jj * vp.mu1_beta jj / vp.s1_beta_sq jj
  let ff_k : F := ff_k + m.log (vp.s1_beta_sq jj)
  let ff_k : F := if mog then ff_k - vp.mu2_beta jj * vp.mu2_beta jj / vp.s2_beta_sq jj else ff_k
  let ff_k : F := if mog then ff_k - m.log (vp.s2_beta_sq jj) else ff_k
  let vp : VariationalParameters F :=
    { vp with
      alpha_beta := Function.update vp.alpha_beta jj
        (sigmoid m (ff_k / 2 + alpha_cnst m mog hyps ee)) }
  let d : F := vp.alpha_beta jj * vp.mu1_beta jj - rr_k
  let d : F := if mog then d + (1 - vp.alpha_beta jj) * vp.mu2_beta jj else d
  (vp, Function.update rr_k_diff ii d)

/-- The member `VBayesX2::_internal_updateAlphaMu_beta` (src/src/vbayes_x2.hpp:763); the
result is the new `vp` and the column `rr_k_diff`, whose entries `ii < ch_len` it assigns. -/
def _internal_updateAlphaMu_beta (m : MathFns F) (vb : VBayesX2 F)
    (iter_chunk : List Nat) (A : Nat → F) (D_corr : Nat → Nat → F) (hyps : Hyps F)
    (vp : VariationalParameters F) (rr_k_diff : Nat → F) :
    VariationalParameters F × (Nat → F) :=
  (List.range iter_chunk.length).foldl
    (_internal_updateAlphaMu_beta_step m vb iter_chunk A D_corr hyps) (vp, rr_k_diff)

/-- The vector `rr_k` of previous values that `VBayesX2::_internal_updateAlphaMu_gam` fills
before its update loop (src/src/vbayes_x2.hpp:839-844). -/
def rr_k_gam (vb : VBayesX2 F) (iter_chunk : List Nat) (vp : VariationalParameters F) :
    Nat → F :=
  fun ii =>
    let jj : Nat := iter_chunk.getD ii 0 % vb.n_var
    let r : F := vp.alpha_gam jj * vp.mu1_gam jj
    if vb.p.mode_mog_prior_gam then r + (1 - vp.alpha_gam jj) * vp.mu2_gam jj else r

/-- One turn of the update loop of `VBayesX2::_internal_updateAlphaMu_gam`
(src/src/vbayes_x2.hpp:849-878); `rr_k` is the vector of previous values filled before the
loop. -/
def _internal_updateAlphaMu_gam_step (m : MathFns F) (vb : VBayesX2 F)
    (iter_chunk : List Nat) (A : Nat → F) (D_corr : Nat → Nat → F) (hyps : Hyps F)
    (rr_k : Nat → F) (st : VariationalParameters F × (Nat → F)) (ii : Nat) :
    VariationalParameters F × (Nat → F) :=
  let vp : VariationalParameters F := st.1
  let rr_k_diff : Nat → F := st.2
  let mog : Bool := vb.p.mode_mog_prior_gam
  let ee : Nat := 1
  let jj : Nat := iter_chunk.getD ii 0 % vb.n_var
  let vp : VariationalParameters F :=
    { vp with
      s1_gam_sq := Function.update vp.s1_gam_sq jj
        (hyps.slab_var ee / (hyps.slab_relative_var ee * vp.EdZtZ jj + 1)) }
  let vp : VariationalParameters F :=
    if mog then
      { vp with
        s2_gam_sq := Function.update vp.s2_gam_sq jj
          (hyps.spike_var ee / (hyps.spike_relative_var ee * vp.EdZtZ jj + 1)) }
    else vp
  let offset : F := rr_k ii * vp.EdZtZ jj - ∑ mm ∈ range ii, rr_k_diff mm * D_corr mm ii
  let AA : F := A ii + offset
  let vp : VariationalParameters F :=
    { vp with mu1_gam := Function.update vp.mu1_gam jj (vp.s1_gam_sq jj * AA / hyps.sigma) }
  let vp : VariationalParameters F :=
    if mog then
      { vp with
        mu2_gam := Function.update vp.mu2_gam jj (vp.s2_gam_sq jj * AA / hyps.sigma) }
    else vp
  let ff_k : F := vp.mu1_gam jj * vp.mu1_gam jj / vp.s1_gam_sq jj
  let ff_k : F := ff_k + m.log (vp.s1_gam_sq jj)
  let ff_k : F := if mog then ff_k - vp.mu2_gam jj * vp.mu2_gam jj / vp.s2_gam_sq jj else ff_k
  let ff_k : F := if mog then ff_k - m.log (vp.s2_gam_sq jj) else ff_k
  let vp : VariationalParameters F :=
    { vp with
      alpha_gam := Function.update vp.alpha_gam jj
        (sigmoid m (ff_k / 2 + alpha_cnst m mog hyps ee)) }
  let d : F := vp.alpha_gam jj * vp.mu1_gam jj - rr_k ii
  let d : F := if mog then d + (1 - vp.alpha_gam jj) * vp.mu2_gam jj else d
  (vp, Function.update rr_k_diff ii d)

/-- The member `VBayesX2::_internal_updateAlphaMu_gam` (src/src/vbayes_x2.hpp:820). -/
def _internal_updateAlphaMu_gam (m : MathFns F) (vb : VBayesX2 F)
    (iter_chunk : List Nat) (A : Nat → F) (D_corr : Nat → Nat → F) (hyps : Hyps F)
    (vp : VariationalParameters F) (rr_k_diff : Nat → F) :
    VariationalParameters F × (Nat → F) :=
  (List.range iter_chunk.length).foldl
    (_internal_updateAlphaMu_gam_step m vb iter_chunk A D_corr hyps
      (rr_k_gam vb iter_chunk vp)) (vp, rr_k_diff)

/-- The member `VBayesX2::adjustParams` (src/src/vbayes_x2.hpp:699) for grid point `nn`.
The memo `D_correlations` only caches `DᵀD` of a main-effect chunk, which is the same at
every visit of the chunk, so `D_corr` is recomputed here; with one thread only the
strictly upper triangle is filled, and only entries `(mm, ii)` with `mm < ii` are read.
For an interaction chunk `D_corr` is filled only when `gxe_chunk_size > 1`; the entries
of the matrix that was never assigned are taken to be 0. -/
def adjustParams (m : MathFns F) (vb : VBayesX2 F) (chunk : List Nat) (D : Nat → Nat → F)
    (A : Nat → F) (hyps : Hyps F) (vp : VariationalParameters F) (rr_diff : Nat → F) :
    VariationalParameters F × (Nat → F) :=
  let ee : Nat := chunk.getD 0 0 / vb.n_var
  if ee = 0 then
    let D_corr : Nat → Nat → F := fun a b => ∑ i ∈ range vb.n_samples, D i a * D i b
    _internal_updateAlphaMu_beta m vb chunk A D_corr hyps vp rr_diff
  else
    let D_corr : Nat → Nat → F :=
      if 1 < vb.p.gxe_chunk_size then
        fun a b => ∑ i ∈ range vb.n_samples, D i a * vp.eta_sq i * D i b
      else fun _ _ => 0
    _internal_updateAlphaMu_gam m vb chunk A D_corr hyps vp rr_diff

/-- One turn of the loop over the chunks of `VBayesX2::updateAlphaMu`
(src/src/vbayes_x2.hpp:648-691) for grid point `nn`: read the block `D`, correlate it with
the residual, adjust the parameters, patch `YM.col(nn)` or `YX.col(nn)` by
`D * rr_diff.col(nn)`.  The entries of `rr_diff` are assigned before they are read, so
the turn starts from the zero column. -/
def updateAlphaMuChunk (m : MathFns F) (vb : VBayesX2 F) (chunk : List Nat)
    (hv : Hyps F × VariationalParameters F) : Hyps F × VariationalParameters F :=
  let ee : Nat := chunk.getD 0 0 / vb.n_var
  let ch_len : Nat := chunk.length
  let D : Nat → Nat → F := col_block3 vb chunk
  let A : Nat → F := computeGeneResidualCorrelation vb D ee hv.2
  let r : VariationalParameters F × (Nat → F) :=
    adjustParams m vb chunk D A hv.1 hv.2 (fun _ => 0)
  let vp : VariationalParameters F := r.1
  let rr_diff : Nat → F := r.2
  if ee = 0 then
    (hv.1, { vp with ym := fun i => vp.ym i + ∑ ii ∈ range ch_len, D i ii * rr_diff ii })
  else
    (hv.1, { vp with yx := fun i => vp.yx i + ∑ ii ∈ range ch_len, D i ii * rr_diff ii })

/-- Modelled from the spec: `VariationalParameters::calcVarqBeta(hyps, p, n_effects)`
(variational_parameters.hpp is not part of the sources at hand), the spec's
`calc_var_beta()`: `var_β = α·(s₁² + μ₁²) − (α·μ₁)²` under the single-component prior and
`var_β = α·(s₁² + μ₁²) + (1−α)·(s₂² + μ₂²) − (α·μ₁ + (1−α)·μ₂)²` under mog; `var_γ`
likewise when there are interaction effects. -/
def calcVarqBeta (vb : VBayesX2 F) (vp : VariationalParameters F) : VariationalParameters F :=
  let varq (mog : Bool) (alpha mu1 s1_sq mu2 s2_sq : Nat → F) : Nat → F := fun j =>
    if mog then
      alpha j * (s1_sq j + mu1 j * mu1 j) + (1 - alpha j) * (s2_sq j + mu2 j * mu2 j)
        - (alpha j * mu1 j + (1 - alpha j) * mu2 j) * (alpha j * mu1 j + (1 - alpha j) * mu2 j)
    else
      alpha j * (s1_sq j + mu1 j * mu1 j) - (alpha j * mu1 j) * (alpha j * mu1 j)
  let vp : VariationalParameters F :=
    { vp with
      varB := varq vb.p.mode_mog_prior_beta
        vp.alpha_beta vp.mu1_beta vp.s1_beta_sq vp.mu2_beta vp.s2_beta_sq }
  if 1 < vb.n_effects then
    { vp with
      varG := varq vb.p.mode_mog_prior_gam
        vp.alpha_gam vp.mu1_gam vp.s1_gam_sq vp.mu2_gam vp.s2_gam_sq }
  else vp

/-- The member `VBayesX2::updateAlphaMu` (src/src/vbayes_x2.hpp:637): every chunk in
turn, for every grid point, then the summary variances. -/
def updateAlphaMu (m : MathFns F) (vb : VBayesX2 F) (iter_chunks : List (List Nat))
    (grid : Nat → Hyps F × VariationalParameters F) :
    Nat → Hyps F × VariationalParameters F :=
  let grid : Nat → Hyps F × VariationalParameters F :=
    iter_chunks.foldl (fun g chunk => fun nn => updateAlphaMuChunk m vb chunk (g nn)) grid
  fun nn => ((grid nn).1, calcVarqBeta vb (grid nn).2)

/-! ## Pass orders built by the constructor -/

/-- The chunk index `ch_index` that the constructor of `VBayesX2` computes for pass index
`kk` (src/src/vbayes_x2.hpp:165); the chunk sizes are the clamped `p.main_chunk_size` and
`p.gxe_chunk_size`. -/
def ch_index (vb : VBayesX2 F) (kk : Nat) : Nat :=
  let n_main_segs : Nat := (vb.n_var + vb.p.main_chunk_size - 1) / vb.p.main_chunk_size
  if kk < vb.n_var then kk / vb.p.main_chunk_size
  else n_main_segs + (kk % vb.n_var) / vb.p.gxe_chunk_size

/-- The number `n_chunks` of the constructor of `VBayesX2` (src/src/vbayes_x2.hpp:154-160). -/
def n_chunks (vb : VBayesX2 F) : Nat :=
  let n_main_segs : Nat := (vb.n_var + vb.p.main_chunk_size - 1) / vb.p.main_chunk_size
  let n_gxe_segs : Nat := (vb.n_var + vb.p.gxe_chunk_size - 1) / vb.p.gxe_chunk_size
  if 1 < vb.n_effects then n_main_segs + n_gxe_segs else n_main_segs

/-- The member `fwd_pass_chunks` as the constructor of `VBayesX2` fills it
(src/src/vbayes_x2.hpp:162-168): chunk `c` receives, in increasing order, the pass
indices `kk` with `ch_index = c`. -/
def fwd_pass_chunks (vb : VBayesX2 F) : List (List Nat) :=
  (List.range (n_chunks vb)).map (fun c =>
    (List.range (vb.n_effects * vb.n_var)).filter (fun kk => ch_index vb kk = c))

/-- The member `back_pass_chunks` as the constructor of `VBayesX2` fills it
(src/src/vbayes_x2.hpp:162-186): chunk `n_chunks - 1 - ch_index` receives `kk`, and every
chunk is reversed at the end. -/
def back_pass_chunks (vb : VBayesX2 F) : List (List Nat) :=
  (List.range (n_chunks vb)).map (fun c =>
    ((List.range (vb.n_effects * vb.n_var)).filter
      (fun kk => n_chunks vb - 1 - ch_index vb kk = c)).reverse)

/-- The member `env_fwd_pass` (src/src/vbayes_x2.hpp:149-152). -/
def env_fwd_pass (vb : VBayesX2 F) : List Nat := List.range vb.n_env

/-- The member `env_back_pass` (src/src/vbayes_x2.hpp:149-152). -/
def env_back_pass (vb : VBayesX2 F) : List Nat :=
  (List.range vb.n_env).map (fun ll => vb.n_env - ll - 1)

/-! ## One iteration -/

/-- The member `VBayesX2::updateAllParams` (src/src/vbayes_x2.hpp:556).  The calls of
`check_monotonic_elbo` only print, and `logw_updates` only records the ELBO; neither
changes `all_vp` or `all_hyps`. -/
def updateAllParams (m : MathFns F) (vb : VBayesX2 F) (count round_index : Nat)
    (grid : Nat → Hyps F × VariationalParameters F) :
    Nat → Hyps F × VariationalParameters F :=
  let is_fwd_pass : Bool := count % 2 == 0
  let iter_chunks : List (List Nat) :=
    if is_fwd_pass then fwd_pass_chunks vb else back_pass_chunks vb
  let grid : Nat → Hyps F × VariationalParameters F := fun nn =>
    if vb.p.use_vb_on_covars then
      ((grid nn).1, updateCovarEffects vb (grid nn).2 (grid nn).1)
    else grid nn
  let grid : Nat → Hyps F × VariationalParameters F := updateAlphaMu m vb iter_chunks grid
  fun nn =>
    let hv : Hyps F × VariationalParameters F := grid nn
    let hv : Hyps F × VariationalParameters F :=
      if 1 < vb.n_env then
        Nat.iterate
          (fun hv => updateEnvWeights vb (env_back_pass vb)
            (updateEnvWeights vb (env_fwd_pass vb) hv))
          vb.p.env_update_repeats hv
      else hv
    let hv : Hyps F × VariationalParameters F := (compute_pve vb hv.1, hv.2)
    if 1 < round_index ∧ vb.p.mode_empirical_bayes = true then
      let hyps : Hyps F :=
        if vb.p.burnin_maxhyps ≤ count then maximiseHyps vb hv.1 hv.2 else hv.1
      (compute_pve vb hyps, hv.2)
    else hv

/-! ## Statements of the specification -/

/-- The closed form of the specification for the expected residual sum of squares:
`‖y − ym‖² − 2(y−ym)ᵀ(yx⊙η) + yxᵀ(η²⊙yx) + (N−1)·Σ var_β + EdZtZᵀ·var_γ + (N−1)·Σ s_c²`,
with `η²` the stored `eta_sq`, the interaction terms only when `n_effects > 1` and the
covariate term only with `use_vb_on_covars`. -/
def calcExpLinear_spec (vb : VBayesX2 F) (vp : VariationalParameters F) : F :=
  (∑ i ∈ range vb.n_samples, (vb.Y i - vp.ym i) ^ 2)
    + (if 1 < vb.n_effects then
        - 2 * (∑ i ∈ range vb.n_samples, (vb.Y i - vp.ym i) * (vp.yx i * vp.eta i))
        + ∑ i ∈ range vb.n_samples, vp.yx i * (vp.eta_sq i * vp.yx i)
       else 0)
    + (vb.N - 1) * (∑ j ∈ range vb.n_var, vp.varB j)
    + (if 1 < vb.n_effects then ∑ j ∈ range vb.n_var, vp.EdZtZ j * vp.varG j else 0)
    + (if vb.p.use_vb_on_covars = true then
        (vb.N - 1) * ∑ k ∈ range vb.n_covar, vp.sc_sq k else 0)

/-- The posterior mean `E[β_j]`: `α μ₁ + (1 − α) μ₂` under the mog prior, `α μ₁` otherwise. -/
def Eq_beta (vb : VBayesX2 F) (vp : VariationalParameters F) (j : Nat) : F :=
  if vb.p.mode_mog_prior_beta then
    vp.alpha_beta j * vp.mu1_beta j + (1 - vp.alpha_beta j) * vp.mu2_beta j
  else vp.alpha_beta j * vp.mu1_beta j

/-- The posterior mean `E[γ_j]`: `α μ₁ + (1 − α) μ₂` under the mog prior, `α μ₁` otherwise. -/
def Eq_gam (vb : VBayesX2 F) (vp : VariationalParameters F) (j : Nat) : F :=
  if vb.p.mode_mog_prior_gam then
    vp.alpha_gam j * vp.mu1_gam j + (1 - vp.alpha_gam j) * vp.mu2_gam j
  else vp.alpha_gam j * vp.mu1_gam j

/-- The invariant `ym = X·E[β] + C·μ_c`, the second term only with `use_vb_on_covars`. -/
def ymInvariant (vb : VBayesX2 F) (vp : VariationalParameters F) : Prop :=
  ∀ i, i < vb.n_samples →
    vp.ym i = (∑ j ∈ range vb.n_var, vb.X i j * Eq_beta vb vp j)
      + (if vb.p.use_vb_on_covars = true then ∑ k ∈ range vb.n_covar, vb.C i k * vp.muc k
         else 0)

/-- The invariant `yx = X·E[γ]`. -/
def yxInvariant (vb : VBayesX2 F) (vp : VariationalParameters F) : Prop :=
  ∀ i, i < vb.n_samples → vp.yx i = ∑ j ∈ range vb.n_var, vb.X i j * Eq_gam vb vp j

/-- The invariant `η = E·μ_w`. -/
def etaInvariant (vb : VBayesX2 F) (vp : VariationalParameters F) : Prop :=
  ∀ i, i < vb.n_samples → vp.eta i = ∑ l ∈ range vb.n_env, vb.E i l * vp.muw l

/-- A chunk of a pass: all its pass indices belong to the effect type of its first index,
and its variant indices are pairwise distinct. -/
def chunkWellFormed (vb : VBayesX2 F) (chunk : List Nat) : Prop :=
  (∀ k ∈ chunk, k / vb.n_var = chunk.getD 0 0 / vb.n_var)
    ∧ (chunk.map (fun k => k % vb.n_var)).Nodup

/-- The closed forms of the specification for `maximiseHyps`, read on the code:
`σ = calcExpLinear/N` without covariates in the VB and
`σ = (calcExpLinear + Σ(s_c² + μ_c²)/σ_c)/(N + K)` with them. -/
def maximiseHyps_sigma_spec (vb : VBayesX2 F) (hyps : Hyps F)
    (vp : VariationalParameters F) : F :=
  if vb.p.use_vb_on_covars = true then
    (calcExpLinear vb hyps vp
      + (∑ k ∈ range vb.n_covar, (vp.sc_sq k + vp.muc k * vp.muc k)) / sigma_c)
      / (vb.N + (vb.n_covar : F))
  else calcExpLinear vb hyps vp / vb.N

/-- The closed forms of the specification for one effect type: `λ = Σα/P`,
`slab_var = Σα·(s₁² + μ₁²)/Σα`, `slab_relative_var = slab_var/σ`, and under mog
`spike_var = Σ(1−α)·(s₂² + μ₂²)/(P − Σα)`. -/
def maximisedEffect (vb : VBayesX2 F) (ee : Nat) (mog : Bool)
    (alpha mu1 s1_sq mu2 s2_sq : Nat → F) (sigma : F) (hyps : Hyps F) : Prop :=
  hyps.lambda ee = (∑ j ∈ range vb.n_var, alpha j) / (vb.n_var : F)
    ∧ hyps.slab_var ee = (∑ j ∈ range vb.n_var, alpha j * (s1_sq j + mu1 j ^ 2))
        / (∑ j ∈ range vb.n_var, alpha j)
    ∧ hyps.slab_relative_var ee = hyps.slab_var ee / sigma
    ∧ (mog = true →
        hyps.spike_var ee = (∑ j ∈ range vb.n_var, (1 - alpha j) * (s2_sq j + mu2 j ^ 2))
          / ((vb.n_var : F) - ∑ j ∈ range vb.n_var, alpha j))

/-! ## A small data set

Three samples, two variants, two environments and the intercept as only covariate; the
columns of `X` and `E` and the phenotype are centred with unit variance. -/

/-- The options of the example: mog prior on the main effects only, covariates in the VB,
empirical Bayes. -/
def exA_p (F : Type) [Field F] : parameters F :=
  { mode_mog_prior_beta := true
    mode_mog_prior_gam := false
    use_vb_on_covars := true
    mode_empirical_bayes := true
    burnin_maxhyps := 0
    env_update_repeats := 1
    main_chunk_size := 2
    gxe_chunk_size := 2
    vb_iter_max := 10
    alpha_tol_set_by_user := false
    elbo_tol_set_by_user := false
    alpha_tol := 1 / 10000
    elbo_tol := 1 / 100 }

/-- The data of the example. -/
def exA_vb (F : Type) [Field F] : VBayesX2 F :=
  { n_effects := 2
    n_samples := 3
    n_covar := 1
    n_env := 2
    n_var := 2
    p := exA_p F
    X := fun i j =>
      if j = 0 then (if i = 0 then 1 else if i = 1 then -1 else 0)
      else (if i = 0 then 0 else if i = 1 then 1 else -1)
    Y := fun i => if i = 0 then 1 else if i = 1 then 0 else -1
    Cty := fun _ => 0
    E := fun i l =>
      if l = 0 then (if i = 0 then 1 else if i = 1 then -1 else 0)
      else (if i = 0 then -1 else if i = 1 then 0 else 1)
    C := fun _ _ => 1
    dXtEEX := fun j c =>
      if j = 0 then (if c = 0 then 2 else if c = 3 then 1 else -1)
      else (if c = 0 then 1 else if c = 3 then 1 else 0)
    calcEdZtZ := fun vp j =>
      ∑ l ∈ range 2, ∑ k ∈ range 2,
        (if j = 0 then (if l * 2 + k = 0 then 2 else if l * 2 + k = 3 then 1 else -1)
         else (if l * 2 + k = 0 then 1 else if l * 2 + k = 3 then 1 else 0))
          * (vp.muw l * vp.muw k) }

/-- The hyperparameters of the example. -/
def exA_hyps (F : Type) [Field F] : Hyps F :=
  { sigma := 1
    lambda := fun _ => 1 / 2
    slab_var := fun _ => 1
    spike_var := fun _ => 1 / 100
    slab_relative_var := fun _ => 1
    spike_relative_var := fun _ => 1 / 100
    s_x := fun _ => 1
    pve := fun _ => 0
    pve_large := fun _ => 0 }

/-- A state of the example in which `ym = X·E[β] + C·μ_c`, `yx = X·E[γ]` and `η = E·μ_w`. -/
def exA_vp (F : Type) [Field F] : VariationalParameters F :=
  { ym := fun i => if i = 0 then 2 else if i = 1 then 0 else 1
    yx := fun i => if i = 0 then 0 else if i = 1 then 1 else -1
    eta := fun i => if i = 0 then 0 else if i = 1 then -1 else 1
    eta_sq := fun i => if i = 0 then 2 else if i = 1 then 2 else 2
    alpha_beta := fun _ => 1 / 2
    mu1_beta := fun j => if j = 0 then 2 else 0
    mu2_beta := fun _ => 0
    s1_beta_sq := fun _ => 1
    s2_beta_sq := fun _ => 1
    alpha_gam := fun _ => 1 / 2
    mu1_gam := fun j => if j = 1 then 2 else 0
    mu2_gam := fun _ => 0
    s1_gam_sq := fun _ => 1
    s2_gam_sq := fun _ => 1
    muc := fun _ => 1
    sc_sq := fun _ => 1
    muw := fun _ => 1
    sw_sq := fun _ => 1
    varB := fun _ => 0
    varG := fun _ => 0
    EdZtZ := fun _ => 1 }

end Field

/-! ## Randomised HE-regression (src/src/pve.hpp) -/

/-- The class `PVE_Component` (src/src/pve.hpp:41).  `_XXtzs b i d` is entry `(i, d)` of
the accumulator of jackknife block `b`; `rm_jacknife_block` is `-1` when no block is
removed.  `zz`, `Wzz` and `Y` are the component's own copies. -/
structure PVE_Component (F : Type) where
  _XXtz : Nat → Nat → F
  _XXtWz : Nat → Nat → F
  ytXXty : F
  label : String
  n_env : Nat
  n_covar : Nat
  n_samples : Nat
  n_draws : Nat
  n_jacknife_local : Nat
  rm_jacknife_block : Int
  n_var_local : F
  is_active : Bool
  _XXtzs : Nat → Nat → Nat → F
  _XXtWzs : Nat → Nat → Nat → F
  n_vars_local : Nat → F
  ytXXtys : Nat → F
  C : Nat → Nat → F
  CtC_inv : Nat → Nat → F
  zz : Nat → Nat → F
  Wzz : Nat → Nat → F
  Y : Nat → F
  eta : Nat → F

/-- A block of standardised variant columns handed to the trace estimator: the matrix
`D` (`n_samples × cols`) and the jackknife block `jacknife_index` it is counted in. -/
structure TraceChunk (F : Type) where
  D : Nat → Nat → F
  cols : Nat
  jacknife_index : Nat

section Field

variable {F : Type} [Field F]

/-- The free function `project_out_covars` (src/src/pve.hpp:26):
`rhs − C · (CtC_inv · Cᵀ · rhs)`. -/
def project_out_covars (n_samples n_covar : Nat) (rhs C CtC_inv : Nat → Nat → F) :
    Nat → Nat → F :=
  let beta : Nat → Nat → F := fun k d =>
    ∑ l ∈ range n_covar, CtC_inv k l * ∑ s ∈ range n_samples, C s l * rhs s d
  let yhat : Nat → Nat → F := fun i d => ∑ k ∈ range n_covar, C i k * beta k d
  fun i d => rhs i d - yhat i d

/-- The constructor of `PVE_Component` (src/src/pve.hpp:64); `n_covar = C.cols()`,
`n_samples = zz.rows()` and `n_draws = zz.cols()` are passed with the matrices. -/
def PVE_Component.new (n_samples n_draws n_covar : Nat) (myY : Nat → F)
    (myzz myWzz myC myCtC_inv : Nat → Nat → F) (myNJacknifeLocal : Nat) : PVE_Component F :=
  { _XXtz := fun _ _ => 0
    _XXtWz := fun _ _ => 0
    ytXXty := 0
    label := ""
    n_env := 0
    n_covar := n_covar
    n_samples := n_samples
    n_draws := n_draws
    n_jacknife_local := myNJacknifeLocal
    rm_jacknife_block := -1
    n_var_local := 0
    is_active := true
    _XXtzs := fun _ _ _ => 0
    _XXtWzs := fun _ _ _ => 0
    n_vars_local := fun _ => 0
    ytXXtys := fun _ => 0
    C := myC
    CtC_inv := myCtC_inv
    zz := myzz
    Wzz := myWzz
    Y := myY
    eta := fun _ => 0 }

/-- The member `PVE_Component::set_eta` (src/src/pve.hpp:98). -/
def PVE_Component.set_eta (c : PVE_Component F) (myeta : Nat → F) : PVE_Component F :=
  { c with
    n_env := 1
    eta := myeta
    Y := fun i => c.Y i * myeta i
    zz := fun i d => c.zz i d * myeta i
    Wzz := fun i d => c.Wzz i d * myeta i }

/-- The member `PVE_Component::set_inactive` (src/src/pve.hpp:107). -/
def PVE_Component.set_inactive (c : PVE_Component F) : PVE_Component F :=
  { c with
    is_active := false
    _XXtz := c.zz
    _XXtWz := c.Wzz
    n_var_local := 1
    ytXXty := ∑ i ∈ range c.n_samples, c.Y i * c.Y i }

/-- The member `PVE_Component::add_to_trace_estimator` (src/src/pve.hpp:118); `X` has
`cols` columns. -/
def PVE_Component.add_to_trace_estimator (c : PVE_Component F) (X : Nat → Nat → F)
    (cols : Nat) (jacknife_index : Nat) : PVE_Component F :=
  if c.is_active then
    let c : PVE_Component F :=
      { c with
        ytXXtys := Function.update c.ytXXtys jacknife_index
          (c.ytXXtys jacknife_index + ∑ col ∈ range cols,
            (∑ i ∈ range c.n_samples, X i col * c.Y i)
              * (∑ i ∈ range c.n_samples, X i col * c.Y i)) }
    let Xtz : Nat → Nat → F := fun col d => ∑ i ∈ range c.n_samples, X i col * c.zz i d
    let c : PVE_Component F :=
      { c with
        _XXtzs := Function.update c._XXtzs jacknife_index
          (fun i d => c._XXtzs jacknife_index i d + ∑ col ∈ range cols, X i col * Xtz col d) }
    let c : PVE_Component F :=
      if 0 < c.n_covar then
        let XtWz : Nat → Nat → F := fun col d => ∑ i ∈ range c.n_samples, X i col * c.Wzz i d
        { c with
          _XXtWzs := Function.update c._XXtWzs jacknife_index
            (fun i d =>
              c._XXtWzs jacknife_index i d + ∑ col ∈ range cols, X i col * XtWz col d) }
      else c
    { c with
      n_vars_local := Function.update c.n_vars_local jacknife_index
        (c.n_vars_local jacknife_index + (cols : F)) }
  else c

/-- The member `PVE_Component::finalise` (src/src/pve.hpp:133). -/
def PVE_Component.finalise (c : PVE_Component F) : PVE_Component F :=
  if c.is_active then
    let c : PVE_Component F :=
      if 0 < c.n_env then
        { c with
          _XXtzs := fun b i d => c._XXtzs b i d * c.eta i
          _XXtWzs := fun b i d => c._XXtWzs b i d * c.eta i }
      else c
    let c : PVE_Component F :=
      { c with
        _XXtz := fun i d => 0 + ∑ b ∈ range c.n_jacknife_local, c._XXtzs b i d
        _XXtWz := fun i d => 0 + ∑ b ∈ range c.n_jacknife_local, c._XXtWzs b i d }
    { c with
      n_var_local := 0 + ∑ b ∈ range c.n_jacknife_local, c.n_vars_local b
      ytXXty := 0 + ∑ b ∈ range c.n_jacknife_local, c.ytXXtys b }
  else c

/-- The member `PVE_Component::getXXtz` (src/src/pve.hpp:159). -/
def PVE_Component.getXXtz (c : PVE_Component F) : Nat → Nat → F :=
  if 0 ≤ c.rm_jacknife_block then
    fun i d => c._XXtz i d - c._XXtzs c.rm_jacknife_block.toNat i d
  else c._XXtz

/-- The member `PVE_Component::getXXtWz` (src/src/pve.hpp:167). -/
def PVE_Component.getXXtWz (c : PVE_Component F) : Nat → Nat → F :=
  if 0 ≤ c.rm_jacknife_block then
    fun i d => c._XXtWz i d - c._XXtWzs c.rm_jacknife_block.toNat i d
  else c._XXtWz

/-- The member `PVE_Component::get_n_var_local` (src/src/pve.hpp:183). -/
def PVE_Component.get_n_var_local (c : PVE_Component F) : F :=
  if 0 ≤ c.rm_jacknife_block then
    c.n_var_local - c.n_vars_local c.rm_jacknife_block.toNat
  else c.n_var_local

/-- The member `PVE_Component::get_bb_trace` (src/src/pve.hpp:175). -/
def PVE_Component.get_bb_trace (c : PVE_Component F) : F :=
  if 0 ≤ c.rm_jacknife_block then
    (c.ytXXty - c.ytXXtys c.rm_jacknife_block.toNat) / c.get_n_var_local
  else c.ytXXty / c.get_n_var_local

/-- The assignment `components[ii].rm_jacknife_block = j` of `PVE::calc_sigmas_v2`
(src/src/pve.hpp:398, 427, 445). -/
def PVE_Component.remove (c : PVE_Component F) (j : Int) : PVE_Component F :=
  { c with rm_jacknife_block := j }

/-- The member `PVE_Component::operator*` (src/src/pve.hpp:191); `n_covar` is a
non-negative count, so the final `throw` is unreachable. -/
def PVE_Component.mul (c other : PVE_Component F) : F :=
  let res : F :=
    if c.n_covar = 0 then
      ∑ i ∈ range c.n_samples, ∑ d ∈ range c.n_draws, c.getXXtz i d * other.getXXtz i d
    else if c.label = "noise" ∨ other.label = "noise" then
      ∑ i ∈ range c.n_samples, ∑ d ∈ range c.n_draws, c.getXXtz i d * other.getXXtWz i d
    else
      let WXXtz : Nat → Nat → F :=
        project_out_covars c.n_samples c.n_covar c.getXXtz c.C c.CtC_inv
      ∑ i ∈ range c.n_samples, ∑ d ∈ range c.n_draws, WXXtz i d * other.getXXtWz i d
  res / c.get_n_var_local / other.get_n_var_local / (c.n_draws : F)

/-- The members of `PVE` that `calc_sigmas_v2` reads.  `X` and `cumulative_pos` belong
to the in-memory `GenotypeMatrix`, `number_of_variants` to the streamed file;
`components ii` is entry `ii` of the vector `components`. -/
structure PVE (F : Type) where
  n_draws : Nat
  n_samples : Nat
  n_components : Nat
  n_covar : Nat
  n_env : Nat
  n_var : Nat
  n_jacknife : Nat
  main_chunk_size : Nat
  X : Nat → Nat → F
  cumulative_pos : Nat → Nat
  number_of_variants : Nat
  components : Nat → PVE_Component F

/-- The member `PVE::initialise_components` (src/src/pve.hpp:273) after the random
matrix `zz` has been filled: `Wzz` and `Y` are projected when there are covariates, and
the components `G`, `GxE` (when `n_env = 1`) and `noise` are built in this order.  The
result is the vector of components and its size. -/
def initialise_components (n_env n_samples n_draws n_covar n_jacknife : Nat)
    (Y eta : Nat → F) (zz C CtC_inv : Nat → Nat → F) : (Nat → PVE_Component F) × Nat :=
  let Wzz : Nat → Nat → F :=
    if 0 < n_covar then project_out_covars n_samples n_covar zz C CtC_inv else zz
  let Y : Nat → F :=
    if 0 < n_covar then
      fun i => project_out_covars n_samples n_covar (fun s _ => Y s) C CtC_inv i 0
    else Y
  let fresh : PVE_Component F :=
    PVE_Component.new n_samples n_draws n_covar Y zz Wzz C CtC_inv n_jacknife
  let G : PVE_Component F := { fresh with label := "G" }
  let GxE : PVE_Component F := PVE_Component.set_eta { fresh with label := "GxE" } eta
  let noise : PVE_Component F := { PVE_Component.set_inactive fresh with label := "noise" }
  if n_env = 1 then
    (fun ii => if ii = 0 then G else if ii = 1 then GxE else noise, 3)
  else
    (fun ii => if ii = 0 then G else noise, 2)

/-- The chunks that the in-memory branch of `PVE::calc_sigmas_v2` hands to the components
(src/src/pve.hpp:334-357): chunk `c` holds the variants `kk` with `kk / main_chunk_size = c`
in increasing order, its block `D` is read by `col_block3`, and its jackknife block is the
one of its first variant. -/
def calc_sigmas_v2_chunks_bgen (pve : PVE F) : List (TraceChunk F) :=
  let n_main_segs : Nat := (pve.n_var + pve.main_chunk_size - 1) / pve.main_chunk_size
  let jknf_block_size : Nat :=
    (pve.cumulative_pos (pve.n_var - 1) + pve.n_jacknife - 1) / pve.n_jacknife
  (List.range n_main_segs).map (fun c =>
    let iter_chunk : List Nat :=
      (List.range pve.n_var).filter (fun kk => kk / pve.main_chunk_size = c)
    { D := fun i ii => pve.X i (iter_chunk.getD ii 0 % pve.n_var)
      cols := iter_chunk.length
      jacknife_index := pve.cumulative_pos (iter_chunk.getD 0 0) / jknf_block_size })

/-- What one successful call of `fileUtils::read_bgen_chunk` followed by
`center_matrix` and `scale_matrix_and_remove_constant_cols` leaves to the streaming
branch (file_utils.hpp and eigen_utils.hpp are not part of the sources at hand): the
standardised block `D` with its `cols` columns, and the counter `n_var_parsed`. -/
structure StreamedChunk (F : Type) where
  D : Nat → Nat → F
  cols : Nat
  n_var_parsed : Nat

/-- The chunks that the streaming branch of `PVE::calc_sigmas_v2` hands to the components
(src/src/pve.hpp:358-388). -/
def calc_sigmas_v2_chunks_stream (pve : PVE F) (stream : List (StreamedChunk F)) :
    List (TraceChunk F) :=
  let jack_block_size : Nat := (pve.number_of_variants + pve.n_jacknife) / pve.n_jacknife
  stream.map (fun s =>
    { D := s.D
      cols := s.cols
      jacknife_index := s.n_var_parsed / jack_block_size })

/-- The loop `for (auto& comp : components) comp.add_to_trace_estimator(D, jacknife_index)`
over all chunks, followed by `components[ii].finalise()` (src/src/pve.hpp:345-393). -/
def ingest_and_finalise (comps : Nat → PVE_Component F) (chunks : List (TraceChunk F)) :
    Nat → PVE_Component F :=
  fun ii =>
    PVE_Component.finalise
      (chunks.foldl (fun c ch => c.add_to_trace_estimator ch.D ch.cols ch.jacknife_index)
        (comps ii))

/-- The member `PVE::construct_vc_system` (src/src/pve.hpp:467): column `n_components`
holds the right-hand side; entry `(ii, jj)` with `jj ≤ ii` is computed and mirrored. -/
def construct_vc_system (n_components n_samples n_covar : Nat)
    (components : Nat → PVE_Component F) : Nat → Nat → F :=
  fun a b =>
    if b = n_components then (components a).get_bb_trace
    else
      let ii : Nat := max a b
      let jj : Nat := min a b
      if ii = jj ∧ (components ii).label = "noise" then (n_samples : F) - (n_covar : F)
      else (components ii).mul (components jj)

/-- The systems that `PVE::calc_sigmas_v2` builds (src/src/pve.hpp:331-446): `CC` from
all the data and `CC_jack jj` with jackknife block `jj` removed; the variance components
and heritabilities are the solutions of these systems. -/
structure SigmasV2 (F : Type) where
  components : Nat → PVE_Component F
  n_var : F
  CC : Nat → Nat → F
  CC_jack : Nat → Nat → Nat → F

/-- The member `PVE::calc_sigmas_v2` (src/src/pve.hpp:331) up to the construction of the
linear systems; `stream = none` stands for the in-memory branch (`p.bgen_file` given) and
`stream = some s` for the streaming branch (`p.streamBgenFile` given). -/
def calc_sigmas_v2 (pve : PVE F) (stream : Option (List (StreamedChunk F))) : SigmasV2 F :=
  let chunks : List (TraceChunk F) :=
    match stream with
    | none => calc_sigmas_v2_chunks_bgen pve
    | some s => calc_sigmas_v2_chunks_stream pve s
  let n_var : F :=
    match stream with
    | none => (pve.n_var : F)
    | some s => s.foldl (fun n c => n + (c.cols : F)) 0
  let components : Nat → PVE_Component F := ingest_and_finalise pve.components chunks
  { components := components
    n_var := n_var
    CC := construct_vc_system pve.n_components pve.n_samples pve.n_covar
      (fun ii => (components ii).remove (-1))
    CC_jack := fun jj =>
      construct_vc_system pve.n_components pve.n_samples pve.n_covar
        (fun ii => (components ii).remove (jj : Int)) }

end Field
/-! ## Statements of the specification for the trace estimator -/

section Field

variable {F : Type} [Field F]

/-- Entry `(i, d)` of `x·xᵀ·z` for one column `x` of length `n_samples`. -/
def col_XXtz (n_samples : Nat) (z : Nat → Nat → F) (x : Nat → F) (i d : Nat) : F :=
  x i * ∑ k ∈ range n_samples, x k * z k d

/-- The square `(xᵀ·y)²` for one column `x`. -/
def col_ytXXty (n_samples : Nat) (y : Nat → F) (x : Nat → F) : F :=
  (∑ k ∈ range n_samples, x k * y k) * (∑ k ∈ range n_samples, x k * y k)

/-- The columns of a list of chunks, in order, each with the jackknife block it is
counted in. -/
def cols_of (chunks : List (TraceChunk F)) : List ((Nat → F) × Nat) :=
  chunks.flatMap (fun ch =>
    (List.range ch.cols).map (fun col => (fun i => ch.D i col, ch.jacknife_index)))

/-- The chunk `Z_c = diag(η)·D_c` of the specification. -/
def TraceChunk.scaled (ch : TraceChunk F) (eta : Nat → F) : TraceChunk F :=
  { ch with D := fun i col => eta i * ch.D i col }

/-- Entry `(i, d)` of `Σ_c Z_c·Z_cᵀ·z` over a list of chunks. -/
def sum_XXtz (n_samples : Nat) (z : Nat → Nat → F) (chunks : List (TraceChunk F))
    (i d : Nat) : F :=
  ((cols_of chunks).map (fun xb => col_XXtz n_samples z xb.1 i d)).sum

/-- The sum `Σ_c ‖Z_cᵀ·y‖²` over a list of chunks. -/
def sum_ytXXty (n_samples : Nat) (y : Nat → F) (chunks : List (TraceChunk F)) : F :=
  ((cols_of chunks).map (fun xb => col_ytXXty n_samples y xb.1)).sum

/-- The sum, over the columns of a list of chunks that are counted in block `b`, of a
quantity `g` of the column. -/
def blockSum (chunks : List (TraceChunk F)) (b : Nat) (g : (Nat → F) → F) : F :=
  (((cols_of chunks).filter (fun xb => xb.2 = b)).map (fun xb => g xb.1)).sum

/-- The state of an active component after a list of chunks has been added, written
column by column: block `b` of each accumulator has grown by the contributions of the
columns counted in block `b`. -/
def addedTo (c : PVE_Component F) (chunks : List (TraceChunk F)) : PVE_Component F :=
  { c with
    ytXXtys := fun b => c.ytXXtys b + blockSum chunks b (col_ytXXty c.n_samples c.Y)
    _XXtzs := fun b i d =>
      c._XXtzs b i d + blockSum chunks b (fun x => col_XXtz c.n_samples c.zz x i d)
    _XXtWzs := fun b i d =>
      c._XXtWzs b i d
        + (if 0 < c.n_covar then blockSum chunks b (fun x => col_XXtz c.n_samples c.Wzz x i d)
           else 0)
    n_vars_local := fun b => c.n_vars_local b + blockSum chunks b (fun _ => 1) }

/-! ## A small data set for the trace estimator

Three samples, two variants, one random draw, the intercept as only covariate and two
jackknife blocks. -/

/-- The `PVE` object of the example after `initialise_components` (main effects only). -/
def exP_pve (F : Type) [Field F] : PVE F :=
  { n_draws := 1
    n_samples := 3
    n_components := 2
    n_covar := 1
    n_env := 0
    n_var := 2
    n_jacknife := 2
    main_chunk_size := 1
    X := fun i j =>
      if j = 0 then (if i = 0 then 1 else if i = 1 then -1 else 0)
      else (if i = 0 then 0 else if i = 1 then 1 else -1)
    cumulative_pos := fun j => j
    number_of_variants := 2
    components :=
      (initialise_components 0 3 1 1 2
        (fun i => if i = 0 then 1 else if i = 1 then -1 else 0)
        (fun _ => 0)
        (fun i _ => if i = 0 then 1 else if i = 1 then 0 else 2)
        (fun _ _ => 1)
        (fun _ _ => 1 / 3)).1 }

/-- The stream of the example: the same two standardised columns, read as one chunk. -/
def exP_stream (F : Type) [Field F] : List (StreamedChunk F) :=
  [{ D := fun i col => (exP_pve F).X i col
     cols := 2
     n_var_parsed := 2 }]

/-- A stream that reads the two columns of the example one at a time, with the counter
`n_var_parsed` at 1 and at 2. -/
def exP_stream2 (F : Type) [Field F] : List (StreamedChunk F) :=
  [{ D := fun i col => (exP_pve F).X i col
     cols := 1
     n_var_parsed := 1 },
   { D := fun i col => (exP_pve F).X i (col + 1)
     cols := 1
     n_var_parsed := 2 }]

/-- The environment modulator of the example. -/
def exP_eta (F : Type) [Field F] : Nat → F :=
  fun i => if i = 0 then 1 else if i = 1 then 0 else -1

/-- The chunks of the example for the GxE component. -/
def exP_chunks (F : Type) [Field F] : List (TraceChunk F) :=
  [{ D := fun i _ => if i = 0 then 1 else if i = 1 then -1 else 0
     cols := 1
     jacknife_index := 0 },
   { D := fun i _ => if i = 0 then 0 else if i = 1 then 1 else -1
     cols := 1
     jacknife_index := 1 }]

end Field
/-! ## The inner loop -/

section Field

variable {F : Type} [Field F]

/-- The member `VBayesX2::updateSSq` (src/src/vbayes_x2.hpp:881). -/
def updateSSq (vb : VBayesX2 F) (hyps : Hyps F) (vp : VariationalParameters F) :
    VariationalParameters F :=
  let vp : VariationalParameters F :=
    { vp with
      s1_beta_sq := fun _ => hyps.slab_var 0 / (hyps.slab_relative_var 0 * (vb.N - 1) + 1) }
  let vp : VariationalParameters F :=
    if vb.p.mode_mog_prior_beta then
      { vp with
        s2_beta_sq := fun _ =>
          hyps.spike_var 0 / (hyps.spike_relative_var 0 * (vb.N - 1) + 1) }
    else vp
  let vp : VariationalParameters F :=
    if 1 < vb.n_effects then
      let vp : VariationalParameters F := { vp with sw_sq := fun _ => eps }
      let vp : VariationalParameters F := { vp with EdZtZ := vb.calcEdZtZ vp }
      let vp : VariationalParameters F :=
        { vp with
          s1_gam_sq := fun _ =>
            hyps.slab_var 1 / (hyps.slab_relative_var 1 * (vb.N - 1) + 1) }
      if vb.p.mode_mog_prior_gam then
        { vp with
          s2_gam_sq := fun _ =>
            hyps.spike_var 1 / (hyps.spike_relative_var 1 * (vb.N - 1) + 1) }
      else vp
    else vp
  let vp : VariationalParameters F := calcVarqBeta vb vp
  if vb.p.use_vb_on_covars then
    { vp with sc_sq := fun _ => hyps.sigma * sigma_c / (sigma_c * (vb.N - 1) + 1) }
  else vp

/-- The member `VBayesX2::setup_variational_params` (src/src/vbayes_x2.hpp:522): every grid
point starts from `vp_init`, whose fields `init_from_lite` copies (variational_parameters.hpp
is not part of the sources at hand), with the variances of `updateSSq`.  With
`n_effects = 1` the source allocates the columns of `YX`, `ETA`, `ETA_SQ` without filling
them; they are those of `vp_init` here. -/
def setup_variational_params (vb : VBayesX2 F) (vp_init : VariationalParameters F)
    (all_hyps : Nat → Hyps F) : Nat → Hyps F × VariationalParameters F :=
  fun nn => (all_hyps nn, updateSSq vb (all_hyps nn) vp_init)

end Field

section Ordered

variable {F : Type} [LinearOrderedField F]

/-- The reduction `v.maxCoeff()` over the `n` entries of `v`. -/
def maxCoeff (n : Nat) (v : Nat → F) : F :=
  (List.range n).foldl (fun acc j => max acc (v j)) (v 0)

/-- The variables of `VBayesX2::runInnerLoop` that live across the turns of its loop,
and the locals `logw_prev` and `alpha_diff` of the last turn (before the first turn:
the initial `i_logw` and zero). -/
structure InnerLoopState (F : Type) where
  count : Nat
  converged : Nat → Bool
  all_converged : Bool
  grid : Nat → Hyps F × VariationalParameters F
  i_logw : Nat → F
  logw_prev : Nat → F
  alpha_diff : Nat → F

/-- The block "Diagnose convergence" of `VBayesX2::runInnerLoop`
(src/src/vbayes_x2.hpp:467-486) for one grid point: whether the flag is set at this turn. -/
def diagnose_convergence (p : parameters F) (alpha_diff logw_diff : F) : Bool :=
  if p.alpha_tol_set_by_user && p.elbo_tol_set_by_user then
    decide (alpha_diff < p.alpha_tol ∧ logw_diff < p.elbo_tol)
  else if p.alpha_tol_set_by_user then
    decide (alpha_diff < p.alpha_tol)
  else if p.elbo_tol_set_by_user then
    decide (logw_diff < p.elbo_tol)
  else
    decide (alpha_diff < alpha_tol ∧ logw_diff < logw_tol)

/-- One turn of the loop `while(!all_converged && count < p.vb_iter_max)` of
`VBayesX2::runInnerLoop` (src/src/vbayes_x2.hpp:438-503); the trackers and the printed
progress are left out. -/
def runInnerLoop_turn (m : MathFns F) (vb : VBayesX2 F) (round_index n_grid : Nat)
    (s : InnerLoopState F) : InnerLoopState F :=
  let alpha_prev : Nat → Nat → F := fun nn => (s.grid nn).2.alpha_beta
  let logw_prev : Nat → F := s.i_logw
  let grid : Nat → Hyps F × VariationalParameters F :=
    updateAllParams m vb s.count round_index s.grid
  let i_logw : Nat → F := fun nn => calc_logw m vb (grid nn).1 (grid nn).2
  let alpha_diff : Nat → F := fun nn =>
    maxCoeff vb.n_var (fun j => |alpha_prev nn j - (grid nn).2.alpha_beta j|)
  let converged : Nat → Bool := fun nn =>
    if diagnose_convergence vb.p (alpha_diff nn) (i_logw nn - logw_prev nn) then true
    else s.converged nn
  let all_converged : Bool :=
    if (List.range n_grid).all (fun nn => converged nn) then true else s.all_converged
  { count := s.count + 1
    converged := converged
    all_converged := all_converged
    grid := grid
    i_logw := i_logw
    logw_prev := logw_prev
    alpha_diff := alpha_diff }

/-- The loop of `VBayesX2::runInnerLoop`; `fuel` bounds the number of turns. -/
def runInnerLoop_loop (m : MathFns F) (vb : VBayesX2 F) (round_index n_grid : Nat) :
    Nat → InnerLoopState F → InnerLoopState F
  | 0, s => s
  | fuel + 1, s =>
    if !s.all_converged && decide (s.count < vb.p.vb_iter_max) then
      runInnerLoop_loop m vb round_index n_grid fuel
        (runInnerLoop_turn m vb round_index n_grid s)
    else s

/-- The state of `VBayesX2::runInnerLoop` when its loop is entered
(src/src/vbayes_x2.hpp:419-436). -/
def runInnerLoop_init (vb : VBayesX2 F) (vp_init : VariationalParameters F)
    (all_hyps : Nat → Hyps F) : InnerLoopState F :=
  { count := 0
    converged := fun _ => false
    all_converged := false
    grid := setup_variational_params vb vp_init all_hyps
    i_logw := fun _ => -1 * DBL_MAX
    logw_prev := fun _ => -1 * DBL_MAX
    alpha_diff := fun _ => 0 }

/-- The member `VBayesX2::runInnerLoop` (src/src/vbayes_x2.hpp:405) up to the end of its
loop, for the `n_grid` grid points `all_hyps`; `count` starts at 0 and grows by one at
every turn, so `vb_iter_max` turns of fuel let the loop run to its end. -/
def runInnerLoop (m : MathFns F) (vb : VBayesX2 F) (round_index n_grid : Nat)
    (vp_init : VariationalParameters F) (all_hyps : Nat → Hyps F) : InnerLoopState F :=
  runInnerLoop_loop m vb round_index n_grid vb.p.vb_iter_max
    (runInnerLoop_init vb vp_init all_hyps)

/-- The state after `k` turns of the loop of `runInnerLoop`, whatever the flags. -/
def runInnerLoop_after (m : MathFns F) (vb : VBayesX2 F) (round_index n_grid : Nat)
    (vp_init : VariationalParameters F) (all_hyps : Nat → Hyps F) (k : Nat) :
    InnerLoopState F :=
  Nat.iterate (runInnerLoop_turn m vb round_index n_grid) k
    (runInnerLoop_init vb vp_init all_hyps)

/-- The convergence criterion of the specification at one turn: `max|α^c − α^(c−1)| < α_tol`
and `ELBO^c − ELBO^(c−1) < elbo_tol` with the defaults `1e-4` and `1e-2` when neither
tolerance is set by the user, and only the tests whose tolerance the user set otherwise. -/
def convergenceCriterion (p : parameters F) (alpha_diff logw_diff : F) : Prop :=
  (p.alpha_tol_set_by_user = false ∧ p.elbo_tol_set_by_user = false →
      alpha_diff < 1 / 10000 ∧ logw_diff < 1 / 100)
    ∧ (p.alpha_tol_set_by_user = true → alpha_diff < p.alpha_tol)
    ∧ (p.elbo_tol_set_by_user = true → logw_diff < p.elbo_tol)

/-- The criterion of the specification for grid point `nn` at the turn that led to `s`. -/
def criterionAt (p : parameters F) (s : InnerLoopState F) (nn : Nat) : Prop :=
  convergenceCriterion p (s.alpha_diff nn) (s.i_logw nn - s.logw_prev nn)

end Ordered

/-! ## A data set with one variant and two grid points

Five samples and one variant whose column is orthogonal to the phenotype; the main-effects
model without covariates, hyperparameters maximised from turn `burnin` on, and the
convergence test on `alpha` alone with the tolerance `1/10` set by the user. -/

section Field

variable {F : Type} [Field F]

/-- The parameters of the example. -/
def exC_p (F : Type) [Field F] (burnin : Nat) : parameters F :=
  { mode_mog_prior_beta := false
    mode_mog_prior_gam := false
    use_vb_on_covars := false
    mode_empirical_bayes := true
    burnin_maxhyps := burnin
    env_update_repeats := 1
    main_chunk_size := 1
    gxe_chunk_size := 1
    vb_iter_max := 10
    alpha_tol_set_by_user := true
    elbo_tol_set_by_user := false
    alpha_tol := 1 / 10
    elbo_tol := 1 / 100 }

/-- The data of the example. -/
def exC_vb (F : Type) [Field F] (burnin : Nat) : VBayesX2 F :=
  { n_effects := 1
    n_samples := 5
    n_covar := 0
    n_env := 0
    n_var := 1
    p := exC_p F burnin
    X := fun i _ => if i = 0 then 1 else if i = 1 then -1 else if i = 2 then 1
      else if i = 3 then -1 else 0
    Y := fun i => if i = 0 then 1 else if i = 1 then 1 else if i = 2 then -1
      else if i = 3 then -1 else 0
    Cty := fun _ => 0
    E := fun _ _ => 0
    C := fun _ _ => 0
    dXtEEX := fun _ _ => 0
    calcEdZtZ := fun _ _ => 0 }

/-- The two grid points of the example: `σ = 16/3`, `λ = 2/3`, `slab_var = 4` and
`σ = 1/75`, `λ = 1/2`, `slab_var = 1/100`, both with `slab_relative_var = slab_var/σ = 3/4`. -/
def exC_hyps (F : Type) [Field F] (nn : Nat) : Hyps F :=
  { sigma := if nn = 0 then 16 / 3 else 1 / 75
    lambda := fun _ => if nn = 0 then 2 / 3 else 1 / 2
    slab_var := fun _ => if nn = 0 then 4 else 1 / 100
    spike_var := fun _ => 1
    slab_relative_var := fun _ => 3 / 4
    spike_relative_var := fun _ => 1
    s_x := fun _ => 1
    pve := fun _ => 0
    pve_large := fun _ => 0 }

/-- The initial variational parameters of the example: `α = 1/2`, `μ = 0`. -/
def exC_vp_init (F : Type) [Field F] : VariationalParameters F :=
  { ym := fun _ => 0
    yx := fun _ => 0
    eta := fun _ => 0
    eta_sq := fun _ => 0
    alpha_beta := fun _ => 1 / 2
    mu1_beta := fun _ => 0
    mu2_beta := fun _ => 0
    s1_beta_sq := fun _ => 1
    s2_beta_sq := fun _ => 1
    alpha_gam := fun _ => 0
    mu1_gam := fun _ => 0
    mu2_gam := fun _ => 0
    s1_gam_sq := fun _ => 1
    s2_gam_sq := fun _ => 1
    muc := fun _ => 0
    sc_sq := fun _ => 1
    muw := fun _ => 0
    sw_sq := fun _ => 1
    varB := fun _ => 0
    varG := fun _ => 0
    EdZtZ := fun _ => 0 }

/-- The variance `s₁²` that one turn of `_internal_updateAlphaMu_beta` assigns on the example
(`N = 5`) under the hyperparameters `h`. -/
def exC_s1 (h : Hyps F) : F :=
  h.slab_var 0 / (h.slab_relative_var 0 * (5 - 1) + 1)

/-- The inclusion probability `α` that one turn of `_internal_updateAlphaMu_beta` assigns on
the example under the hyperparameters `h`, the posterior mean being zero. -/
def exC_alpha (m : MathFns F) (h : Hyps F) : F :=
  sigmoid m (m.log (exC_s1 h) / 2
    + (m.log (h.lambda 0 / (1 - h.lambda 0) + eps) - m.log (h.slab_var 0) / 2))

end Field
/-! ## Validation of the hyperparameter grid (src/src/vbayes_x2.hpp) -/

/-- A `double` as the grid validation sees it: a number, an infinity or a NaN. -/
inductive Double (F : Type) where
  | finite (x : F)
  | inf
  | neg_inf
  | nan

/-- An `Eigen::MatrixXd` holding a hyperparameter grid: the number of rows, the number of
columns and the entries. -/
structure GridMatrix (F : Type) where
  rows : Nat
  cols : Nat
  entry : Nat → Nat → Double F

/-- The binary exponent of the binary64 quotient `1.0 / (double) n` for `n ≥ 1`: the least
`e`, searched upwards from the start `e` in at most `fuel` steps, with `2^52·n ≤ 2^e`, so
that `2^52 ≤ 2^e / n < 2^53`. -/
def recip_exponent (n : Nat) : Nat → Nat → Nat
  | 0, e => e
  | fuel + 1, e => if 2 ^ 52 * n ≤ 2 ^ e then e else recip_exponent n fuel (e + 1)

/-- The 53-bit significand of the binary64 quotient `1.0 / (double) n` at the exponent
`e`: the quotient `2^e / n` rounded to the nearest integer, a tie going to the even one
(the rounding of IEEE 754 arithmetic). -/
def recip_significand (n e : Nat) : Nat :=
  let q : Nat := 2 ^ e / n
  let r : Nat := 2 ^ e % n
  if 2 * r < n then q else if n < 2 * r then q + 1 else if q % 2 = 0 then q else q + 1

section Ordered

variable {F : Type} [LinearOrderedField F]

/-- The value of the binary64 quotient `1.0 / (double) n` for `1 ≤ n < 2^53` (the
conversion `(double) n` is then exact, and `n_var` is a 32-bit count): the significand
over `2^e`. -/
def recip_value (n : Nat) : F :=
  (recip_significand n (recip_exponent n 64 52) : F) / 2 ^ recip_exponent n 64 52

/-- The function `std::isfinite`. -/
def Double.isfinite : Double F → Bool
  | .finite _ => true
  | _ => false

/-- The comparison `a < b` of two doubles; it is false when either side is a NaN. -/
def Double.lt : Double F → Double F → Bool
  | .finite x, .finite y => decide (x < y)
  | .finite _, .inf => true
  | .neg_inf, .finite _ => true
  | .neg_inf, .inf => true
  | _, _ => false

/-- The comparison `a <= b` of two doubles; it is false when either side is a NaN. -/
def Double.le : Double F → Double F → Bool
  | .finite x, .finite y => decide (x ≤ y)
  | .finite _, .inf => true
  | .neg_inf, .finite _ => true
  | .neg_inf, .inf => true
  | .inf, .inf => true
  | .neg_inf, .neg_inf => true
  | _, _ => false

/-- The expression `1.0 / (double) n_var`: the quotient rounded to binary64, and `+inf`
when `n_var` is zero. -/
def Double.recip (n_var : Nat) : Double F :=
  if n_var = 0 then .inf else .finite (recip_value n_var)

/-- The function `validate_grid` (src/src/vbayes_x2.hpp:1852).  `a > 0.0` is
`Double.lt (.finite 0) a` and `a >= c` is `Double.le c a`. -/
def validate_grid (grid : GridMatrix F) (n_var : Nat) : List Nat :=
  (List.range grid.rows).foldl (fun valid_points ii =>
    let lam_b : Double F := grid.entry ii 3
    let lam_g : Double F := grid.entry ii 4
    let chck_sigma : Bool :=
      Double.lt (.finite 0) (grid.entry ii 0) && (grid.entry ii 0).isfinite
    let chck_sigma_b : Bool :=
      Double.lt (.finite 0) (grid.entry ii 1) && (grid.entry ii 1).isfinite
    let chck_sigma_g : Bool :=
      Double.le (.finite 0) (grid.entry ii 2) && (grid.entry ii 2).isfinite
    let chck_lam_b : Bool :=
      Double.le (Double.recip n_var) lam_b && Double.lt lam_b (.finite 1) && lam_b.isfinite
    let chck_lam_g : Bool :=
      Double.le (.finite 0) lam_g && Double.lt lam_g (.finite 1) && lam_g.isfinite
    if chck_lam_b && chck_lam_g && chck_sigma && chck_sigma_g && chck_sigma_b then
      valid_points ++ [ii]
    else valid_points) []

/-- The conjunction `chck_lam_b && chck_lam_g && chck_sigma && chck_sigma_g && chck_sigma_b`
that `validate_grid` tests on row `ii`. -/
def validate_grid_test (grid : GridMatrix F) (n_var : Nat) (ii : Nat) : Bool :=
  (Double.le (Double.recip n_var) (grid.entry ii 3) && Double.lt (grid.entry ii 3) (.finite 1)
      && (grid.entry ii 3).isfinite)
    && (Double.le (.finite 0) (grid.entry ii 4) && Double.lt (grid.entry ii 4) (.finite 1)
      && (grid.entry ii 4).isfinite)
    && (Double.lt (.finite 0) (grid.entry ii 0) && (grid.entry ii 0).isfinite)
    && (Double.le (.finite 0) (grid.entry ii 2) && (grid.entry ii 2).isfinite)
    && (Double.lt (.finite 0) (grid.entry ii 1) && (grid.entry ii 1).isfinite)

/-- The function `subset_matrix` (src/src/vbayes_x2.hpp:1876): row `kk` of the result is
row `valid_points[kk]` of `orig`. -/
def subset_matrix (orig : GridMatrix F) (valid_points : List Nat) : GridMatrix F :=
  { rows := valid_points.length
    cols := orig.cols
    entry := fun kk jj => orig.entry (valid_points.getD kk 0) jj }

/-- The member `VBayesX2::check_inputs` (src/src/vbayes_x2.hpp:1791) as a function of the
members it reads, returning the new `hyps_grid` and `r1_hyps_grid`.  A failed `assert` and
a thrown `std::runtime_error` are both an error; the warnings printed to `std::cout` are
left out. -/
def check_inputs (Y_rows X_rows n_samples n_var : Nat) (hyps_grid r1_hyps_grid : GridMatrix F) :
    Except String (GridMatrix F × GridMatrix F) :=
  if Y_rows ≠ n_samples then .error "Assertion failed: Y.rows() == n_samples"
  else if X_rows ≠ n_samples then .error "Assertion failed: X.rows() == n_samples"
  else
    let valid_points : List Nat := validate_grid hyps_grid n_var
    let hyps_grid : GridMatrix F := subset_matrix hyps_grid valid_points
    if valid_points.isEmpty then .error "No valid grid points in hyps_grid."
    else
      let r1_valid_points : List Nat := validate_grid r1_hyps_grid n_var
      let r1_hyps_grid : GridMatrix F := subset_matrix r1_hyps_grid r1_valid_points
      if r1_valid_points.isEmpty then .error "No valid grid points in r1_hyps_grid."
      else .ok (hyps_grid, r1_hyps_grid)

/-- The validity of a grid row `(σ, σ_b, σ_g, λ_b, λ_g)` in the words of the
specification: all five values are finite numbers with `σ > 0`, `σ_b > 0`, `σ_g ≥ 0`,
`1/P ≤ λ_b < 1` and `0 ≤ λ_g < 1`. -/
def grid_row_valid_spec (P : Nat) (row : Nat → Double F) : Prop :=
  ∃ sigma sigma_b sigma_g lam_b lam_g : F,
    row 0 = .finite sigma ∧ row 1 = .finite sigma_b ∧ row 2 = .finite sigma_g
    ∧ row 3 = .finite lam_b ∧ row 4 = .finite lam_g
    ∧ 0 < sigma ∧ 0 < sigma_b ∧ 0 ≤ sigma_g
    ∧ 1 / (P : F) ≤ lam_b ∧ lam_b < 1 ∧ 0 ≤ lam_g ∧ lam_g < 1

/-- The validity of a grid row with the bound of `λ_b` as the machine computes it: all
five values are finite numbers with `σ > 0`, `σ_b > 0`, `σ_g ≥ 0`, `r ≤ λ_b < 1` and
`0 ≤ λ_g < 1`, where `r` is the binary64 quotient `1.0/P`. -/
def grid_row_valid_rounded (P : Nat) (row : Nat → Double F) : Prop :=
  ∃ sigma sigma_b sigma_g lam_b lam_g : F,
    row 0 = .finite sigma ∧ row 1 = .finite sigma_b ∧ row 2 = .finite sigma_g
    ∧ row 3 = .finite lam_b ∧ row 4 = .finite lam_g
    ∧ 0 < sigma ∧ 0 < sigma_b ∧ 0 ≤ sigma_g
    ∧ recip_value P ≤ lam_b ∧ lam_b < 1 ∧ 0 ≤ lam_g ∧ lam_g < 1

/-- A grid of one row whose `λ_b` is the binary64 number `0.3333333333333333`, that is
`6004799503160661 / 2^54`, the double nearest to `1/3`. -/
def exG_third (F : Type) [LinearOrderedField F] : GridMatrix F :=
  { rows := 1
    cols := 5
    entry := fun _ jj =>
      if jj = 0 then .finite 1 else if jj = 1 then .finite 1 else if jj = 2 then .finite 0
        else if jj = 3 then .finite (6004799503160661 / 18014398509481984) else .finite 0 }

/-- A grid of two rows, the first valid and the second with a negative `σ`. -/
def exG_grid (F : Type) [LinearOrderedField F] : GridMatrix F :=
  { rows := 2
    cols := 5
    entry := fun ii jj =>
      if ii = 0 then
        (if jj = 0 then .finite 1 else if jj = 1 then .finite 1 else if jj = 2 then .finite 0
          else if jj = 3 then .finite (1 / 2) else .finite 0)
      else
        (if jj = 0 then .finite (-1) else if jj = 1 then .finite 1 else if jj = 2 then .finite 0
          else if jj = 3 then .finite (1 / 2) else .finite 0) }

/-- A grid whose only row has a `σ` that is not a number. -/
def exG_bad (F : Type) [LinearOrderedField F] : GridMatrix F :=
  { rows := 1
    cols := 5
    entry := fun _ jj =>
      if jj = 0 then .nan else if jj = 3 then .finite (1 / 2) else .finite 1 }

end Ordered
/-! ## Jackknife summaries and heritability (src/src/pve.hpp) -/

section Field

variable {F : Type} [Field F]

/-- The method `mean()` of an Eigen array with `size` entries: the sum over the size. -/
def array_mean (size : Nat) (v : Nat → F) : F :=
  (∑ j ∈ range size, v j) / (size : F)

/-- The member `PVE::get_jacknife_var` (src/src/pve.hpp:517); `size` is the length of
`jack_estimates` and `n_jacknife` the option `p.n_jacknife`. -/
def get_jacknife_var (n_jacknife size : Nat) (jack_estimates : Nat → F) : F :=
  let jack_var : F :=
    ∑ j ∈ range size,
      (jack_estimates j - array_mean size jack_estimates)
        * (jack_estimates j - array_mean size jack_estimates)
  jack_var * (((n_jacknife : F) - 1) / (n_jacknife : F))

/-- The member `PVE::get_jacknife_bias_correct` (src/src/pve.hpp:523). -/
def get_jacknife_bias_correct (n_jacknife size : Nat) (jack_estimates : Nat → F)
    (full_data_est : F) : F :=
  (n_jacknife : F) * full_data_est
    - ((n_jacknife : F) - 1) * array_mean size jack_estimates

/-- The member `PVE::calc_h2(AA, bb, reweight_sigmas)` (src/src/pve.hpp:483) for a system
of `n = AA.rows()` equations.  `solve AA bb` stands for the call
`AA.colPivHouseholderQr().solve(bb)` of the Eigen library. -/
def calc_h2 (solve : (Nat → Nat → F) → (Nat → F) → Nat → F) (n_samples n : Nat)
    (AA : Nat → Nat → F) (bb : Nat → F) (reweight_sigmas : Bool) : Nat → F :=
  let ss : Nat → F := solve AA bb
  let ss : Nat → F :=
    if reweight_sigmas then fun i => ss i * (AA (n - 1) i / (n_samples : F)) else ss
  fun i => ss i / ∑ j ∈ range n, ss j

/-- The reweighting of the heritabilities in the words of the specification: each `σ̂_i` is
multiplied by the diagonal entry `A(i,i)` over `n_samples` before normalising. -/
def calc_h2_diagonal_spec (n_samples n : Nat) (AA : Nat → Nat → F) (sigma_hat : Nat → F) :
    Nat → F :=
  fun i => sigma_hat i * (AA i i / (n_samples : F))
    / ∑ j ∈ range n, sigma_hat j * (AA j j / (n_samples : F))

/-- The projection in the words of the specification, `M − C·(CᵀC)⁻¹·Cᵀ·M` with the
products taken from the left: the hat matrix `C·CtC_inv·Cᵀ` applied to `M`. -/
def project_out_covars_spec (n_samples n_covar : Nat) (M C CtC_inv : Nat → Nat → F) :
    Nat → Nat → F :=
  fun i d =>
    M i d - ∑ s ∈ range n_samples,
      (∑ l ∈ range n_covar, (∑ k ∈ range n_covar, C i k * CtC_inv k l) * C s l) * M s d

/-- That `CtC_inv` is the inverse of `CᵀC`: `CtC_inv · (CᵀC)` is the identity. -/
def isCtCInverse (n_samples n_covar : Nat) (C CtC_inv : Nat → Nat → F) : Prop :=
  ∀ k, k < n_covar → ∀ k2, k2 < n_covar →
    (∑ l ∈ range n_covar, CtC_inv k l * ∑ s ∈ range n_samples, C s l * C s k2)
      = if k = k2 then 1 else 0

/-- Cramer's rule for a system of two equations, as `solve` of the examples. -/
def exH_solve (AA : Nat → Nat → F) (bb : Nat → F) : Nat → F :=
  fun i =>
    if i = 0 then (bb 0 * AA 1 1 - AA 0 1 * bb 1) / (AA 0 0 * AA 1 1 - AA 0 1 * AA 1 0)
    else (AA 0 0 * bb 1 - bb 0 * AA 1 0) / (AA 0 0 * AA 1 1 - AA 0 1 * AA 1 0)

/-- The symmetric system `[[2, 1], [1, 1]]` of the example. -/
def exH_AA (F : Type) [Field F] : Nat → Nat → F :=
  fun i j => if i = 0 ∧ j = 0 then 2 else 1

/-- The right-hand side `(3, 2)` of the example; the solution is `(1, 1)`. -/
def exH_bb (F : Type) [Field F] : Nat → F :=
  fun i => if i = 0 then 3 else 2

/-! ## Residuals per chromosome (src/src/vbayes_x2.hpp) -/

/-- Modelled from the spec: `GenotypeMatrix::mult_vector_by_chr(chr, v)`
(genotype_matrix.hpp is not part of the sources at hand), the product `X_c·v_c` over the
columns of chromosome `chr`; `chromosome j` is the entry `X.chromosome[j]`. -/
def mult_vector_by_chr (vb : VBayesX2 F) (chromosome : Nat → Nat) (chr : Nat) (v : Nat → F) :
    Nat → F :=
  fun i => ∑ j ∈ range vb.n_var, if chromosome j = chr then vb.X i j * v j else 0

/-- The member `VBayesX2::compute_residuals_per_chr` (src/src/vbayes_x2.hpp:1461).
`chrs` is the `std::set` of the chromosomes in increasing order; `chr_residuals cc` is the
vector `chr_residuals[cc]`.  The `assert` on the length of `chr_residuals` is left out, the
lengths of the vectors being no part of the embedding. -/
def compute_residuals_per_chr (vb : VBayesX2 F) (chromosome : Nat → Nat)
    (vp : VariationalParameters F) (chr_residuals : Nat → Nat → F) : Nat → Nat → F :=
  let chrs : List Nat :=
    (((List.range vb.n_var).map chromosome).dedup).insertionSort (fun a b => a ≤ b)
  let map_residuals : Nat → F :=
    if 1 < vb.n_effects then fun i => vb.Y i - vp.ym i - vp.ym i * vp.eta i
    else fun i => vb.Y i - vp.ym i
  let Eq_beta : Nat → F := fun j =>
    if vb.p.mode_mog_prior_beta then
      vp.alpha_beta j * vp.mu1_beta j + (1 - vp.alpha_beta j) * vp.mu2_beta j
    else vp.alpha_beta j * vp.mu1_beta j
  let pred_main : Nat → Nat → F := fun cc => mult_vector_by_chr vb chromosome cc Eq_beta
  let Eq_gam : Nat → F := fun j =>
    if vb.p.mode_mog_prior_gam then
      vp.alpha_gam j * vp.mu1_gam j + (1 - vp.alpha_gam j) * vp.mu2_gam j
    else vp.alpha_gam j * vp.mu1_gam j
  let pred_int : Nat → Nat → F := fun cc => mult_vector_by_chr vb chromosome cc Eq_gam
  chrs.foldl (fun chr_residuals cc =>
    let r : Nat → F :=
      if 1 < vb.n_effects then fun i => map_residuals i + pred_main cc i + pred_int cc i * vp.eta i
      else fun i => map_residuals i + pred_main cc i
    Function.update chr_residuals cc (fun i => r i - array_mean vb.n_samples r)) chr_residuals

/-- The residual of chromosome `cc` in the words of the specification: the mean-centred
vector `(y − ym − yx⊙η) + X_c·E[β_c] + (X_c·E[γ_c])⊙η`. -/
def loco_residual_spec (vb : VBayesX2 F) (chromosome : Nat → Nat)
    (vp : VariationalParameters F) (cc : Nat) : Nat → F :=
  let r : Nat → F := fun i =>
    (vb.Y i - vp.ym i - vp.yx i * vp.eta i)
      + mult_vector_by_chr vb chromosome cc (Eq_beta vb vp) i
      + mult_vector_by_chr vb chromosome cc (Eq_gam vb vp) i * vp.eta i
  fun i => r i - array_mean vb.n_samples r

/-- The example data with the mog prior on both effect types. -/
def exV_vb (F : Type) [Field F] : VBayesX2 F :=
  { exA_vb F with p := { exA_p F with mode_mog_prior_gam := true } }

/-- The value `pve_large[ee]` in the words of the specification:
`λ_ee·slab_rel_var_ee·s_x_ee/(Σ_e u_e + 1)` with `u_e` the mog form. -/
def pve_large_spec (n_effects : Nat) (hyps : Hyps F) (ee : Nat) : F :=
  hyps.lambda ee * hyps.slab_relative_var ee * hyps.s_x ee
    / ((∑ e ∈ range n_effects,
        (hyps.lambda e * hyps.slab_relative_var e
          + (1 - hyps.lambda e) * hyps.spike_relative_var e) * hyps.s_x e) + 1)

end Field
/-! ## Partition of the samples across ranks (src/src/mpi_utils.cpp) -/

/-- What `mpiUtils::partition_valid_samples_across_ranks` leaves on one rank: the map
`sample_location`, the keys of the map `incomplete_cases` and the local vector
`rank_cases`. -/
structure SamplePartition where
  sample_location : Nat → Int
  incomplete_cases : Nat → Bool
  rank_cases : List Nat

/-- The quotient `a / b` of two `long`: truncated towards zero, and a fault when `b` is
zero. -/
def long_div (a b : Int) : Except String Int :=
  if b = 0 then .error "division by zero" else .ok (Int.tdiv a b)

/-- The vector `valid_sids` (src/src/mpi_utils.cpp:29): the samples that are not a key of
`incomplete_cases`, in increasing order. -/
def valid_sids (n_samples : Nat) (incomplete_cases : Nat → Bool) : List Nat :=
  (List.range n_samples).filter (fun ii => !incomplete_cases ii)

/-- The loop that stores the rank of each sample (src/src/mpi_utils.cpp:71-78) over the
samples still to visit; the state is `(iiValid, sample_location)`.  The integers are
unbounded: the quotient is taken to fit the cast `(int)`. -/
def assign_locations (incomplete_cases : Nat → Bool) (samplesPerRank : Int) :
    List Nat → Int × (Nat → Int) → Except String (Int × (Nat → Int))
  | [], st => .ok st
  | ii :: rest, st =>
    if incomplete_cases ii = false then
      match long_div st.1 samplesPerRank with
      | .error e => .error e
      | .ok q =>
        assign_locations incomplete_cases samplesPerRank rest
          (st.1 + 1, Function.update st.2 ii q)
    else
      assign_locations incomplete_cases samplesPerRank rest
        (st.1, Function.update st.2 ii (-1))

/-- The loop that keeps the samples of one rank (src/src/mpi_utils.cpp:96-103); the state
is `(incomplete_cases, rank_cases)`. -/
def keep_rank_cases (rank : Nat) (valid_sids : List Nat) (samplesPerRank diff : Int)
    (incomplete_cases : Nat → Bool) : (Nat → Bool) × List Nat :=
  (List.range valid_sids.length).foldl (fun st (ii : Nat) =>
    let ii1 : Int := (ii : Int) + diff
    if ii1 < (rank : Int) * samplesPerRank ∨ ii1 ≥ ((rank : Int) + 1) * samplesPerRank then
      (Function.update st.1 (valid_sids.getD ii 0) true, st.2)
    else (st.1, st.2 ++ [valid_sids.getD ii 0])) (incomplete_cases, [])

/-- The number `dXtEEX_bytes = 8 * n_var * n_env * (n_env + 1) / 2` of the memory check
(src/src/mpi_utils.cpp:38). -/
def dXtEEX_bytes (n_var n_env : Nat) : Int :=
  Int.tdiv (8 * (n_var : Int) * (n_env : Int) * ((n_env : Int) + 1)) 2

/-- The numbers `(samplesPerRank, rankZeroSamples)` that
`partition_valid_samples_across_ranks` settles on (src/src/mpi_utils.cpp:38-68), or the
`std::runtime_error` of the memory check, a division by zero or a failed `assert`. -/
def samples_per_rank (size n_valid_sids n_var n_env : Nat) (maxBytesPerRank : Int) :
    Except String (Int × Int) :=
  let dXtEEX_bytes : Int := dXtEEX_bytes n_var n_env
  if dXtEEX_bytes ≥ maxBytesPerRank then
    .error "Error: will not be able to store dXtEEX on single rank."
  else
    match long_div ((n_valid_sids : Int) + (size : Int) - 1) (size : Int) with
    | .error e => .error e
    | .ok samplesPerRank =>
      let rankZeroBytes : Int := dXtEEX_bytes + (n_var : Int) * samplesPerRank
      if rankZeroBytes > maxBytesPerRank then
        let size1 : Int := (size : Int) - 1
        match long_div (maxBytesPerRank - dXtEEX_bytes) (n_var : Int) with
        | .error e => .error e
        | .ok rankZeroSamples =>
          match long_div ((n_valid_sids : Int) - rankZeroSamples + size1 - 1) size1 with
          | .error e => .error e
          | .ok samplesPerRank =>
            if rankZeroSamples > 0 then .ok (samplesPerRank, rankZeroSamples)
            else .error "Assertion failed: rankZeroSamples > 0"
      else .ok (samplesPerRank, samplesPerRank)

/-- The function `mpiUtils::partition_valid_samples_across_ranks`
(src/src/mpi_utils.cpp:17) as run on rank `rank` of `size` ranks.  The keys of the map
`incomplete_cases` are the samples `ii` with `incomplete_cases ii = true`.  `Nglobal` is
what `MPI_Reduce` sums over the ranks; the output under `p.debug` is left out. -/
def partition_valid_samples_across_ranks (rank size n_samples n_var n_env : Nat)
    (maxBytesPerRank : Int) (incomplete_cases : Nat → Bool) (sample_location : Nat → Int) :
    Except String SamplePartition :=
  let valid : List Nat := valid_sids n_samples incomplete_cases
  match samples_per_rank size valid.length n_var n_env maxBytesPerRank with
  | .error e => .error e
  | .ok (samplesPerRank, rankZeroSamples) =>
    let diff : Int := samplesPerRank - rankZeroSamples
    match assign_locations incomplete_cases samplesPerRank (List.range n_samples)
        (diff, sample_location) with
    | .error e => .error e
    | .ok (iiValid, sample_location) =>
      if iiValid ≠ (valid.length : Int) + diff then
        .error "Assertion failed: iiValid == n_valid_sids + diff"
      else
        let kept : (Nat → Bool) × List Nat :=
          keep_rank_cases rank valid samplesPerRank diff incomplete_cases
        let Nglobal : Nat :=
          ∑ r ∈ Finset.range size,
            (keep_rank_cases r valid samplesPerRank diff incomplete_cases).2.length
        if rank = 0 ∧ Nglobal ≠ valid.length then
          .error "Assertion failed: Nglobal == n_valid_sids"
        else
          .ok { sample_location := sample_location
                incomplete_cases := kept.1
                rank_cases := kept.2 }

/-- The rank that the partition stores for sample `x` once `samplesPerRank = s` and
`rankZeroSamples = z` are settled: `(s − z + number of valid samples before x) / s` for a
valid sample and `-1` for a missing one. -/
def location_of (m s z : Nat) (incomplete_cases : Nat → Bool) (sample_location : Nat → Int) :
    Nat → Int :=
  fun x =>
    if x < m then
      (if incomplete_cases x = true then -1
        else (((s - z + (valid_sids x incomplete_cases).length) / s : Nat) : Int))
    else sample_location x

/-- Seven samples of which sample 2 is missing. -/
def exM_incomplete : Nat → Bool :=
  fun ii => decide (ii = 2)
/-! ## The hyperparameters of a tracker (src/src/vbayes_tracker.hpp) -/

/-- The class `Hyps` of vbayes_tracker.hpp (src/src/vbayes_tracker.hpp:24); the vectors
are indexed by the effect type. -/
structure vbayes_tracker.Hyps (F : Type) where
  sigma : F
  sigma_b : F
  sigma_g : F
  lam_b : F
  lam_g : F
  sigma_b_spike : F
  sigma_g_spike : F
  slab_var : Nat → F
  spike_var : Nat → F
  slab_relative_var : Nat → F
  spike_relative_var : Nat → F
  lambda : Nat → F

section Field

variable {F : Type} [Field F]

/-- The constructor `Hyps::Hyps(hyps_grid, ii, n_effects)` (src/src/vbayes_tracker.hpp:48).
Every comma initialiser `v << a, b` fills a vector that was resized to `n_effects` entries
with two values, which Eigen accepts for `n_effects = 2` only. -/
def vbayes_tracker.Hyps.new (hyps_grid : Nat → Nat → F) (ii n_effects : Nat) :
    Except String (vbayes_tracker.Hyps F) :=
  let sigma : F := hyps_grid ii 0
  let sigma_b : F := hyps_grid ii 1
  let sigma_g : F := hyps_grid ii 2
  let lam_b : F := hyps_grid ii 3
  let lam_g : F := hyps_grid ii 4
  let sigma_b_spike : F := hyps_grid ii 1 / 100
  let sigma_g_spike : F := hyps_grid ii 2 / 100
  if n_effects ≠ 2 then .error "Assertion failed: comma initializer"
  else
    .ok { sigma := sigma
          sigma_b := sigma_b
          sigma_g := sigma_g
          lam_b := lam_b
          lam_g := lam_g
          sigma_b_spike := sigma_b_spike
          sigma_g_spike := sigma_g_spike
          slab_var := fun ee => if ee = 0 then sigma * sigma_b else sigma * sigma_g
          spike_var := fun ee => if ee = 0 then sigma * sigma_b_spike else sigma * sigma_g_spike
          slab_relative_var := fun ee => if ee = 0 then sigma_b else sigma_g
          spike_relative_var := fun ee => if ee = 0 then sigma_b else sigma_g
          lambda := fun ee => if ee = 0 then lam_b else lam_g }

/-- The grid of one row `(σ, σ_b, σ_g, λ_b, λ_g) = (2, 1, 3, 1/2, 1/4)`. -/
def exT_grid (F : Type) [Field F] : Nat → Nat → F :=
  fun _ jj =>
    if jj = 0 then 2 else if jj = 1 then 1 else if jj = 2 then 3
    else if jj = 3 then 1 / 2 else 1 / 4

/-! ## The covariate term of the ELBO -/

/-- The term `kl_covar` of `VBayesX2::calc_logw` (src/src/vbayes_x2.hpp:1111-1118). -/
def calc_logw_kl_covar (m : MathFns F) (vb : VBayesX2 F) (hyps : Hyps F)
    (vp : VariationalParameters F) : F :=
  if vb.p.use_vb_on_covars then
    0 + (vb.n_covar : F) * (1 - hyps.sigma * sigma_c) / 2
      + (∑ k ∈ range vb.n_covar, m.log (vp.sc_sq k)) / 2
      - (∑ k ∈ range vb.n_covar, vp.sc_sq k) / 2 / hyps.sigma / sigma_c
      - (∑ k ∈ range vb.n_covar, vp.muc k * vp.muc k) / 2 / hyps.sigma / sigma_c
  else 0

/-- The covariate term of the ELBO in the words of the specification:
`K·(1 − log(σ·σ_c))/2 + ½·Σ log s_c² − Σ s_c²/(2·σ·σ_c) − Σ μ_c²/(2·σ·σ_c)`. -/
def kl_covar_spec (m : MathFns F) (vb : VBayesX2 F) (hyps : Hyps F)
    (vp : VariationalParameters F) : F :=
  (vb.n_covar : F) * (1 - m.log (hyps.sigma * sigma_c)) / 2
    + 1 / 2 * (∑ k ∈ range vb.n_covar, m.log (vp.sc_sq k))
    - (∑ k ∈ range vb.n_covar, vp.sc_sq k) / (2 * hyps.sigma * sigma_c)
    - (∑ k ∈ range vb.n_covar, vp.muc k ^ 2) / (2 * hyps.sigma * sigma_c)

/-! ## Indices into the vectors per chromosome -/

/-- The member `VBayesX2::n_chrs = 22` (src/src/vbayes_x2.hpp:53), the length of the
vectors `pred_main`, `pred_int` and `chr_residuals`. -/
def n_chrs : Nat := 22

/-- The indices `cc` at which `VBayesX2::compute_residuals_per_chr` reads and writes
`pred_main[cc]`, `pred_int[cc]` and `chr_residuals[cc]` (src/src/vbayes_x2.hpp:1481-1500):
the elements of the set `chrs` of the chromosomes of the variants. -/
def compute_residuals_per_chr_indices (n_var : Nat) (chromosome : Nat → Nat) : List Nat :=
  (((List.range n_var).map chromosome).dedup).insertionSort (fun a b => a ≤ b)

/-- The indices `chr = X.chromosome[jj]` at which `VBayesX2::LOCO_pvals` reads
`chr_residuals[chr]` (src/src/vbayes_x2.hpp:1521-1528). -/
def LOCO_pvals_indices (n_var : Nat) (chromosome : Nat → Nat) : List Nat :=
  (List.range n_var).map chromosome

/-- A data set whose variants all lie on chromosome 22. -/
def exR_chromosome : Nat → Nat :=
  fun _ => 22

/-! ## Jackknife blocks of the in-memory branch -/

/-- The example of the trace estimator with the two variants at the cumulative positions
0 and 2. -/
def exJ_pve (F : Type) [Field F] : PVE F :=
  { exP_pve F with cumulative_pos := fun j => 2 * j }

end Field
/-! ## The naive implementation (src/src/vbayes.hpp) -/

/-- The members of the class `vbayes` (src/src/vbayes.hpp:29) that the loop of
`outer_loop` reads; `n_rows` is the number of rows of `X` and `Y`. -/
structure vbayes (F : Type) where
  n_rows : Nat
  n_var : Nat
  iter_max : Nat
  diff_tol : F
  X : Nat → Nat → F
  Y : Nat → F

/-- The variables `alpha`, `mu` and `Xr` of `vbayes::outer_loop`. -/
structure vbayes_state (F : Type) where
  alpha : Nat → F
  mu : Nat → F
  Xr : Nat → F

section Field

variable {F : Type} [Field F]

/-- The member `dXtX`, the diagonal of `XᵀX` (src/src/vbayes.hpp:85). -/
def vbayes.dXtX (vb : vbayes F) (kk : Nat) : F :=
  ∑ i ∈ range vb.n_rows, vb.X i kk * vb.X i kk

/-- The member `Xty = XᵀY` (src/src/vbayes.hpp:86). -/
def vbayes.Xty (vb : vbayes F) (kk : Nat) : F :=
  ∑ i ∈ range vb.n_rows, vb.X i kk * vb.Y i

/-- The member `fwd_pass` as `vbayes::run` fills it (src/src/vbayes.hpp:276-279). -/
def vbayes.fwd_pass (vb : vbayes F) : List Nat :=
  List.range vb.n_var

/-- The member `back_pass` as `vbayes::run` fills it (src/src/vbayes.hpp:276-279). -/
def vbayes.back_pass (vb : vbayes F) : List Nat :=
  (List.range vb.n_var).map (fun kk => vb.n_var - kk - 1)

/-- The member `vbayes::inner_loop_update` (src/src/vbayes.hpp:139); `hyps` is the row
`(sigma, sigmab, pi)`. -/
def vbayes.inner_loop_update (m : MathFns F) (vb : vbayes F) (hyps : Nat → F)
    (st : vbayes_state F) (iter : List Nat) : vbayes_state F :=
  let sigma : F := hyps 0
  let sigmab : F := hyps 1
  let pi : F := hyps 2
  (List.range vb.n_var).foldl (fun st jj =>
    let kk : Nat := iter.getD jj 0
    let rr_k : F := st.alpha kk * st.mu kk
    let s_sq : F := sigmab * sigma / (sigmab * vb.dXtX kk + 1)
    let mu_kk : F := s_sq / sigma
    let mu_kk : F :=
      mu_kk * (vb.Xty kk - (∑ i ∈ range vb.n_rows, st.Xr i * vb.X i kk) + vb.dXtX kk * rr_k)
    let ff : F := m.log (pi / (1 - pi)) + m.log (s_sq / sigmab / sigma)
    let ff : F := ff + mu_kk * mu_kk / s_sq / 2
    let alpha_kk : F := sigmoid m ff
    { alpha := Function.update st.alpha kk alpha_kk
      mu := Function.update st.mu kk mu_kk
      Xr := fun i => st.Xr i + (alpha_kk * mu_kk - rr_k) * vb.X i kk }) st

end Field

section Ordered

variable {F : Type} [LinearOrderedField F]

/-- The loop `for(int ll = 0; ll < iter_max; ll++)` of `vbayes::outer_loop`
(src/src/vbayes.hpp:235-256) from pass `ll` on, with `fuel = iter_max - ll` passes left:
the state when the loop is left and the number of passes that were run. -/
def vbayes.outer_loop_from (m : MathFns F) (vb : vbayes F) (hyps : Nat → F) :
    Nat → Nat → vbayes_state F → vbayes_state F × Nat
  | 0, ll, st => (st, ll)
  | fuel + 1, ll, st =>
    let alpha0 : Nat → F := st.alpha
    let iter : List Nat := if ll % 2 = 0 then vb.fwd_pass else vb.back_pass
    let st : vbayes_state F := vb.inner_loop_update m hyps st iter
    let diff : F := maxCoeff vb.n_var (fun kk => |alpha0 kk - st.alpha kk|)
    if diff > vb.diff_tol then (st, ll + 1)
    else vbayes.outer_loop_from m vb hyps fuel (ll + 1) st

/-- The member `vbayes::outer_loop` (src/src/vbayes.hpp:215) up to the end of its loop:
`alpha` and `mu` when the loop is left, and the number of passes that were run.  The
value `logw` that is computed from them afterwards is not part of the embedding. -/
def vbayes.outer_loop (m : MathFns F) (vb : vbayes F) (hyps : Nat → F)
    (alpha mu : Nat → F) : vbayes_state F × Nat :=
  let Xr : Nat → F := fun i => ∑ kk ∈ range vb.n_var, vb.X i kk * (alpha kk * mu kk)
  vbayes.outer_loop_from m vb hyps vb.iter_max 0 { alpha := alpha, mu := mu, Xr := Xr }

/-- A data set of one sample and one variant, `X = (1)` and `Y = (0)`, with the defaults
`iter_max = 1000` and `diff_tol = 1e-4`. -/
def exN_vb (F : Type) [LinearOrderedField F] : vbayes F :=
  { n_rows := 1
    n_var := 1
    iter_max := 1000
    diff_tol := 1 / 10000
    X := fun _ _ => 1
    Y := fun _ => 0 }

/-- The grid row `(sigma, sigmab, pi) = (1, 1, 1/2)`. -/
def exN_hyps (F : Type) [LinearOrderedField F] : Nat → F :=
  fun jj => if jj = 2 then 1 / 2 else 1

/-! ## Weights of the grid points (src/src/vbayes_x2.hpp) -/

/-- The position that `std::max_element` returns on the first `n` entries of `v`: the
first position of a largest entry. -/
def max_element (n : Nat) (v : Nat → F) : Nat :=
  (List.range n).foldl (fun largest ii => if v largest < v ii then ii else largest) 0

/-- The member `VBayesX2::normaliseLogWeights` (src/src/vbayes_x2.hpp:1288) on a vector
of `nn` entries.  Every number of the embedding is finite, so `std::isfinite` is true, no
entry is skipped in `my_sum` and the warning is not printed. -/
def normaliseLogWeights (m : MathFns F) (nn : Nat) (my_weights : Nat → F) : Nat → F :=
  let max_elem : F := my_weights (max_element nn my_weights)
  let my_weights : Nat → F := fun ii => m.exp (my_weights ii - max_elem)
  let my_sum : F := (List.range nn).foldl (fun s ii => s + my_weights ii) 0
  fun ii => my_weights ii / my_sum

/-- The vector `weights` of `VBayesX2::output_results` (src/src/vbayes_x2.hpp:1615-1626);
`logw ii` is `trackers[ii].logw`. -/
def output_results_weights (m : MathFns F) (p : parameters F) (my_n_grid : Nat)
    (logw : Nat → F) : Nat → F :=
  let weights : Nat → F := fun _ => 0
  if 1 < my_n_grid then
    let weights : Nat → F := fun ii => if p.mode_empirical_bayes then logw ii else weights ii
    normaliseLogWeights m my_n_grid weights
  else Function.update weights 0 1

/-- The index `ii_map` of `VBayesX2::output_results` (src/src/vbayes_x2.hpp:1684). -/
def output_results_ii_map (m : MathFns F) (p : parameters F) (my_n_grid : Nat)
    (logw : Nat → F) : Nat :=
  max_element my_n_grid (output_results_weights m p my_n_grid logw)

end Ordered
/-! ## Frames and passes of one iteration -/

section Field

variable {F : Type} [Field F]

/-- That the state `w` has the environment weights `μ_w` and the vectors `η` and `η²` of
the state `vp`. -/
def sameEnv (vp w : VariationalParameters F) : Prop :=
  w.muw = vp.muw ∧ w.eta = vp.eta ∧ w.eta_sq = vp.eta_sq

/-- The member `VBayesX2::updateAllParams` (src/src/vbayes_x2.hpp:556) after the choice of
the pass (lines 577-616), as a function of the list `iter_chunks` that was chosen. -/
def updateAllParams_pass (m : MathFns F) (vb : VBayesX2 F) (iter_chunks : List (List Nat))
    (count round_index : Nat) (grid : Nat → Hyps F × VariationalParameters F) :
    Nat → Hyps F × VariationalParameters F :=
  let grid : Nat → Hyps F × VariationalParameters F := fun nn =>
    if vb.p.use_vb_on_covars then
      ((grid nn).1, updateCovarEffects vb (grid nn).2 (grid nn).1)
    else grid nn
  let grid : Nat → Hyps F × VariationalParameters F := updateAlphaMu m vb iter_chunks grid
  fun nn =>
    let hv : Hyps F × VariationalParameters F := grid nn
    let hv : Hyps F × VariationalParameters F :=
      if 1 < vb.n_env then
        Nat.iterate
          (fun hv => updateEnvWeights vb (env_back_pass vb)
            (updateEnvWeights vb (env_fwd_pass vb) hv))
          vb.p.env_update_repeats hv
      else hv
    let hv : Hyps F × VariationalParameters F := (compute_pve vb hv.1, hv.2)
    if 1 < round_index ∧ vb.p.mode_empirical_bayes = true then
      let hyps : Hyps F :=
        if vb.p.burnin_maxhyps ≤ count then maximiseHyps vb hv.1 hv.2 else hv.1
      (compute_pve vb hyps, hv.2)
    else hv

/-- The chunk `[D1 D2]`: the `c1` columns of `D1` followed by the `c2` columns of `D2`,
counted in block `b`. -/
def TraceChunk.hcat (D1 : Nat → Nat → F) (c1 : Nat) (D2 : Nat → Nat → F) (c2 b : Nat) :
    TraceChunk F :=
  { D := fun i col => if col < c1 then D1 i col else D2 i (col - c1)
    cols := c1 + c2
    jacknife_index := b }

/-- The finalised component after the chunks of a list have been added to `c` one call
at a time (src/src/pve.hpp:118-157). -/
def finalised_after (c : PVE_Component F) (chunks : List (TraceChunk F)) : PVE_Component F :=
  PVE_Component.finalise
    (chunks.foldl (fun c ch => c.add_to_trace_estimator ch.D ch.cols ch.jacknife_index) c)

/-- A fresh component with two jackknife blocks on the three samples of the example. -/
def exP_fresh (F : Type) [Field F] : PVE_Component F :=
  PVE_Component.new 3 1 1 (fun i => (exP_pve F).X i 0) (fun i _ => (exP_pve F).X i 1)
    (fun i _ => (exP_pve F).X i 1) (fun _ _ => 1) (fun _ _ => 1 / 3) 2

/-- The two columns of `exP_chunks` joined into one chunk that is counted in block 1. -/
def exP_joined (F : Type) [Field F] : List (TraceChunk F) :=
  [TraceChunk.hcat (fun i _ => if i = 0 then 1 else if i = 1 then -1 else 0) 1
    (fun i _ => if i = 0 then 0 else if i = 1 then 1 else -1) 1 1]

/-- The example data with a single environment. -/
def exE_vb (F : Type) [Field F] : VBayesX2 F :=
  { exA_vb F with n_env := 1 }

end Field
/-! ## A data set with two variants and two grid points

Five samples and two variants whose standardised columns are orthogonal to each other and
to the phenotype; the main-effects model without covariates, hyperparameters maximised at
every turn, and the convergence test on `alpha` alone with the tolerance `1/10` set by the
user.  The two grid points are those of `exC_hyps`, the rows `(σ, σ_b, σ_g, λ_b, λ_g)`
`(16/3, 3/4, 0, 2/3, 0)` and `(1/75, 3/4, 0, 1/2, 0)` of `exD_grid`, which the validation
of the grid accepts for two variants. -/

/-- The data of the example with two variants. -/
def exD_vb (F : Type) [LinearOrderedField F] : VBayesX2 F :=
  { n_effects := 1
    n_samples := 5
    n_covar := 0
    n_env := 0
    n_var := 2
    p := { exC_p F 0 with main_chunk_size := 2, gxe_chunk_size := 2 }
    X := fun i j =>
      if j = 0 then
        (if i = 0 then 1 else if i = 1 then -1 else if i = 2 then 1
          else if i = 3 then -1 else 0)
      else
        (if i = 0 then 1 else if i = 1 then -1 else if i = 2 then -1
          else if i = 3 then 1 else 0)
    Y := fun i => if i = 0 then 1 else if i = 1 then 1 else if i = 2 then -1
      else if i = 3 then -1 else 0
    Cty := fun _ => 0
    E := fun _ _ => 0
    C := fun _ _ => 0
    dXtEEX := fun _ _ => 0
    calcEdZtZ := fun _ _ => 0 }

/-- The hyperparameter grid of the example with two variants. -/
def exD_grid (F : Type) [LinearOrderedField F] : GridMatrix F :=
  { rows := 2
    cols := 5
    entry := fun ii jj =>
      if ii = 0 then
        (if jj = 0 then .finite (16 / 3) else if jj = 1 then .finite (3 / 4)
          else if jj = 2 then .finite 0 else if jj = 3 then .finite (2 / 3) else .finite 0)
      else
        (if jj = 0 then .finite (1 / 75) else if jj = 1 then .finite (3 / 4)
          else if jj = 2 then .finite 0 else if jj = 3 then .finite (1 / 2) else .finite 0) }
/-! ## Two states that differ in the derived variances only

The updates of one iteration assign the variances `s₁²`, `s₂²` of a variant (and `s_c²` of a
covariate) from the hyperparameters before they read them, and `calcVarqBeta` assigns
`var_β`, `var_γ` at the end of the pass.  `agreeOn` says that two states have the same
fields apart from these, and the same variances at the indices that have been visited. -/

section Field

variable {F : Type} [Field F]

end Field

/-! ## A data set with two variants and two environments

Five samples, two variants and two environments, every column centred with unit variance;
the columns of `X` are orthogonal to the phenotype.  Main and interaction effects without
covariates, the single-component prior, no empirical Bayes.  The grid has the one row
`(σ, σ_b, σ_g, λ_b, λ_g) = (1, 1, 1, 1/2, 1/2)`, which the validation of the grid accepts
for two variants; the environment weights start at zero. -/

section Ordered

variable {F : Type} [LinearOrderedField F]

/-- The standardised dosages of the example with two environments. -/
def exR_X (F : Type) [LinearOrderedField F] : Nat → Nat → F := fun i j =>
  if j = 0 then
    (if i = 0 then 1 else if i = 1 then -1 else if i = 2 then 1 else if i = 3 then -1 else 0)
  else
    (if i = 0 then 1 else if i = 1 then -1 else if i = 2 then -1 else if i = 3 then 1 else 0)

/-- The two environments of the example. -/
def exR_E (F : Type) [LinearOrderedField F] : Nat → Nat → F := fun i l =>
  if l = 0 then
    (if i = 0 then 1 else if i = 1 then 1 else if i = 2 then -1 else if i = 3 then -1 else 0)
  else
    (if i = 0 then 1 else if i = 1 then -1 else if i = 2 then -1 else if i = 3 then 1 else 0)

/-- The matrix `dXtEEX` of the example: entry `(j, l·2 + m)` is `Σ_i X_ij²·E_il·E_im`, which
is 4 for `l = m` and 0 otherwise. -/
def exR_dXtEEX (F : Type) [LinearOrderedField F] : Nat → Nat → F := fun _ c =>
  if c = 0 then 4 else if c = 3 then 4 else 0

end Ordered
/-! ## Theorems -/

section FieldTheorems

variable {F : Type} [Field F]

/-- C10. `calcExpLinear` returns
`‖y − ym‖² − 2 (y − ym)ᵀ(yx ⊙ η) + yxᵀ(η² ⊙ yx) + (N − 1) Σ var_β + EdZtZᵀ var_γ + (N − 1) Σ s_c²`
with `η²` the stored `eta_sq`, the interaction terms present only when `n_effects > 1`
and the `s_c²` term only with `use_vb_on_covars`, for every state with more than one
environment and for every state in which `eta_sq = η ⊙ η` on the samples. -/
theorem calcExpLinear_closed_form (vb : VBayesX2 F) (hyps : Hyps F)
    (vp : VariationalParameters F)
    (henv : 1 < vb.n_env ∨ ∀ i, i < vb.n_samples → vp.eta_sq i = vp.eta i * vp.eta i) :
    calcExpLinear vb hyps vp = calcExpLinear_spec vb vp := by
  unfold calcExpLinear_spec
  have h1 : (∑ i ∈ range vb.n_samples, (vb.Y i - vp.ym i) * (vb.Y i - vp.ym i))
      = ∑ i ∈ range vb.n_samples, (vb.Y i - vp.ym i) ^ 2 :=
    Finset.sum_congr rfl (fun i _ => by ring)
  have h2 : (∑ i ∈ range vb.n_samples, ((vb.Y i - vp.ym i) * vp.eta i) * vp.yx i)
      = ∑ i ∈ range vb.n_samples, (vb.Y i - vp.ym i) * (vp.yx i * vp.eta i) :=
    Finset.sum_congr rfl (fun i _ => by ring)
  have h3 : (∑ i ∈ range vb.n_samples, (vp.yx i * vp.eta_sq i) * vp.yx i)
      = ∑ i ∈ range vb.n_samples, vp.yx i * (vp.eta_sq i * vp.yx i) :=
    Finset.sum_congr rfl (fun i _ => by ring)
  unfold calcExpLinear
  simp only [h1, h2, h3]
  by_cases hn : 1 < vb.n_env
  · simp only [hn, if_true]
    split_ifs <;> ring
  · have hsq := henv.resolve_left hn
    have h4 : (∑ i ∈ range vb.n_samples, (vp.yx i * vp.eta i) * (vp.yx i * vp.eta i))
        = ∑ i ∈ range vb.n_samples, vp.yx i * (vp.eta_sq i * vp.yx i) :=
      Finset.sum_congr rfl (fun i hi => by
        rw [hsq i (Finset.mem_range.mp hi)]; ring)
    simp only [hn, if_false, h4]
    split_ifs <;> ring

end FieldTheorems

/-! ### Hyperparameter maximisation -/
section
variable {F : Type} [Field F]

/-- Changing one entry of a vector changes a weighted sum by the weight times the change. -/
theorem sum_mul_of_eq_off (n : Nat) (x e e2 : Nat → F) (j : Nat) (hj : j < n)
    (hoff : ∀ l, l ≠ j → e2 l = e l) :
    ∑ l ∈ range n, x l * e2 l = (∑ l ∈ range n, x l * e l) + x j * (e2 j - e j) := by
  have hm : j ∈ range n := mem_range.mpr hj
  rw [← Finset.add_sum_erase _ _ hm, ← Finset.add_sum_erase (range n) (fun l => x l * e l) hm]
  have : ∑ l ∈ (range n).erase j, x l * e2 l = ∑ l ∈ (range n).erase j, x l * e l :=
    Finset.sum_congr rfl (fun l hl => by rw [hoff l (Finset.ne_of_mem_erase hl)])
  rw [this]; ring

theorem maximiseHypsEffect_spec (vb : VBayesX2 F) (ee : Nat) (mog : Bool)
    (alpha mu1 s1_sq mu2 s2_sq : Nat → F) (hyps : Hyps F) :
    maximisedEffect vb ee mog alpha mu1 s1_sq mu2 s2_sq hyps.sigma
      (maximiseHypsEffect vb ee mog alpha mu1 s1_sq mu2 s2_sq hyps) := by
  cases mog <;>
    simp [maximisedEffect, maximiseHypsEffect, Function.update_same, pow_two]

theorem maximiseHypsEffect_sigma (vb : VBayesX2 F) (ee : Nat) (mog : Bool)
    (alpha mu1 s1_sq mu2 s2_sq : Nat → F) (hyps : Hyps F) :
    (maximiseHypsEffect vb ee mog alpha mu1 s1_sq mu2 s2_sq hyps).sigma = hyps.sigma := by
  cases mog <;> simp [maximiseHypsEffect]

theorem maximiseHypsEffect_other (vb : VBayesX2 F) (ee e2 : Nat) (h : e2 ≠ ee) (mog : Bool)
    (alpha mu1 s1_sq mu2 s2_sq : Nat → F) (hyps : Hyps F) :
    (maximiseHypsEffect vb ee mog alpha mu1 s1_sq mu2 s2_sq hyps).lambda e2 = hyps.lambda e2
    ∧ (maximiseHypsEffect vb ee mog alpha mu1 s1_sq mu2 s2_sq hyps).slab_var e2
        = hyps.slab_var e2
    ∧ (maximiseHypsEffect vb ee mog alpha mu1 s1_sq mu2 s2_sq hyps).slab_relative_var e2
        = hyps.slab_relative_var e2
    ∧ (maximiseHypsEffect vb ee mog alpha mu1 s1_sq mu2 s2_sq hyps).spike_var e2
        = hyps.spike_var e2 := by
  cases mog <;> simp [maximiseHypsEffect, Function.update_noteq h]

end

section
variable {F : Type} [Field F]

theorem maximiseHyps_sigma_eq (vb : VBayesX2 F) (hyps : Hyps F)
    (vp : VariationalParameters F) :
    (maximiseHyps vb hyps vp).sigma = maximiseHyps_sigma_spec vb hyps vp := by
  unfold maximiseHyps maximiseHyps_sigma_spec
  cases hc : vb.p.use_vb_on_covars <;> by_cases he : 1 < vb.n_effects <;>
    simp [he, maximiseHypsEffect_sigma]

theorem maximiseHyps_eq (vb : VBayesX2 F) (hyps : Hyps F) (vp : VariationalParameters F) :
    maximiseHyps vb hyps vp =
      if 1 < vb.n_effects then
        maximiseHypsEffect vb 1 vb.p.mode_mog_prior_gam
          vp.alpha_gam vp.mu1_gam vp.s1_gam_sq vp.mu2_gam vp.s2_gam_sq
          (maximiseHypsEffect vb 0 vb.p.mode_mog_prior_beta
            vp.alpha_beta vp.mu1_beta vp.s1_beta_sq vp.mu2_beta vp.s2_beta_sq
            { hyps with sigma := maximiseHyps_sigma_spec vb hyps vp })
      else
        maximiseHypsEffect vb 0 vb.p.mode_mog_prior_beta
          vp.alpha_beta vp.mu1_beta vp.s1_beta_sq vp.mu2_beta vp.s2_beta_sq
          { hyps with sigma := maximiseHyps_sigma_spec vb hyps vp } := by
  unfold maximiseHyps maximiseHyps_sigma_spec
  cases hc : vb.p.use_vb_on_covars <;> simp

theorem maximiseHyps_closed_forms_aux (vb : VBayesX2 F) (hyps : Hyps F)
    (vp : VariationalParameters F) :
    (maximiseHyps vb hyps vp).sigma = maximiseHyps_sigma_spec vb hyps vp
    ∧ maximisedEffect vb 0 vb.p.mode_mog_prior_beta
        vp.alpha_beta vp.mu1_beta vp.s1_beta_sq vp.mu2_beta vp.s2_beta_sq
        (maximiseHyps vb hyps vp).sigma (maximiseHyps vb hyps vp)
    ∧ (1 < vb.n_effects →
        maximisedEffect vb 1 vb.p.mode_mog_prior_gam
          vp.alpha_gam vp.mu1_gam vp.s1_gam_sq vp.mu2_gam vp.s2_gam_sq
          (maximiseHyps vb hyps vp).sigma (maximiseHyps vb hyps vp)) := by
  refine ⟨maximiseHyps_sigma_eq vb hyps vp, ?_, ?_⟩
  · rw [maximiseHyps_eq]
    by_cases he : 1 < vb.n_effects
    · simp only [he, if_true]
      have h0 := maximiseHypsEffect_spec vb 0 vb.p.mode_mog_prior_beta
        vp.alpha_beta vp.mu1_beta vp.s1_beta_sq vp.mu2_beta vp.s2_beta_sq
        { hyps with sigma := maximiseHyps_sigma_spec vb hyps vp }
      have h1 := maximiseHypsEffect_other vb 1 0 (by decide) vb.p.mode_mog_prior_gam
        vp.alpha_gam vp.mu1_gam vp.s1_gam_sq vp.mu2_gam vp.s2_gam_sq
        (maximiseHypsEffect vb 0 vb.p.mode_mog_prior_beta
          vp.alpha_beta vp.mu1_beta vp.s1_beta_sq vp.mu2_beta vp.s2_beta_sq
          { hyps with sigma := maximiseHyps_sigma_spec vb hyps vp })
      unfold maximisedEffect at h0 ⊢
      rw [h1.1, h1.2.1, h1.2.2.1, h1.2.2.2, maximiseHypsEffect_sigma,
        maximiseHypsEffect_sigma]
      exact h0
    · simp only [he, if_false]
      have h0 := maximiseHypsEffect_spec vb 0 vb.p.mode_mog_prior_beta
        vp.alpha_beta vp.mu1_beta vp.s1_beta_sq vp.mu2_beta vp.s2_beta_sq
        { hyps with sigma := maximiseHyps_sigma_spec vb hyps vp }
      rw [maximiseHypsEffect_sigma]
      exact h0
  · intro he
    rw [maximiseHyps_eq]
    simp only [he, if_true]
    have h1 := maximiseHypsEffect_spec vb 1 vb.p.mode_mog_prior_gam
      vp.alpha_gam vp.mu1_gam vp.s1_gam_sq vp.mu2_gam vp.s2_gam_sq
      (maximiseHypsEffect vb 0 vb.p.mode_mog_prior_beta
        vp.alpha_beta vp.mu1_beta vp.s1_beta_sq vp.mu2_beta vp.s2_beta_sq
        { hyps with sigma := maximiseHyps_sigma_spec vb hyps vp })
    rw [maximiseHypsEffect_sigma] at h1 ⊢
    rw [maximiseHypsEffect_sigma]
    exact h1

theorem exA_calcExpLinear : calcExpLinear (exA_vb ℚ) (exA_hyps ℚ) (exA_vp ℚ) = 7 := by
  simp [calcExpLinear, exA_vb, exA_vp, exA_p, VBayesX2.N, Finset.sum_range_succ]
  norm_num

theorem exA_sigma_ne :
    (exA_vb ℚ).p.use_vb_on_covars = true
    ∧ (maximiseHyps (exA_vb ℚ) (exA_hyps ℚ) (exA_vp ℚ)).sigma
      ≠ calcExpLinear (exA_vb ℚ) (exA_hyps ℚ) (exA_vp ℚ)
          / ((exA_vb ℚ).N + ((exA_vb ℚ).n_covar : ℚ)) := by
  refine ⟨rfl, ?_⟩
  rw [maximiseHyps_sigma_eq, maximiseHyps_sigma_spec, exA_calcExpLinear]
  simp [exA_vb, exA_vp, exA_p, VBayesX2.N, sigma_c, Finset.sum_range_succ]
  norm_num

end
section
variable {F : Type} [Field F]



/-! ### Environment weights -/

theorem updateEnvWeightsStep_eta (vb : VBayesX2 F) (hyps : Hyps F)
    (vp : VariationalParameters F) (ll : Nat) (hll : ll < vb.n_env)
    (h : etaInvariant vb vp) :
    etaInvariant vb (updateEnvWeightsStep vb hyps vp ll) := by
  intro i hi
  have h0 := h i hi
  simp only [updateEnvWeightsStep]
  rw [sum_mul_of_eq_off vb.n_env (fun l => vb.E i l) vp.muw _ ll hll
    (fun l hl => Function.update_noteq hl _ _)]
  simp only [Function.update_same]
  rw [h0]; ring

theorem updateEnvWeights_foldl_eta (vb : VBayesX2 F) (hyps : Hyps F) (iter : List Nat)
    (hiter : ∀ ll ∈ iter, ll < vb.n_env) (vp : VariationalParameters F)
    (h : etaInvariant vb vp) :
    etaInvariant vb (iter.foldl (updateEnvWeightsStep vb hyps) vp) := by
  induction iter generalizing vp with
  | nil => exact h
  | cons ll rest ih =>
    simp only [List.foldl_cons]
    exact ih (fun l hl => hiter l (List.mem_cons_of_mem _ hl)) _
      (updateEnvWeightsStep_eta vb hyps vp ll (hiter ll (List.mem_cons_self _ _)) h)

theorem updateEnvWeights_eta (vb : VBayesX2 F) (iter : List Nat)
    (hv : Hyps F × VariationalParameters F) :
    (updateEnvWeights vb iter hv).2.eta
      = (iter.foldl (updateEnvWeightsStep vb hv.1) hv.2).eta
    ∧ (updateEnvWeights vb iter hv).2.muw
      = (iter.foldl (updateEnvWeightsStep vb hv.1) hv.2).muw
    ∧ (updateEnvWeights vb iter hv).2.sw_sq
      = (iter.foldl (updateEnvWeightsStep vb hv.1) hv.2).sw_sq
    ∧ ∀ i, (updateEnvWeights vb iter hv).2.eta_sq i
      = (iter.foldl (updateEnvWeightsStep vb hv.1) hv.2).eta i
          * (iter.foldl (updateEnvWeightsStep vb hv.1) hv.2).eta i
        + ∑ l ∈ range vb.n_env, (vb.E i l * vb.E i l)
          * (iter.foldl (updateEnvWeightsStep vb hv.1) hv.2).sw_sq l := by
  simp [updateEnvWeights]

theorem updateEnvWeights_invariant_aux (vb : VBayesX2 F) (iter : List Nat)
    (hv : Hyps F × VariationalParameters F)
    (hiter : ∀ ll ∈ iter, ll < vb.n_env) (h : etaInvariant vb hv.2) :
    etaInvariant vb (updateEnvWeights vb iter hv).2
    ∧ ∀ i, (updateEnvWeights vb iter hv).2.eta_sq i
        = (updateEnvWeights vb iter hv).2.eta i * (updateEnvWeights vb iter hv).2.eta i
          + ∑ l ∈ range vb.n_env, (vb.E i l * vb.E i l)
            * (updateEnvWeights vb iter hv).2.sw_sq l := by
  obtain ⟨h1, h2, h3, h4⟩ := updateEnvWeights_eta vb iter hv
  constructor
  · intro i hi
    rw [h1, h2]
    exact updateEnvWeights_foldl_eta vb hv.1 iter hiter hv.2 h i hi
  · intro i
    rw [h1, h3]
    exact h4 i

end
section
variable {F : Type} [Field F]



/-! ### Covariates -/

theorem updateCovarEffectsStep_inv (vb : VBayesX2 F) (hyps : Hyps F)
    (vp : VariationalParameters F) (cc : Nat) (hcc : cc < vb.n_covar)
    (hcov : vb.p.use_vb_on_covars = true)
    (h : ymInvariant vb vp ∧ yxInvariant vb vp) :
    ymInvariant vb (updateCovarEffectsStep vb hyps vp cc)
    ∧ yxInvariant vb (updateCovarEffectsStep vb hyps vp cc) := by
  constructor
  · intro i hi
    have h0 := h.1 i hi
    simp only [hcov, if_true] at h0 ⊢
    simp only [updateCovarEffectsStep, Eq_beta]
    rw [sum_mul_of_eq_off vb.n_covar (fun k => vb.C i k) vp.muc _ cc hcc
      (fun l hl => Function.update_noteq hl _ _)]
    simp only [Function.update_same]
    rw [h0]; simp only [Eq_beta]; ring
  · intro i hi
    have h0 := h.2 i hi
    simp only [updateCovarEffectsStep, Eq_gam] at h0 ⊢
    exact h0

theorem updateCovarEffects_foldl_inv (vb : VBayesX2 F) (hyps : Hyps F) (l : List Nat)
    (hl : ∀ cc ∈ l, cc < vb.n_covar) (hcov : vb.p.use_vb_on_covars = true)
    (vp : VariationalParameters F) (h : ymInvariant vb vp ∧ yxInvariant vb vp) :
    ymInvariant vb (l.foldl (updateCovarEffectsStep vb hyps) vp)
    ∧ yxInvariant vb (l.foldl (updateCovarEffectsStep vb hyps) vp) := by
  induction l generalizing vp with
  | nil => exact h
  | cons cc rest ih =>
    simp only [List.foldl_cons]
    exact ih (fun c hc => hl c (List.mem_cons_of_mem _ hc)) _
      (updateCovarEffectsStep_inv vb hyps vp cc (hl cc (List.mem_cons_self _ _)) hcov h)

theorem updateCovarEffects_inv (vb : VBayesX2 F) (hyps : Hyps F)
    (vp : VariationalParameters F) (hcov : vb.p.use_vb_on_covars = true)
    (h : ymInvariant vb vp ∧ yxInvariant vb vp) :
    ymInvariant vb (updateCovarEffects vb vp hyps)
    ∧ yxInvariant vb (updateCovarEffects vb vp hyps) :=
  updateCovarEffects_foldl_inv vb hyps _ (fun _ hc => List.mem_range.mp hc) hcov vp h

/-! ### Main effects -/

/-- What one turn of the main-effect loop leaves alone and what it changes. -/
theorem beta_step_facts (m : MathFns F) (vb : VBayesX2 F) (iter_chunk : List Nat)
    (A : Nat → F) (D_corr : Nat → Nat → F) (hyps : Hyps F)
    (st : VariationalParameters F × (Nat → F)) (ii : Nat) :
    let r := _internal_updateAlphaMu_beta_step m vb iter_chunk A D_corr hyps st ii
    r.1.ym = st.1.ym ∧ r.1.yx = st.1.yx ∧ r.1.muc = st.1.muc
    ∧ (∀ j, Eq_gam vb r.1 j = Eq_gam vb st.1 j)
    ∧ (∀ j, j ≠ iter_chunk.getD ii 0 → Eq_beta vb r.1 j = Eq_beta vb st.1 j)
    ∧ (∀ k, k ≠ ii → r.2 k = st.2 k)
    ∧ r.2 ii = Eq_beta vb r.1 (iter_chunk.getD ii 0)
        - Eq_beta vb st.1 (iter_chunk.getD ii 0) := by
  cases hmog : vb.p.mode_mog_prior_beta <;>
  refine ⟨?_, ?_, ?_, ?_, ?_, ?_, ?_⟩ <;>
  simp only [_internal_updateAlphaMu_beta_step, hmog, Eq_beta, Eq_gam, Bool.false_eq_true,
    if_false, if_true, implies_true] <;>
  first
    | (intro j hj; simp only [Function.update_noteq hj])
    | (simp only [Function.update_same]; try ring)

end
section
variable {F : Type} [Field F]

theorem beta_fold_facts (m : MathFns F) (vb : VBayesX2 F) (iter_chunk : List Nat)
    (A : Nat → F) (D_corr : Nat → Nat → F) (hyps : Hyps F)
    (vp : VariationalParameters F) (rr0 : Nat → F)
    (hlt : ∀ ii, ii < iter_chunk.length → iter_chunk.getD ii 0 < vb.n_var)
    (k : Nat) (hk : k ≤ iter_chunk.length) :
    let r := (List.range k).foldl
      (_internal_updateAlphaMu_beta_step m vb iter_chunk A D_corr hyps) (vp, rr0)
    r.1.ym = vp.ym ∧ r.1.yx = vp.yx ∧ r.1.muc = vp.muc
    ∧ (∀ j, Eq_gam vb r.1 j = Eq_gam vb vp j)
    ∧ ∀ i, ∑ j ∈ range vb.n_var, vb.X i j * Eq_beta vb r.1 j
        = (∑ j ∈ range vb.n_var, vb.X i j * Eq_beta vb vp j)
          + ∑ ii ∈ range k, vb.X i (iter_chunk.getD ii 0) * r.2 ii := by
  induction k with
  | zero => simp
  | succ k ih =>
    have ih := ih (Nat.le_of_succ_le hk)
    simp only [List.range_succ, List.foldl_append, List.foldl_cons, List.foldl_nil] at ih ⊢
    obtain ⟨h1, h2, h3, h4, h5⟩ := ih
    obtain ⟨g1, g2, g3, g4, g5, g6, g7⟩ :=
      beta_step_facts m vb iter_chunk A D_corr hyps
        ((List.range k).foldl
          (_internal_updateAlphaMu_beta_step m vb iter_chunk A D_corr hyps) (vp, rr0)) k
    refine ⟨g1.trans h1, g2.trans h2, g3.trans h3, fun j => (g4 j).trans (h4 j), ?_⟩
    intro i
    rw [sum_mul_of_eq_off vb.n_var (fun j => vb.X i j) _ _ (iter_chunk.getD k 0)
      (hlt k (Nat.lt_of_succ_le hk)) g5, h5 i, Finset.sum_range_succ, g7]
    have : ∑ ii ∈ range k, vb.X i (iter_chunk.getD ii 0)
          * (_internal_updateAlphaMu_beta_step m vb iter_chunk A D_corr hyps
              ((List.range k).foldl
                (_internal_updateAlphaMu_beta_step m vb iter_chunk A D_corr hyps) (vp, rr0))
              k).2 ii
        = ∑ ii ∈ range k, vb.X i (iter_chunk.getD ii 0)
          * ((List.range k).foldl
              (_internal_updateAlphaMu_beta_step m vb iter_chunk A D_corr hyps) (vp, rr0)).2 ii :=
      Finset.sum_congr rfl (fun ii hii => by
        rw [g6 ii (Nat.ne_of_lt (mem_range.mp hii))])
    rw [this]; ring

/-! ### Interaction effects -/

theorem rr_k_gam_eq (vb : VBayesX2 F) (iter_chunk : List Nat) (vp : VariationalParameters F)
    (ii : Nat) :
    rr_k_gam vb iter_chunk vp ii = Eq_gam vb vp (iter_chunk.getD ii 0 % vb.n_var) := by
  cases hmog : vb.p.mode_mog_prior_gam <;>
    simp only [rr_k_gam, Eq_gam, hmog, Bool.false_eq_true, if_false, if_true]

theorem gam_step_facts (m : MathFns F) (vb : VBayesX2 F) (iter_chunk : List Nat)
    (A : Nat → F) (D_corr : Nat → Nat → F) (hyps : Hyps F) (rr_k : Nat → F)
    (st : VariationalParameters F × (Nat → F)) (ii : Nat) :
    let r := _internal_updateAlphaMu_gam_step m vb iter_chunk A D_corr hyps rr_k st ii
    r.1.ym = st.1.ym ∧ r.1.yx = st.1.yx ∧ r.1.muc = st.1.muc
    ∧ (∀ j, Eq_beta vb r.1 j = Eq_beta vb st.1 j)
    ∧ (∀ j, j ≠ iter_chunk.getD ii 0 % vb.n_var → Eq_gam vb r.1 j = Eq_gam vb st.1 j)
    ∧ (∀ k, k ≠ ii → r.2 k = st.2 k)
    ∧ r.2 ii = Eq_gam vb r.1 (iter_chunk.getD ii 0 % vb.n_var) - rr_k ii := by
  cases hmog : vb.p.mode_mog_prior_gam <;>
  refine ⟨?_, ?_, ?_, ?_, ?_, ?_, ?_⟩ <;>
  simp only [_internal_updateAlphaMu_gam_step, hmog, Eq_beta, Eq_gam, Bool.false_eq_true,
    if_false, if_true, implies_true] <;>
  first
    | (intro j hj; simp only [Function.update_noteq hj])
    | (simp only [Function.update_same]; try ring)

theorem gam_fold_facts (m : MathFns F) (vb : VBayesX2 F) (iter_chunk : List Nat)
    (A : Nat → F) (D_corr : Nat → Nat → F) (hyps : Hyps F)
    (vp : VariationalParameters F) (rr0 : Nat → F) (hn : 0 < vb.n_var)
    (hdist : ∀ a b, a < b → b < iter_chunk.length →
      iter_chunk.getD a 0 % vb.n_var ≠ iter_chunk.getD b 0 % vb.n_var)
    (k : Nat) (hk : k ≤ iter_chunk.length) :
    let r := (List.range k).foldl
      (_internal_updateAlphaMu_gam_step m vb iter_chunk A D_corr hyps
        (rr_k_gam vb iter_chunk vp)) (vp, rr0)
    r.1.ym = vp.ym ∧ r.1.yx = vp.yx ∧ r.1.muc = vp.muc
    ∧ (∀ j, Eq_beta vb r.1 j = Eq_beta vb vp j)
    ∧ (∀ j, (∀ ii, ii < k → iter_chunk.getD ii 0 % vb.n_var ≠ j) →
        Eq_gam vb r.1 j = Eq_gam vb vp j)
    ∧ ∀ i, ∑ j ∈ range vb.n_var, vb.X i j * Eq_gam vb r.1 j
        = (∑ j ∈ range vb.n_var, vb.X i j * Eq_gam vb vp j)
          + ∑ ii ∈ range k, vb.X i (iter_chunk.getD ii 0 % vb.n_var) * r.2 ii := by
  induction k with
  | zero => simp
  | succ k ih =>
    have ih := ih (Nat.le_of_succ_le hk)
    simp only [List.range_succ, List.foldl_append, List.foldl_cons, List.foldl_nil] at ih ⊢
    obtain ⟨h1, h2, h3, h4, h5, h6⟩ := ih
    obtain ⟨g1, g2, g3, g4, g5, g6, g7⟩ :=
      gam_step_facts m vb iter_chunk A D_corr hyps (rr_k_gam vb iter_chunk vp)
        ((List.range k).foldl
          (_internal_updateAlphaMu_gam_step m vb iter_chunk A D_corr hyps
            (rr_k_gam vb iter_chunk vp)) (vp, rr0)) k
    have hkk : k < iter_chunk.length := Nat.lt_of_succ_le hk
    have hold := h5 (iter_chunk.getD k 0 % vb.n_var) (fun ii hii => hdist ii k hii hkk)
    refine ⟨g1.trans h1, g2.trans h2, g3.trans h3, fun j => (g4 j).trans (h4 j), ?_, ?_⟩
    · intro j hj
      rw [g5 j (fun h => hj k (Nat.lt_succ_self k) h.symm)]
      exact h5 j (fun ii hii => hj ii (Nat.lt_succ_of_lt hii))
    · intro i
      rw [sum_mul_of_eq_off vb.n_var (fun j => vb.X i j) _ _ (iter_chunk.getD k 0 % vb.n_var)
        (Nat.mod_lt _ hn) g5, h6 i, Finset.sum_range_succ, g7, rr_k_gam_eq, hold]
      have : ∑ ii ∈ range k, vb.X i (iter_chunk.getD ii 0 % vb.n_var)
            * (_internal_updateAlphaMu_gam_step m vb iter_chunk A D_corr hyps
                (rr_k_gam vb iter_chunk vp)
                ((List.range k).foldl
                  (_internal_updateAlphaMu_gam_step m vb iter_chunk A D_corr hyps
                    (rr_k_gam vb iter_chunk vp)) (vp, rr0))
                k).2 ii
          = ∑ ii ∈ range k, vb.X i (iter_chunk.getD ii 0 % vb.n_var)
            * ((List.range k).foldl
                (_internal_updateAlphaMu_gam_step m vb iter_chunk A D_corr hyps
                  (rr_k_gam vb iter_chunk vp)) (vp, rr0)).2 ii :=
        Finset.sum_congr rfl (fun ii hii => by
          rw [g6 ii (Nat.ne_of_lt (mem_range.mp hii))])
      rw [this]; ring

/-! ### Chunks -/

theorem chunk_distinct (n : Nat) (chunk : List Nat)
    (hnd : (chunk.map (fun k => k % n)).Nodup) (a b : Nat) (hab : a < b)
    (hb : b < chunk.length) : chunk.getD a 0 % n ≠ chunk.getD b 0 % n := by
  intro h
  have ha : a < chunk.length := Nat.lt_trans hab hb
  have ha2 : a < (chunk.map (fun k => k % n)).length := by simpa using ha
  have hb2 : b < (chunk.map (fun k => k % n)).length := by simpa using hb
  have e : (chunk.map (fun k => k % n))[a] = (chunk.map (fun k => k % n))[b] := by
    simp only [List.getElem_map]
    rw [List.getD_eq_getElem _ _ ha, List.getD_eq_getElem _ _ hb] at h
    exact h
  have := (List.Nodup.getElem_inj_iff hnd).mp e
  omega

theorem chunk_beta_lt (vb : VBayesX2 F) (chunk : List Nat) (hn : 0 < vb.n_var)
    (hw : chunkWellFormed vb chunk) (hee : chunk.getD 0 0 / vb.n_var = 0) (ii : Nat)
    (hii : ii < chunk.length) : chunk.getD ii 0 < vb.n_var := by
  have hmem : chunk.getD ii 0 ∈ chunk := by
    rw [List.getD_eq_getElem _ _ hii]; exact List.getElem_mem _
  have := hw.1 _ hmem
  rw [hee] at this
  exact (Nat.div_eq_zero_iff hn).mp this

end
section
variable {F : Type} [Field F]

theorem ym_patch_inv (vb : VBayesX2 F) (vp w : VariationalParameters F) (rr : Nat → F)
    (chunk : List Nat)
    (hlt : ∀ ii, ii < chunk.length → chunk.getD ii 0 < vb.n_var)
    (e_ym : w.ym = vp.ym) (e_muc : w.muc = vp.muc)
    (e_sum : ∀ i, ∑ j ∈ range vb.n_var, vb.X i j * Eq_beta vb w j
        = (∑ j ∈ range vb.n_var, vb.X i j * Eq_beta vb vp j)
          + ∑ ii ∈ range chunk.length, vb.X i (chunk.getD ii 0) * rr ii)
    (h : ymInvariant vb vp) :
    ymInvariant vb
      { w with
        ym := fun i => w.ym i + ∑ ii ∈ range chunk.length, col_block3 vb chunk i ii * rr ii } := by
  intro i hi
  have h0 := h i hi
  show w.ym i + ∑ ii ∈ range chunk.length, col_block3 vb chunk i ii * rr ii
    = (∑ j ∈ range vb.n_var, vb.X i j * Eq_beta vb w j)
      + (if vb.p.use_vb_on_covars = true then ∑ k ∈ range vb.n_covar, vb.C i k * w.muc k
         else 0)
  rw [e_sum i, e_ym, e_muc, h0]
  have : ∑ ii ∈ range chunk.length, col_block3 vb chunk i ii * rr ii
      = ∑ ii ∈ range chunk.length, vb.X i (chunk.getD ii 0) * rr ii :=
    Finset.sum_congr rfl (fun ii hii => by
      simp only [col_block3]
      rw [Nat.mod_eq_of_lt (hlt ii (mem_range.mp hii))])
  rw [this]; ring

theorem yx_patch_inv (vb : VBayesX2 F) (vp w : VariationalParameters F) (rr : Nat → F)
    (chunk : List Nat)
    (e_yx : w.yx = vp.yx)
    (e_sum : ∀ i, ∑ j ∈ range vb.n_var, vb.X i j * Eq_gam vb w j
        = (∑ j ∈ range vb.n_var, vb.X i j * Eq_gam vb vp j)
          + ∑ ii ∈ range chunk.length, vb.X i (chunk.getD ii 0 % vb.n_var) * rr ii)
    (h : yxInvariant vb vp) :
    yxInvariant vb
      { w with
        yx := fun i => w.yx i + ∑ ii ∈ range chunk.length, col_block3 vb chunk i ii * rr ii } := by
  intro i hi
  have h0 := h i hi
  show w.yx i + ∑ ii ∈ range chunk.length, col_block3 vb chunk i ii * rr ii
    = ∑ j ∈ range vb.n_var, vb.X i j * Eq_gam vb w j
  rw [e_sum i, e_yx, h0]
  rfl

theorem yx_keep_inv (vb : VBayesX2 F) (vp w : VariationalParameters F) (g : Nat → F)
    (e_yx : w.yx = vp.yx) (e_eq : ∀ j, Eq_gam vb w j = Eq_gam vb vp j)
    (h : yxInvariant vb vp) : yxInvariant vb { w with ym := g } := by
  intro i hi
  have h0 := h i hi
  show w.yx i = ∑ j ∈ range vb.n_var, vb.X i j * Eq_gam vb w j
  rw [e_yx, h0]
  exact Finset.sum_congr rfl (fun j _ => by rw [e_eq j])

theorem ym_keep_inv (vb : VBayesX2 F) (vp w : VariationalParameters F) (g : Nat → F)
    (e_ym : w.ym = vp.ym) (e_muc : w.muc = vp.muc)
    (e_eq : ∀ j, Eq_beta vb w j = Eq_beta vb vp j)
    (h : ymInvariant vb vp) : ymInvariant vb { w with yx := g } := by
  intro i hi
  have h0 := h i hi
  show w.ym i = (∑ j ∈ range vb.n_var, vb.X i j * Eq_beta vb w j)
      + (if vb.p.use_vb_on_covars = true then ∑ k ∈ range vb.n_covar, vb.C i k * w.muc k
         else 0)
  rw [e_ym, e_muc, h0]
  congr 1
  exact Finset.sum_congr rfl (fun j _ => by rw [e_eq j])

theorem updateAlphaMuChunk_beta_inv (m : MathFns F) (vb : VBayesX2 F) (chunk : List Nat)
    (hn : 0 < vb.n_var) (hw : chunkWellFormed vb chunk)
    (hee : chunk.getD 0 0 / vb.n_var = 0)
    (hv : Hyps F × VariationalParameters F)
    (h : ymInvariant vb hv.2 ∧ yxInvariant vb hv.2) :
    ymInvariant vb (updateAlphaMuChunk m vb chunk hv).2
    ∧ yxInvariant vb (updateAlphaMuChunk m vb chunk hv).2 := by
  have hlt := chunk_beta_lt vb chunk hn hw hee
  obtain ⟨f1, f2, f3, f4, f5⟩ := beta_fold_facts m vb chunk
    (computeGeneResidualCorrelation vb (col_block3 vb chunk) (chunk.getD 0 0 / vb.n_var) hv.2)
    (fun a b => ∑ i ∈ range vb.n_samples, col_block3 vb chunk i a * col_block3 vb chunk i b)
    hv.1 hv.2 (fun _ => 0) hlt chunk.length (Nat.le_refl _)
  unfold updateAlphaMuChunk adjustParams _internal_updateAlphaMu_beta
  simp only [if_pos hee]
  exact ⟨ym_patch_inv vb hv.2 _ _ chunk hlt f1 f3 f5 h.1,
    yx_keep_inv vb hv.2 _ _ f2 f4 h.2⟩

theorem updateAlphaMuChunk_gam_inv (m : MathFns F) (vb : VBayesX2 F) (chunk : List Nat)
    (hn : 0 < vb.n_var) (hw : chunkWellFormed vb chunk)
    (hee : ¬ chunk.getD 0 0 / vb.n_var = 0)
    (hv : Hyps F × VariationalParameters F)
    (h : ymInvariant vb hv.2 ∧ yxInvariant vb hv.2) :
    ymInvariant vb (updateAlphaMuChunk m vb chunk hv).2
    ∧ yxInvariant vb (updateAlphaMuChunk m vb chunk hv).2 := by
  have hdist := chunk_distinct vb.n_var chunk hw.2
  obtain ⟨f1, f2, f3, f4, _, f6⟩ := gam_fold_facts m vb chunk
    (computeGeneResidualCorrelation vb (col_block3 vb chunk) (chunk.getD 0 0 / vb.n_var) hv.2)
    (if 1 < vb.p.gxe_chunk_size then
      fun a b => ∑ i ∈ range vb.n_samples,
        col_block3 vb chunk i a * hv.2.eta_sq i * col_block3 vb chunk i b
     else fun _ _ => 0)
    hv.1 hv.2 (fun _ => 0) hn hdist chunk.length (Nat.le_refl _)
  unfold updateAlphaMuChunk adjustParams _internal_updateAlphaMu_gam
  simp only [if_neg hee]
  exact ⟨ym_keep_inv vb hv.2 _ _ f1 f3 f4 h.1,
    yx_patch_inv vb hv.2 _ _ chunk f2 f6 h.2⟩

theorem updateAlphaMuChunk_inv (m : MathFns F) (vb : VBayesX2 F) (chunk : List Nat)
    (hn : 0 < vb.n_var) (hw : chunkWellFormed vb chunk)
    (hv : Hyps F × VariationalParameters F)
    (h : ymInvariant vb hv.2 ∧ yxInvariant vb hv.2) :
    ymInvariant vb (updateAlphaMuChunk m vb chunk hv).2
    ∧ yxInvariant vb (updateAlphaMuChunk m vb chunk hv).2 := by
  by_cases hee : chunk.getD 0 0 / vb.n_var = 0
  · exact updateAlphaMuChunk_beta_inv m vb chunk hn hw hee hv h
  · exact updateAlphaMuChunk_gam_inv m vb chunk hn hw hee hv h

theorem calcVarqBeta_inv (vb : VBayesX2 F) (vp : VariationalParameters F)
    (h : ymInvariant vb vp ∧ yxInvariant vb vp) :
    ymInvariant vb (calcVarqBeta vb vp) ∧ yxInvariant vb (calcVarqBeta vb vp) := by
  have e : (calcVarqBeta vb vp).ym = vp.ym ∧ (calcVarqBeta vb vp).yx = vp.yx
      ∧ (calcVarqBeta vb vp).muc = vp.muc
      ∧ (∀ j, Eq_beta vb (calcVarqBeta vb vp) j = Eq_beta vb vp j)
      ∧ (∀ j, Eq_gam vb (calcVarqBeta vb vp) j = Eq_gam vb vp j) := by
    unfold calcVarqBeta Eq_beta Eq_gam
    by_cases he : 1 < vb.n_effects <;> simp [he]
  obtain ⟨e1, e2, e3, e4, e5⟩ := e
  constructor
  · intro i hi
    have h0 := h.1 i hi
    simp only [e1, e3, e4, h0]
  · intro i hi
    have h0 := h.2 i hi
    simp only [e2, e5, h0]

theorem updateAlphaMu_foldl_inv (m : MathFns F) (vb : VBayesX2 F)
    (iter_chunks : List (List Nat)) (hn : 0 < vb.n_var)
    (hw : ∀ chunk ∈ iter_chunks, chunkWellFormed vb chunk)
    (grid : Nat → Hyps F × VariationalParameters F) (nn : Nat)
    (h : ymInvariant vb (grid nn).2 ∧ yxInvariant vb (grid nn).2) :
    ymInvariant vb ((iter_chunks.foldl
        (fun g chunk => fun nn => updateAlphaMuChunk m vb chunk (g nn)) grid) nn).2
    ∧ yxInvariant vb ((iter_chunks.foldl
        (fun g chunk => fun nn => updateAlphaMuChunk m vb chunk (g nn)) grid) nn).2 := by
  induction iter_chunks generalizing grid with
  | nil => exact h
  | cons chunk rest ih =>
    simp only [List.foldl_cons]
    exact ih (fun c hc => hw c (List.mem_cons_of_mem _ hc)) _
      (updateAlphaMuChunk_inv m vb chunk hn (hw chunk (List.mem_cons_self _ _)) _ h)

theorem updateAlphaMu_inv (m : MathFns F) (vb : VBayesX2 F)
    (iter_chunks : List (List Nat)) (hn : 0 < vb.n_var)
    (hw : ∀ chunk ∈ iter_chunks, chunkWellFormed vb chunk)
    (grid : Nat → Hyps F × VariationalParameters F) (nn : Nat)
    (h : ymInvariant vb (grid nn).2 ∧ yxInvariant vb (grid nn).2) :
    ymInvariant vb (updateAlphaMu m vb iter_chunks grid nn).2
    ∧ yxInvariant vb (updateAlphaMu m vb iter_chunks grid nn).2 := by
  simp only [updateAlphaMu]
  exact calcVarqBeta_inv vb _ (updateAlphaMu_foldl_inv m vb iter_chunks hn hw grid nn h)

end
/-! ### Claims on the variational updates -/

section ClaimsA

variable {F : Type} [Field F]

/-- C9 (as amended). `maximiseHyps` sets `σ = calcExpLinear/N` when the covariates are not
in the VB and `σ = (calcExpLinear + Σ(s_c² + μ_c²)/σ_c)/(N + K)` when they are; for the main
effects, and for the interaction effects when `n_effects > 1`, it sets `λ = Σα/P`,
`slab_var = Σα·(s₁² + μ₁²)/Σα`, `slab_relative_var = slab_var/σ` with the new `σ`, and
under mog `spike_var = Σ(1−α)·(s₂² + μ₂²)/(P − Σα)`. -/
theorem maximiseHyps_closed_forms (vb : VBayesX2 F) (hyps : Hyps F)
    (vp : VariationalParameters F) :
    (maximiseHyps vb hyps vp).sigma = maximiseHyps_sigma_spec vb hyps vp
    ∧ maximisedEffect vb 0 vb.p.mode_mog_prior_beta
        vp.alpha_beta vp.mu1_beta vp.s1_beta_sq vp.mu2_beta vp.s2_beta_sq
        (maximiseHyps vb hyps vp).sigma (maximiseHyps vb hyps vp)
    ∧ (1 < vb.n_effects →
        maximisedEffect vb 1 vb.p.mode_mog_prior_gam
          vp.alpha_gam vp.mu1_gam vp.s1_gam_sq vp.mu2_gam vp.s2_gam_sq
          (maximiseHyps vb hyps vp).sigma (maximiseHyps vb hyps vp)) :=
  maximiseHyps_closed_forms_aux vb hyps vp

/-- C9, the claim as stated fails: on the example, whose covariates are in the VB,
`maximiseHyps` does not set `σ` to `calcExpLinear/(N + K)`. -/
theorem maximiseHyps_sigma_covars_counterexample :
    (exA_vb ℚ).p.use_vb_on_covars = true
    ∧ (maximiseHyps (exA_vb ℚ) (exA_hyps ℚ) (exA_vp ℚ)).sigma
      ≠ calcExpLinear (exA_vb ℚ) (exA_hyps ℚ) (exA_vp ℚ)
          / ((exA_vb ℚ).N + ((exA_vb ℚ).n_covar : ℚ)) :=
  exA_sigma_ne

theorem exA_ymInvariant : ymInvariant (exA_vb ℚ) (exA_vp ℚ) := by
  intro i hi
  have hi3 : i < 3 := hi
  interval_cases i <;>
    simp [exA_vb, exA_vp, exA_p, Eq_beta, Finset.sum_range_succ] <;> norm_num

theorem exA_yxInvariant : yxInvariant (exA_vb ℚ) (exA_vp ℚ) := by
  intro i hi
  have hi3 : i < 3 := hi
  interval_cases i <;>
    simp [exA_vb, exA_vp, exA_p, Eq_gam, Finset.sum_range_succ]

theorem exA_etaInvariant : etaInvariant (exA_vb ℚ) (exA_vp ℚ) := by
  intro i hi
  have hi3 : i < 3 := hi
  interval_cases i <;>
    simp [exA_vb, exA_vp, Finset.sum_range_succ]

theorem exA_fwd_pass_chunks : fwd_pass_chunks (exA_vb ℚ) = [[0, 1], [2, 3]] := by
  decide

theorem exA_back_pass_chunks : back_pass_chunks (exA_vb ℚ) = [[3, 2], [1, 0]] := by
  decide

theorem exA_chunks_wellFormed :
    ∀ chunk ∈ fwd_pass_chunks (exA_vb ℚ) ++ back_pass_chunks (exA_vb ℚ),
      chunkWellFormed (exA_vb ℚ) chunk := by
  rw [exA_fwd_pass_chunks, exA_back_pass_chunks]
  intro chunk hc
  simp only [List.cons_append, List.nil_append, List.mem_cons, List.mem_singleton,
    List.not_mem_nil, or_false] at hc
  rcases hc with rfl | rfl | rfl | rfl <;>
    (unfold chunkWellFormed; simp [exA_vb])

/-- C10, on the example (two environments). -/
theorem calcExpLinear_closed_form_witness :
    (1 < (exA_vb ℚ).n_env
      ∨ ∀ i, i < (exA_vb ℚ).n_samples → (exA_vp ℚ).eta_sq i = (exA_vp ℚ).eta i * (exA_vp ℚ).eta i)
    ∧ calcExpLinear (exA_vb ℚ) (exA_hyps ℚ) (exA_vp ℚ) = calcExpLinear_spec (exA_vb ℚ) (exA_vp ℚ) :=
  ⟨Or.inl (by decide),
    calcExpLinear_closed_form (exA_vb ℚ) (exA_hyps ℚ) (exA_vp ℚ) (Or.inl (by decide))⟩

/-- C3. If `η = E·μ_w` holds before `updateEnvWeights`, then for every pass order over the
environment indices it holds after, and on return `eta_sq = η⊙η + (E⊙E)·s_w²`. -/
theorem updateEnvWeights_invariant (vb : VBayesX2 F) (iter : List Nat)
    (hv : Hyps F × VariationalParameters F)
    (hiter : ∀ ll ∈ iter, ll < vb.n_env) (h : etaInvariant vb hv.2) :
    etaInvariant vb (updateEnvWeights vb iter hv).2
    ∧ ∀ i, (updateEnvWeights vb iter hv).2.eta_sq i
        = (updateEnvWeights vb iter hv).2.eta i * (updateEnvWeights vb iter hv).2.eta i
          + ∑ l ∈ range vb.n_env, (vb.E i l * vb.E i l)
            * (updateEnvWeights vb iter hv).2.sw_sq l :=
  updateEnvWeights_invariant_aux vb iter hv hiter h

/-- C3, on the example with the backward pass order. -/
theorem updateEnvWeights_invariant_witness :
    (∀ ll ∈ env_back_pass (exA_vb ℚ), ll < (exA_vb ℚ).n_env)
    ∧ etaInvariant (exA_vb ℚ) (exA_hyps ℚ, exA_vp ℚ).2
    ∧ (etaInvariant (exA_vb ℚ)
        (updateEnvWeights (exA_vb ℚ) (env_back_pass (exA_vb ℚ)) (exA_hyps ℚ, exA_vp ℚ)).2
      ∧ ∀ i, (updateEnvWeights (exA_vb ℚ) (env_back_pass (exA_vb ℚ))
            (exA_hyps ℚ, exA_vp ℚ)).2.eta_sq i
          = (updateEnvWeights (exA_vb ℚ) (env_back_pass (exA_vb ℚ))
              (exA_hyps ℚ, exA_vp ℚ)).2.eta i
            * (updateEnvWeights (exA_vb ℚ) (env_back_pass (exA_vb ℚ))
              (exA_hyps ℚ, exA_vp ℚ)).2.eta i
            + ∑ l ∈ range (exA_vb ℚ).n_env, ((exA_vb ℚ).E i l * (exA_vb ℚ).E i l)
              * (updateEnvWeights (exA_vb ℚ) (env_back_pass (exA_vb ℚ))
                (exA_hyps ℚ, exA_vp ℚ)).2.sw_sq l) :=
  ⟨by decide, exA_etaInvariant,
    updateEnvWeights_invariant (exA_vb ℚ) (env_back_pass (exA_vb ℚ)) (exA_hyps ℚ, exA_vp ℚ)
      (by decide) exA_etaInvariant⟩

/-- C1. In a state in which `ym = X·E[β] + C·μ_c` (the `C·μ_c` term only with
`use_vb_on_covars`) and `yx = X·E[γ]` hold, both equalities hold again after
`updateCovarEffects` (which runs with `use_vb_on_covars`) and after `updateAlphaMu` over
any list of chunks, each chunk holding pass indices of one effect type with distinct
variant indices, in exact arithmetic. -/
theorem residual_bookkeeping_invariant (m : MathFns F) (vb : VBayesX2 F)
    (iter_chunks : List (List Nat))
    (grid : Nat → Hyps F × VariationalParameters F) (nn : Nat)
    (hn : 0 < vb.n_var)
    (hw : ∀ chunk ∈ iter_chunks, chunkWellFormed vb chunk)
    (h : ymInvariant vb (grid nn).2 ∧ yxInvariant vb (grid nn).2) :
    (vb.p.use_vb_on_covars = true →
      ymInvariant vb (updateCovarEffects vb (grid nn).2 (grid nn).1)
      ∧ yxInvariant vb (updateCovarEffects vb (grid nn).2 (grid nn).1))
    ∧ (ymInvariant vb (updateAlphaMu m vb iter_chunks grid nn).2
      ∧ yxInvariant vb (updateAlphaMu m vb iter_chunks grid nn).2) :=
  ⟨fun hcov => updateCovarEffects_inv vb (grid nn).1 (grid nn).2 hcov h,
    updateAlphaMu_inv m vb iter_chunks hn hw grid nn h⟩

/-- C1, on the example with the chunks of the forward and of the backward pass. -/
theorem residual_bookkeeping_invariant_witness :
    0 < (exA_vb ℚ).n_var
    ∧ (∀ chunk ∈ fwd_pass_chunks (exA_vb ℚ) ++ back_pass_chunks (exA_vb ℚ),
        chunkWellFormed (exA_vb ℚ) chunk)
    ∧ (ymInvariant (exA_vb ℚ) (exA_vp ℚ) ∧ yxInvariant (exA_vb ℚ) (exA_vp ℚ))
    ∧ ((exA_vb ℚ).p.use_vb_on_covars = true →
        ymInvariant (exA_vb ℚ) (updateCovarEffects (exA_vb ℚ) (exA_vp ℚ) (exA_hyps ℚ))
        ∧ yxInvariant (exA_vb ℚ) (updateCovarEffects (exA_vb ℚ) (exA_vp ℚ) (exA_hyps ℚ)))
    ∧ (ymInvariant (exA_vb ℚ)
        (updateAlphaMu ⟨fun _ => 0, fun _ => 1⟩ (exA_vb ℚ)
          (fwd_pass_chunks (exA_vb ℚ) ++ back_pass_chunks (exA_vb ℚ))
          (fun _ => (exA_hyps ℚ, exA_vp ℚ)) 0).2
      ∧ yxInvariant (exA_vb ℚ)
        (updateAlphaMu ⟨fun _ => 0, fun _ => 1⟩ (exA_vb ℚ)
          (fwd_pass_chunks (exA_vb ℚ) ++ back_pass_chunks (exA_vb ℚ))
          (fun _ => (exA_hyps ℚ, exA_vp ℚ)) 0).2) :=
  ⟨by decide, exA_chunks_wellFormed, ⟨exA_ymInvariant, exA_yxInvariant⟩,
    (residual_bookkeeping_invariant ⟨fun _ => 0, fun _ => 1⟩ (exA_vb ℚ)
      (fwd_pass_chunks (exA_vb ℚ) ++ back_pass_chunks (exA_vb ℚ))
      (fun _ => (exA_hyps ℚ, exA_vp ℚ)) 0 (by decide) exA_chunks_wellFormed
      ⟨exA_ymInvariant, exA_yxInvariant⟩).1,
    (residual_bookkeeping_invariant ⟨fun _ => 0, fun _ => 1⟩ (exA_vb ℚ)
      (fwd_pass_chunks (exA_vb ℚ) ++ back_pass_chunks (exA_vb ℚ))
      (fun _ => (exA_hyps ℚ, exA_vp ℚ)) 0 (by decide) exA_chunks_wellFormed
      ⟨exA_ymInvariant, exA_yxInvariant⟩).2⟩

end ClaimsA
/-! ### The trace estimator -/

section PVELemmas

variable {F : Type} [Field F]

theorem sum_range_eq_list_sum (n : Nat) (f : Nat → F) :
    ∑ k ∈ range n, f k = ((List.range n).map f).sum := by
  induction n with
  | zero => simp
  | succ n ih => rw [Finset.sum_range_succ, ih, List.range_succ]; simp

theorem blockSum_nil (b : Nat) (g : (Nat → F) → F) :
    blockSum ([] : List (TraceChunk F)) b g = 0 := by
  simp [blockSum, cols_of]

theorem blockSum_cons (ch : TraceChunk F) (rest : List (TraceChunk F)) (b : Nat)
    (g : (Nat → F) → F) :
    blockSum (ch :: rest) b g
      = (if b = ch.jacknife_index then ∑ col ∈ range ch.cols, g (fun i => ch.D i col) else 0)
        + blockSum rest b g := by
  unfold blockSum cols_of
  simp only [List.flatMap_cons, List.filter_append, List.map_append, List.sum_append]
  congr 1
  by_cases hb : b = ch.jacknife_index
  · subst hb
    simp only [if_true]
    rw [List.filter_eq_self.mpr (by simp), sum_range_eq_list_sum]
    simp only [List.map_map]
    rfl
  · simp only [hb, if_false]
    rw [List.filter_eq_nil_iff.mpr (by
      intro a ha
      simp only [List.mem_map, List.mem_range] at ha
      obtain ⟨_, _, rfl⟩ := ha
      simpa using fun h => hb h.symm)]
    simp

theorem addedTo_nil (c : PVE_Component F) : addedTo c [] = c := by
  simp [addedTo, blockSum_nil]

theorem add_to_trace_estimator_inactive (c : PVE_Component F) (h : c.is_active = false)
    (X : Nat → Nat → F) (cols j : Nat) : c.add_to_trace_estimator X cols j = c := by
  simp [PVE_Component.add_to_trace_estimator, h]

theorem add_to_trace_estimator_active (c : PVE_Component F) (h : c.is_active = true)
    (ch : TraceChunk F) (rest : List (TraceChunk F)) :
    addedTo (c.add_to_trace_estimator ch.D ch.cols ch.jacknife_index) rest
      = addedTo c (ch :: rest) := by
  by_cases hk : 0 < c.n_covar
  · simp only [PVE_Component.add_to_trace_estimator, addedTo, h, hk, if_true, blockSum_cons]
    congr 1
    all_goals
      first
        | (funext b i d
           by_cases hb : b = ch.jacknife_index
           · subst hb
             simp only [Function.update_same, if_true, col_XXtz]; ring
           · simp only [Function.update_noteq hb, hb, if_false]; ring)
        | (funext b
           by_cases hb : b = ch.jacknife_index
           · subst hb
             simp only [Function.update_same, if_true, col_ytXXty, Finset.sum_const,
               Finset.card_range, nsmul_eq_mul, mul_one]; ring
           · simp only [Function.update_noteq hb, hb, if_false]; ring)
  · simp only [PVE_Component.add_to_trace_estimator, addedTo, h, hk, if_true, if_false,
      blockSum_cons]
    congr 1
    all_goals
      first
        | (funext b i d
           by_cases hb : b = ch.jacknife_index
           · subst hb
             simp only [Function.update_same, if_true, col_XXtz]; ring
           · simp only [Function.update_noteq hb, hb, if_false]; ring)
        | (funext b
           by_cases hb : b = ch.jacknife_index
           · subst hb
             simp only [Function.update_same, if_true, col_ytXXty, Finset.sum_const,
               Finset.card_range, nsmul_eq_mul, mul_one]; ring
           · simp only [Function.update_noteq hb, hb, if_false]; ring)

theorem add_to_trace_estimator_is_active (c : PVE_Component F) (X : Nat → Nat → F)
    (cols j : Nat) : (c.add_to_trace_estimator X cols j).is_active = c.is_active := by
  cases hc : c.is_active
  · simp [PVE_Component.add_to_trace_estimator, hc]
  · simp only [PVE_Component.add_to_trace_estimator, hc, if_true]
    split_ifs <;> rfl

/-- Adding a list of chunks to an active component: the closed form. -/
theorem foldl_add_active (chunks : List (TraceChunk F)) (c : PVE_Component F)
    (h : c.is_active = true) :
    chunks.foldl (fun c ch => c.add_to_trace_estimator ch.D ch.cols ch.jacknife_index) c
      = addedTo c chunks := by
  induction chunks generalizing c with
  | nil => simp [addedTo_nil]
  | cons ch rest ih =>
    simp only [List.foldl_cons]
    rw [ih _ (by rw [add_to_trace_estimator_is_active]; exact h)]
    exact add_to_trace_estimator_active c h ch rest

/-- Adding chunks to an inactive component changes nothing. -/
theorem foldl_add_inactive (chunks : List (TraceChunk F)) (c : PVE_Component F)
    (h : c.is_active = false) :
    chunks.foldl (fun c ch => c.add_to_trace_estimator ch.D ch.cols ch.jacknife_index) c
      = c := by
  induction chunks generalizing c with
  | nil => rfl
  | cons ch rest ih =>
    simp only [List.foldl_cons]
    rw [add_to_trace_estimator_inactive c h]
    exact ih c h

/-- Summing over the blocks the columns counted in each block gives the sum over all
columns, when every block index is in range. -/
theorem sum_blockSum (J : Nat) (chunks : List (TraceChunk F))
    (hidx : ∀ ch ∈ chunks, ch.jacknife_index < J) (g : (Nat → F) → F) :
    ∑ b ∈ range J, blockSum chunks b g = ((cols_of chunks).map (fun xb => g xb.1)).sum := by
  induction chunks with
  | nil => simp [blockSum_nil, cols_of]
  | cons ch rest ih =>
    have hj : ch.jacknife_index ∈ range J := mem_range.mpr (hidx ch (List.mem_cons_self _ _))
    simp only [blockSum_cons, Finset.sum_add_distrib]
    rw [ih (fun c hc => hidx c (List.mem_cons_of_mem _ hc)), Finset.sum_ite_eq' _ _ _]
    simp only [hj, if_true]
    unfold cols_of
    simp only [List.flatMap_cons, List.map_append, List.sum_append, List.map_map]
    congr 1

end PVELemmas
/-! ### Jackknife deletion and the GxE component -/

section PVEClaims

variable {F : Type} [Field F]

theorem finalise_active_facts (c : PVE_Component F) (hact : c.is_active = true) :
    (∀ i d, c.finalise._XXtz i d = ∑ b ∈ range c.n_jacknife_local, c.finalise._XXtzs b i d)
    ∧ (∀ i d, c.finalise._XXtWz i d
        = ∑ b ∈ range c.n_jacknife_local, c.finalise._XXtWzs b i d)
    ∧ c.finalise.n_var_local = ∑ b ∈ range c.n_jacknife_local, c.finalise.n_vars_local b
    ∧ c.finalise.ytXXty = ∑ b ∈ range c.n_jacknife_local, c.finalise.ytXXtys b
    ∧ c.finalise.n_jacknife_local = c.n_jacknife_local := by
  by_cases he : 0 < c.n_env <;>
    simp [PVE_Component.finalise, hact, he]

theorem sum_erase_of_total (J j : Nat) (hj : j < J) (f : Nat → F) (t : F)
    (ht : t = ∑ b ∈ range J, f b) : t - f j = ∑ b ∈ (range J).erase j, f b := by
  rw [ht, ← Finset.add_sum_erase _ _ (mem_range.mpr hj)]; ring

theorem jackknife_deletion_active (c : PVE_Component F) (hact : c.is_active = true)
    (j : Nat) (hj : j < c.n_jacknife_local) :
    (∀ i d, (c.finalise.remove (j : Int)).getXXtz i d
        = ∑ b ∈ (range c.n_jacknife_local).erase j, c.finalise._XXtzs b i d)
    ∧ (∀ i d, (c.finalise.remove (j : Int)).getXXtWz i d
        = ∑ b ∈ (range c.n_jacknife_local).erase j, c.finalise._XXtWzs b i d)
    ∧ (c.finalise.remove (j : Int)).get_n_var_local
        = ∑ b ∈ (range c.n_jacknife_local).erase j, c.finalise.n_vars_local b
    ∧ (c.finalise.remove (j : Int)).get_bb_trace
        = (∑ b ∈ (range c.n_jacknife_local).erase j, c.finalise.ytXXtys b)
          / (c.finalise.remove (j : Int)).get_n_var_local
    ∧ (∀ i d, (c.finalise.remove (-1)).getXXtz i d - (c.finalise.remove (j : Int)).getXXtz i d
        = c.finalise._XXtzs j i d)
    ∧ (∀ i d, (c.finalise.remove (-1)).getXXtWz i d
          - (c.finalise.remove (j : Int)).getXXtWz i d
        = c.finalise._XXtWzs j i d)
    ∧ (c.finalise.remove (-1)).get_n_var_local - (c.finalise.remove (j : Int)).get_n_var_local
        = c.finalise.n_vars_local j
    ∧ (c.finalise.remove (-1)).get_bb_trace
        = c.finalise.ytXXty / (c.finalise.remove (-1)).get_n_var_local
    ∧ c.finalise.ytXXty - ∑ b ∈ (range c.n_jacknife_local).erase j, c.finalise.ytXXtys b
        = c.finalise.ytXXtys j := by
  obtain ⟨h1, h2, h3, h4, _⟩ := finalise_active_facts c hact
  have hpos : (0 : Int) ≤ (j : Int) := Int.natCast_nonneg j
  have hneg : ¬ (0 : Int) ≤ -1 := by decide
  refine ⟨?_, ?_, ?_, ?_, ?_, ?_, ?_, ?_, ?_⟩
  · intro i d
    simp only [PVE_Component.getXXtz, PVE_Component.remove, hpos, if_true, Int.toNat_natCast]
    exact sum_erase_of_total _ j hj (fun b => c.finalise._XXtzs b i d) _ (h1 i d)
  · intro i d
    simp only [PVE_Component.getXXtWz, PVE_Component.remove, hpos, if_true, Int.toNat_natCast]
    exact sum_erase_of_total _ j hj (fun b => c.finalise._XXtWzs b i d) _ (h2 i d)
  · simp only [PVE_Component.get_n_var_local, PVE_Component.remove, hpos, if_true,
      Int.toNat_natCast]
    exact sum_erase_of_total _ j hj (fun b => c.finalise.n_vars_local b) _ h3
  · simp only [PVE_Component.get_bb_trace, PVE_Component.remove, hpos, if_true,
      Int.toNat_natCast]
    rw [sum_erase_of_total _ j hj (fun b => c.finalise.ytXXtys b) _ h4]
  · intro i d
    simp only [PVE_Component.getXXtz, PVE_Component.remove, hpos, hneg, if_true, if_false,
      Int.toNat_natCast]
    ring
  · intro i d
    simp only [PVE_Component.getXXtWz, PVE_Component.remove, hpos, hneg, if_true, if_false,
      Int.toNat_natCast]
    ring
  · simp only [PVE_Component.get_n_var_local, PVE_Component.remove, hpos, hneg, if_true,
      if_false, Int.toNat_natCast]
    ring
  · simp only [PVE_Component.get_bb_trace, PVE_Component.remove, hneg, if_false]
  · rw [← sum_erase_of_total _ j hj (fun b => c.finalise.ytXXtys b) _ h4]
    ring

/-- The noise component of `initialise_components`, after any chunks and `finalise`:
removing a jackknife block changes nothing. -/
theorem jackknife_deletion_noise (n_samples n_draws n_covar J : Nat) (Y : Nat → F)
    (zz Wzz C CtC_inv : Nat → Nat → F) (chunks : List (TraceChunk F)) (j : Nat) :
    let noise : PVE_Component F :=
      PVE_Component.finalise
        (chunks.foldl (fun c ch => c.add_to_trace_estimator ch.D ch.cols ch.jacknife_index)
          (PVE_Component.set_inactive
            (PVE_Component.new n_samples n_draws n_covar Y zz Wzz C CtC_inv J)))
    (noise.remove (j : Int)).getXXtz = (noise.remove (-1)).getXXtz
    ∧ (noise.remove (j : Int)).getXXtWz = (noise.remove (-1)).getXXtWz
    ∧ (noise.remove (j : Int)).get_n_var_local = (noise.remove (-1)).get_n_var_local
    ∧ (noise.remove (j : Int)).get_bb_trace = (noise.remove (-1)).get_bb_trace := by
  have hin : (PVE_Component.set_inactive
      (PVE_Component.new n_samples n_draws n_covar Y zz Wzz C CtC_inv J)).is_active = false :=
    rfl
  have hpos : (0 : Int) ≤ (j : Int) := Int.natCast_nonneg j
  have hneg : ¬ (0 : Int) ≤ -1 := by decide
  simp only [foldl_add_inactive chunks _ hin]
  refine ⟨?_, ?_, ?_, ?_⟩ <;>
    simp [PVE_Component.finalise, PVE_Component.set_inactive, PVE_Component.new,
      PVE_Component.getXXtz, PVE_Component.getXXtWz, PVE_Component.get_n_var_local,
      PVE_Component.get_bb_trace, PVE_Component.remove, hpos, hneg]

end PVEClaims
/-! ### The GxE component and the two ingest branches -/

section PVEGxE

variable {F : Type} [Field F]

theorem cols_of_scaled (eta : Nat → F) (chunks : List (TraceChunk F)) :
    cols_of (chunks.map (fun ch => ch.scaled eta))
      = (cols_of chunks).map (fun xb => (fun i => eta i * xb.1 i, xb.2)) := by
  induction chunks with
  | nil => rfl
  | cons ch rest ih =>
    unfold cols_of at ih ⊢
    simp only [List.map_cons, List.flatMap_cons, List.map_append, ih, List.map_map]
    rfl

theorem gxe_component_aux (n_samples n_draws n_covar J : Nat) (Y eta : Nat → F)
    (zz Wzz C CtC_inv : Nat → Nat → F) (chunks : List (TraceChunk F))
    (hidx : ∀ ch ∈ chunks, ch.jacknife_index < J) :
    let c : PVE_Component F :=
      PVE_Component.finalise
        (chunks.foldl (fun c ch => c.add_to_trace_estimator ch.D ch.cols ch.jacknife_index)
          (PVE_Component.set_eta
            (PVE_Component.new n_samples n_draws n_covar Y zz Wzz C CtC_inv J) eta))
    (∀ i d, c._XXtz i d
        = sum_XXtz n_samples zz (chunks.map (fun ch => ch.scaled eta)) i d)
    ∧ (0 < n_covar → ∀ i d, c._XXtWz i d
        = sum_XXtz n_samples Wzz (chunks.map (fun ch => ch.scaled eta)) i d)
    ∧ c.ytXXty = sum_ytXXty n_samples Y (chunks.map (fun ch => ch.scaled eta)) := by
  have hact : (PVE_Component.set_eta
      (PVE_Component.new n_samples n_draws n_covar Y zz Wzz C CtC_inv J) eta).is_active = true :=
    rfl
  simp only [foldl_add_active chunks _ hact]
  refine ⟨?_, ?_, ?_⟩
  · intro i d
    simp only [PVE_Component.finalise, addedTo, PVE_Component.set_eta, PVE_Component.new,
      if_true, Nat.lt_one_iff, zero_add, Nat.zero_lt_one, sum_XXtz, cols_of_scaled,
      List.map_map]
    rw [← Finset.sum_mul, sum_blockSum J chunks hidx, ← List.sum_map_mul_right]
    congr 1
    apply List.map_congr_left
    intro xb _
    simp only [col_XXtz, Function.comp]
    rw [Finset.mul_sum, Finset.mul_sum, Finset.sum_mul]
    apply Finset.sum_congr rfl
    intro k _
    ring
  · intro hk i d
    simp only [PVE_Component.finalise, addedTo, PVE_Component.set_eta, PVE_Component.new,
      if_true, zero_add, Nat.zero_lt_one, sum_XXtz, cols_of_scaled, hk,
      List.map_map]
    rw [← Finset.sum_mul, sum_blockSum J chunks hidx, ← List.sum_map_mul_right]
    congr 1
    apply List.map_congr_left
    intro xb _
    simp only [col_XXtz, Function.comp]
    rw [Finset.mul_sum, Finset.mul_sum, Finset.sum_mul]
    apply Finset.sum_congr rfl
    intro k _
    ring
  · simp only [PVE_Component.finalise, addedTo, PVE_Component.set_eta, PVE_Component.new,
      if_true, zero_add, Nat.zero_lt_one, sum_ytXXty, cols_of_scaled, List.map_map]
    rw [sum_blockSum J chunks hidx]
    congr 1
    apply List.map_congr_left
    intro xb _
    simp only [col_ytXXty, Function.comp]
    have : ∑ k ∈ range n_samples, xb.1 k * (Y k * eta k)
        = ∑ k ∈ range n_samples, eta k * xb.1 k * Y k :=
      Finset.sum_congr rfl (fun k _ => by ring)
    rw [this]

end PVEGxE
/-! ### In-memory and streaming ingest -/

section PVEIngest

variable {F : Type} [Field F]

theorem foldl_add_congr (ch1 ch2 : List (TraceChunk F)) (h : cols_of ch1 = cols_of ch2)
    (c : PVE_Component F) :
    ch1.foldl (fun c ch => c.add_to_trace_estimator ch.D ch.cols ch.jacknife_index) c
      = ch2.foldl (fun c ch => c.add_to_trace_estimator ch.D ch.cols ch.jacknife_index) c := by
  cases hact : c.is_active
  · rw [foldl_add_inactive ch1 c hact, foldl_add_inactive ch2 c hact]
  · rw [foldl_add_active ch1 c hact, foldl_add_active ch2 c hact]
    simp only [addedTo, blockSum, h]

/-- The fields of a finalised component that the system with no block removed reads. -/
theorem finalise_totals (c : PVE_Component F) (chunks : List (TraceChunk F))
    (hidx : ∀ ch ∈ chunks, ch.jacknife_index < c.n_jacknife_local) (hact : c.is_active = true) :
    let f := PVE_Component.finalise
      (chunks.foldl (fun c ch => c.add_to_trace_estimator ch.D ch.cols ch.jacknife_index) c)
    (∀ i d, f._XXtz i d
        = ((∑ b ∈ range c.n_jacknife_local, c._XXtzs b i d)
            + (((cols_of chunks).map Prod.fst).map
                (fun x => col_XXtz c.n_samples c.zz x i d)).sum)
          * (if 0 < c.n_env then c.eta i else 1))
    ∧ (∀ i d, f._XXtWz i d
        = ((∑ b ∈ range c.n_jacknife_local, c._XXtWzs b i d)
            + (if 0 < c.n_covar then
                (((cols_of chunks).map Prod.fst).map
                  (fun x => col_XXtz c.n_samples c.Wzz x i d)).sum
               else 0))
          * (if 0 < c.n_env then c.eta i else 1))
    ∧ f.ytXXty
        = (∑ b ∈ range c.n_jacknife_local, c.ytXXtys b)
          + (((cols_of chunks).map Prod.fst).map (col_ytXXty c.n_samples c.Y)).sum
    ∧ f.n_var_local
        = (∑ b ∈ range c.n_jacknife_local, c.n_vars_local b)
          + (((cols_of chunks).map Prod.fst).map (fun _ => (1 : F))).sum
    ∧ f.label = c.label ∧ f.n_covar = c.n_covar ∧ f.n_samples = c.n_samples
    ∧ f.n_draws = c.n_draws ∧ f.C = c.C ∧ f.CtC_inv = c.CtC_inv := by
  simp only [foldl_add_active chunks c hact, List.map_map]
  have e1 : ∀ g : (Nat → F) → F,
      ((cols_of chunks).map (g ∘ Prod.fst)).sum = ∑ b ∈ range c.n_jacknife_local,
        blockSum chunks b g := fun g => (sum_blockSum _ chunks hidx g).symm
  by_cases he : 0 < c.n_env <;> by_cases hk : 0 < c.n_covar <;>
    simp [PVE_Component.finalise, addedTo, hact, he, hk, e1, Finset.sum_add_distrib,
      ← Finset.sum_mul]

theorem finalise_inactive (c : PVE_Component F) (chunks : List (TraceChunk F))
    (hact : c.is_active = false) :
    PVE_Component.finalise
      (chunks.foldl (fun c ch => c.add_to_trace_estimator ch.D ch.cols ch.jacknife_index) c)
      = c := by
  rw [foldl_add_inactive chunks c hact]
  simp [PVE_Component.finalise, hact]

/-- Two components that agree on the totals and on the fixed data give the same entries
of the system when no block is removed. -/
theorem mul_congr_full (c1 c2 d1 d2 : PVE_Component F)
    (hc : c1._XXtz = c2._XXtz ∧ c1._XXtWz = c2._XXtWz ∧ c1.ytXXty = c2.ytXXty
      ∧ c1.n_var_local = c2.n_var_local ∧ c1.label = c2.label ∧ c1.n_covar = c2.n_covar
      ∧ c1.n_samples = c2.n_samples ∧ c1.n_draws = c2.n_draws ∧ c1.C = c2.C
      ∧ c1.CtC_inv = c2.CtC_inv)
    (hd : d1._XXtz = d2._XXtz ∧ d1._XXtWz = d2._XXtWz ∧ d1.ytXXty = d2.ytXXty
      ∧ d1.n_var_local = d2.n_var_local ∧ d1.label = d2.label ∧ d1.n_covar = d2.n_covar
      ∧ d1.n_samples = d2.n_samples ∧ d1.n_draws = d2.n_draws ∧ d1.C = d2.C
      ∧ d1.CtC_inv = d2.CtC_inv) :
    (c1.remove (-1)).mul (d1.remove (-1)) = (c2.remove (-1)).mul (d2.remove (-1))
    ∧ (c1.remove (-1)).get_bb_trace = (c2.remove (-1)).get_bb_trace := by
  obtain ⟨a1, a2, a3, a4, a5, a6, a7, a8, a9, a10⟩ := hc
  obtain ⟨b1, b2, b3, b4, b5, b6, b7, b8, b9, b10⟩ := hd
  have hneg : ¬ (0 : Int) ≤ -1 := by decide
  simp only [PVE_Component.mul, PVE_Component.getXXtz, PVE_Component.getXXtWz,
    PVE_Component.get_n_var_local, PVE_Component.get_bb_trace, PVE_Component.remove, hneg,
    if_false, a1, a2, a3, a4, a5, a6, a7, a8, a9, a10, b1, b2, b3, b4, b5, b6, b7, b8, b9, b10,
    and_self]

end PVEIngest
/-! ### Claims on the trace estimator -/

section PVEFinal

variable {F : Type} [Field F]

theorem sameTotals (c : PVE_Component F) (ch1 ch2 : List (TraceChunk F))
    (hidx1 : ∀ ch ∈ ch1, ch.jacknife_index < c.n_jacknife_local)
    (hidx2 : ∀ ch ∈ ch2, ch.jacknife_index < c.n_jacknife_local)
    (hcols : (cols_of ch1).map Prod.fst = (cols_of ch2).map Prod.fst) :
    let f1 := PVE_Component.finalise
      (ch1.foldl (fun c ch => c.add_to_trace_estimator ch.D ch.cols ch.jacknife_index) c)
    let f2 := PVE_Component.finalise
      (ch2.foldl (fun c ch => c.add_to_trace_estimator ch.D ch.cols ch.jacknife_index) c)
    f1._XXtz = f2._XXtz ∧ f1._XXtWz = f2._XXtWz ∧ f1.ytXXty = f2.ytXXty
      ∧ f1.n_var_local = f2.n_var_local ∧ f1.label = f2.label ∧ f1.n_covar = f2.n_covar
      ∧ f1.n_samples = f2.n_samples ∧ f1.n_draws = f2.n_draws ∧ f1.C = f2.C
      ∧ f1.CtC_inv = f2.CtC_inv := by
  cases hact : c.is_active
  · simp only [finalise_inactive c ch1 hact, finalise_inactive c ch2 hact, and_self]
  · obtain ⟨a1, a2, a3, a4, a5, a6, a7, a8, a9, a10⟩ := finalise_totals c ch1 hidx1 hact
    obtain ⟨b1, b2, b3, b4, b5, b6, b7, b8, b9, b10⟩ := finalise_totals c ch2 hidx2 hact
    refine ⟨?_, ?_, ?_, ?_, ?_, ?_, ?_, ?_, ?_, ?_⟩
    · funext i d; rw [a1, b1, hcols]
    · funext i d; rw [a2, b2, hcols]
    · rw [a3, b3, hcols]
    · rw [a4, b4, hcols]
    · rw [a5, b5]
    · rw [a6, b6]
    · rw [a7, b7]
    · rw [a8, b8]
    · rw [a9, b9]
    · rw [a10, b10]

theorem calc_sigmas_v2_agree_aux (pve : PVE F) (s : List (StreamedChunk F))
    (hJ : ∀ ii, (pve.components ii).n_jacknife_local = pve.n_jacknife)
    (hidx1 : ∀ ch ∈ calc_sigmas_v2_chunks_bgen pve, ch.jacknife_index < pve.n_jacknife)
    (hidx2 : ∀ ch ∈ calc_sigmas_v2_chunks_stream pve s, ch.jacknife_index < pve.n_jacknife)
    (hcols : (cols_of (calc_sigmas_v2_chunks_bgen pve)).map Prod.fst
      = (cols_of (calc_sigmas_v2_chunks_stream pve s)).map Prod.fst) :
    (calc_sigmas_v2 pve none).CC = (calc_sigmas_v2 pve (some s)).CC
    ∧ (cols_of (calc_sigmas_v2_chunks_bgen pve) = cols_of (calc_sigmas_v2_chunks_stream pve s) →
        (calc_sigmas_v2 pve none).CC_jack = (calc_sigmas_v2 pve (some s)).CC_jack) := by
  constructor
  · have key : ∀ ii, _ := fun ii =>
      sameTotals (pve.components ii) (calc_sigmas_v2_chunks_bgen pve)
        (calc_sigmas_v2_chunks_stream pve s)
        (fun ch hc => by rw [hJ ii]; exact hidx1 ch hc)
        (fun ch hc => by rw [hJ ii]; exact hidx2 ch hc) hcols
    funext a b
    have hl : ∀ (c : PVE_Component F) (j : Int), (c.remove j).label = c.label :=
      fun _ _ => rfl
    have hm := fun ii jj => mul_congr_full _ _ _ _ (key ii) (key jj)
    simp only [calc_sigmas_v2, construct_vc_system, ingest_and_finalise, hl,
      (key _).2.2.2.2.1, (hm _ _).1, (hm _ a).2]
  · intro h
    funext jj
    simp only [calc_sigmas_v2, ingest_and_finalise, foldl_add_congr _ _ h]

/-- C4. For a finalised active component and every block index `j`, with
`rm_jacknife_block = j` the getters `getXXtz`, `getXXtWz`, `get_n_var_local` and the
numerator of `get_bb_trace` are the sums of the accumulators of all blocks other than `j`,
and (full − delete-`j`) is the accumulator of block `j`; for the inactive noise component
of `initialise_components` removing a block changes nothing. -/
theorem jackknife_deletion (c : PVE_Component F) (j : Nat)
    (hact : c.is_active = true) (hj : j < c.n_jacknife_local)
    (n_samples n_draws n_covar J : Nat) (Y : Nat → F)
    (zz Wzz C CtC_inv : Nat → Nat → F) (chunks : List (TraceChunk F)) (j2 : Nat) :
    ((∀ i d, (c.finalise.remove (j : Int)).getXXtz i d
        = ∑ b ∈ (range c.n_jacknife_local).erase j, c.finalise._XXtzs b i d)
    ∧ (∀ i d, (c.finalise.remove (j : Int)).getXXtWz i d
        = ∑ b ∈ (range c.n_jacknife_local).erase j, c.finalise._XXtWzs b i d)
    ∧ (c.finalise.remove (j : Int)).get_n_var_local
        = ∑ b ∈ (range c.n_jacknife_local).erase j, c.finalise.n_vars_local b
    ∧ (c.finalise.remove (j : Int)).get_bb_trace
        = (∑ b ∈ (range c.n_jacknife_local).erase j, c.finalise.ytXXtys b)
          / (c.finalise.remove (j : Int)).get_n_var_local
    ∧ (∀ i d, (c.finalise.remove (-1)).getXXtz i d - (c.finalise.remove (j : Int)).getXXtz i d
        = c.finalise._XXtzs j i d)
    ∧ (∀ i d, (c.finalise.remove (-1)).getXXtWz i d
          - (c.finalise.remove (j : Int)).getXXtWz i d
        = c.finalise._XXtWzs j i d)
    ∧ (c.finalise.remove (-1)).get_n_var_local - (c.finalise.remove (j : Int)).get_n_var_local
        = c.finalise.n_vars_local j
    ∧ (c.finalise.remove (-1)).get_bb_trace
        = c.finalise.ytXXty / (c.finalise.remove (-1)).get_n_var_local
    ∧ c.finalise.ytXXty - ∑ b ∈ (range c.n_jacknife_local).erase j, c.finalise.ytXXtys b
        = c.finalise.ytXXtys j)
    ∧ (((ingest_and_finalise (fun _ => PVE_Component.set_inactive
          (PVE_Component.new n_samples n_draws n_covar Y zz Wzz C CtC_inv J)) chunks 0).remove
            (j2 : Int)).getXXtz
        = ((ingest_and_finalise (fun _ => PVE_Component.set_inactive
          (PVE_Component.new n_samples n_draws n_covar Y zz Wzz C CtC_inv J)) chunks 0).remove
            (-1)).getXXtz
      ∧ ((ingest_and_finalise (fun _ => PVE_Component.set_inactive
          (PVE_Component.new n_samples n_draws n_covar Y zz Wzz C CtC_inv J)) chunks 0).remove
            (j2 : Int)).getXXtWz
        = ((ingest_and_finalise (fun _ => PVE_Component.set_inactive
          (PVE_Component.new n_samples n_draws n_covar Y zz Wzz C CtC_inv J)) chunks 0).remove
            (-1)).getXXtWz
      ∧ ((ingest_and_finalise (fun _ => PVE_Component.set_inactive
          (PVE_Component.new n_samples n_draws n_covar Y zz Wzz C CtC_inv J)) chunks 0).remove
            (j2 : Int)).get_n_var_local
        = ((ingest_and_finalise (fun _ => PVE_Component.set_inactive
          (PVE_Component.new n_samples n_draws n_covar Y zz Wzz C CtC_inv J)) chunks 0).remove
            (-1)).get_n_var_local
      ∧ ((ingest_and_finalise (fun _ => PVE_Component.set_inactive
          (PVE_Component.new n_samples n_draws n_covar Y zz Wzz C CtC_inv J)) chunks 0).remove
            (j2 : Int)).get_bb_trace
        = ((ingest_and_finalise (fun _ => PVE_Component.set_inactive
          (PVE_Component.new n_samples n_draws n_covar Y zz Wzz C CtC_inv J)) chunks 0).remove
            (-1)).get_bb_trace) :=
  ⟨jackknife_deletion_active c hact j hj,
    jackknife_deletion_noise n_samples n_draws n_covar J Y zz Wzz C CtC_inv chunks j2⟩

/-- C6. For a component on which `set_eta(η)` was called with the original `y`, `z`, `Wz`,
after `add_to_trace_estimator` on the chunks `D_1..D_k` and `finalise`:
`_XXtz = Σ_c Z_c·Z_cᵀ·z`, `_XXtWz = Σ_c Z_c·Z_cᵀ·Wz` when there are covariates, and
`ytXXty = Σ_c ‖Z_cᵀ·y‖²`, with `Z_c = diag(η)·D_c`. -/
theorem gxe_component (n_samples n_draws n_covar J : Nat) (Y eta : Nat → F)
    (zz Wzz C CtC_inv : Nat → Nat → F) (chunks : List (TraceChunk F))
    (hidx : ∀ ch ∈ chunks, ch.jacknife_index < J) :
    (∀ i d, (ingest_and_finalise (fun _ => PVE_Component.set_eta
          (PVE_Component.new n_samples n_draws n_covar Y zz Wzz C CtC_inv J) eta) chunks 0)._XXtz
          i d
        = sum_XXtz n_samples zz (chunks.map (fun ch => ch.scaled eta)) i d)
    ∧ (0 < n_covar → ∀ i d, (ingest_and_finalise (fun _ => PVE_Component.set_eta
          (PVE_Component.new n_samples n_draws n_covar Y zz Wzz C CtC_inv J) eta) chunks 0)._XXtWz
          i d
        = sum_XXtz n_samples Wzz (chunks.map (fun ch => ch.scaled eta)) i d)
    ∧ (ingest_and_finalise (fun _ => PVE_Component.set_eta
          (PVE_Component.new n_samples n_draws n_covar Y zz Wzz C CtC_inv J) eta) chunks 0).ytXXty
        = sum_ytXXty n_samples Y (chunks.map (fun ch => ch.scaled eta)) :=
  gxe_component_aux n_samples n_draws n_covar J Y eta zz Wzz C CtC_inv chunks hidx

/-- C5 (as amended). For the same sequence of standardised variant columns, the same
random draws and the same number of jackknife blocks, `calc_sigmas_v2` builds the same
full-data system in its in-memory and in its streaming branch; the systems with one block
removed are the same when, in addition, both branches count every column in the same
jackknife block. -/
theorem calc_sigmas_v2_ingest_agree (pve : PVE F) (s : List (StreamedChunk F))
    (hJ : ∀ ii, (pve.components ii).n_jacknife_local = pve.n_jacknife)
    (hidx1 : ∀ ch ∈ calc_sigmas_v2_chunks_bgen pve, ch.jacknife_index < pve.n_jacknife)
    (hidx2 : ∀ ch ∈ calc_sigmas_v2_chunks_stream pve s, ch.jacknife_index < pve.n_jacknife)
    (hcols : (cols_of (calc_sigmas_v2_chunks_bgen pve)).map Prod.fst
      = (cols_of (calc_sigmas_v2_chunks_stream pve s)).map Prod.fst) :
    (calc_sigmas_v2 pve none).CC = (calc_sigmas_v2 pve (some s)).CC
    ∧ (cols_of (calc_sigmas_v2_chunks_bgen pve) = cols_of (calc_sigmas_v2_chunks_stream pve s) →
        (calc_sigmas_v2 pve none).CC_jack = (calc_sigmas_v2 pve (some s)).CC_jack) :=
  calc_sigmas_v2_agree_aux pve s hJ hidx1 hidx2 hcols

end PVEFinal
/-! ### The trace estimator on the example -/

section PVEWitness

theorem exP_chunks_bgen :
    calc_sigmas_v2_chunks_bgen (exP_pve ℚ)
      = [{ D := fun i ii => (exP_pve ℚ).X i (([0] : List Nat).getD ii 0 % 2)
           cols := 1
           jacknife_index := 0 },
         { D := fun i ii => (exP_pve ℚ).X i (([1] : List Nat).getD ii 0 % 2)
           cols := 1
           jacknife_index := 1 }] := by
  rfl

theorem exP_chunks_stream2 :
    calc_sigmas_v2_chunks_stream (exP_pve ℚ) (exP_stream2 ℚ)
      = [{ D := fun i col => (exP_pve ℚ).X i col
           cols := 1
           jacknife_index := 0 },
         { D := fun i col => (exP_pve ℚ).X i (col + 1)
           cols := 1
           jacknife_index := 1 }] := by
  rfl

theorem exP_chunks_stream :
    calc_sigmas_v2_chunks_stream (exP_pve ℚ) (exP_stream ℚ)
      = [{ D := fun i col => (exP_pve ℚ).X i col
           cols := 2
           jacknife_index := 1 }] := by
  rfl

theorem exP_cols_stream2 :
    cols_of (calc_sigmas_v2_chunks_bgen (exP_pve ℚ))
      = cols_of (calc_sigmas_v2_chunks_stream (exP_pve ℚ) (exP_stream2 ℚ)) := by
  rw [exP_chunks_bgen, exP_chunks_stream2]
  rfl

theorem exP_cols_stream :
    (cols_of (calc_sigmas_v2_chunks_bgen (exP_pve ℚ))).map Prod.fst
      = (cols_of (calc_sigmas_v2_chunks_stream (exP_pve ℚ) (exP_stream ℚ))).map Prod.fst := by
  rw [exP_chunks_bgen, exP_chunks_stream]
  rfl

theorem exP_n_jacknife (ii : Nat) :
    ((exP_pve ℚ).components ii).n_jacknife_local = (exP_pve ℚ).n_jacknife := by
  by_cases h : ii = 0 <;>
    simp [exP_pve, initialise_components, PVE_Component.new, PVE_Component.set_inactive, h]

theorem exP_idx_bgen :
    ∀ ch ∈ calc_sigmas_v2_chunks_bgen (exP_pve ℚ), ch.jacknife_index < (exP_pve ℚ).n_jacknife := by
  rw [exP_chunks_bgen]
  intro ch hc
  simp only [List.mem_cons, List.mem_singleton, List.not_mem_nil, or_false] at hc
  rcases hc with rfl | rfl <;> decide

theorem exP_idx_stream2 :
    ∀ ch ∈ calc_sigmas_v2_chunks_stream (exP_pve ℚ) (exP_stream2 ℚ),
      ch.jacknife_index < (exP_pve ℚ).n_jacknife := by
  rw [exP_chunks_stream2]
  intro ch hc
  simp only [List.mem_cons, List.mem_singleton, List.not_mem_nil, or_false] at hc
  rcases hc with rfl | rfl <;> decide

theorem exP_idx_chunks : ∀ ch ∈ exP_chunks ℚ, ch.jacknife_index < 2 := by
  intro ch hc
  simp only [exP_chunks, List.mem_cons, List.mem_singleton, List.not_mem_nil, or_false] at hc
  rcases hc with rfl | rfl <;> decide

/-- C5, on the example read as a stream of two chunks of one column. -/
theorem calc_sigmas_v2_ingest_agree_witness :
    (∀ ii, ((exP_pve ℚ).components ii).n_jacknife_local = (exP_pve ℚ).n_jacknife)
    ∧ (∀ ch ∈ calc_sigmas_v2_chunks_bgen (exP_pve ℚ),
        ch.jacknife_index < (exP_pve ℚ).n_jacknife)
    ∧ (∀ ch ∈ calc_sigmas_v2_chunks_stream (exP_pve ℚ) (exP_stream2 ℚ),
        ch.jacknife_index < (exP_pve ℚ).n_jacknife)
    ∧ (cols_of (calc_sigmas_v2_chunks_bgen (exP_pve ℚ))
        = cols_of (calc_sigmas_v2_chunks_stream (exP_pve ℚ) (exP_stream2 ℚ)))
    ∧ (calc_sigmas_v2 (exP_pve ℚ) none).CC = (calc_sigmas_v2 (exP_pve ℚ) (some (exP_stream2 ℚ))).CC
    ∧ (calc_sigmas_v2 (exP_pve ℚ) none).CC_jack
        = (calc_sigmas_v2 (exP_pve ℚ) (some (exP_stream2 ℚ))).CC_jack :=
  ⟨exP_n_jacknife, exP_idx_bgen, exP_idx_stream2, exP_cols_stream2,
    (calc_sigmas_v2_ingest_agree (exP_pve ℚ) (exP_stream2 ℚ) exP_n_jacknife exP_idx_bgen
      exP_idx_stream2 (congrArg (List.map Prod.fst) exP_cols_stream2)).1,
    (calc_sigmas_v2_ingest_agree (exP_pve ℚ) (exP_stream2 ℚ) exP_n_jacknife exP_idx_bgen
      exP_idx_stream2 (congrArg (List.map Prod.fst) exP_cols_stream2)).2 exP_cols_stream2⟩

/-- C6, on the example. -/
theorem gxe_component_witness :
    (∀ ch ∈ exP_chunks ℚ, ch.jacknife_index < 2)
    ∧ (ingest_and_finalise (fun _ => PVE_Component.set_eta
          (PVE_Component.new 3 1 1 (fun i => (exP_pve ℚ).X i 0) (fun i _ => (exP_pve ℚ).X i 1)
            (fun i _ => (exP_pve ℚ).X i 1) (fun _ _ => 1) (fun _ _ => 1 / 3) 2) (exP_eta ℚ))
          (exP_chunks ℚ) 0).ytXXty
        = sum_ytXXty 3 (fun i => (exP_pve ℚ).X i 0) ((exP_chunks ℚ).map (fun ch => ch.scaled (exP_eta ℚ))) :=
  ⟨exP_idx_chunks,
    (gxe_component 3 1 1 2 _ (exP_eta ℚ) _ _ _ _ (exP_chunks ℚ) exP_idx_chunks).2.2⟩

/-- C4, on the main-effect component of the example. -/
theorem jackknife_deletion_witness :
    ((exP_pve ℚ).components 0).is_active = true
    ∧ 0 < ((exP_pve ℚ).components 0).n_jacknife_local
    ∧ ((((exP_pve ℚ).components 0).finalise.remove (-1)).get_n_var_local
        - (((exP_pve ℚ).components 0).finalise.remove ((0 : Nat) : Int)).get_n_var_local
      = ((exP_pve ℚ).components 0).finalise.n_vars_local 0) :=
  ⟨rfl, by decide,
    (jackknife_deletion ((exP_pve ℚ).components 0) 0 rfl (by decide)
      3 1 1 2 (fun _ => 0) (fun _ _ => 0) (fun _ _ => 0) (fun _ _ => 1) (fun _ _ => 1 / 3)
      (exP_chunks ℚ) 0).1.2.2.2.2.2.2.1⟩

end PVEWitness
/-! ### In-memory and streaming ingest on the example read as one chunk -/

section PVECounterexample

theorem bb_trace_removed {F : Type} [Field F] (c : PVE_Component F) (hact : c.is_active = true)
    (chunks : List (TraceChunk F)) (j : Nat) :
    ((PVE_Component.finalise
        (chunks.foldl (fun c ch => c.add_to_trace_estimator ch.D ch.cols ch.jacknife_index)
          c)).remove (j : Int)).get_bb_trace
      = ((∑ b ∈ range c.n_jacknife_local,
            (c.ytXXtys b + blockSum chunks b (col_ytXXty c.n_samples c.Y)))
          - (c.ytXXtys j + blockSum chunks j (col_ytXXty c.n_samples c.Y)))
        / ((∑ b ∈ range c.n_jacknife_local, (c.n_vars_local b + blockSum chunks b (fun _ => 1)))
          - (c.n_vars_local j + blockSum chunks j (fun _ => 1))) := by
  rw [foldl_add_active chunks c hact]
  by_cases he : 0 < c.n_env <;>
    simp [PVE_Component.finalise, addedTo, hact, he, PVE_Component.remove,
      PVE_Component.get_bb_trace, PVE_Component.get_n_var_local]

theorem exP_Y (i : Nat) : ((exP_pve ℚ).components 0).Y i
    = if i = 0 then 1 else if i = 1 then -1 else 0 := by
  simp [exP_pve, initialise_components, PVE_Component.new, project_out_covars,
    Finset.sum_range_succ]

theorem exP_entry (chunks : List (TraceChunk ℚ)) :
    ((PVE_Component.finalise
        (chunks.foldl (fun c ch => c.add_to_trace_estimator ch.D ch.cols ch.jacknife_index)
          ((exP_pve ℚ).components 0))).remove ((0 : Nat) : Int)).get_bb_trace
      = ((∑ b ∈ range 2, (0 + blockSum chunks b
              (col_ytXXty 3 (fun i => if i = 0 then 1 else if i = 1 then -1 else 0))))
          - (0 + blockSum chunks 0
              (col_ytXXty 3 (fun i => if i = 0 then 1 else if i = 1 then -1 else 0))))
        / ((∑ b ∈ range 2, (0 + blockSum chunks b (fun _ => 1)))
          - (0 + blockSum chunks 0 (fun _ => 1))) := by
  have h1 : ((exP_pve ℚ).components 0).n_jacknife_local = 2 := rfl
  have h2 : ((exP_pve ℚ).components 0).n_samples = 3 := rfl
  have h3 : ((exP_pve ℚ).components 0).ytXXtys = fun _ => 0 := rfl
  have h4 : ((exP_pve ℚ).components 0).n_vars_local = fun _ => 0 := rfl
  have h5 : ((exP_pve ℚ).components 0).Y
      = fun i => if i = 0 then 1 else if i = 1 then -1 else 0 := funext exP_Y
  rw [bb_trace_removed _ rfl, h1, h2, h3, h4, h5]

theorem exP_bgen_entry : (calc_sigmas_v2 (exP_pve ℚ) none).CC_jack 0 0 2 = 1 := by
  have h : (calc_sigmas_v2 (exP_pve ℚ) none).CC_jack 0 0 2
      = ((PVE_Component.finalise
        ((calc_sigmas_v2_chunks_bgen (exP_pve ℚ)).foldl
          (fun c ch => c.add_to_trace_estimator ch.D ch.cols ch.jacknife_index)
          ((exP_pve ℚ).components 0))).remove ((0 : Nat) : Int)).get_bb_trace := rfl
  rw [h, exP_entry, exP_chunks_bgen]
  simp [blockSum, cols_of, col_ytXXty, Finset.sum_range_succ, exP_pve, List.range_succ]

theorem exP_stream_entry :
    (calc_sigmas_v2 (exP_pve ℚ) (some (exP_stream ℚ))).CC_jack 0 0 2 = 5 / 2 := by
  have h : (calc_sigmas_v2 (exP_pve ℚ) (some (exP_stream ℚ))).CC_jack 0 0 2
      = ((PVE_Component.finalise
        ((calc_sigmas_v2_chunks_stream (exP_pve ℚ) (exP_stream ℚ)).foldl
          (fun c ch => c.add_to_trace_estimator ch.D ch.cols ch.jacknife_index)
          ((exP_pve ℚ).components 0))).remove ((0 : Nat) : Int)).get_bb_trace := rfl
  rw [h, exP_entry, exP_chunks_stream]
  simp [blockSum, cols_of, col_ytXXty, Finset.sum_range_succ, exP_pve, List.range_succ]
  norm_num

/-- C5, counterexample. On the example, with its two columns streamed as one chunk, both
branches of `calc_sigmas_v2` see the same sequence of standardised columns, the same draw
and two jackknife blocks, but the in-memory branch counts the columns in blocks 0 and 1
and the streaming branch counts both in block 1: with block 0 removed the right-hand side
of the main-effect row is `1` in memory and `5/2` when streaming. -/
theorem calc_sigmas_v2_ingest_counterexample :
    (cols_of (calc_sigmas_v2_chunks_bgen (exP_pve ℚ))).map Prod.fst
        = (cols_of (calc_sigmas_v2_chunks_stream (exP_pve ℚ) (exP_stream ℚ))).map Prod.fst
    ∧ (calc_sigmas_v2 (exP_pve ℚ) none).CC_jack 0 0 2 = 1
    ∧ (calc_sigmas_v2 (exP_pve ℚ) (some (exP_stream ℚ))).CC_jack 0 0 2 = 5 / 2
    ∧ (calc_sigmas_v2 (exP_pve ℚ) none).CC_jack
        ≠ (calc_sigmas_v2 (exP_pve ℚ) (some (exP_stream ℚ))).CC_jack := by
  refine ⟨exP_cols_stream, exP_bgen_entry, exP_stream_entry, fun h => ?_⟩
  have h2 := congrFun (congrFun (congrFun h 0) 0) 2
  rw [exP_bgen_entry, exP_stream_entry] at h2
  norm_num at h2

end PVECounterexample
/-! ### The convergence gate of the inner loop -/

section LoopTheorems

variable {F : Type} [LinearOrderedField F]

theorem diagnose_convergence_iff (p : parameters F) (a l : F) :
    diagnose_convergence p a l = true ↔ convergenceCriterion p a l := by
  unfold diagnose_convergence convergenceCriterion alpha_tol logw_tol
  cases p.alpha_tol_set_by_user <;> cases p.elbo_tol_set_by_user <;> simp

theorem runInnerLoop_turn_count (m : MathFns F) (vb : VBayesX2 F) (round_index n_grid : Nat)
    (s : InnerLoopState F) :
    (runInnerLoop_turn m vb round_index n_grid s).count = s.count + 1 := rfl

theorem runInnerLoop_after_succ (m : MathFns F) (vb : VBayesX2 F) (round_index n_grid : Nat)
    (vp_init : VariationalParameters F) (all_hyps : Nat → Hyps F) (k : Nat) :
    runInnerLoop_after m vb round_index n_grid vp_init all_hyps (k + 1)
      = runInnerLoop_turn m vb round_index n_grid
          (runInnerLoop_after m vb round_index n_grid vp_init all_hyps k) := by
  unfold runInnerLoop_after
  rw [Function.iterate_succ_apply']

theorem runInnerLoop_after_count (m : MathFns F) (vb : VBayesX2 F) (round_index n_grid : Nat)
    (vp_init : VariationalParameters F) (all_hyps : Nat → Hyps F) (k : Nat) :
    (runInnerLoop_after m vb round_index n_grid vp_init all_hyps k).count = k := by
  induction k with
  | zero => rfl
  | succ k ih => rw [runInnerLoop_after_succ, runInnerLoop_turn_count, ih]

/-- The loop stops at a state reached by some number of turns, all of them taken from a
state whose flag `all_converged` was still unset. -/
theorem runInnerLoop_loop_spec (m : MathFns F) (vb : VBayesX2 F) (round_index n_grid : Nat)
    (fuel : Nat) (s : InnerLoopState F) :
    ∃ k, runInnerLoop_loop m vb round_index n_grid fuel s
        = Nat.iterate (runInnerLoop_turn m vb round_index n_grid) k s
      ∧ ∀ i, i < k →
        (Nat.iterate (runInnerLoop_turn m vb round_index n_grid) i s).all_converged = false := by
  induction fuel generalizing s with
  | zero => exact ⟨0, rfl, fun i hi => absurd hi (Nat.not_lt_zero i)⟩
  | succ fuel ih =>
    unfold runInnerLoop_loop
    by_cases hg : (!s.all_converged && decide (s.count < vb.p.vb_iter_max)) = true
    · rw [if_pos hg]
      obtain ⟨k, hk, hall⟩ := ih (runInnerLoop_turn m vb round_index n_grid s)
      refine ⟨k + 1, ?_, ?_⟩
      · rw [hk, Function.iterate_succ_apply]
      · intro i hi
        cases i with
        | zero =>
          simp only [Bool.and_eq_true, Bool.not_eq_true', decide_eq_true_eq] at hg
          exact hg.1
        | succ i =>
          rw [Function.iterate_succ_apply]
          exact hall i (Nat.lt_of_succ_lt_succ hi)
    · rw [if_neg hg]
      exact ⟨0, rfl, fun i hi => absurd hi (Nat.not_lt_zero i)⟩

/-- A flag that is set after `k` turns was set by the test of one of these turns. -/
theorem converged_flag_origin (m : MathFns F) (vb : VBayesX2 F) (round_index n_grid : Nat)
    (vp_init : VariationalParameters F) (all_hyps : Nat → Hyps F) (nn : Nat) (k : Nat)
    (h : (runInnerLoop_after m vb round_index n_grid vp_init all_hyps k).converged nn = true) :
    ∃ j, 1 ≤ j ∧ j ≤ k
      ∧ criterionAt vb.p (runInnerLoop_after m vb round_index n_grid vp_init all_hyps j) nn := by
  induction k with
  | zero => exact absurd h (by simp [runInnerLoop_after, runInnerLoop_init])
  | succ k ih =>
    rw [runInnerLoop_after_succ] at h
    by_cases hd : diagnose_convergence vb.p
        ((runInnerLoop_after m vb round_index n_grid vp_init all_hyps (k + 1)).alpha_diff nn)
        ((runInnerLoop_after m vb round_index n_grid vp_init all_hyps (k + 1)).i_logw nn
          - (runInnerLoop_after m vb round_index n_grid vp_init all_hyps (k + 1)).logw_prev nn)
        = true
    · exact ⟨k + 1, Nat.succ_le_succ (Nat.zero_le k), le_refl _,
        (diagnose_convergence_iff _ _ _).mp hd⟩
    · rw [runInnerLoop_after_succ] at hd
      have h2 : (runInnerLoop_after m vb round_index n_grid vp_init all_hyps k).converged nn
          = true := by
        simp only [runInnerLoop_turn] at h hd
        rw [if_neg hd] at h
        exact h
      obtain ⟨j, h1, h2, h3⟩ := ih h2
      exact ⟨j, h1, Nat.le_succ_of_le h2, h3⟩

/-- When a turn sets `all_converged`, every flag is set after it, and each flag that was
unset before the turn was set by the test of this turn. -/
theorem runInnerLoop_turn_exit (m : MathFns F) (vb : VBayesX2 F) (round_index n_grid : Nat)
    (t : InnerLoopState F) (ht : t.all_converged = false)
    (hs : (runInnerLoop_turn m vb round_index n_grid t).all_converged = true) :
    (∀ nn, nn < n_grid → (runInnerLoop_turn m vb round_index n_grid t).converged nn = true)
    ∧ (∀ nn, nn < n_grid → t.converged nn = false →
        criterionAt vb.p (runInnerLoop_turn m vb round_index n_grid t) nn) := by
  have hall : ∀ nn, nn < n_grid →
      (runInnerLoop_turn m vb round_index n_grid t).converged nn = true := by
    simp only [runInnerLoop_turn, ht] at hs
    by_cases ha : ((List.range n_grid).all fun nn =>
        if diagnose_convergence vb.p
            (maxCoeff vb.n_var fun j =>
              |(t.grid nn).2.alpha_beta j
                - (updateAllParams m vb t.count round_index t.grid nn).2.alpha_beta j|)
            (calc_logw m vb (updateAllParams m vb t.count round_index t.grid nn).1
                (updateAllParams m vb t.count round_index t.grid nn).2 - t.i_logw nn) = true
        then true else t.converged nn) = true
    · intro nn hnn
      rw [List.all_eq_true] at ha
      exact ha nn (List.mem_range.mpr hnn)
    · rw [if_neg ha] at hs
      exact absurd hs (by simp)
  refine ⟨hall, fun nn hnn hc => ?_⟩
  have h := hall nn hnn
  apply (diagnose_convergence_iff _ _ _).mp
  by_contra hd
  simp only [runInnerLoop_turn] at h hd
  rw [if_neg hd] at h
  rw [h] at hc
  exact absurd hc (by simp)

end LoopTheorems
section LoopGate

variable {F : Type} [LinearOrderedField F]

/-- While `all_converged` is unset, some flag is unset. -/
theorem unset_flag_of_not_all (m : MathFns F) (vb : VBayesX2 F) (round_index n_grid : Nat)
    (vp_init : VariationalParameters F) (all_hyps : Nat → Hyps F) (hn : 0 < n_grid) (k : Nat)
    (h : (runInnerLoop_after m vb round_index n_grid vp_init all_hyps k).all_converged
      = false) :
    ∃ nn, nn < n_grid
      ∧ (runInnerLoop_after m vb round_index n_grid vp_init all_hyps k).converged nn = false := by
  cases k with
  | zero => exact ⟨0, hn, rfl⟩
  | succ k =>
    rw [runInnerLoop_after_succ] at h ⊢
    by_contra hcon
    have hall : ((List.range n_grid).all fun nn =>
        (runInnerLoop_turn m vb round_index n_grid
          (runInnerLoop_after m vb round_index n_grid vp_init all_hyps k)).converged nn)
        = true := by
      rw [List.all_eq_true]
      intro nn hnn
      by_contra hf
      exact hcon ⟨nn, List.mem_range.mp hnn, by simpa using hf⟩
    have h2 : (runInnerLoop_turn m vb round_index n_grid
        (runInnerLoop_after m vb round_index n_grid vp_init all_hyps k)).all_converged
        = true := by
      simp only [runInnerLoop_turn] at hall ⊢
      rw [if_pos hall]
    rw [h2] at h
    exact absurd h (by simp)

theorem runInnerLoop_gate_aux (m : MathFns F) (vb : VBayesX2 F) (round_index n_grid : Nat)
    (vp_init : VariationalParameters F) (all_hyps : Nat → Hyps F)
    (hconv : (runInnerLoop m vb round_index n_grid vp_init all_hyps).all_converged = true) :
    1 ≤ (runInnerLoop m vb round_index n_grid vp_init all_hyps).count
    ∧ runInnerLoop m vb round_index n_grid vp_init all_hyps
        = runInnerLoop_after m vb round_index n_grid vp_init all_hyps
            (runInnerLoop m vb round_index n_grid vp_init all_hyps).count
    ∧ (∀ nn, nn < n_grid → ∃ k, 1 ≤ k
        ∧ k ≤ (runInnerLoop m vb round_index n_grid vp_init all_hyps).count
        ∧ criterionAt vb.p (runInnerLoop_after m vb round_index n_grid vp_init all_hyps k) nn)
    ∧ (∀ nn, nn < n_grid →
        (runInnerLoop_after m vb round_index n_grid vp_init all_hyps
          ((runInnerLoop m vb round_index n_grid vp_init all_hyps).count - 1)).converged nn
          = false →
        criterionAt vb.p (runInnerLoop m vb round_index n_grid vp_init all_hyps) nn)
    ∧ (n_grid = 1 →
        criterionAt vb.p (runInnerLoop m vb round_index n_grid vp_init all_hyps) 0) := by
  obtain ⟨k, hk, hall⟩ := runInnerLoop_loop_spec m vb round_index n_grid vb.p.vb_iter_max
    (runInnerLoop_init vb vp_init all_hyps)
  have hs : runInnerLoop m vb round_index n_grid vp_init all_hyps
      = runInnerLoop_after m vb round_index n_grid vp_init all_hyps k := hk
  rw [hs] at hconv ⊢
  rw [runInnerLoop_after_count]
  cases k with
  | zero => exact absurd hconv (by simp [runInnerLoop_after, runInnerLoop_init])
  | succ k =>
    have ht : (runInnerLoop_after m vb round_index n_grid vp_init all_hyps k).all_converged
        = false := hall k (Nat.lt_succ_self k)
    rw [runInnerLoop_after_succ] at hconv
    obtain ⟨e1, e2⟩ := runInnerLoop_turn_exit m vb round_index n_grid _ ht hconv
    rw [← runInnerLoop_after_succ] at e1 e2
    refine ⟨Nat.succ_le_succ (Nat.zero_le k), rfl, ?_, ?_, ?_⟩
    · intro nn hnn
      exact converged_flag_origin m vb round_index n_grid vp_init all_hyps nn (k + 1)
        (e1 nn hnn)
    · intro nn hnn hc
      exact e2 nn hnn hc
    · intro h1
      obtain ⟨nn, hnn, hc⟩ := unset_flag_of_not_all m vb round_index n_grid vp_init all_hyps
        (by rw [h1]; exact Nat.one_pos) k ht
      have h0 : nn = 0 := by omega
      subst h0
      exact e2 0 hnn hc

end LoopGate
/-! ### The example over the reals -/

section ExCReal

theorem eps_pos_real : (0 : ℝ) < eps := by
  unfold eps; positivity

theorem eps_le_real : (eps : ℝ) ≤ 1 / 1000 := by
  unfold eps
  rw [div_le_div_iff₀ (by positivity) (by norm_num)]
  norm_num

theorem exp_half_log (q : ℝ) (hq : 0 < q) : Real.exp (Real.log q / 2) = Real.sqrt q := by
  symm
  rw [Real.sqrt_eq_iff_mul_self_eq hq.le (Real.exp_pos _).le, ← Real.exp_add]
  rw [show Real.log q / 2 + Real.log q / 2 = Real.log q by ring, Real.exp_log hq]

/-- With the functions of `<cmath>` the inclusion probability of the example is
`o / (o + √q)` with the prior odds `o = λ/(1−λ) + eps` and `q = 4·slab_relative_var + 1`. -/
theorem exC_alpha_real (h : Hyps ℝ) (hv : 0 < h.slab_var 0)
    (hq : 0 < h.slab_relative_var 0 * (5 - 1) + 1)
    (ho : 0 < h.lambda 0 / (1 - h.lambda 0) + eps) :
    exC_alpha ⟨Real.log, Real.exp⟩ h
      = (h.lambda 0 / (1 - h.lambda 0) + eps)
        / ((h.lambda 0 / (1 - h.lambda 0) + eps)
          + Real.sqrt (h.slab_relative_var 0 * (5 - 1) + 1)) := by
  unfold exC_alpha sigmoid exC_s1
  simp only
  rw [Real.log_div hv.ne' hq.ne']
  have e : -((Real.log (h.slab_var 0) - Real.log (h.slab_relative_var 0 * (5 - 1) + 1)) / 2
        + (Real.log (h.lambda 0 / (1 - h.lambda 0) + eps) - Real.log (h.slab_var 0) / 2))
      = Real.log (h.slab_relative_var 0 * (5 - 1) + 1) / 2
        - Real.log (h.lambda 0 / (1 - h.lambda 0) + eps) := by ring
  rw [e, Real.exp_sub, exp_half_log _ hq, Real.exp_log ho]
  have hs : 0 ≤ Real.sqrt (h.slab_relative_var 0 * (5 - 1) + 1) := Real.sqrt_nonneg _
  field_simp

theorem odds_le (o t c : ℝ) (ho : 0 < o) (ht : 0 ≤ t) (h : (1 - c) * o ≤ c * t) :
    o / (o + t) ≤ c := by
  rw [div_le_iff₀ (by linarith)]
  linarith

theorem le_odds (o t c : ℝ) (ho : 0 < o) (ht : 0 ≤ t) (h : c * t ≤ (1 - c) * o) :
    c ≤ o / (o + t) := by
  rw [le_div_iff₀ (by linarith)]
  linarith

end ExCReal
section ExCReal2

theorem exC_alpha_le (h : Hyps ℝ) (c t o : ℝ) (hv : 0 < h.slab_var 0) (ht : 0 ≤ t)
    (hq : t ^ 2 ≤ h.slab_relative_var 0 * (5 - 1) + 1) (hq0 : 0 < h.slab_relative_var 0 * (5 - 1) + 1)
    (ho : 0 < h.lambda 0 / (1 - h.lambda 0) + eps)
    (hlo : h.lambda 0 / (1 - h.lambda 0) + eps ≤ o) (hc : (1 - c) * o ≤ c * t) (hc1 : c ≤ 1)
    (hc0 : 0 ≤ c) :
    exC_alpha ⟨Real.log, Real.exp⟩ h ≤ c := by
  rw [exC_alpha_real h hv hq0 ho]
  have hs : t ≤ Real.sqrt (h.slab_relative_var 0 * (5 - 1) + 1) := Real.le_sqrt_of_sq_le hq
  apply odds_le _ _ _ ho (Real.sqrt_nonneg _)
  have h1 := mul_le_mul_of_nonneg_left hlo (sub_nonneg.mpr hc1)
  have h2 := mul_le_mul_of_nonneg_left hs hc0
  exact le_trans h1 (le_trans hc h2)

theorem exC_alpha_ge (h : Hyps ℝ) (c t o : ℝ) (hv : 0 < h.slab_var 0) (ht : 0 ≤ t)
    (hq : h.slab_relative_var 0 * (5 - 1) + 1 ≤ t ^ 2) (hq0 : 0 < h.slab_relative_var 0 * (5 - 1) + 1)
    (ho : 0 < o)
    (hlo : o ≤ h.lambda 0 / (1 - h.lambda 0) + eps) (hc : c * t ≤ (1 - c) * o) (hc1 : c ≤ 1)
    (hc0 : 0 ≤ c) :
    c ≤ exC_alpha ⟨Real.log, Real.exp⟩ h := by
  rw [exC_alpha_real h hv hq0 (lt_of_lt_of_le ho hlo)]
  have hs : Real.sqrt (h.slab_relative_var 0 * (5 - 1) + 1) ≤ t :=
    Real.sqrt_le_iff.mpr ⟨ht, hq⟩
  apply le_odds _ _ _ (lt_of_lt_of_le ho hlo) (Real.sqrt_nonneg _)
  have h1 := mul_le_mul_of_nonneg_left hlo (sub_nonneg.mpr hc1)
  have h2 := mul_le_mul_of_nonneg_left hs hc0
  exact le_trans h2 (le_trans hc h1)

/-- First turn, grid point 0: `α` stays within `1/100` of its initial value `1/2`. -/
theorem exC_a1A : 1 / 2 ≤ exC_alpha ⟨Real.log, Real.exp⟩ (exC_hyps ℝ 0)
    ∧ exC_alpha ⟨Real.log, Real.exp⟩ (exC_hyps ℝ 0) ≤ 51 / 100 := by
  have e0 := eps_pos_real
  have e1 := eps_le_real
  constructor
  · apply exC_alpha_ge _ _ 2 2 <;> (try simp [exC_hyps]) <;> (try norm_num) <;> (try linarith)
  · apply exC_alpha_le _ _ 2 (2 + 1 / 1000) <;> (try simp [exC_hyps]) <;> (try norm_num) <;> (try linarith)

/-- First turn, grid point 1: `α` moves from `1/2` to about `1/3`. -/
theorem exC_a1B : 1 / 3 ≤ exC_alpha ⟨Real.log, Real.exp⟩ (exC_hyps ℝ 1)
    ∧ exC_alpha ⟨Real.log, Real.exp⟩ (exC_hyps ℝ 1) ≤ 334 / 1000 := by
  have e0 := eps_pos_real
  have e1 := eps_le_real
  constructor
  · apply exC_alpha_ge _ _ 2 1 <;> (try simp [exC_hyps]) <;> (try norm_num) <;> (try linarith)
  · apply exC_alpha_le _ _ 2 (1 + 1 / 1000) <;> (try simp [exC_hyps]) <;> (try norm_num) <;> (try linarith)

end ExCReal2
section ExCReal3

theorem exC_s1_A : exC_s1 (exC_hyps ℝ 0) = 1 := by
  simp [exC_s1, exC_hyps]; norm_num

theorem exC_s1_B : exC_s1 (exC_hyps ℝ 1) = 1 / 400 := by
  simp [exC_s1, exC_hyps]; norm_num

end ExCReal3
/-! ### Steps of the loop of `runInnerLoop` -/

section LoopSteps

theorem runInnerLoop_loop_go {F : Type} [LinearOrderedField F] (m : MathFns F)
    (vb : VBayesX2 F) (round_index n_grid fuel : Nat) (s : InnerLoopState F)
    (h1 : s.all_converged = false) (h2 : s.count < vb.p.vb_iter_max) :
    runInnerLoop_loop m vb round_index n_grid (fuel + 1) s
      = runInnerLoop_loop m vb round_index n_grid fuel
          (runInnerLoop_turn m vb round_index n_grid s) := by
  rw [runInnerLoop_loop, if_pos (by simp [h1, h2])]

theorem runInnerLoop_loop_stop {F : Type} [LinearOrderedField F] (m : MathFns F)
    (vb : VBayesX2 F) (round_index n_grid fuel : Nat) (s : InnerLoopState F)
    (h1 : s.all_converged = true) :
    runInnerLoop_loop m vb round_index n_grid fuel s = s := by
  cases fuel with
  | zero => rfl
  | succ fuel => rw [runInnerLoop_loop, if_neg (by simp [h1])]

end LoopSteps
section LoopAfter

theorem runInnerLoop_after_zero {F : Type} [LinearOrderedField F] (m : MathFns F)
    (vb : VBayesX2 F) (round_index n_grid : Nat) (vp_init : VariationalParameters F)
    (all_hyps : Nat → Hyps F) :
    runInnerLoop_after m vb round_index n_grid vp_init all_hyps 0
      = runInnerLoop_init vb vp_init all_hyps := rfl

theorem runInnerLoop_after_grid {F : Type} [LinearOrderedField F] (m : MathFns F)
    (vb : VBayesX2 F) (round_index n_grid : Nat) (vp_init : VariationalParameters F)
    (all_hyps : Nat → Hyps F) (k : Nat) :
    (runInnerLoop_after m vb round_index n_grid vp_init all_hyps (k + 1)).grid
      = updateAllParams m vb k round_index
          (runInnerLoop_after m vb round_index n_grid vp_init all_hyps k).grid := by
  rw [runInnerLoop_after_succ]
  simp only [runInnerLoop_turn]
  rw [runInnerLoop_after_count]

end LoopAfter
/-! ### Claims on the inner loop -/

section LoopClaims

/-- C8 (as amended). Whenever `runInnerLoop` leaves its loop with `all_converged` set, at
least one turn was taken, and every grid point has satisfied the convergence criterion
(`max|α^c − α^(c−1)| < α_tol` and `ELBO^c − ELBO^(c−1) < elbo_tol` with the defaults `1e-4`
and `1e-2` when neither tolerance is set by the user, only the user-set tests otherwise) at
some turn up to the final one; a grid point whose flag was still unset before the final
turn satisfies it at the final turn, and so does the only grid point when there is one. -/
theorem runInnerLoop_convergence_gate {F : Type} [LinearOrderedField F] (m : MathFns F)
    (vb : VBayesX2 F) (round_index n_grid : Nat) (vp_init : VariationalParameters F)
    (all_hyps : Nat → Hyps F)
    (hconv : (runInnerLoop m vb round_index n_grid vp_init all_hyps).all_converged = true) :
    1 ≤ (runInnerLoop m vb round_index n_grid vp_init all_hyps).count
    ∧ runInnerLoop m vb round_index n_grid vp_init all_hyps
        = runInnerLoop_after m vb round_index n_grid vp_init all_hyps
            (runInnerLoop m vb round_index n_grid vp_init all_hyps).count
    ∧ (∀ nn, nn < n_grid → ∃ k, 1 ≤ k
        ∧ k ≤ (runInnerLoop m vb round_index n_grid vp_init all_hyps).count
        ∧ criterionAt vb.p (runInnerLoop_after m vb round_index n_grid vp_init all_hyps k) nn)
    ∧ (∀ nn, nn < n_grid →
        (runInnerLoop_after m vb round_index n_grid vp_init all_hyps
          ((runInnerLoop m vb round_index n_grid vp_init all_hyps).count - 1)).converged nn
          = false →
        criterionAt vb.p (runInnerLoop m vb round_index n_grid vp_init all_hyps) nn)
    ∧ (n_grid = 1 →
        criterionAt vb.p (runInnerLoop m vb round_index n_grid vp_init all_hyps) 0) :=
  runInnerLoop_gate_aux m vb round_index n_grid vp_init all_hyps hconv

end LoopClaims
/-! ### The empirical-Bayes step and the evidence lower bound -/

section ElboReal

/-- The function `x ↦ a/(2x) + (n/2)·log(c·x)` is smallest at `x = a/n`. -/
theorem div_add_log_ge (a n c x : ℝ) (ha : 0 < a) (hn : 0 < n) (hc : 0 < c) (hx : 0 < x) :
    a / 2 / (a / n) + n * Real.log (c * (a / n)) / 2
      ≤ a / 2 / x + n * Real.log (c * x) / 2 := by
  have ht : 0 < a / (n * x) := div_pos ha (mul_pos hn hx)
  have h1 := Real.log_le_sub_one_of_pos ht
  have h2 : Real.log (a / (n * x)) = Real.log (c * (a / n)) - Real.log (c * x) := by
    rw [← Real.log_div (mul_pos hc (div_pos ha hn)).ne' (mul_pos hc hx).ne']
    congr 1
    field_simp
    ring
  have h3 : a / 2 / (a / n) = n / 2 := by field_simp; ring
  have h4 : n * (a / (n * x)) = a / x := by field_simp; ring
  rw [h3]
  rw [h2] at h1
  have h5 : n * (Real.log (c * (a / n)) - Real.log (c * x)) ≤ n * (a / (n * x) - 1) :=
    mul_le_mul_of_nonneg_left h1 hn.le
  have h6 : a / 2 / x = a / x / 2 := by ring
  rw [h6]
  nlinarith

/-- Gibbs' inequality for two outcomes, in the form the prior inclusion term needs. -/
theorem inclusion_term_le (S P e l : ℝ) (hS : 0 < S) (hSP : S < P) (he : 0 < e)
    (hl0 : 0 < l + e) (hl1 : 0 < 1 - l + e) :
    S * Real.log (l + e) - S * Real.log (1 - l + e) + P * Real.log (1 - l + e)
      ≤ S * Real.log (S / P + e) - S * Real.log (1 - S / P + e) + P * Real.log (1 - S / P + e)
        + P * Real.log (1 + 2 * e) := by
  have hP : 0 < P := lt_trans hS hSP
  have hc : 0 < 1 + 2 * e := by linarith
  have hp : 0 < S / P := div_pos hS hP
  have hq : 0 < 1 - S / P := by rw [sub_pos, div_lt_one hP]; exact hSP
  -- log x ≤ log (c p) + x / (c p) - 1
  have h1 := Real.log_le_sub_one_of_pos (div_pos hl0 (mul_pos hc hp))
  have h2 := Real.log_le_sub_one_of_pos (div_pos hl1 (mul_pos hc hq))
  rw [Real.log_div hl0.ne' (mul_pos hc hp).ne', Real.log_mul hc.ne' hp.ne'] at h1
  rw [Real.log_div hl1.ne' (mul_pos hc hq).ne', Real.log_mul hc.ne' hq.ne'] at h2
  have h3 : Real.log (S / P) ≤ Real.log (S / P + e) := Real.log_le_log hp (by linarith)
  have h4 : Real.log (1 - S / P) ≤ Real.log (1 - S / P + e) := Real.log_le_log hq (by linarith)
  have k1 := mul_le_mul_of_nonneg_left h1 hp.le
  have k2 := mul_le_mul_of_nonneg_left h2 hq.le
  have k3 := mul_le_mul_of_nonneg_left h3 hp.le
  have k4 := mul_le_mul_of_nonneg_left h4 hq.le
  have e1 : S / P * ((l + e) / ((1 + 2 * e) * (S / P)) - 1)
      + (1 - S / P) * ((1 - l + e) / ((1 + 2 * e) * (1 - S / P)) - 1) = 0 := by
    have aux : ∀ p x c : ℝ, p ≠ 0 → c ≠ 0 → p * (x / (c * p) - 1) = x / c - p := by
      intro p x c hp0 hc0
      field_simp
      ring
    rw [aux _ _ _ hp.ne' hc.ne', aux _ _ _ hq.ne' hc.ne']
    field_simp
    ring
  have key : S / P * Real.log (l + e) + (1 - S / P) * Real.log (1 - l + e)
      ≤ S / P * Real.log (S / P + e) + (1 - S / P) * Real.log (1 - S / P + e)
        + Real.log (1 + 2 * e) := by
    nlinarith
  have key2 := mul_le_mul_of_nonneg_left key hP.le
  have e2 : P * (S / P) = S := by field_simp
  have e3 : P * (S / P * Real.log (l + e) + (1 - S / P) * Real.log (1 - l + e))
      = S * Real.log (l + e) - S * Real.log (1 - l + e) + P * Real.log (1 - l + e) := by
    rw [mul_add, ← mul_assoc, e2, ← mul_assoc, mul_sub, e2]; ring
  have e4 : P * (S / P * Real.log (S / P + e) + (1 - S / P) * Real.log (1 - S / P + e)
        + Real.log (1 + 2 * e))
      = S * Real.log (S / P + e) - S * Real.log (1 - S / P + e)
        + P * Real.log (1 - S / P + e) + P * Real.log (1 + 2 * e) := by
    rw [mul_add, mul_add, ← mul_assoc, e2, ← mul_assoc, mul_sub, e2]; ring
  rw [e3, e4] at key2
  exact key2

theorem log_one_add_le (u : ℝ) (hu : 0 ≤ u) : Real.log (1 + u) ≤ u := by
  have := Real.log_le_sub_one_of_pos (show 0 < 1 + u by linarith)
  linarith

end ElboReal
section ElboEffect

theorem sum_alpha_pos (P : Nat) (hP : 0 < P) (alpha : Nat → ℝ)
    (ha : ∀ j, j < P → 0 < alpha j ∧ alpha j < 1) :
    0 < ∑ j ∈ range P, alpha j ∧ ∑ j ∈ range P, alpha j < (P : ℝ) := by
  have hne : (range P).Nonempty := ⟨0, mem_range.mpr hP⟩
  constructor
  · exact Finset.sum_pos (fun j hj => (ha j (mem_range.mp hj)).1) hne
  · have h := Finset.sum_lt_sum_of_nonempty (f := alpha) (g := fun _ => (1 : ℝ)) hne
      (fun j hj => (ha j (mem_range.mp hj)).2)
    simpa using h

/-- For one effect type, the prior inclusion term plus the KL term of `calc_logw` under
hyperparameters with `λ = Σα/P`, `slab_var = Σα(μ₁² + s₁²)/Σα` and, under mog,
`spike_var = Σ(1−α)(μ₂² + s₂²)/(P − Σα)` is at least the same sum under any other
hyperparameters, up to `P·log(1 + 2·eps)`. -/
theorem effect_term_le (vb : VBayesX2 ℝ) (ee : Nat) (mog : Bool)
    (alpha mu1 s1_sq mu2 s2_sq : Nat → ℝ) (h h2 : Hyps ℝ) (hP : 0 < vb.n_var)
    (ha : ∀ j, j < vb.n_var → 0 < alpha j ∧ alpha j < 1)
    (hs1 : ∀ j, j < vb.n_var → 0 < s1_sq j) (hs2 : ∀ j, j < vb.n_var → 0 < s2_sq j)
    (hv : 0 < h.slab_var ee) (hw : 0 < h.spike_var ee)
    (hl : 0 ≤ h.lambda ee ∧ h.lambda ee ≤ 1)
    (hl2 : h2.lambda ee = (∑ j ∈ range vb.n_var, alpha j) / (vb.n_var : ℝ))
    (hv2 : h2.slab_var ee = (∑ j ∈ range vb.n_var, alpha j * (mu1 j * mu1 j + s1_sq j))
      / (∑ j ∈ range vb.n_var, alpha j))
    (hw2 : mog = true →
      h2.spike_var ee = (∑ j ∈ range vb.n_var, (1 - alpha j) * (mu2 j * mu2 j + s2_sq j))
        / ((vb.n_var : ℝ) - ∑ j ∈ range vb.n_var, alpha j)) :
    int_gamma_effect ⟨Real.log, Real.exp⟩ vb ee alpha h
        + calcIntKL ⟨Real.log, Real.exp⟩ vb ee mog alpha mu1 s1_sq mu2 s2_sq h
      ≤ int_gamma_effect ⟨Real.log, Real.exp⟩ vb ee alpha h2
        + calcIntKL ⟨Real.log, Real.exp⟩ vb ee mog alpha mu1 s1_sq mu2 s2_sq h2
        + (vb.n_var : ℝ) * Real.log (1 + 2 * eps) := by
  obtain ⟨hS, hSP⟩ := sum_alpha_pos vb.n_var hP alpha ha
  have hne : (range vb.n_var).Nonempty := ⟨0, mem_range.mpr hP⟩
  have hA : 0 < ∑ j ∈ range vb.n_var, alpha j * (mu1 j * mu1 j + s1_sq j) :=
    Finset.sum_pos (fun j hj => mul_pos (ha j (mem_range.mp hj)).1
      (add_pos_of_nonneg_of_pos (mul_self_nonneg _) (hs1 j (mem_range.mp hj)))) hne
  have hA2 : 0 < ∑ j ∈ range vb.n_var, (1 - alpha j) * (mu2 j * mu2 j + s2_sq j) :=
    Finset.sum_pos (fun j hj => mul_pos (sub_pos.mpr (ha j (mem_range.mp hj)).2)
      (add_pos_of_nonneg_of_pos (mul_self_nonneg _) (hs2 j (mem_range.mp hj)))) hne
  have e0 := eps_pos_real
  have i1 := inclusion_term_le _ _ eps (h.lambda ee) hS hSP e0 (by linarith [hl.1])
    (by linarith [hl.2])
  have i2 := div_add_log_ge _ _ 1 (h.slab_var ee) hA hS one_pos hv
  have i3 := div_add_log_ge _ _ 1 (h.spike_var ee) hA2 (sub_pos.mpr hSP) one_pos hw
  simp only [one_mul] at i2 i3
  unfold int_gamma_effect calcIntKL
  simp only [hl2, hv2]
  cases mog with
  | false =>
    simp only [Bool.false_eq_true, if_false]
    linarith
  | true =>
    simp only [if_true, hw2 rfl]
    linarith

end ElboEffect
section ElboClaim

theorem PI_pos_real : (0 : ℝ) < PI := by
  unfold PI; norm_num

theorem n_var_eps_le (P : Nat) (hP : P < 2 ^ 32) :
    2 * ((P : ℝ) * Real.log (1 + 2 * eps)) ≤ 1 / 1000000 := by
  have e0 := eps_pos_real
  have h1 : Real.log (1 + 2 * eps) ≤ 2 * eps := log_one_add_le _ (by linarith)
  have h2 : (P : ℝ) ≤ 2 ^ 32 := by exact_mod_cast hP.le
  have h3 : (0 : ℝ) ≤ (P : ℝ) := Nat.cast_nonneg P
  have h4 : (eps : ℝ) ≤ 1 / 2 ^ 64 := by
    unfold eps
    rw [div_le_div_iff₀ (by positivity) (by positivity)]
    norm_num
  have h5 : (P : ℝ) * Real.log (1 + 2 * eps) ≤ 2 ^ 32 * (2 * (1 / 2 ^ 64)) := by
    apply mul_le_mul h2 (by linarith) _ (by positivity)
    exact Real.log_nonneg (by linarith)
  norm_num at h5 ⊢
  linarith

theorem sum_slab_form (P : Nat) (alpha mu1 s1_sq : Nat → ℝ) :
    ∑ j ∈ range P, alpha j * (s1_sq j + mu1 j ^ 2)
      = ∑ j ∈ range P, alpha j * (mu1 j * mu1 j + s1_sq j) :=
  Finset.sum_congr rfl (fun j _ => by ring)

theorem sum_spike_form (P : Nat) (alpha mu2 s2_sq : Nat → ℝ) :
    ∑ j ∈ range P, (1 - alpha j) * (s2_sq j + mu2 j ^ 2)
      = ∑ j ∈ range P, (1 - alpha j) * (mu2 j * mu2 j + s2_sq j) :=
  Finset.sum_congr rfl (fun j _ => by ring)

theorem maximiseHyps_elbo_aux (vb : VBayesX2 ℝ) (hyps : Hyps ℝ)
    (vp : VariationalParameters ℝ)
    (hcov : vb.p.use_vb_on_covars = false)
    (hN : 0 < vb.n_samples) (hP : 0 < vb.n_var) (hP32 : vb.n_var < 2 ^ 32)
    (hsigma : 0 < hyps.sigma)
    (hslab : ∀ ee, 0 < hyps.slab_var ee) (hspike : ∀ ee, 0 < hyps.spike_var ee)
    (hlambda : ∀ ee, 0 ≤ hyps.lambda ee ∧ hyps.lambda ee ≤ 1)
    (hab : ∀ j, j < vb.n_var → 0 < vp.alpha_beta j ∧ vp.alpha_beta j < 1)
    (hag : 1 < vb.n_effects → ∀ j, j < vb.n_var → 0 < vp.alpha_gam j ∧ vp.alpha_gam j < 1)
    (hsb : ∀ j, j < vb.n_var → 0 < vp.s1_beta_sq j ∧ 0 < vp.s2_beta_sq j)
    (hsg : 1 < vb.n_effects → ∀ j, j < vb.n_var → 0 < vp.s1_gam_sq j ∧ 0 < vp.s2_gam_sq j)
    (hEL : 0 < calcExpLinear vb hyps vp) :
    calc_logw ⟨Real.log, Real.exp⟩ vb hyps vp - 1 / 1000000
      ≤ calc_logw ⟨Real.log, Real.exp⟩ vb (maximiseHyps vb hyps vp) vp := by
  obtain ⟨ms, m0, m1⟩ := maximiseHyps_closed_forms_aux vb hyps vp
  have hNr : (0 : ℝ) < vb.N := by unfold VBayesX2.N; exact_mod_cast hN
  have hEL2 : calcExpLinear vb (maximiseHyps vb hyps vp) vp = calcExpLinear vb hyps vp := rfl
  rw [ms] at m0 m1
  simp only [maximiseHyps_sigma_spec, hcov, Bool.false_eq_true, if_false] at ms m0 m1
  have t0 := div_add_log_ge _ _ (2 * PI) hyps.sigma hEL hNr
    (mul_pos two_pos PI_pos_real) hsigma
  have b0 := effect_term_le vb 0 vb.p.mode_mog_prior_beta vp.alpha_beta vp.mu1_beta
    vp.s1_beta_sq vp.mu2_beta vp.s2_beta_sq hyps (maximiseHyps vb hyps vp) hP hab
    (fun j hj => (hsb j hj).1) (fun j hj => (hsb j hj).2) (hslab 0) (hspike 0) (hlambda 0)
    m0.1 (by rw [m0.2.1, sum_slab_form])
    (fun hm => by rw [m0.2.2.2 hm, sum_spike_form])
  have bound := n_var_eps_le vb.n_var hP32
  have hlog : 0 ≤ (vb.n_var : ℝ) * Real.log (1 + 2 * eps) :=
    mul_nonneg (Nat.cast_nonneg _) (Real.log_nonneg (by linarith [eps_pos_real]))
  have s1 : ∀ x : ℝ, -1 * calcExpLinear vb hyps vp / 2 / x
      = -(calcExpLinear vb hyps vp / 2 / x) := fun x => by ring
  unfold calc_logw calcIntKLBeta calcIntKLGamma
  simp only [hcov, Bool.false_eq_true, if_false, hEL2, ms, s1]
  by_cases hn : 1 < vb.n_effects
  · have b1 := effect_term_le vb 1 vb.p.mode_mog_prior_gam vp.alpha_gam vp.mu1_gam
      vp.s1_gam_sq vp.mu2_gam vp.s2_gam_sq hyps (maximiseHyps vb hyps vp) hP (hag hn)
      (fun j hj => (hsg hn j hj).1) (fun j hj => (hsg hn j hj).2) (hslab 1) (hspike 1) (hlambda 1)
      (m1 hn).1 (by rw [(m1 hn).2.1, sum_slab_form])
      (fun hm => by rw [(m1 hn).2.2.2 hm, sum_spike_form])
    simp only [if_pos hn]
    linarith
  · simp only [if_neg hn]
    linarith

/-- C2. With the covariates pre-regressed (`use_vb_on_covars` off) the empirical-Bayes step
never lowers the ELBO by more than `1e-6`: for every state with `σ > 0`, slab and spike
variances `> 0`, every `α` in `(0,1)`, every `s² > 0` and `calcExpLinear > 0`, `calc_logw` on
the hyperparameters returned by `maximiseHyps` is at least `calc_logw` on the
hyperparameters before the call minus `1e-6`, the variational parameters unchanged.  The
state has data (`n_samples > 0`, `n_var > 0`), `n_var` is a `std::uint32_t`, the prior
inclusion probabilities `λ` before the call lie in `[0, 1]`, so that the ELBO before the
call is a number, and the parameters of the interaction effects are constrained only when
there are interaction effects; `std::log` is the real logarithm. -/
theorem maximiseHyps_elbo (vb : VBayesX2 ℝ) (hyps : Hyps ℝ)
    (vp : VariationalParameters ℝ)
    (hcov : vb.p.use_vb_on_covars = false)
    (hN : 0 < vb.n_samples) (hP : 0 < vb.n_var) (hP32 : vb.n_var < 2 ^ 32)
    (hsigma : 0 < hyps.sigma)
    (hslab : ∀ ee, 0 < hyps.slab_var ee) (hspike : ∀ ee, 0 < hyps.spike_var ee)
    (hlambda : ∀ ee, 0 ≤ hyps.lambda ee ∧ hyps.lambda ee ≤ 1)
    (hab : ∀ j, j < vb.n_var → 0 < vp.alpha_beta j ∧ vp.alpha_beta j < 1)
    (hag : 1 < vb.n_effects → ∀ j, j < vb.n_var → 0 < vp.alpha_gam j ∧ vp.alpha_gam j < 1)
    (hsb : ∀ j, j < vb.n_var → 0 < vp.s1_beta_sq j ∧ 0 < vp.s2_beta_sq j)
    (hsg : 1 < vb.n_effects → ∀ j, j < vb.n_var → 0 < vp.s1_gam_sq j ∧ 0 < vp.s2_gam_sq j)
    (hEL : 0 < calcExpLinear vb hyps vp) :
    calc_logw ⟨Real.log, Real.exp⟩ vb hyps vp - 1 / 1000000
      ≤ calc_logw ⟨Real.log, Real.exp⟩ vb (maximiseHyps vb hyps vp) vp :=
  maximiseHyps_elbo_aux vb hyps vp hcov hN hP hP32 hsigma hslab hspike hlambda hab hag hsb hsg
    hEL

theorem exC_calcExpLinear :
    calcExpLinear (exC_vb ℝ 0) (exC_hyps ℝ 0) (exC_vp_init ℝ) = 4 := by
  simp [calcExpLinear, exC_vb, exC_p, exC_vp_init, Finset.sum_range_succ, VBayesX2.N]
  norm_num

/-- C2, on the example with one variant, at its first grid point and initial variational
parameters. -/
theorem maximiseHyps_elbo_witness :
    0 < calcExpLinear (exC_vb ℝ 0) (exC_hyps ℝ 0) (exC_vp_init ℝ)
    ∧ calc_logw ⟨Real.log, Real.exp⟩ (exC_vb ℝ 0) (exC_hyps ℝ 0) (exC_vp_init ℝ) - 1 / 1000000
      ≤ calc_logw ⟨Real.log, Real.exp⟩ (exC_vb ℝ 0)
          (maximiseHyps (exC_vb ℝ 0) (exC_hyps ℝ 0) (exC_vp_init ℝ)) (exC_vp_init ℝ) :=
  ⟨by rw [exC_calcExpLinear]; norm_num,
    maximiseHyps_elbo (exC_vb ℝ 0) (exC_hyps ℝ 0) (exC_vp_init ℝ) rfl (by decide) (by decide)
      (by decide) (by simp [exC_hyps]) (fun _ => by simp [exC_hyps])
      (fun _ => by simp [exC_hyps]) (fun _ => by simp [exC_hyps]; norm_num)
      (fun _ _ => by simp [exC_vp_init]; norm_num)
      (fun h => absurd h (by decide))
      (fun _ _ => by simp [exC_vp_init])
      (fun h => absurd h (by decide))
      (by rw [exC_calcExpLinear]; norm_num)⟩

end ElboClaim
/-! ### The pass chunks of the main-effects model -/

section PassChunks

variable {F : Type} [Field F]

theorem n_chunks_main (vb : VBayesX2 F) (h1 : vb.n_effects = 1) :
    n_chunks vb = (vb.n_var + vb.p.main_chunk_size - 1) / vb.p.main_chunk_size := by
  simp [n_chunks, h1]

theorem ch_index_lt (vb : VBayesX2 F) (h1 : vb.n_effects = 1) (hm : 0 < vb.p.main_chunk_size)
    (j : Nat) (hj : j < vb.n_var) : ch_index vb j < n_chunks vb := by
  rw [n_chunks_main vb h1]
  simp only [ch_index, hj, if_true]
  have e : vb.n_var + vb.p.main_chunk_size - 1 = (vb.n_var - 1) + vb.p.main_chunk_size := by
    omega
  rw [e, Nat.add_div_right _ hm]
  exact Nat.lt_succ_of_le (Nat.div_le_div_right (by omega))

theorem pass_chunks_main (vb : VBayesX2 F) (h1 : vb.n_effects = 1)
    (hm : 0 < vb.p.main_chunk_size) :
    (∀ chunk ∈ fwd_pass_chunks vb, chunk.getD 0 0 / vb.n_var = 0)
    ∧ (∀ chunk ∈ back_pass_chunks vb, chunk.getD 0 0 / vb.n_var = 0)
    ∧ (∀ j, j < vb.n_var → ∃ chunk ∈ fwd_pass_chunks vb, j ∈ chunk)
    ∧ (∀ j, j < vb.n_var → ∃ chunk ∈ back_pass_chunks vb, j ∈ chunk) := by
  have hfirst : ∀ chunk : List Nat, (∀ k ∈ chunk, k < vb.n_var) →
      chunk.getD 0 0 / vb.n_var = 0 := by
    intro chunk hc
    cases chunk with
    | nil => simp
    | cons a rest =>
      simp only [List.getD_cons_zero]
      exact Nat.div_eq_of_lt (hc a (List.mem_cons_self _ _))
  refine ⟨?_, ?_, ?_, ?_⟩
  · intro chunk hc
    apply hfirst
    intro k hk
    simp only [fwd_pass_chunks, List.mem_map, List.mem_range] at hc
    obtain ⟨c, _, rfl⟩ := hc
    have := (List.mem_filter.mp hk).1
    rw [List.mem_range, h1, Nat.one_mul] at this
    exact this
  · intro chunk hc
    apply hfirst
    intro k hk
    simp only [back_pass_chunks, List.mem_map, List.mem_range] at hc
    obtain ⟨c, _, rfl⟩ := hc
    have := (List.mem_filter.mp (List.mem_reverse.mp hk)).1
    rw [List.mem_range, h1, Nat.one_mul] at this
    exact this
  · intro j hj
    refine ⟨_, List.mem_map.mpr ⟨ch_index vb j,
      List.mem_range.mpr (ch_index_lt vb h1 hm j hj), rfl⟩, ?_⟩
    exact List.mem_filter.mpr ⟨List.mem_range.mpr (by rw [h1, Nat.one_mul]; exact hj),
      by simp⟩
  · intro j hj
    have hlt := ch_index_lt vb h1 hm j hj
    refine ⟨_, List.mem_map.mpr ⟨n_chunks vb - 1 - ch_index vb j,
      List.mem_range.mpr (by omega), rfl⟩, ?_⟩
    exact List.mem_reverse.mpr (List.mem_filter.mpr
      ⟨List.mem_range.mpr (by rw [h1, Nat.one_mul]; exact hj), by simp⟩)

end PassChunks
/-! ## The hyperparameter grid: `validate_grid` and `check_inputs` -/

section Recip

theorem recip_exponent_two : recip_exponent 2 64 52 = 53 := by decide

theorem recip_exponent_three : recip_exponent 3 64 52 = 54 := by decide

theorem recip_significand_two : recip_significand 2 53 = 4503599627370496 := by decide

theorem recip_significand_three : recip_significand 3 54 = 6004799503160661 := by decide

/-- The search for the exponent ends at an exponent `e` with `2^52·n ≤ 2^e` when the
fuel reaches one. -/
theorem recip_exponent_spec (n : Nat) (fuel e : Nat) (h : 2 ^ 52 * n ≤ 2 ^ (e + fuel)) :
    2 ^ 52 * n ≤ 2 ^ recip_exponent n fuel e := by
  induction fuel generalizing e with
  | zero => exact h
  | succ fuel ih =>
    rw [recip_exponent]
    split_ifs with hc
    · exact hc
    · exact ih (e + 1) (by rw [Nat.add_assoc, Nat.add_comm 1 fuel]; exact h)

/-- The significand times `n` is within `n/2` of `2^e`. -/
theorem recip_significand_spec (n e : Nat) (hn : 0 < n) :
    2 * (recip_significand n e * n) ≤ 2 * 2 ^ e + n
    ∧ 2 * 2 ^ e ≤ 2 * (recip_significand n e * n) + n := by
  have h1 := Nat.div_add_mod (2 ^ e) n
  have h2 := Nat.mod_lt (2 ^ e) hn
  unfold recip_significand
  simp only
  generalize 2 ^ e % n = r at h1 h2 ⊢
  generalize 2 ^ e / n = q at h1 ⊢
  generalize 2 ^ e = T at h1 ⊢
  have e1 : (q + 1) * n = q * n + n := by ring
  have e2 : n * q = q * n := Nat.mul_comm _ _
  rw [e2] at h1
  split_ifs <;> (try rw [e1]) <;> (generalize q * n = P at h1 ⊢) <;> omega

variable {F : Type} [LinearOrderedField F]

theorem recip_value_two : (recip_value 2 : F) = 1 / 2 := by
  unfold recip_value
  rw [recip_exponent_two, recip_significand_two]
  norm_num

theorem recip_value_three :
    (recip_value 3 : F) = 6004799503160661 / 18014398509481984 := by
  unfold recip_value
  rw [recip_exponent_three, recip_significand_three]
  norm_num

/-- The binary64 quotient `1.0/n` is within the relative error `2^-53` of `1/n`. -/
theorem recip_value_error (n : Nat) (hn : 0 < n) (hn2 : n < 2 ^ 32) :
    |(recip_value n : F) - 1 / (n : F)| ≤ 1 / (2 ^ 53 * (n : F)) := by
  have hE := recip_exponent_spec n 64 52 (by
    have : 2 ^ (52 + 64) = 2 ^ 52 * 2 ^ 64 := by norm_num
    rw [this]
    exact Nat.mul_le_mul_left _ (by omega))
  obtain ⟨h1, h2⟩ := recip_significand_spec n (recip_exponent n 64 52) hn
  unfold recip_value
  generalize recip_significand n (recip_exponent n 64 52) = mm at h1 h2 ⊢
  generalize recip_exponent n 64 52 = E at hE h1 h2 ⊢
  have hN : (0 : F) < (n : F) := Nat.cast_pos.mpr hn
  have hT : (0 : F) < (2 : F) ^ E := by positivity
  have c1 : 2 * ((mm : F) * (n : F)) ≤ 2 * (2 : F) ^ E + (n : F) := by exact_mod_cast h1
  have c2 : 2 * (2 : F) ^ E ≤ 2 * ((mm : F) * (n : F)) + (n : F) := by exact_mod_cast h2
  have c3 : (2 : F) ^ 52 * (n : F) ≤ (2 : F) ^ E := by exact_mod_cast hE
  have key : (mm : F) / 2 ^ E - 1 / (n : F)
      = ((mm : F) * (n : F) - 2 ^ E) / (2 ^ E * (n : F)) := by
    field_simp
  have hnum : |(mm : F) * (n : F) - 2 ^ E| ≤ (n : F) / 2 :=
    abs_le.mpr ⟨by linarith, by linarith⟩
  rw [key, abs_div, abs_of_pos (by positivity : (0 : F) < 2 ^ E * (n : F)),
    div_le_div_iff (by positivity) (by positivity)]
  calc |(mm : F) * (n : F) - 2 ^ E| * (2 ^ 53 * (n : F))
      ≤ (n : F) / 2 * (2 ^ 53 * (n : F)) := mul_le_mul_of_nonneg_right hnum (by positivity)
    _ = 2 ^ 52 * (n : F) * (n : F) := by ring
    _ ≤ 2 ^ E * (n : F) := mul_le_mul_of_nonneg_right c3 hN.le
    _ = 1 * (2 ^ E * (n : F)) := by ring

end Recip

section GridValidation

/-- A loop that appends the indices passing a test computes a filter. -/
theorem foldl_push_eq_filter (p : Nat → Bool) (l init : List Nat) :
    l.foldl (fun acc ii => if p ii then acc ++ [ii] else acc) init = init ++ l.filter p := by
  induction l generalizing init with
  | nil => simp
  | cons a l ih =>
    rw [List.foldl_cons, ih]
    by_cases h : p a = true
    · simp [h, List.filter_cons]
    · simp [h, List.filter_cons]

variable {F : Type} [LinearOrderedField F]

theorem validate_grid_eq_filter (grid : GridMatrix F) (n_var : Nat) :
    validate_grid grid n_var = (List.range grid.rows).filter (validate_grid_test grid n_var) := by
  unfold validate_grid
  exact (foldl_push_eq_filter (validate_grid_test grid n_var) (List.range grid.rows) []).trans
    (List.nil_append _)

theorem validate_grid_test_iff (grid : GridMatrix F) (n_var : Nat) (hP : 0 < n_var) (ii : Nat) :
    validate_grid_test grid n_var ii = true
      ↔ grid_row_valid_rounded n_var (grid.entry ii) := by
  have hP0 : n_var ≠ 0 := Nat.pos_iff_ne_zero.mp hP
  unfold validate_grid_test grid_row_valid_rounded
  constructor
  · intro h
    simp only [Bool.and_eq_true] at h
    obtain ⟨⟨⟨⟨⟨⟨b1, b2⟩, b3⟩, ⟨⟨g1, g2⟩, g3⟩⟩, ⟨s1, s2⟩⟩, ⟨sg1, sg2⟩⟩, ⟨sb1, sb2⟩⟩ := h
    cases e0 : grid.entry ii 0 <;> rw [e0] at s1 s2 <;>
      simp only [Double.isfinite, Bool.false_eq_true] at s2
    cases e1 : grid.entry ii 1 <;> rw [e1] at sb1 sb2 <;>
      simp only [Double.isfinite, Bool.false_eq_true] at sb2
    cases e2 : grid.entry ii 2 <;> rw [e2] at sg1 sg2 <;>
      simp only [Double.isfinite, Bool.false_eq_true] at sg2
    cases e3 : grid.entry ii 3 <;> rw [e3] at b1 b2 b3 <;>
      simp only [Double.isfinite, Bool.false_eq_true] at b3
    cases e4 : grid.entry ii 4 <;> rw [e4] at g1 g2 g3 <;>
      simp only [Double.isfinite, Bool.false_eq_true] at g3
    rename_i sigma sigma_b sigma_g lam_b lam_g
    simp only [Double.recip, hP0, if_false, Double.le, Double.lt, decide_eq_true_eq]
      at s1 sb1 sg1 b1 b2 g1 g2
    exact ⟨sigma, sigma_b, sigma_g, lam_b, lam_g, rfl, rfl, rfl, rfl, rfl,
      s1, sb1, sg1, b1, b2, g1, g2⟩
  · rintro ⟨sigma, sigma_b, sigma_g, lam_b, lam_g, e0, e1, e2, e3, e4,
      s1, sb1, sg1, b1, b2, g1, g2⟩
    rw [e0, e1, e2, e3, e4]
    simp [Double.recip, hP0, Double.le, Double.lt, Double.isfinite, s1, sb1, sg1, b1, b2, g1, g2]

theorem grid_row_valid_rounded_iff (P : Nat) (row : Nat → Double F)
    (h : (recip_value P : F) = 1 / (P : F)) :
    grid_row_valid_rounded P row ↔ grid_row_valid_spec P row := by
  unfold grid_row_valid_rounded grid_row_valid_spec
  rw [h]

/-- C11 (as amended).  For a grid read with `P = n_var` variants, `0 < P < 2^32`,
`validate_grid` returns the row indices in strictly increasing order, and an index is
returned exactly when it is a row of the grid whose five entries `(σ, σ_b, σ_g, λ_b, λ_g)`
are finite numbers with `σ > 0`, `σ_b > 0`, `σ_g ≥ 0`, `r ≤ λ_b < 1` and `0 ≤ λ_g < 1`,
where `r` is the binary64 quotient `1.0/P`; `r` differs from `1/P` by at most `2^-53/P`,
and when `r = 1/P` (as for `P = 2`) the rows returned are exactly those with
`1/P ≤ λ_b < 1`. -/
theorem validate_grid_rounded_spec (grid : GridMatrix F) (n_var : Nat) (hP : 0 < n_var)
    (hP2 : n_var < 2 ^ 32) :
    (validate_grid grid n_var).Pairwise (fun a b => a < b)
    ∧ (∀ ii, ii ∈ validate_grid grid n_var
        ↔ ii < grid.rows ∧ grid_row_valid_rounded n_var (grid.entry ii))
    ∧ |(recip_value n_var : F) - 1 / (n_var : F)| ≤ 1 / (2 ^ 53 * (n_var : F))
    ∧ ((recip_value n_var : F) = 1 / (n_var : F) →
        ∀ ii, ii ∈ validate_grid grid n_var
          ↔ ii < grid.rows ∧ grid_row_valid_spec n_var (grid.entry ii)) := by
  have hmem : ∀ ii, ii ∈ validate_grid grid n_var
      ↔ ii < grid.rows ∧ grid_row_valid_rounded n_var (grid.entry ii) := by
    intro ii
    rw [validate_grid_eq_filter, List.mem_filter, List.mem_range,
      validate_grid_test_iff grid n_var hP]
  refine ⟨?_, hmem, recip_value_error n_var hP hP2, fun h ii => ?_⟩
  · rw [validate_grid_eq_filter]
    exact (List.pairwise_lt_range _).filter _
  · rw [hmem, grid_row_valid_rounded_iff n_var _ h]

theorem exG_grid_valid_points : validate_grid (exG_grid ℚ) 2 = [0] := by
  rw [validate_grid_eq_filter]
  simp [exG_grid, validate_grid_test, List.range_succ, List.filter_cons, Double.recip,
    Double.le, Double.lt, Double.isfinite, recip_value_two]
  norm_num

/-- C11 (as amended), on the grid of two rows read with two variants. -/
theorem validate_grid_rounded_spec_witness :
    0 < 2 ∧ 2 < 2 ^ 32 ∧ (validate_grid (exG_grid ℚ) 2).Pairwise (fun a b => a < b)
    ∧ (∀ ii, ii ∈ validate_grid (exG_grid ℚ) 2
        ↔ ii < (exG_grid ℚ).rows ∧ grid_row_valid_rounded 2 ((exG_grid ℚ).entry ii))
    ∧ ∀ ii, ii ∈ validate_grid (exG_grid ℚ) 2
        ↔ ii < (exG_grid ℚ).rows ∧ grid_row_valid_spec 2 ((exG_grid ℚ).entry ii) :=
  ⟨by decide, by decide,
    (validate_grid_rounded_spec (exG_grid ℚ) 2 (by decide) (by decide)).1,
    (validate_grid_rounded_spec (exG_grid ℚ) 2 (by decide) (by decide)).2.1,
    (validate_grid_rounded_spec (exG_grid ℚ) 2 (by decide) (by decide)).2.2.2
      (by rw [recip_value_two]; norm_num)⟩

/-- C11 as stated fails: read with `P = 3` variants, the row `(1, 1, 0, λ_b, 0)` with
`λ_b = 6004799503160661/2^54`, the binary64 number `0.3333333333333333`, is returned by
`validate_grid`, which compares `λ_b` with the binary64 quotient `1.0/3` (the same
number), although `λ_b < 1/3`. -/
theorem validate_grid_counterexample :
    validate_grid (exG_third ℚ) 3 = [0]
    ∧ (exG_third ℚ).entry 0 3 = .finite (6004799503160661 / 18014398509481984)
    ∧ (6004799503160661 / 18014398509481984 : ℚ) < 1 / 3
    ∧ ¬ grid_row_valid_spec 3 ((exG_third ℚ).entry 0) := by
  refine ⟨?_, rfl, by norm_num, ?_⟩
  · rw [validate_grid_eq_filter]
    simp [exG_third, validate_grid_test, List.range_succ, List.filter_cons, Double.recip,
      Double.le, Double.lt, Double.isfinite, recip_value_three]
    norm_num
  · rintro ⟨sigma, sigma_b, sigma_g, lam_b, lam_g, -, -, -, e3, -, -, -, -, h, -⟩
    simp only [exG_third] at e3
    have e : lam_b = 6004799503160661 / 18014398509481984 := by
      simpa using e3.symm
    rw [e] at h
    norm_num at h

theorem exG_bad_valid_points : validate_grid (exG_bad ℚ) 2 = [] := by
  rw [validate_grid_eq_filter]
  simp [exG_bad, validate_grid_test, List.range_succ, List.filter_cons, Double.recip,
    Double.le, Double.lt, Double.isfinite]

/-- C12 (amended).  `check_inputs` raises an error whenever `hyps_grid` or `r1_hyps_grid`
contains no row that passes the grid validation; when the dimensions agree and each grid
has a valid row, it raises none and replaces both grids by their valid rows. -/
theorem check_inputs_no_valid_row (Y_rows X_rows n_samples n_var : Nat)
    (hyps_grid r1_hyps_grid : GridMatrix F) :
    ((validate_grid hyps_grid n_var = [] ∨ validate_grid r1_hyps_grid n_var = []) →
      ∃ msg, check_inputs Y_rows X_rows n_samples n_var hyps_grid r1_hyps_grid = .error msg)
    ∧ (Y_rows = n_samples → X_rows = n_samples → validate_grid hyps_grid n_var ≠ [] →
        validate_grid r1_hyps_grid n_var ≠ [] →
        check_inputs Y_rows X_rows n_samples n_var hyps_grid r1_hyps_grid
          = .ok (subset_matrix hyps_grid (validate_grid hyps_grid n_var),
              subset_matrix r1_hyps_grid (validate_grid r1_hyps_grid n_var))) := by
  constructor
  · intro h
    unfold check_inputs
    by_cases hY : Y_rows = n_samples
    · by_cases hX : X_rows = n_samples
      · by_cases h1 : validate_grid hyps_grid n_var = []
        · simp [hY, hX, h1]
        · have h2 : validate_grid r1_hyps_grid n_var = [] := h.resolve_left h1
          simp [hY, hX, h1, h2]
      · simp [hY, hX]
    · simp [hY]
  · intro hY hX h1 h2
    unfold check_inputs
    simp [hY, hX, h1, h2]

/-- C12 (amended), on a grid whose only row is invalid and on the grid of two rows. -/
theorem check_inputs_no_valid_row_witness :
    (∃ msg, check_inputs 3 3 3 2 (exG_bad ℚ) (exG_grid ℚ) = .error msg)
    ∧ check_inputs 3 3 3 2 (exG_grid ℚ) (exG_grid ℚ)
        = .ok (subset_matrix (exG_grid ℚ) (validate_grid (exG_grid ℚ) 2),
            subset_matrix (exG_grid ℚ) (validate_grid (exG_grid ℚ) 2)) :=
  ⟨(check_inputs_no_valid_row 3 3 3 2 (exG_bad ℚ) (exG_grid ℚ)).1
      (Or.inl exG_bad_valid_points),
    (check_inputs_no_valid_row 3 3 3 2 (exG_grid ℚ) (exG_grid ℚ)).2 rfl rfl
      (by rw [exG_grid_valid_points]; simp) (by rw [exG_grid_valid_points]; simp)⟩

/-- C12 as stated fails: row 1 of the grid fails the validation (its `σ` is `-1`), and
`check_inputs` raises no error; it returns the grids reduced to row 0. -/
theorem check_inputs_bad_row_counterexample :
    1 < (exG_grid ℚ).rows ∧ 1 ∉ validate_grid (exG_grid ℚ) 2
    ∧ check_inputs 3 3 3 2 (exG_grid ℚ) (exG_grid ℚ)
        = .ok (subset_matrix (exG_grid ℚ) [0], subset_matrix (exG_grid ℚ) [0]) := by
  refine ⟨by simp [exG_grid], by rw [exG_grid_valid_points]; simp, ?_⟩
  unfold check_inputs
  rw [exG_grid_valid_points]
  simp

end GridValidation
/-! ## Jackknife summaries, heritability and the covariate projection -/

section Summaries

variable {F : Type} [LinearOrderedField F]

/-- C16.  For `J = n_jacknife` delete-one estimates `θ_0..θ_{J-1}` and the full estimate
`θ̂`, `get_jacknife_var` is `(J−1)/J · Σ_j (θ_j − mean θ)²` and `get_jacknife_bias_correct`
is `J·θ̂ − (J−1)·mean θ`, with `mean θ = Σ_j θ_j / J`; when `J ≥ 1` and every `θ_j` equals
`θ̂`, the variance is 0 and the bias-corrected estimate is `θ̂`. -/
theorem jacknife_summary (J : Nat) (theta : Nat → F) (theta_hat : F) :
    get_jacknife_var J J theta
        = ((J : F) - 1) / (J : F)
            * ∑ j ∈ range J, (theta j - (∑ i ∈ range J, theta i) / (J : F)) ^ 2
    ∧ get_jacknife_bias_correct J J theta theta_hat
        = (J : F) * theta_hat - ((J : F) - 1) * ((∑ i ∈ range J, theta i) / (J : F))
    ∧ (0 < J → (∀ j, j < J → theta j = theta_hat) →
        get_jacknife_var J J theta = 0
        ∧ get_jacknife_bias_correct J J theta theta_hat = theta_hat) := by
  refine ⟨?_, rfl, ?_⟩
  · unfold get_jacknife_var array_mean
    simp only [pow_two]
    rw [mul_comm]
  · intro hJ hall
    have hJ0 : (J : F) ≠ 0 := Nat.cast_ne_zero.mpr (Nat.pos_iff_ne_zero.mp hJ)
    have hmean : array_mean J theta = theta_hat := by
      unfold array_mean
      rw [Finset.sum_congr rfl (fun j hj => hall j (Finset.mem_range.mp hj))]
      rw [Finset.sum_const, Finset.card_range, nsmul_eq_mul]
      field_simp
    constructor
    · unfold get_jacknife_var
      rw [hmean]
      rw [Finset.sum_eq_zero (fun j hj => by rw [hall j (Finset.mem_range.mp hj)]; ring)]
      ring
    · unfold get_jacknife_bias_correct
      rw [hmean]
      ring

/-- C16, on three estimates equal to 2. -/
theorem jacknife_summary_witness :
    0 < 3 ∧ (∀ j, j < 3 → (fun _ => (2 : ℚ)) j = 2)
    ∧ get_jacknife_var 3 3 (fun _ => (2 : ℚ)) = 0
    ∧ get_jacknife_bias_correct 3 3 (fun _ => (2 : ℚ)) 2 = 2 :=
  ⟨by decide, fun _ _ => rfl,
    (jacknife_summary 3 (fun _ => (2 : ℚ)) 2).2.2 (by decide) (fun _ _ => rfl)⟩

/-- C17 (amended).  With `σ̂ = solve A b`, `calc_h2` returns `σ̂_i/Σσ̂`, whose entries sum
to 1 when `Σσ̂ ≠ 0`; with `reweight_sigmas` each `σ̂_i` is first multiplied by the entry
`A(n−1, i)` of the last row of the system, divided by `n_samples`. -/
theorem calc_h2_normalisation (solve : (Nat → Nat → F) → (Nat → F) → Nat → F)
    (n_samples n : Nat) (AA : Nat → Nat → F) (bb : Nat → F) :
    (∀ i, calc_h2 solve n_samples n AA bb false i
        = solve AA bb i / ∑ j ∈ range n, solve AA bb j)
    ∧ ((∑ j ∈ range n, solve AA bb j) ≠ 0 →
        ∑ i ∈ range n, calc_h2 solve n_samples n AA bb false i = 1)
    ∧ (∀ i, calc_h2 solve n_samples n AA bb true i
        = solve AA bb i * (AA (n - 1) i / (n_samples : F))
            / ∑ j ∈ range n, solve AA bb j * (AA (n - 1) j / (n_samples : F))) := by
  refine ⟨fun i => ?_, fun h => ?_, fun i => ?_⟩
  · simp [calc_h2]
  · simp only [calc_h2, Bool.false_eq_true, if_false]
    rw [← Finset.sum_div]
    exact div_self h
  · simp [calc_h2]

theorem exH_solution (i : Nat) : exH_solve (exH_AA ℚ) (exH_bb ℚ) i = 1 := by
  by_cases h : i = 0 <;> simp [exH_solve, exH_AA, exH_bb, h] <;> norm_num

/-- C17 (amended), on the system `[[2, 1], [1, 1]] σ̂ = (3, 2)`. -/
theorem calc_h2_normalisation_witness :
    (∑ j ∈ range 2, exH_solve (exH_AA ℚ) (exH_bb ℚ) j) ≠ 0
    ∧ ∑ i ∈ range 2, calc_h2 exH_solve 1 2 (exH_AA ℚ) (exH_bb ℚ) false i = 1 :=
  ⟨by simp [Finset.sum_range_succ, exH_solution],
    (calc_h2_normalisation exH_solve 1 2 (exH_AA ℚ) (exH_bb ℚ)).2.1
      (by simp [Finset.sum_range_succ, exH_solution])⟩

/-- C17 as stated fails: on the system `[[2, 1], [1, 1]] σ̂ = (3, 2)` with solution
`(1, 1)` and `n_samples = 1`, `calc_h2` with `reweight_sigmas` returns `1/2` for the first
component (weights `A(1,0) = A(1,1) = 1`), and the diagonal weights `A(0,0) = 2`,
`A(1,1) = 1` would give `2/3`. -/
theorem calc_h2_diagonal_counterexample :
    (∀ i, i < 2 → ∑ j ∈ range 2, exH_AA ℚ i j * exH_solve (exH_AA ℚ) (exH_bb ℚ) j = exH_bb ℚ i)
    ∧ calc_h2 exH_solve 1 2 (exH_AA ℚ) (exH_bb ℚ) true 0 = 1 / 2
    ∧ calc_h2_diagonal_spec 1 2 (exH_AA ℚ) (exH_solve (exH_AA ℚ) (exH_bb ℚ)) 0 = 2 / 3 := by
  refine ⟨?_, ?_, ?_⟩
  · intro i hi
    interval_cases i <;> simp [Finset.sum_range_succ, exH_solution, exH_AA, exH_bb] <;> norm_num
  · simp [calc_h2, Finset.sum_range_succ, exH_solution, exH_AA]
  · simp [calc_h2_diagonal_spec, Finset.sum_range_succ, exH_solution, exH_AA]
    norm_num

end Summaries
section Projection

variable {F : Type} [Field F]

/-- The coefficients `CtC_inv · Cᵀ · rhs` that `project_out_covars` computes. -/
theorem project_out_covars_eq (n_samples n_covar : Nat) (rhs C CtC_inv : Nat → Nat → F)
    (i d : Nat) :
    project_out_covars n_samples n_covar rhs C CtC_inv i d
      = rhs i d - ∑ k ∈ range n_covar, C i k *
          ∑ l ∈ range n_covar, CtC_inv k l * ∑ s ∈ range n_samples, C s l * rhs s d := rfl

theorem project_out_covars_eq_spec (n_samples n_covar : Nat) (M C CtC_inv : Nat → Nat → F)
    (i d : Nat) :
    project_out_covars n_samples n_covar M C CtC_inv i d
      = project_out_covars_spec n_samples n_covar M C CtC_inv i d := by
  rw [project_out_covars_eq]
  unfold project_out_covars_spec
  congr 1
  simp only [Finset.mul_sum, Finset.sum_mul]
  refine Eq.trans ?_ Finset.sum_comm
  rw [Finset.sum_comm]
  refine Finset.sum_congr rfl (fun l _ => ?_)
  rw [Finset.sum_comm]
  refine Finset.sum_congr rfl (fun s _ => ?_)
  refine Finset.sum_congr rfl (fun k _ => ?_)
  ring

/-- The coefficients of a projected matrix on the covariates vanish. -/
theorem project_out_covars_coefficients (n_samples n_covar : Nat) (M C CtC_inv : Nat → Nat → F)
    (hinv : isCtCInverse n_samples n_covar C CtC_inv) (k d : Nat) (hk : k < n_covar) :
    (∑ l ∈ range n_covar, CtC_inv k l * ∑ s ∈ range n_samples,
        C s l * project_out_covars n_samples n_covar M C CtC_inv s d) = 0 := by
  set beta : Nat → F := fun k2 =>
    ∑ l ∈ range n_covar, CtC_inv k2 l * ∑ s ∈ range n_samples, C s l * M s d with hbeta
  have h1 : ∀ s, project_out_covars n_samples n_covar M C CtC_inv s d
      = M s d - ∑ k2 ∈ range n_covar, C s k2 * beta k2 := fun s => rfl
  have h2 : ∀ l, (∑ s ∈ range n_samples,
        C s l * project_out_covars n_samples n_covar M C CtC_inv s d)
      = (∑ s ∈ range n_samples, C s l * M s d)
        - ∑ k2 ∈ range n_covar, (∑ s ∈ range n_samples, C s l * C s k2) * beta k2 := by
    intro l
    simp only [h1, mul_sub, Finset.sum_sub_distrib, Finset.mul_sum, Finset.sum_mul]
    congr 1
    rw [Finset.sum_comm]
    refine Finset.sum_congr rfl (fun k2 _ => Finset.sum_congr rfl (fun s _ => ?_))
    ring
  simp only [h2, mul_sub, Finset.sum_sub_distrib]
  have h3 : (∑ l ∈ range n_covar, CtC_inv k l *
        ∑ k2 ∈ range n_covar, (∑ s ∈ range n_samples, C s l * C s k2) * beta k2)
      = ∑ k2 ∈ range n_covar, (if k = k2 then 1 else 0) * beta k2 := by
    simp only [Finset.mul_sum]
    rw [Finset.sum_comm]
    refine Finset.sum_congr rfl (fun k2 hk2 => ?_)
    rw [← hinv k hk k2 (Finset.mem_range.mp hk2), Finset.sum_mul]
    refine Finset.sum_congr rfl (fun l _ => ?_)
    simp only [Finset.mul_sum, Finset.sum_mul]
    refine Finset.sum_congr rfl (fun s _ => ?_)
    ring
  rw [h3]
  simp only [ite_mul, one_mul, zero_mul]
  rw [Finset.sum_ite_eq (range n_covar) k beta, if_pos (Finset.mem_range.mpr hk)]
  exact sub_self _

/-- C18.  When `CtC_inv` is the inverse of `CᵀC`, `project_out_covars(M)` is
`M − C·(CᵀC)⁻¹·Cᵀ·M` and projecting a second time changes nothing. -/
theorem project_out_covars_idempotent (n_samples n_covar : Nat) (M C CtC_inv : Nat → Nat → F)
    (hinv : isCtCInverse n_samples n_covar C CtC_inv) :
    (∀ i d, project_out_covars n_samples n_covar M C CtC_inv i d
        = project_out_covars_spec n_samples n_covar M C CtC_inv i d)
    ∧ (∀ i d, project_out_covars n_samples n_covar
          (project_out_covars n_samples n_covar M C CtC_inv) C CtC_inv i d
        = project_out_covars n_samples n_covar M C CtC_inv i d) := by
  refine ⟨project_out_covars_eq_spec n_samples n_covar M C CtC_inv, fun i d => ?_⟩
  rw [project_out_covars_eq]
  rw [Finset.sum_eq_zero (fun k hk => by
    rw [project_out_covars_coefficients n_samples n_covar M C CtC_inv hinv k d
      (Finset.mem_range.mp hk), mul_zero])]
  exact sub_zero _

end Projection

section ProjectionWitness

theorem exK_inverse :
    isCtCInverse 2 1 (fun _ _ => (1 : ℚ)) (fun _ _ => 1 / 2) := by
  intro k hk k2 hk2
  have e1 : k = 0 := by omega
  have e2 : k2 = 0 := by omega
  subst e1 e2
  simp [Finset.sum_range_succ]

/-- C18, on two samples with the intercept as only covariate. -/
theorem project_out_covars_idempotent_witness :
    isCtCInverse 2 1 (fun _ _ => (1 : ℚ)) (fun _ _ => 1 / 2)
    ∧ ∀ i d, project_out_covars 2 1
          (project_out_covars 2 1 (fun i _ => if i = 0 then (1 : ℚ) else 0)
            (fun _ _ => 1) (fun _ _ => 1 / 2)) (fun _ _ => 1) (fun _ _ => 1 / 2) i d
        = project_out_covars 2 1 (fun i _ => if i = 0 then (1 : ℚ) else 0)
            (fun _ _ => 1) (fun _ _ => 1 / 2) i d :=
  ⟨exK_inverse,
    (project_out_covars_idempotent 2 1 (fun i _ => if i = 0 then (1 : ℚ) else 0)
      (fun _ _ => 1) (fun _ _ => 1 / 2) exK_inverse).2⟩

end ProjectionWitness

section Divergences

/-- C20, at the example with the mog prior on both effect types (`λ = 1/2`,
`slab_relative_var = 1`, `spike_relative_var = 1/100`, `s_x = 1` for both): `compute_pve`
normalises `pve_large[0]` to `50/201` and leaves `pve_large[1] = 1/2` without the division
by `Σ_e u_e + 1 = 201/100` that the claim and the test state. -/
theorem compute_pve_pve_large_divergence :
    (exV_vb ℚ).p.mode_mog_prior_beta = true ∧ (exV_vb ℚ).p.mode_mog_prior_gam = true
    ∧ (exV_vb ℚ).n_effects = 2
    ∧ (compute_pve (exV_vb ℚ) (exA_hyps ℚ)).pve_large 0 = 50 / 201
    ∧ pve_large_spec 2 (exA_hyps ℚ) 0 = 50 / 201
    ∧ (compute_pve (exV_vb ℚ) (exA_hyps ℚ)).pve_large 1 = 1 / 2
    ∧ pve_large_spec 2 (exA_hyps ℚ) 1 = 50 / 201 := by
  refine ⟨rfl, rfl, rfl, ?_, ?_, ?_, ?_⟩
  · simp [compute_pve, exV_vb, exA_vb, exA_p, exA_hyps, Finset.sum_range_succ]
    norm_num
  · simp [pve_large_spec, exA_hyps, Finset.sum_range_succ]
    norm_num
  · simp [compute_pve, exV_vb, exA_vb, exA_p, exA_hyps, Finset.sum_range_succ]
  · simp [pve_large_spec, exA_hyps, Finset.sum_range_succ]
    norm_num

end Divergences
section Residuals

theorem exA_chrs :
    ((((List.range (exA_vb ℚ).n_var).map (fun j : Nat => j)).dedup).insertionSort
      (fun a b => a ≤ b)) = [0, 1] := by
  decide

/-- C19, at the example with variant 0 on chromosome 0 and variant 1 on chromosome 1: the
first entry of `chr_residuals[0]` is `4/3`, computed from `y − ym − ym⊙η`, and the
mean-centred vector of the claim, computed from `y − ym − yx⊙η`, has first entry `1/3`. -/
theorem compute_residuals_per_chr_divergence :
    (exA_vb ℚ).n_effects = 2
    ∧ compute_residuals_per_chr (exA_vb ℚ) (fun j => j) (exA_vp ℚ) (fun _ _ => 0) 0 0 = 4 / 3
    ∧ loco_residual_spec (exA_vb ℚ) (fun j => j) (exA_vp ℚ) 0 0 = 1 / 3 := by
  refine ⟨rfl, ?_, ?_⟩
  · unfold compute_residuals_per_chr
    rw [exA_chrs]
    simp [mult_vector_by_chr, array_mean, exA_vb, exA_p, exA_vp, Finset.sum_range_succ]
    norm_num
  · simp [loco_residual_spec, mult_vector_by_chr, array_mean, Eq_beta, Eq_gam, exA_vb, exA_p,
      exA_vp, Finset.sum_range_succ]
    norm_num

end Residuals
/-! ## The partition of the samples across ranks -/

section PartitionLoops

theorem valid_sids_succ (m : Nat) (inc : Nat → Bool) :
    valid_sids (m + 1) inc = valid_sids m inc ++ (if inc m = true then [] else [m]) := by
  unfold valid_sids
  rw [List.range_succ, List.filter_append]
  by_cases h : inc m = true <;> simp [h]

theorem valid_sids_length_succ (m : Nat) (inc : Nat → Bool) :
    (valid_sids (m + 1) inc).length
      = (valid_sids m inc).length + (if inc m = true then 0 else 1) := by
  rw [valid_sids_succ]
  by_cases h : inc m = true <;> simp [h]

theorem valid_sids_length_mono (inc : Nat → Bool) {x m : Nat} (h : x ≤ m) :
    (valid_sids x inc).length ≤ (valid_sids m inc).length := by
  induction m with
  | zero =>
    have : x = 0 := by omega
    subst this
    exact le_refl _
  | succ m ih =>
    by_cases hx : x = m + 1
    · subst hx
      exact le_refl _
    · have := ih (by omega)
      rw [valid_sids_length_succ]
      omega

/-- The position of a valid sample in `valid_sids` is the number of valid samples before
it. -/
theorem valid_sids_index (inc : Nat → Bool) (m x : Nat) (hx : x < m) (hv : inc x = false) :
    (valid_sids x inc).length < (valid_sids m inc).length
    ∧ (valid_sids m inc).getD (valid_sids x inc).length 0 = x := by
  induction m with
  | zero => omega
  | succ m ih =>
    by_cases hxm : x = m
    · subst hxm
      rw [valid_sids_succ]
      simp [hv]
    · obtain ⟨h1, h2⟩ := ih (by omega)
      rw [valid_sids_succ]
      refine ⟨by rw [List.length_append]; omega, ?_⟩
      rw [List.getD_eq_getElem?_getD, List.getElem?_append_left h1,
        ← List.getD_eq_getElem?_getD]
      exact h2

/-- Every entry of `valid_sids` is a valid sample, found at the position given by the
number of valid samples before it. -/
theorem valid_sids_entry (inc : Nat → Bool) (m k : Nat) (hk : k < (valid_sids m inc).length) :
    (valid_sids m inc).getD k 0 < m
    ∧ inc ((valid_sids m inc).getD k 0) = false
    ∧ (valid_sids ((valid_sids m inc).getD k 0) inc).length = k := by
  induction m with
  | zero => simp [valid_sids] at hk
  | succ m ih =>
    by_cases hkm : k < (valid_sids m inc).length
    · obtain ⟨h1, h2, h3⟩ := ih hkm
      have e : (valid_sids (m + 1) inc).getD k 0 = (valid_sids m inc).getD k 0 := by
        rw [valid_sids_succ, List.getD_eq_getElem?_getD, List.getElem?_append_left hkm,
          ← List.getD_eq_getElem?_getD]
      rw [e]
      exact ⟨by omega, h2, h3⟩
    · have hl := valid_sids_length_succ m inc
      by_cases hm : inc m = true
      · rw [if_pos hm] at hl
        omega
      · rw [if_neg hm] at hl
        have hk2 : k = (valid_sids m inc).length := by omega
        have e : (valid_sids (m + 1) inc).getD k 0 = m := by
          rw [valid_sids_succ, if_neg hm, hk2]
          simp
        rw [e]
        exact ⟨by omega, by simpa using hm, hk2.symm⟩

theorem assign_locations_append (inc : Nat → Bool) (spr : Int) (l1 l2 : List Nat)
    (st : Int × (Nat → Int)) :
    assign_locations inc spr (l1 ++ l2) st
      = match assign_locations inc spr l1 st with
        | .error e => .error e
        | .ok st2 => assign_locations inc spr l2 st2 := by
  induction l1 generalizing st with
  | nil => rfl
  | cons a l1 ih =>
    simp only [List.cons_append, assign_locations]
    by_cases h : inc a = false
    · simp only [h, if_true]
      cases hq : long_div st.1 spr with
      | error e => rfl
      | ok q => exact ih _
    · simp only [h, if_false]
      exact ih _

/-- The loop over all samples succeeds when `samplesPerRank` is not zero or no sample is
valid; sample `x` gets `(diff + number of valid samples before x) / samplesPerRank`, or
`-1` when it is missing. -/
theorem assign_locations_range (inc : Nat → Bool) (spr d : Int) (loc0 : Nat → Int) (m : Nat)
    (h : spr ≠ 0 ∨ ∀ ii, ii < m → inc ii = true) :
    assign_locations inc spr (List.range m) (d, loc0)
      = .ok (d + ((valid_sids m inc).length : Int),
          fun x => if x < m then
              (if inc x = true then -1 else Int.tdiv (d + ((valid_sids x inc).length : Int)) spr)
            else loc0 x) := by
  induction m with
  | zero =>
    simp [assign_locations, valid_sids]
  | succ m ih =>
    have h2 : spr ≠ 0 ∨ ∀ ii, ii < m → inc ii = true := by
      rcases h with h | h
      · exact Or.inl h
      · exact Or.inr (fun ii hii => h ii (by omega))
    have key : ∀ q : Int,
        q = (if inc m = true then -1
              else Int.tdiv (d + ((valid_sids m inc).length : Int)) spr) →
        Function.update (fun x => if x < m then
              (if inc x = true then -1 else Int.tdiv (d + ((valid_sids x inc).length : Int)) spr)
            else loc0 x) m q
          = fun x => if x < m + 1 then
              (if inc x = true then -1 else Int.tdiv (d + ((valid_sids x inc).length : Int)) spr)
            else loc0 x := by
      intro q hq
      funext x
      by_cases hx : x = m
      · subst hx
        simp [hq]
      · rw [Function.update_noteq hx]
        by_cases hx2 : x < m
        · simp [hx2, Nat.lt_succ_of_lt hx2]
        · have : ¬ x < m + 1 := by omega
          simp [hx2, this]
    rw [List.range_succ, assign_locations_append, ih h2]
    simp only [assign_locations]
    by_cases hm : inc m = true
    · simp only [hm, Bool.true_eq_false, if_false]
      rw [valid_sids_length_succ, if_pos hm, key (-1) (by simp [hm])]
      simp
    · have hm2 : inc m = false := by simpa using hm
      have hs : spr ≠ 0 := by
        rcases h with h | h
        · exact h
        · exact absurd (h m (by omega)) hm
      simp only [hm2, if_true, long_div, hs, if_false]
      rw [valid_sids_length_succ, if_neg hm, key _ (by simp [hm2])]
      push_cast
      rw [add_assoc]

end PartitionLoops
section PartitionKeep

/-- The test of the loop that keeps the samples of rank `rank`: position `k` of
`valid_sids` is dropped. -/
theorem keep_drop_iff (r s d k : Nat) :
    (((k : Int) + (d : Int) < (r : Int) * (s : Int))
        ∨ ((k : Int) + (d : Int) ≥ ((r : Int) + 1) * (s : Int)))
      ↔ ¬ (r * s ≤ k + d ∧ k + d < r * s + s) := by
  have e1 : ((r : Int) + 1) * (s : Int) = ((r * s + s : Nat) : Int) := by
    push_cast
    ring
  have e2 : (r : Int) * (s : Int) = ((r * s : Nat) : Int) := by
    push_cast
    ring
  rw [e1, e2]
  generalize r * s = a
  omega

theorem keep_fold (r : Nat) (vs : List Nat) (spr d : Int) (l : List Nat)
    (st : (Nat → Bool) × List Nat) :
    l.foldl (fun st (ii : Nat) =>
        if (ii : Int) + d < (r : Int) * spr ∨ (ii : Int) + d ≥ ((r : Int) + 1) * spr then
          (Function.update st.1 (vs.getD ii 0) true, st.2)
        else (st.1, st.2 ++ [vs.getD ii 0])) st
      = (fun x => st.1 x
            || l.any (fun (k : Nat) =>
                decide ((k : Int) + d < (r : Int) * spr ∨ (k : Int) + d ≥ ((r : Int) + 1) * spr)
                  && decide (vs.getD k 0 = x)),
          st.2 ++ (l.filter (fun (k : Nat) =>
              !decide ((k : Int) + d < (r : Int) * spr
                ∨ (k : Int) + d ≥ ((r : Int) + 1) * spr))).map (fun k => vs.getD k 0)) := by
  induction l generalizing st with
  | nil => simp
  | cons a l ih =>
    rw [List.foldl_cons, ih]
    by_cases h : (a : Int) + d < (r : Int) * spr ∨ (a : Int) + d ≥ ((r : Int) + 1) * spr
    · simp only [h, if_true, List.any_cons, decide_True, Bool.true_and, List.filter_cons,
        Bool.not_true, Bool.false_eq_true, if_false]
      congr 1
      funext x
      by_cases hx : vs.getD a 0 = x
      · subst hx
        simp
      · rw [Function.update_noteq (Ne.symm hx), decide_eq_false hx, Bool.false_or]
    · simp only [h, if_false, List.any_cons, decide_False, Bool.false_and, Bool.false_or,
        List.filter_cons, Bool.not_false, if_true, List.map_cons, List.append_assoc,
        List.singleton_append]

theorem keep_rank_cases_eq (r : Nat) (vs : List Nat) (s d : Nat) (inc : Nat → Bool) :
    keep_rank_cases r vs (s : Int) (d : Int) inc
      = (fun x => inc x
            || (List.range vs.length).any (fun k =>
                decide (¬ (r * s ≤ k + d ∧ k + d < r * s + s)) && decide (vs.getD k 0 = x)),
          ((List.range vs.length).filter (fun k =>
              decide (r * s ≤ k + d ∧ k + d < r * s + s))).map (fun k => vs.getD k 0)) := by
  unfold keep_rank_cases
  rw [keep_fold]
  simp only [keep_drop_iff, List.nil_append]
  have e : (fun k => !decide (¬ (r * s ≤ k + d ∧ k + d < r * s + s)))
      = (fun k => decide (r * s ≤ k + d ∧ k + d < r * s + s)) := by
    funext k
    by_cases h : r * s ≤ k + d ∧ k + d < r * s + s <;> simp [h]
  rw [e]

/-- The number of positions `k < n` with `a ≤ k + d < a + s`. -/
theorem count_window (a s d n : Nat) :
    ((List.range n).filter (fun k => decide (a ≤ k + d ∧ k + d < a + s))).length
      = min (n + d) (a + s) - max a d := by
  induction n with
  | zero => simp
  | succ n ih =>
    rw [List.range_succ, List.filter_append, List.length_append, ih]
    by_cases h : a ≤ n + d ∧ n + d < a + s
    · simp [h]
      omega
    · simp [h]
      omega

theorem keep_rank_cases_length (r : Nat) (vs : List Nat) (s d : Nat) (inc : Nat → Bool) :
    (keep_rank_cases r vs (s : Int) (d : Int) inc).2.length
      = min (vs.length + d) (r * s + s) - max (r * s) d := by
  rw [keep_rank_cases_eq]
  simp only [List.length_map]
  exact count_window (r * s) s d vs.length

/-- The ranks below `R` keep the positions `k` with `k + d < R·s`. -/
theorem keep_rank_cases_sum (R : Nat) (vs : List Nat) (s d : Nat) (inc : Nat → Bool) :
    ∑ r ∈ Finset.range R, (keep_rank_cases r vs (s : Int) (d : Int) inc).2.length
      = min (vs.length + d) (R * s) - d := by
  induction R with
  | zero => simp
  | succ R ih =>
    rw [Finset.sum_range_succ, ih, keep_rank_cases_length, Nat.succ_mul]
    generalize R * s = a
    omega

end PartitionKeep
section SamplesPerRank

theorem tdiv_natCast (a b : Nat) : Int.tdiv (a : Int) (b : Int) = ((a / b : Nat) : Int) := by
  rw [Int.tdiv_eq_ediv (Int.natCast_nonneg a) (Int.natCast_nonneg b)]
  norm_cast

/-- The rounded-up share covers the whole: `a ≤ b · ⌈a/b⌉`. -/
theorem le_mul_ceil (a b : Nat) (hb : 1 ≤ b) : a ≤ b * ((a + b - 1) / b) := by
  have h1 := Nat.div_add_mod (a + b - 1) b
  have h2 := Nat.mod_lt (a + b - 1) (show 0 < b by omega)
  generalize b * ((a + b - 1) / b) = q at h1 ⊢
  omega

theorem ceil_le_self (n S : Nat) (hS : 1 ≤ S) : (n + S - 1) / S ≤ n := by
  rcases Nat.eq_zero_or_pos n with h | h
  · subst h
    rw [Nat.zero_add, Nat.div_eq_of_lt (by omega)]
  · rw [Nat.div_le_iff_le_mul_add_pred (by omega)]
    have : n * 1 ≤ n * S := Nat.mul_le_mul_left n hS
    rw [Nat.mul_comm S n]
    omega

/-- Without a reduction on rank 0 every rank gets `⌈n/size⌉` samples. -/
theorem samples_per_rank_even (S n P L : Nat) (maxB : Int) (hS : 1 ≤ S)
    (hmem : dXtEEX_bytes P L < maxB)
    (hno : ¬ (dXtEEX_bytes P L + (P : Int) * (((n + S - 1) / S : Nat) : Int) > maxB)) :
    samples_per_rank S n P L maxB
      = .ok ((((n + S - 1) / S : Nat) : Int), (((n + S - 1) / S : Nat) : Int)) := by
  have hS0 : (S : Int) ≠ 0 := by omega
  have e : (n : Int) + (S : Int) - 1 = ((n + S - 1 : Nat) : Int) := by omega
  unfold samples_per_rank
  simp only [ge_iff_le, not_le.mpr hmem, if_false, long_div, hS0, e, tdiv_natCast, hno]

/-- With a reduction, rank 0 gets `z = ⌊(maxBytesPerRank − dXtEEX_bytes)/P⌋` samples and
the other ranks share the rest, `s = ⌈(n − z)/(size − 1)⌉` each. -/
theorem samples_per_rank_reduced (S n P L : Nat) (maxB : Int) (hS : 2 ≤ S)
    (hmem : dXtEEX_bytes P L < maxB)
    (hover : dXtEEX_bytes P L + (P : Int) * (((n + S - 1) / S : Nat) : Int) > maxB)
    (hz : 1 ≤ (maxB - dXtEEX_bytes P L) / (P : Int)) :
    ∃ z s : Nat, samples_per_rank S n P L maxB = .ok ((s : Int), (z : Int))
      ∧ (z : Int) = (maxB - dXtEEX_bytes P L) / (P : Int)
      ∧ s = (n - z + (S - 1) - 1) / (S - 1)
      ∧ 1 ≤ z ∧ z < s ∧ z ≤ n ∧ n - z ≤ (S - 1) * s
      ∧ dXtEEX_bytes P L + (P : Int) * (z : Int) ≤ maxB := by
  generalize hdB : dXtEEX_bytes P L = dB at hmem hover hz
  have hP : P ≠ 0 := by
    rintro rfl
    simp at hover
    omega
  have hP0 : (P : Int) ≠ 0 := by omega
  have hPpos : (0 : Int) < (P : Int) := by omega
  have hZ : 0 ≤ maxB - dB := by omega
  obtain ⟨z, hzz⟩ : ∃ z : Nat, (z : Int) = (maxB - dB) / (P : Int) :=
    ⟨((maxB - dB) / (P : Int)).toNat, Int.toNat_of_nonneg (by omega)⟩
  have hz1 : 1 ≤ z := by omega
  have hlt : (maxB - dB) / (P : Int) < (((n + S - 1) / S : Nat) : Int) := by
    apply Int.ediv_lt_of_lt_mul hPpos
    rw [mul_comm]
    omega
  have hzq : z < (n + S - 1) / S := by omega
  have hqn := ceil_le_self n S (by omega)
  have hzn : z ≤ n := by omega
  have hS1 : (S : Int) - 1 = ((S - 1 : Nat) : Int) := by omega
  have hS10 : ((S - 1 : Nat) : Int) ≠ 0 := by omega
  have hS0 : (S : Int) ≠ 0 := by omega
  have e : (n : Int) + (S : Int) - 1 = ((n + S - 1 : Nat) : Int) := by omega
  have e2 : (n : Int) - (z : Int) + ((S - 1 : Nat) : Int) - 1
      = ((n - z + (S - 1) - 1 : Nat) : Int) := by omega
  have hzpos : (z : Int) > 0 := by omega
  have hqs : (n + S - 1) / S ≤ (n - z + (S - 1) - 1) / (S - 1) := by
    rw [Nat.le_div_iff_mul_le (by omega), Nat.mul_sub_one]
    have := Nat.div_mul_le_self (n + S - 1) S
    generalize (n + S - 1) / S * S = m at this ⊢
    omega
  refine ⟨z, (n - z + (S - 1) - 1) / (S - 1), ?_, hzz, rfl, hz1, by omega, hzn,
    le_mul_ceil (n - z) (S - 1) (by omega), ?_⟩
  · unfold samples_per_rank
    rw [hdB]
    simp only [ge_iff_le, not_le.mpr hmem, if_false, long_div, hS0, e, tdiv_natCast, hover,
      if_true, hP0, Int.tdiv_eq_ediv hZ (Int.natCast_nonneg P), ← hzz, hS1, hS10, e2, hzpos]
  · have := Int.mul_ediv_self_le (x := maxB - dB) hP0
    rw [← hzz] at this
    omega

end SamplesPerRank
section PartitionCore

theorem valid_sids_none (inc : Nat → Bool) (m : Nat) (h : (valid_sids m inc).length = 0) :
    ∀ ii, ii < m → inc ii = true := by
  intro ii hii
  by_contra hc
  have := (valid_sids_index inc m ii hii (by simpa using hc)).1
  omega

theorem window_iff_div (r s d k : Nat) (hs : 1 ≤ s) :
    (r * s ≤ k + d ∧ k + d < r * s + s) ↔ (d + k) / s = r := by
  have h1 : r ≤ (d + k) / s ↔ r * s ≤ d + k := Nat.le_div_iff_mul_le (by omega)
  have h2 : (d + k) / s < r + 1 ↔ d + k < (r + 1) * s := Nat.div_lt_iff_lt_mul (by omega)
  rw [Nat.succ_mul] at h2
  constructor
  · rintro ⟨a, b⟩
    have := h1.mpr (by omega)
    have := h2.mpr (by omega)
    omega
  · intro h
    have := h1.mp (by omega)
    have := h2.mp (by omega)
    constructor <;> omega

/-- The outcome of the partition once `samplesPerRank = s` and `rankZeroSamples = z` are
settled with `z ≤ s`, `s ≥ 1` unless no sample is valid, and `n + (s − z) ≤ size·s`. -/
theorem partition_core (rank S m P L : Nat) (maxB : Int) (inc : Nat → Bool)
    (loc0 : Nat → Int) (s z : Nat)
    (hsp : samples_per_rank S (valid_sids m inc).length P L maxB = .ok ((s : Int), (z : Int)))
    (hzs : z ≤ s) (hs : 1 ≤ s ∨ (valid_sids m inc).length = 0)
    (hcover : (valid_sids m inc).length + (s - z) ≤ S * s) :
    partition_valid_samples_across_ranks rank S m P L maxB inc loc0
      = .ok { sample_location := location_of m s z inc loc0
              incomplete_cases :=
                (keep_rank_cases rank (valid_sids m inc) (s : Int) ((s - z : Nat) : Int) inc).1
              rank_cases :=
                (keep_rank_cases rank (valid_sids m inc) (s : Int) ((s - z : Nat) : Int) inc).2 } := by
  have hd : (s : Int) - (z : Int) = ((s - z : Nat) : Int) := by omega
  have hassign : (s : Int) ≠ 0 ∨ ∀ ii, ii < m → inc ii = true := by
    rcases hs with h | h
    · exact Or.inl (by omega)
    · exact Or.inr (valid_sids_none inc m h)
  have htd : ∀ x : Nat, Int.tdiv (((s - z : Nat) : Int) + ((valid_sids x inc).length : Int)) (s : Int)
      = (((s - z + (valid_sids x inc).length) / s : Nat) : Int) := by
    intro x
    rw [← tdiv_natCast]
    push_cast
    rfl
  have hsum := keep_rank_cases_sum S (valid_sids m inc) s (s - z) inc
  have hN : (∑ r ∈ Finset.range S,
      (keep_rank_cases r (valid_sids m inc) (s : Int) ((s - z : Nat) : Int) inc).2.length)
      = (valid_sids m inc).length := by
    rw [hsum]
    omega
  unfold partition_valid_samples_across_ranks location_of
  simp only [hsp, hd, assign_locations_range inc (s : Int) ((s - z : Nat) : Int) loc0 m hassign,
    htd, hN]
  simp [add_comm]

end PartitionCore
section PartitionFacts

theorem samples_per_rank_ok (S n P L : Nat) (maxB : Int) (hS : 1 ≤ S)
    (hmem : dXtEEX_bytes P L < maxB)
    (hred : dXtEEX_bytes P L + (P : Int) * (((n + S - 1) / S : Nat) : Int) > maxB →
      2 ≤ S ∧ 1 ≤ (maxB - dXtEEX_bytes P L) / (P : Int)) :
    ∃ s z : Nat, samples_per_rank S n P L maxB = .ok ((s : Int), (z : Int))
      ∧ z ≤ s ∧ (1 ≤ s ∨ n = 0) ∧ n + (s - z) ≤ S * s := by
  by_cases hover : dXtEEX_bytes P L + (P : Int) * (((n + S - 1) / S : Nat) : Int) > maxB
  · obtain ⟨hS2, hz⟩ := hred hover
    obtain ⟨z, s, h1, -, -, hz1, hzs, hzn, hcov, -⟩ :=
      samples_per_rank_reduced S n P L maxB hS2 hmem hover hz
    refine ⟨s, z, h1, by omega, Or.inl (by omega), ?_⟩
    rw [Nat.sub_one_mul] at hcov
    have : s ≤ S * s := Nat.le_mul_of_pos_left s (by omega)
    generalize S * s = t at hcov this ⊢
    omega
  · refine ⟨(n + S - 1) / S, (n + S - 1) / S,
      samples_per_rank_even S n P L maxB hS hmem hover, le_refl _, ?_, ?_⟩
    · rcases Nat.eq_zero_or_pos n with h | h
      · exact Or.inr h
      · exact Or.inl (Nat.div_pos (by omega) (by omega))
    · have := le_mul_ceil n S hS
      omega

/-- A valid sample is located on a rank below `size`. -/
theorem location_of_range (S m s z : Nat) (inc : Nat → Bool) (loc0 : Nat → Int)
    (hs : 1 ≤ s ∨ (valid_sids m inc).length = 0)
    (hcover : (valid_sids m inc).length + (s - z) ≤ S * s)
    (x : Nat) (hx : x < m) (hv : inc x = false) :
    0 ≤ location_of m s z inc loc0 x ∧ location_of m s z inc loc0 x < (S : Int) := by
  have hk := (valid_sids_index inc m x hx hv).1
  have hs1 : 1 ≤ s := by omega
  unfold location_of
  simp only [hx, if_true, hv, Bool.false_eq_true, if_false]
  refine ⟨Int.natCast_nonneg _, ?_⟩
  have : (s - z + (valid_sids x inc).length) / s < S := by
    rw [Nat.div_lt_iff_lt_mul (by omega)]
    omega
  omega

theorem location_of_missing (m s z : Nat) (inc : Nat → Bool) (loc0 : Nat → Int)
    (x : Nat) (hx : x < m) (hv : inc x = true) :
    location_of m s z inc loc0 x = -1 := by
  simp [location_of, hx, hv]

/-- The samples that a rank keeps are the valid samples located on it. -/
theorem rank_cases_iff (rank m s z : Nat) (inc : Nat → Bool) (loc0 : Nat → Int)
    (hs : 1 ≤ s ∨ (valid_sids m inc).length = 0) (x : Nat) :
    x ∈ (keep_rank_cases rank (valid_sids m inc) (s : Int) ((s - z : Nat) : Int) inc).2
      ↔ x < m ∧ inc x = false ∧ location_of m s z inc loc0 x = (rank : Int) := by
  rw [keep_rank_cases_eq]
  simp only [List.mem_map, List.mem_filter, List.mem_range, decide_eq_true_eq]
  constructor
  · rintro ⟨k, ⟨hk, hw⟩, rfl⟩
    obtain ⟨h1, h2, h3⟩ := valid_sids_entry inc m k hk
    have hs1 : 1 ≤ s := by omega
    refine ⟨h1, h2, ?_⟩
    unfold location_of
    simp only [h1, if_true, h2, Bool.false_eq_true, if_false, h3]
    exact_mod_cast (window_iff_div rank s (s - z) k hs1).mp hw
  · rintro ⟨hx, hv, hl⟩
    obtain ⟨h1, h2⟩ := valid_sids_index inc m x hx hv
    have hs1 : 1 ≤ s := by omega
    unfold location_of at hl
    simp only [hx, if_true, hv, Bool.false_eq_true, if_false] at hl
    exact ⟨_, ⟨h1, (window_iff_div rank s (s - z) _ hs1).mpr (by exact_mod_cast hl)⟩, h2⟩

/-- The samples that a rank does not mark as incomplete are the ones it keeps. -/
theorem incomplete_cases_iff (rank m s z : Nat) (inc : Nat → Bool)
    (x : Nat) (hx : x < m) :
    (keep_rank_cases rank (valid_sids m inc) (s : Int) ((s - z : Nat) : Int) inc).1 x = false
      ↔ x ∈ (keep_rank_cases rank (valid_sids m inc) (s : Int) ((s - z : Nat) : Int) inc).2 := by
  rw [keep_rank_cases_eq]
  simp only [Bool.or_eq_false_iff, List.any_eq_false, List.mem_range, Bool.and_eq_true,
    decide_eq_true_eq, not_and, List.mem_map, List.mem_filter]
  constructor
  · rintro ⟨hv, hall⟩
    obtain ⟨h1, h2⟩ := valid_sids_index inc m x hx hv
    refine ⟨_, ⟨h1, ?_⟩, h2⟩
    by_contra hw
    exact hall _ h1 (fun a b => hw ⟨a, b⟩) h2
  · rintro ⟨k, ⟨hk, hw⟩, rfl⟩
    obtain ⟨h1, h2, h3⟩ := valid_sids_entry inc m k hk
    refine ⟨h2, fun k2 hk2 hw2 he => ?_⟩
    obtain ⟨-, -, h4⟩ := valid_sids_entry inc m k2 hk2
    rw [he, h3] at h4
    subst h4
    exact hw2 hw.1 hw.2

end PartitionFacts
section PartitionClaims

/-- C13 (amended).  For `size ≥ 1` ranks and an input that passes the memory check and,
when rank 0 has to be reduced (`dXtEEX_bytes + P·⌈n/size⌉ > maxBytesPerRank`), has
`size ≥ 2` and room for at least one sample on rank 0, the partition returns on every
rank, with the same locations: every non-missing sample gets a location in `0..size−1`,
every missing sample location `−1`, the samples a rank keeps are exactly the non-missing
samples located on it, and they are the samples it does not mark incomplete; so every
non-missing sample is kept by some rank and no sample is kept by two ranks. -/
theorem partition_valid_samples_cover (S m P L : Nat) (maxB : Int) (inc : Nat → Bool)
    (loc0 : Nat → Int) (hS : 1 ≤ S) (hmem : dXtEEX_bytes P L < maxB)
    (hred : dXtEEX_bytes P L
        + (P : Int) * ((((valid_sids m inc).length + S - 1) / S : Nat) : Int) > maxB →
      2 ≤ S ∧ 1 ≤ (maxB - dXtEEX_bytes P L) / (P : Int)) :
    ∃ loc : Nat → Int,
      (∀ x, x < m → inc x = false → 0 ≤ loc x ∧ loc x < (S : Int))
      ∧ (∀ x, x < m → inc x = true → loc x = -1)
      ∧ (∀ rank, rank < S →
          ∃ res, partition_valid_samples_across_ranks rank S m P L maxB inc loc0 = .ok res
            ∧ res.sample_location = loc
            ∧ (∀ x, x ∈ res.rank_cases ↔ x < m ∧ inc x = false ∧ loc x = (rank : Int))
            ∧ (∀ x, x < m → (res.incomplete_cases x = false ↔ x ∈ res.rank_cases)))
      ∧ (∀ x, x < m → inc x = false →
          ∃ rank, rank < S ∧ ∃ res,
            partition_valid_samples_across_ranks rank S m P L maxB inc loc0 = .ok res
              ∧ x ∈ res.rank_cases)
      ∧ (∀ r1 r2 res1 res2, r1 ≠ r2 →
          partition_valid_samples_across_ranks r1 S m P L maxB inc loc0 = .ok res1 →
          partition_valid_samples_across_ranks r2 S m P L maxB inc loc0 = .ok res2 →
          ∀ x, x ∈ res1.rank_cases → x ∉ res2.rank_cases) := by
  obtain ⟨s, z, hsp, hzs, hs, hcover⟩ :=
    samples_per_rank_ok S (valid_sids m inc).length P L maxB hS hmem hred
  have hcore := fun rank =>
    partition_core rank S m P L maxB inc loc0 s z hsp hzs hs hcover
  refine ⟨location_of m s z inc loc0,
    fun x hx hv => location_of_range S m s z inc loc0 hs hcover x hx hv,
    fun x hx hv => location_of_missing m s z inc loc0 x hx hv,
    fun rank _ => ⟨_, hcore rank, rfl,
      fun x => rank_cases_iff rank m s z inc loc0 hs x,
      fun x hx => incomplete_cases_iff rank m s z inc x hx⟩, ?_, ?_⟩
  · intro x hx hv
    obtain ⟨h0, h1⟩ := location_of_range S m s z inc loc0 hs hcover x hx hv
    refine ⟨(location_of m s z inc loc0 x).toNat, by omega, _,
      hcore _, ?_⟩
    exact (rank_cases_iff _ m s z inc loc0 hs x).mpr
      ⟨hx, hv, (Int.toNat_of_nonneg h0).symm⟩
  · intro r1 r2 res1 res2 hne h1 h2 x hx1 hx2
    rw [hcore r1] at h1
    rw [hcore r2] at h2
    cases h1
    cases h2
    have e1 := ((rank_cases_iff r1 m s z inc loc0 hs x).mp hx1).2.2
    have e2 := ((rank_cases_iff r2 m s z inc loc0 hs x).mp hx2).2.2
    omega

/-- C15.  When `dXtEEX_bytes + P·⌈n/size⌉ > maxBytesPerRank` with
`dXtEEX_bytes < maxBytesPerRank`, `size ≥ 2` and `⌊(maxBytesPerRank − dXtEEX_bytes)/P⌋ ≥ 1`,
rank 0 keeps exactly `⌊(maxBytesPerRank − dXtEEX_bytes)/P⌋` samples, so that
`dXtEEX_bytes + P·(samples on rank 0) ≤ maxBytesPerRank`, and every other rank keeps at most
`⌈(n − samples on rank 0)/(size − 1)⌉` samples. -/
theorem partition_rank_zero_reduction (S m P L : Nat) (maxB : Int) (inc : Nat → Bool)
    (loc0 : Nat → Int) (hS : 2 ≤ S) (hmem : dXtEEX_bytes P L < maxB)
    (hover : dXtEEX_bytes P L
        + (P : Int) * ((((valid_sids m inc).length + S - 1) / S : Nat) : Int) > maxB)
    (hz : 1 ≤ (maxB - dXtEEX_bytes P L) / (P : Int)) :
    ∃ res0, partition_valid_samples_across_ranks 0 S m P L maxB inc loc0 = .ok res0
      ∧ (res0.rank_cases.length : Int) = (maxB - dXtEEX_bytes P L) / (P : Int)
      ∧ dXtEEX_bytes P L + (P : Int) * (res0.rank_cases.length : Int) ≤ maxB
      ∧ ∀ rank, 1 ≤ rank → rank < S →
          ∃ res, partition_valid_samples_across_ranks rank S m P L maxB inc loc0 = .ok res
            ∧ res.rank_cases.length
                ≤ ((valid_sids m inc).length - res0.rank_cases.length + (S - 1) - 1) / (S - 1) := by
  obtain ⟨z, s, hsp, hzz, hss, hz1, hzs, hzn, hcov, hbytes⟩ :=
    samples_per_rank_reduced S (valid_sids m inc).length P L maxB hS hmem hover hz
  have hcover : (valid_sids m inc).length + (s - z) ≤ S * s := by
    rw [Nat.sub_one_mul] at hcov
    have : s ≤ S * s := Nat.le_mul_of_pos_left s (by omega)
    generalize S * s = t at hcov this ⊢
    omega
  have hcore := fun rank =>
    partition_core rank S m P L maxB inc loc0 s z hsp (by omega) (Or.inl (by omega)) hcover
  have h0 : (keep_rank_cases 0 (valid_sids m inc) (s : Int) ((s - z : Nat) : Int) inc).2.length
      = z := by
    rw [keep_rank_cases_length]
    omega
  refine ⟨_, hcore 0, ?_, ?_, ?_⟩
  · simp only [h0]
    exact hzz
  · simp only [h0]
    exact hbytes
  · intro rank _ _
    refine ⟨_, hcore rank, ?_⟩
    simp only [h0, ← hss]
    rw [keep_rank_cases_length]
    generalize rank * s = a
    omega

/-- C13 (amended), on seven samples with sample 2 missing, three ranks, `P = 10`, no
environment and `maxBytesPerRank = 15`, where rank 0 is reduced to one sample. -/
theorem partition_valid_samples_cover_witness :
    1 ≤ 3 ∧ dXtEEX_bytes 10 0 < 15
    ∧ dXtEEX_bytes 10 0
        + ((10 : Nat) : Int) * ((((valid_sids 7 exM_incomplete).length + 3 - 1) / 3 : Nat) : Int) > 15
    ∧ (2 ≤ 3 ∧ 1 ≤ (15 - dXtEEX_bytes 10 0) / ((10 : Nat) : Int))
    ∧ ∃ loc : Nat → Int,
      (∀ x, x < 7 → exM_incomplete x = false → 0 ≤ loc x ∧ loc x < ((3 : Nat) : Int))
      ∧ (∀ x, x < 7 → exM_incomplete x = true → loc x = -1)
      ∧ (∀ rank, rank < 3 →
          ∃ res, partition_valid_samples_across_ranks rank 3 7 10 0 15 exM_incomplete
              (fun _ => 0) = .ok res
            ∧ res.sample_location = loc
            ∧ (∀ x, x ∈ res.rank_cases
                ↔ x < 7 ∧ exM_incomplete x = false ∧ loc x = (rank : Int))
            ∧ (∀ x, x < 7 → (res.incomplete_cases x = false ↔ x ∈ res.rank_cases)))
      ∧ (∀ x, x < 7 → exM_incomplete x = false →
          ∃ rank, rank < 3 ∧ ∃ res,
            partition_valid_samples_across_ranks rank 3 7 10 0 15 exM_incomplete
                (fun _ => 0) = .ok res
              ∧ x ∈ res.rank_cases)
      ∧ (∀ r1 r2 res1 res2, r1 ≠ r2 →
          partition_valid_samples_across_ranks r1 3 7 10 0 15 exM_incomplete
            (fun _ => 0) = .ok res1 →
          partition_valid_samples_across_ranks r2 3 7 10 0 15 exM_incomplete
            (fun _ => 0) = .ok res2 →
          ∀ x, x ∈ res1.rank_cases → x ∉ res2.rank_cases) :=
  ⟨by decide, by decide, by decide, ⟨by decide, by decide⟩,
    partition_valid_samples_cover 3 7 10 0 15 exM_incomplete (fun _ => 0) (by decide)
      (by decide) (fun _ => ⟨by decide, by decide⟩)⟩

/-- C13 as stated fails: two valid samples on two ranks with `P = 10`, no environment and
`maxBytesPerRank = 5` pass the memory check (`dXtEEX_bytes = 0 < 5`), rank 0 is to be
reduced to `5 / 10 = 0` samples, and `assert(rankZeroSamples > 0)` stops every rank
before any location is stored. -/
theorem partition_assert_counterexample :
    dXtEEX_bytes 10 0 < 5
    ∧ ∀ rank, (partition_valid_samples_across_ranks rank 2 2 10 0 5 (fun _ => false)
          (fun _ => 0)).map (fun res => res.rank_cases)
        = .error "Assertion failed: rankZeroSamples > 0" :=
  ⟨by decide, fun _ => rfl⟩

/-- C15, on four valid samples, two ranks, `P = 2`, one environment (`dXtEEX_bytes = 16`)
and `maxBytesPerRank = 19`: rank 0 keeps one sample and rank 1 at most three. -/
theorem partition_rank_zero_reduction_witness :
    2 ≤ 2 ∧ dXtEEX_bytes 2 1 < 19
    ∧ dXtEEX_bytes 2 1
        + ((2 : Nat) : Int) * ((((valid_sids 4 (fun _ => false)).length + 2 - 1) / 2 : Nat) : Int)
        > 19
    ∧ 1 ≤ (19 - dXtEEX_bytes 2 1) / ((2 : Nat) : Int)
    ∧ ∃ res0, partition_valid_samples_across_ranks 0 2 4 2 1 19 (fun _ => false)
          (fun _ => 0) = .ok res0
      ∧ (res0.rank_cases.length : Int) = (19 - dXtEEX_bytes 2 1) / ((2 : Nat) : Int)
      ∧ dXtEEX_bytes 2 1 + ((2 : Nat) : Int) * (res0.rank_cases.length : Int) ≤ 19
      ∧ ∀ rank, 1 ≤ rank → rank < 2 →
          ∃ res, partition_valid_samples_across_ranks rank 2 4 2 1 19 (fun _ => false)
              (fun _ => 0) = .ok res
            ∧ res.rank_cases.length
                ≤ ((valid_sids 4 (fun _ => false)).length - res0.rank_cases.length
                    + (2 - 1) - 1) / (2 - 1) :=
  ⟨by decide, by decide, by decide, by decide,
    partition_rank_zero_reduction 2 4 2 1 19 (fun _ => false) (fun _ => 0) (by decide)
      (by decide) (by decide) (by decide)⟩

/-- C14, at five valid samples on four ranks (`P = 1`, no environment,
`maxBytesPerRank = 100`): the input passes the memory check with `n ≥ size ≥ 1`,
`samplesPerRank` is 2, ranks 0 and 1 keep two samples, rank 2 keeps one and rank 3 keeps
none. -/
theorem partition_empty_rank :
    (valid_sids 5 (fun _ => false)).length = 5 ∧ 4 ≤ 5 ∧ dXtEEX_bytes 1 0 < 100
    ∧ (partition_valid_samples_across_ranks 0 4 5 1 0 100 (fun _ => false)
          (fun _ => 0)).map (fun res => res.rank_cases) = .ok [0, 1]
    ∧ (partition_valid_samples_across_ranks 1 4 5 1 0 100 (fun _ => false)
          (fun _ => 0)).map (fun res => res.rank_cases) = .ok [2, 3]
    ∧ (partition_valid_samples_across_ranks 2 4 5 1 0 100 (fun _ => false)
          (fun _ => 0)).map (fun res => res.rank_cases) = .ok [4]
    ∧ (partition_valid_samples_across_ranks 3 4 5 1 0 100 (fun _ => false)
          (fun _ => 0)).map (fun res => res.rank_cases) = .ok [] :=
  ⟨by decide, by decide, by decide, rfl, rfl, rfl, rfl⟩

end PartitionClaims
/-! ## Divergences of the tracker, the covariate term, the chromosome index and the
jackknife block -/

section TrackerDivergences

/-- C21, at the grid row `(σ, σ_b, σ_g, λ_b, λ_g) = (2, 1, 3, 1/2, 1/4)`: the record has
`slab_relative_var = (1, 3)`, `slab_var = σ·slab_relative_var = (2, 6)` and
`spike_var = (σ·σ_b/100, σ·σ_g/100) = (1/50, 3/50)` as the claim states, and
`spike_relative_var = (1, 3)`, where the claim gives `(1/100, 3/100)`; so
`spike_var ≠ σ·spike_relative_var`. -/
theorem tracker_hyps_spike_relative_var_divergence :
    ∃ h, vbayes_tracker.Hyps.new (exT_grid ℚ) 0 2 = .ok h
      ∧ h.sigma = 2
      ∧ h.slab_relative_var 0 = 1 ∧ h.slab_relative_var 1 = 3
      ∧ h.slab_var 0 = h.sigma * h.slab_relative_var 0
      ∧ h.slab_var 1 = h.sigma * h.slab_relative_var 1
      ∧ h.spike_var 0 = 1 / 50 ∧ h.spike_var 1 = 3 / 50
      ∧ h.spike_relative_var 0 = 1 ∧ h.spike_relative_var 1 = 3
      ∧ h.spike_relative_var 0 ≠ 1 * (1 / 100)
      ∧ h.spike_var 0 ≠ h.sigma * h.spike_relative_var 0 := by
  refine ⟨_, rfl, ?_⟩
  simp [exT_grid]
  norm_num

theorem calc_logw_terms {F : Type} [Field F] (m : MathFns F) (vb : VBayesX2 F) (hyps : Hyps F)
    (vp : VariationalParameters F) :
    calc_logw m vb hyps vp
      = (-1 * calcExpLinear vb hyps vp / 2 / hyps.sigma
          - vb.N * m.log (2 * PI * hyps.sigma) / 2)
        + (if 1 < vb.n_effects then
            0 + int_gamma_effect m vb 0 vp.alpha_beta hyps
              + int_gamma_effect m vb 1 vp.alpha_gam hyps
           else 0 + int_gamma_effect m vb 0 vp.alpha_beta hyps)
        + (if 1 < vb.n_effects then calcIntKLBeta m vb hyps vp + calcIntKLGamma m vb hyps vp
           else calcIntKLBeta m vb hyps vp)
        + calc_logw_kl_covar m vb hyps vp
        + (if 1 < vb.n_env then
            0 + (vb.n_env : F) / 2
              + (∑ l ∈ range vb.n_env, m.log (vp.sw_sq l)) / 2
              - (∑ l ∈ range vb.n_env, vp.sw_sq l) / 2
              - (∑ l ∈ range vb.n_env, vp.muw l * vp.muw l) / 2
           else 0) := rfl

/-- C25, at the example (one covariate, `σ = 1`, `s_c² = 1`, `μ_c = 1`, covariates in the
VB) with the real logarithm: the term that `calc_logw` adds is
`(1 − σ·σ_c)/2 − 1/10000 = −9999/2 − 1/10000`, the term of the claim and of the test is
`(1 − log(σ·σ_c))/2 − 1/10000`, and the first is smaller. -/
theorem calc_logw_kl_covar_divergence :
    (exA_vb ℝ).p.use_vb_on_covars = true
    ∧ calc_logw_kl_covar ⟨Real.log, Real.exp⟩ (exA_vb ℝ) (exA_hyps ℝ) (exA_vp ℝ)
        = -9999 / 2 - 1 / 10000
    ∧ kl_covar_spec ⟨Real.log, Real.exp⟩ (exA_vb ℝ) (exA_hyps ℝ) (exA_vp ℝ)
        = (1 - Real.log 10000) / 2 - 1 / 10000
    ∧ calc_logw_kl_covar ⟨Real.log, Real.exp⟩ (exA_vb ℝ) (exA_hyps ℝ) (exA_vp ℝ)
        < kl_covar_spec ⟨Real.log, Real.exp⟩ (exA_vb ℝ) (exA_hyps ℝ) (exA_vp ℝ) := by
  have h1 : calc_logw_kl_covar ⟨Real.log, Real.exp⟩ (exA_vb ℝ) (exA_hyps ℝ) (exA_vp ℝ)
      = -9999 / 2 - 1 / 10000 := by
    simp [calc_logw_kl_covar, exA_vb, exA_p, exA_hyps, exA_vp, sigma_c]
    norm_num
  have h2 : kl_covar_spec ⟨Real.log, Real.exp⟩ (exA_vb ℝ) (exA_hyps ℝ) (exA_vp ℝ)
      = (1 - Real.log 10000) / 2 - 1 / 10000 := by
    simp [kl_covar_spec, exA_vb, exA_p, exA_hyps, exA_vp, sigma_c]
    norm_num
    ring
  refine ⟨rfl, h1, h2, ?_⟩
  rw [h1, h2]
  have h3 : Real.log 10000 ≤ 10000 - 1 :=
    Real.log_le_sub_one_of_pos (by norm_num)
  linarith

/-- C29, at one variant on chromosome 22: the labels lie in `1..22`, and the index 22 that
`compute_residuals_per_chr` and `LOCO_pvals` use is not below the length `n_chrs = 22` of
the vectors. -/
theorem chr_index_out_of_bounds :
    (∀ jj, jj < 1 → 1 ≤ exR_chromosome jj ∧ exR_chromosome jj ≤ 22)
    ∧ compute_residuals_per_chr_indices 1 exR_chromosome = [22]
    ∧ LOCO_pvals_indices 1 exR_chromosome = [22]
    ∧ ¬ 22 < n_chrs := by
  refine ⟨fun _ _ => ⟨by simp [exR_chromosome], by simp [exR_chromosome]⟩,
    by decide, by decide, by decide⟩

/-- C28, at the example with the two variants at the cumulative positions 0 and 2, chunks
of one variant and `n_jacknife = 2`: the positions are non-decreasing, the block size is
`(2 + 2 − 1)/2 = 1`, the in-memory branch passes the block indices 0 and `2/1 = 2`, and
every component has `n_jacknife_local = 2`, so that `assert(jacknife_index <
n_jacknife_local)` fails at the second chunk. -/
theorem jacknife_index_out_of_range :
    1 ≤ (exJ_pve ℚ).n_jacknife
    ∧ (∀ j k, j ≤ k → (exJ_pve ℚ).cumulative_pos j ≤ (exJ_pve ℚ).cumulative_pos k)
    ∧ (calc_sigmas_v2_chunks_bgen (exJ_pve ℚ)).map (fun ch => ch.jacknife_index) = [0, 2]
    ∧ (∀ ii, ((exJ_pve ℚ).components ii).n_jacknife_local = 2)
    ∧ ¬ 2 < (exJ_pve ℚ).n_jacknife := by
  refine ⟨by decide, ?_, rfl, ?_, by decide⟩
  · intro j k hjk
    simp only [exJ_pve]
    omega
  · intro ii
    exact exP_n_jacknife ii

end TrackerDivergences
/-! ## Weights of the grid points and the MAP -/

section GridWeights

variable {F : Type} [LinearOrderedField F]

theorem max_element_succ (n : Nat) (v : Nat → F) :
    max_element (n + 1) v
      = if v (max_element n v) < v n then n else max_element n v := by
  unfold max_element
  rw [List.range_succ, List.foldl_append]
  rfl

/-- The position returned by `std::max_element` is the first position of a largest
entry. -/
theorem max_element_spec (n : Nat) (hn : 1 ≤ n) (v : Nat → F) :
    max_element n v < n
    ∧ (∀ k, k < n → v k ≤ v (max_element n v))
    ∧ (∀ k, k < max_element n v → v k < v (max_element n v)) := by
  induction n with
  | zero => omega
  | succ n ih =>
    rcases Nat.eq_zero_or_pos n with h0 | hpos
    · subst h0
      have e : max_element (0 + 1) v = 0 := by
        rw [max_element_succ]
        simp [max_element]
      rw [e]
      refine ⟨by omega, fun k hk => ?_, fun k hk => by omega⟩
      have : k = 0 := by omega
      subst this
      exact le_refl _
    · obtain ⟨h1, h2, h3⟩ := ih hpos
      rw [max_element_succ]
      by_cases hlt : v (max_element n v) < v n
      · rw [if_pos hlt]
        refine ⟨by omega, fun k hk => ?_, fun k hk => ?_⟩
        · rcases Nat.lt_succ_iff_lt_or_eq.mp hk with hk | hk
          · exact le_trans (h2 k hk) (le_of_lt hlt)
          · rw [hk]
        · exact lt_of_le_of_lt (h2 k hk) hlt
      · rw [if_neg hlt]
        refine ⟨by omega, fun k hk => ?_, h3⟩
        rcases Nat.lt_succ_iff_lt_or_eq.mp hk with hk | hk
        · exact h2 k hk
        · rw [hk]
          exact not_lt.mp hlt

theorem max_element_congr (n : Nat) (v w : Nat → F)
    (h : ∀ a b, w a < w b ↔ v a < v b) : max_element n w = max_element n v := by
  induction n with
  | zero => rfl
  | succ n ih =>
    rw [max_element_succ, max_element_succ, ih]
    by_cases hlt : v (max_element n v) < v n
    · rw [if_pos hlt, if_pos ((h _ _).mpr hlt)]
    · rw [if_neg hlt, if_neg (fun hc => hlt ((h _ _).mp hc))]

theorem max_element_const (n : Nat) (c : F) : max_element n (fun _ => c) = 0 := by
  induction n with
  | zero => rfl
  | succ n ih =>
    rw [max_element_succ, ih]
    simp

theorem foldl_add_eq_sum (n : Nat) (f : Nat → F) :
    (List.range n).foldl (fun s ii => s + f ii) 0 = ∑ ii ∈ range n, f ii := by
  induction n with
  | zero => simp
  | succ n ih =>
    rw [List.range_succ, List.foldl_append, ih, Finset.sum_range_succ]
    rfl

theorem normaliseLogWeights_eq (m : MathFns F) (nn : Nat) (w : Nat → F) (ii : Nat) :
    normaliseLogWeights m nn w ii
      = m.exp (w ii - w (max_element nn w))
        / ∑ k ∈ range nn, m.exp (w k - w (max_element nn w)) := by
  unfold normaliseLogWeights
  simp only [foldl_add_eq_sum]

end GridWeights

section GridWeightsClaim

/-- C30.  With more than one grid point: when `mode_empirical_bayes` is off, every grid
point gets the weight `1/n_grid` and grid point 0 is the MAP; when it is on, with `M` the
largest ELBO, the weights are `exp(logw_i − M)/Σ_k exp(logw_k − M)`, they sum to 1, and the
MAP is the first grid point whose ELBO is `M`. -/
theorem output_results_weights_map (p : parameters ℝ) (n : Nat) (logw : Nat → ℝ)
    (hn : 1 < n) :
    (p.mode_empirical_bayes = false →
      (∀ ii, output_results_weights ⟨Real.log, Real.exp⟩ p n logw ii = 1 / (n : ℝ))
      ∧ output_results_ii_map ⟨Real.log, Real.exp⟩ p n logw = 0)
    ∧ (p.mode_empirical_bayes = true →
      ∃ M : ℝ, (∀ k, k < n → logw k ≤ M) ∧ (∃ k, k < n ∧ logw k = M)
        ∧ (∀ ii, output_results_weights ⟨Real.log, Real.exp⟩ p n logw ii
            = Real.exp (logw ii - M) / ∑ k ∈ range n, Real.exp (logw k - M))
        ∧ ∑ ii ∈ range n, output_results_weights ⟨Real.log, Real.exp⟩ p n logw ii = 1
        ∧ output_results_ii_map ⟨Real.log, Real.exp⟩ p n logw < n
        ∧ logw (output_results_ii_map ⟨Real.log, Real.exp⟩ p n logw) = M
        ∧ ∀ k, k < output_results_ii_map ⟨Real.log, Real.exp⟩ p n logw → logw k < M) := by
  have hn0 : (n : ℝ) ≠ 0 := Nat.cast_ne_zero.mpr (by omega)
  constructor
  · intro hEB
    have hw : ∀ ii, output_results_weights ⟨Real.log, Real.exp⟩ p n logw ii = 1 / (n : ℝ) := by
      intro ii
      unfold output_results_weights
      simp only [hn, if_true, hEB, Bool.false_eq_true, if_false]
      rw [normaliseLogWeights_eq]
      simp
    refine ⟨hw, ?_⟩
    unfold output_results_ii_map
    rw [show output_results_weights ⟨Real.log, Real.exp⟩ p n logw = fun _ => 1 / (n : ℝ) from
      funext hw]
    exact max_element_const n _
  · intro hEB
    obtain ⟨h1, h2, h3⟩ := max_element_spec n (by omega) logw
    have hS : 0 < ∑ k ∈ range n, Real.exp (logw k - logw (max_element n logw)) :=
      Finset.sum_pos (fun k _ => Real.exp_pos _) ⟨0, Finset.mem_range.mpr (by omega)⟩
    have hw : ∀ ii, output_results_weights ⟨Real.log, Real.exp⟩ p n logw ii
        = Real.exp (logw ii - logw (max_element n logw))
          / ∑ k ∈ range n, Real.exp (logw k - logw (max_element n logw)) := by
      intro ii
      unfold output_results_weights
      simp only [hn, if_true, hEB]
      rw [normaliseLogWeights_eq]
    have hmap : output_results_ii_map ⟨Real.log, Real.exp⟩ p n logw = max_element n logw := by
      unfold output_results_ii_map
      apply max_element_congr
      intro a b
      rw [hw a, hw b, div_lt_div_iff_of_pos_right hS, Real.exp_lt_exp]
      constructor <;> intro h <;> linarith
    refine ⟨logw (max_element n logw), h2, ⟨_, h1, rfl⟩, hw, ?_, ?_, ?_, ?_⟩
    · simp only [hw]
      rw [← Finset.sum_div]
      exact div_self (ne_of_gt hS)
    · rw [hmap]
      exact h1
    · rw [hmap]
    · rw [hmap]
      exact h3

/-- C30, on two grid points with the ELBOs 0 and 1, with `mode_empirical_bayes` off and
on. -/
theorem output_results_weights_map_witness :
    1 < 2
    ∧ ((∀ ii, output_results_weights ⟨Real.log, Real.exp⟩
          { exA_p ℝ with mode_empirical_bayes := false } 2 (fun k => (k : ℝ)) ii
          = 1 / ((2 : Nat) : ℝ))
        ∧ output_results_ii_map ⟨Real.log, Real.exp⟩
          { exA_p ℝ with mode_empirical_bayes := false } 2 (fun k => (k : ℝ)) = 0)
    ∧ ∃ M : ℝ, (∀ k, k < 2 → (fun k : Nat => (k : ℝ)) k ≤ M)
        ∧ (∃ k, k < 2 ∧ (fun k : Nat => (k : ℝ)) k = M)
        ∧ (∀ ii, output_results_weights ⟨Real.log, Real.exp⟩ (exA_p ℝ) 2 (fun k => (k : ℝ)) ii
            = Real.exp ((fun k : Nat => (k : ℝ)) ii - M)
              / ∑ k ∈ range 2, Real.exp ((fun k : Nat => (k : ℝ)) k - M))
        ∧ ∑ ii ∈ range 2,
            output_results_weights ⟨Real.log, Real.exp⟩ (exA_p ℝ) 2 (fun k => (k : ℝ)) ii = 1
        ∧ output_results_ii_map ⟨Real.log, Real.exp⟩ (exA_p ℝ) 2 (fun k => (k : ℝ)) < 2
        ∧ (fun k : Nat => (k : ℝ))
            (output_results_ii_map ⟨Real.log, Real.exp⟩ (exA_p ℝ) 2 (fun k => (k : ℝ))) = M
        ∧ ∀ k, k < output_results_ii_map ⟨Real.log, Real.exp⟩ (exA_p ℝ) 2 (fun k => (k : ℝ)) →
            (fun k : Nat => (k : ℝ)) k < M :=
  ⟨by decide,
    (output_results_weights_map { exA_p ℝ with mode_empirical_bayes := false } 2
      (fun k => (k : ℝ)) (by decide)).1 rfl,
    (output_results_weights_map (exA_p ℝ) 2 (fun k => (k : ℝ)) (by decide)).2 rfl⟩

end GridWeightsClaim
/-! ## The loop of the naive implementation -/

section NaiveLoop

theorem outer_loop_from_succ {F : Type} [LinearOrderedField F] (m : MathFns F) (vb : vbayes F)
    (hyps : Nat → F) (fuel ll : Nat) (st : vbayes_state F) :
    vbayes.outer_loop_from m vb hyps (fuel + 1) ll st
      = if maxCoeff vb.n_var (fun kk => |st.alpha kk
            - (vb.inner_loop_update m hyps st
                (if ll % 2 = 0 then vb.fwd_pass else vb.back_pass)).alpha kk|) > vb.diff_tol
        then (vb.inner_loop_update m hyps st
                (if ll % 2 = 0 then vb.fwd_pass else vb.back_pass), ll + 1)
        else vbayes.outer_loop_from m vb hyps fuel (ll + 1)
          (vb.inner_loop_update m hyps st
            (if ll % 2 = 0 then vb.fwd_pass else vb.back_pass)) := rfl

theorem sigmoid_log_half : sigmoid ⟨Real.log, Real.exp⟩ (-Real.log 2) = 1 / 3 := by
  unfold sigmoid
  simp only [neg_neg]
  rw [Real.exp_log (by norm_num)]
  norm_num

theorem exN_first_pass :
    ((exN_vb ℝ).inner_loop_update ⟨Real.log, Real.exp⟩ (exN_hyps ℝ)
        { alpha := fun _ => 0
          mu := fun _ => 0
          Xr := fun i => ∑ kk ∈ range (exN_vb ℝ).n_var, (exN_vb ℝ).X i kk * ((0 : ℝ) * 0) }
        (exN_vb ℝ).fwd_pass).alpha 0 = 1 / 3 := by
  have e : (exN_vb ℝ).n_var = 0 + 1 := rfl
  unfold vbayes.inner_loop_update
  rw [e, List.range_succ]
  simp [vbayes.fwd_pass, vbayes.dXtX, vbayes.Xty, exN_vb, exN_hyps]
  norm_num
  exact sigmoid_log_half

/-- C27, at one variant with `X = (1)`, `Y = (0)`, the row `(sigma, sigmab, pi) =
(1, 1, 1/2)` and `alpha = mu = 0`: the first pass moves `alpha` from 0 to `1/3`, a change
that is not below `diff_tol = 1e-4`, and `outer_loop` leaves its loop after this one pass
of `iter_max = 1000`. -/
theorem outer_loop_break_divergence :
    (vbayes.outer_loop ⟨Real.log, Real.exp⟩ (exN_vb ℝ) (exN_hyps ℝ)
        (fun _ => 0) (fun _ => 0)).2 = 1
    ∧ (vbayes.outer_loop ⟨Real.log, Real.exp⟩ (exN_vb ℝ) (exN_hyps ℝ)
        (fun _ => 0) (fun _ => 0)).1.alpha 0 = 1 / 3
    ∧ ¬ (|(0 : ℝ) - 1 / 3| < (exN_vb ℝ).diff_tol)
    ∧ 1 < (exN_vb ℝ).iter_max := by
  have e : (exN_vb ℝ).iter_max = 999 + 1 := rfl
  have hd : maxCoeff (exN_vb ℝ).n_var (fun kk =>
      |(0 : ℝ) - ((exN_vb ℝ).inner_loop_update ⟨Real.log, Real.exp⟩ (exN_hyps ℝ)
        { alpha := fun _ => 0
          mu := fun _ => 0
          Xr := fun i => ∑ kk ∈ range (exN_vb ℝ).n_var, (exN_vb ℝ).X i kk * ((0 : ℝ) * 0) }
        (exN_vb ℝ).fwd_pass).alpha kk|) > (exN_vb ℝ).diff_tol := by
    have e1 : (exN_vb ℝ).n_var = 0 + 1 := rfl
    unfold maxCoeff
    rw [e1, List.range_succ]
    simp only [List.range_zero, List.nil_append, List.foldl_cons, List.foldl_nil, max_self]
    rw [← e1, exN_first_pass]
    simp only [exN_vb]
    rw [abs_of_neg (by norm_num)]
    norm_num
  have hstep : vbayes.outer_loop ⟨Real.log, Real.exp⟩ (exN_vb ℝ) (exN_hyps ℝ)
      (fun _ => 0) (fun _ => 0)
      = ((exN_vb ℝ).inner_loop_update ⟨Real.log, Real.exp⟩ (exN_hyps ℝ)
        { alpha := fun _ => 0
          mu := fun _ => 0
          Xr := fun i => ∑ kk ∈ range (exN_vb ℝ).n_var, (exN_vb ℝ).X i kk * ((0 : ℝ) * 0) }
        (exN_vb ℝ).fwd_pass, 1) := by
    unfold vbayes.outer_loop
    rw [e, outer_loop_from_succ]
    simp only [Nat.zero_mod, if_true]
    rw [if_pos hd]
  refine ⟨by rw [hstep], by rw [hstep]; exact exN_first_pass, ?_, by decide⟩
  simp only [exN_vb]
  rw [abs_of_neg (by norm_num)]
  norm_num

end NaiveLoop
/-! ## The environment weights with a single environment -/

section EnvFrame

variable {F : Type} [Field F]

theorem sameEnv_refl (vp : VariationalParameters F) : sameEnv vp vp := ⟨rfl, rfl, rfl⟩

theorem sameEnv_trans {a b c : VariationalParameters F} (h1 : sameEnv a b)
    (h2 : sameEnv b c) : sameEnv a c :=
  ⟨h2.1.trans h1.1, h2.2.1.trans h1.2.1, h2.2.2.trans h1.2.2⟩

theorem updateCovarEffects_sameEnv (vb : VBayesX2 F) (vp : VariationalParameters F)
    (hyps : Hyps F) : sameEnv vp (updateCovarEffects vb vp hyps) := by
  unfold updateCovarEffects
  generalize List.range vb.n_covar = l
  induction l generalizing vp with
  | nil => exact sameEnv_refl vp
  | cons cc l ih =>
    rw [List.foldl_cons]
    exact sameEnv_trans (show sameEnv vp (updateCovarEffectsStep vb hyps vp cc) from
      ⟨rfl, rfl, rfl⟩) (ih _)

theorem beta_step_sameEnv (m : MathFns F) (vb : VBayesX2 F) (iter_chunk : List Nat)
    (A : Nat → F) (D_corr : Nat → Nat → F) (hyps : Hyps F)
    (st : VariationalParameters F × (Nat → F)) (ii : Nat) :
    sameEnv st.1 (_internal_updateAlphaMu_beta_step m vb iter_chunk A D_corr hyps st ii).1 := by
  cases hm : vb.p.mode_mog_prior_beta <;>
    simp [_internal_updateAlphaMu_beta_step, hm, sameEnv]

theorem gam_step_sameEnv (m : MathFns F) (vb : VBayesX2 F) (iter_chunk : List Nat)
    (A : Nat → F) (D_corr : Nat → Nat → F) (hyps : Hyps F) (rr_k : Nat → F)
    (st : VariationalParameters F × (Nat → F)) (ii : Nat) :
    sameEnv st.1
      (_internal_updateAlphaMu_gam_step m vb iter_chunk A D_corr hyps rr_k st ii).1 := by
  cases hm : vb.p.mode_mog_prior_gam <;>
    simp [_internal_updateAlphaMu_gam_step, hm, sameEnv]

theorem foldl_sameEnv (step : VariationalParameters F × (Nat → F) → Nat →
      VariationalParameters F × (Nat → F))
    (hstep : ∀ st ii, sameEnv st.1 (step st ii).1) (l : List Nat)
    (st : VariationalParameters F × (Nat → F)) : sameEnv st.1 (l.foldl step st).1 := by
  induction l generalizing st with
  | nil => exact sameEnv_refl _
  | cons a l ih =>
    rw [List.foldl_cons]
    exact sameEnv_trans (hstep st a) (ih _)

theorem updateAlphaMuChunk_sameEnv (m : MathFns F) (vb : VBayesX2 F) (chunk : List Nat)
    (hv : Hyps F × VariationalParameters F) :
    sameEnv hv.2 (updateAlphaMuChunk m vb chunk hv).2 := by
  unfold updateAlphaMuChunk adjustParams
  by_cases hee : chunk.getD 0 0 / vb.n_var = 0
  · simp only [hee, if_true]
    exact foldl_sameEnv _ (beta_step_sameEnv m vb chunk _ _ hv.1) _ _
  · simp only [hee, if_false]
    exact foldl_sameEnv _ (gam_step_sameEnv m vb chunk _ _ hv.1 _) _ _

theorem calcVarqBeta_sameEnv (vb : VBayesX2 F) (vp : VariationalParameters F) :
    sameEnv vp (calcVarqBeta vb vp) := by
  unfold calcVarqBeta
  by_cases h : 1 < vb.n_effects <;> simp [h, sameEnv]

theorem updateAlphaMu_sameEnv (m : MathFns F) (vb : VBayesX2 F)
    (iter_chunks : List (List Nat)) (grid : Nat → Hyps F × VariationalParameters F)
    (nn : Nat) :
    sameEnv (grid nn).2 (updateAlphaMu m vb iter_chunks grid nn).2 := by
  unfold updateAlphaMu
  refine sameEnv_trans ?_ (calcVarqBeta_sameEnv vb _)
  induction iter_chunks generalizing grid with
  | nil => exact sameEnv_refl _
  | cons chunk rest ih =>
    rw [List.foldl_cons]
    exact sameEnv_trans (updateAlphaMuChunk_sameEnv m vb chunk (grid nn)) (ih _)

theorem updateAllParams_eq_pass (m : MathFns F) (vb : VBayesX2 F) (count round_index : Nat)
    (grid : Nat → Hyps F × VariationalParameters F) :
    updateAllParams m vb count round_index grid
      = updateAllParams_pass m vb
          (if (count % 2 == 0) = true then fwd_pass_chunks vb else back_pass_chunks vb)
          count round_index grid := rfl

theorem updateAllParams_pass_sameEnv (m : MathFns F) (vb : VBayesX2 F) (hL : vb.n_env ≤ 1)
    (iter_chunks : List (List Nat)) (count round_index : Nat)
    (grid : Nat → Hyps F × VariationalParameters F) (nn : Nat) :
    sameEnv (grid nn).2 (updateAllParams_pass m vb iter_chunks count round_index grid nn).2 := by
  have hnot : ¬ 1 < vb.n_env := by omega
  have h1 : sameEnv (grid nn).2
      (if vb.p.use_vb_on_covars then
        ((grid nn).1, updateCovarEffects vb (grid nn).2 (grid nn).1)
       else grid nn).2 := by
    cases hc : vb.p.use_vb_on_covars
    · exact sameEnv_refl _
    · exact updateCovarEffects_sameEnv vb _ _
  have h2 := updateAlphaMu_sameEnv m vb iter_chunks
    (fun nn => if vb.p.use_vb_on_covars then
        ((grid nn).1, updateCovarEffects vb (grid nn).2 (grid nn).1)
       else grid nn) nn
  have h3 := sameEnv_trans h1 h2
  unfold updateAllParams_pass
  by_cases hr : 1 < round_index ∧ vb.p.mode_empirical_bayes = true
  · simp only [hnot, if_false, hr, if_true]
    exact h3
  · simp only [hnot, if_false, hr]
    exact h3

theorem updateAllParams_sameEnv (m : MathFns F) (vb : VBayesX2 F) (hL : vb.n_env ≤ 1)
    (count round_index : Nat) (grid : Nat → Hyps F × VariationalParameters F) (nn : Nat) :
    sameEnv (grid nn).2 (updateAllParams m vb count round_index grid nn).2 := by
  rw [updateAllParams_eq_pass]
  exact updateAllParams_pass_sameEnv m vb hL _ count round_index grid nn

end EnvFrame

section EnvFrameLoop

variable {F : Type} [LinearOrderedField F]

theorem updateSSq_sameEnv (vb : VBayesX2 F) (hyps : Hyps F) (vp : VariationalParameters F) :
    sameEnv vp (updateSSq vb hyps vp) := by
  have key : ∀ w : VariationalParameters F, sameEnv vp w →
      sameEnv vp (if vb.p.use_vb_on_covars then
        { calcVarqBeta vb w with
          sc_sq := fun _ => hyps.sigma * sigma_c / (sigma_c * (vb.N - 1) + 1) }
        else calcVarqBeta vb w) := by
    intro w hw
    have h := sameEnv_trans hw (calcVarqBeta_sameEnv vb w)
    cases vb.p.use_vb_on_covars
    · exact h
    · exact h
  unfold updateSSq
  apply key
  cases vb.p.mode_mog_prior_beta <;> cases vb.p.mode_mog_prior_gam <;>
    by_cases h : 1 < vb.n_effects <;> simp only [h, if_true, if_false] <;>
    exact ⟨rfl, rfl, rfl⟩

theorem runInnerLoop_after_sameEnv (m : MathFns F) (vb : VBayesX2 F) (hL : vb.n_env ≤ 1)
    (round_index n_grid : Nat) (vp_init : VariationalParameters F) (all_hyps : Nat → Hyps F)
    (k nn : Nat) :
    sameEnv vp_init
      ((runInnerLoop_after m vb round_index n_grid vp_init all_hyps k).grid nn).2 := by
  induction k with
  | zero => exact updateSSq_sameEnv vb (all_hyps nn) vp_init
  | succ k ih =>
    unfold runInnerLoop_after at ih ⊢
    rw [Function.iterate_succ_apply']
    exact sameEnv_trans ih (updateAllParams_sameEnv m vb hL _ round_index _ nn)

/-- C26.  With a single environment (`n_env = 1`) the environment weights are never
updated: `updateAllParams` leaves `μ_w`, `η` and `η²` of every grid point unchanged for
every `count` and `round_index`, so after any number `k` of iterations of `runInnerLoop`
the vector `η` (and `μ_w`, `η²`) of every grid point is the initial one. -/
theorem updateAllParams_single_env (m : MathFns F) (vb : VBayesX2 F) (hE : vb.n_env = 1) :
    (∀ (count round_index : Nat) (grid : Nat → Hyps F × VariationalParameters F) (nn : Nat),
        (updateAllParams m vb count round_index grid nn).2.muw = (grid nn).2.muw
        ∧ (updateAllParams m vb count round_index grid nn).2.eta = (grid nn).2.eta
        ∧ (updateAllParams m vb count round_index grid nn).2.eta_sq = (grid nn).2.eta_sq)
    ∧ ∀ (round_index n_grid : Nat) (vp_init : VariationalParameters F)
        (all_hyps : Nat → Hyps F) (k nn : Nat),
        ((runInnerLoop_after m vb round_index n_grid vp_init all_hyps k).grid nn).2.eta
            = vp_init.eta
        ∧ ((runInnerLoop_after m vb round_index n_grid vp_init all_hyps k).grid nn).2.muw
            = vp_init.muw
        ∧ ((runInnerLoop_after m vb round_index n_grid vp_init all_hyps k).grid nn).2.eta_sq
            = vp_init.eta_sq := by
  have hL : vb.n_env ≤ 1 := le_of_eq hE
  refine ⟨fun count round_index grid nn =>
    updateAllParams_sameEnv m vb hL count round_index grid nn, ?_⟩
  intro round_index n_grid vp_init all_hyps k nn
  have h := runInnerLoop_after_sameEnv m vb hL round_index n_grid vp_init all_hyps k nn
  exact ⟨h.2.1, h.1, h.2.2⟩

/-- C26, on the example data with a single environment. -/
theorem updateAllParams_single_env_witness :
    (exE_vb ℝ).n_env = 1
    ∧ (∀ (count round_index : Nat) (grid : Nat → Hyps ℝ × VariationalParameters ℝ) (nn : Nat),
        (updateAllParams ⟨Real.log, Real.exp⟩ (exE_vb ℝ) count round_index grid nn).2.muw
          = (grid nn).2.muw
        ∧ (updateAllParams ⟨Real.log, Real.exp⟩ (exE_vb ℝ) count round_index grid nn).2.eta
          = (grid nn).2.eta
        ∧ (updateAllParams ⟨Real.log, Real.exp⟩ (exE_vb ℝ) count round_index grid nn).2.eta_sq
          = (grid nn).2.eta_sq)
    ∧ ((runInnerLoop_after ⟨Real.log, Real.exp⟩ (exE_vb ℝ) 2 1 (exA_vp ℝ)
          (fun _ => exA_hyps ℝ) 3).grid 0).2.eta = (exA_vp ℝ).eta :=
  ⟨rfl, (updateAllParams_single_env ⟨Real.log, Real.exp⟩ (exE_vb ℝ) rfl).1,
    ((updateAllParams_single_env ⟨Real.log, Real.exp⟩ (exE_vb ℝ) rfl).2 2 1 (exA_vp ℝ)
      (fun _ => exA_hyps ℝ) 3 0).1⟩

end EnvFrameLoop
/-! ## The totals of the trace estimator and the chunking -/

section TraceChunking

variable {F : Type} [Field F]

theorem cols_of_length (chunks : List (TraceChunk F)) :
    (cols_of chunks).length = (chunks.map TraceChunk.cols).sum := by
  induction chunks with
  | nil => rfl
  | cons ch rest ih =>
    have h : cols_of (ch :: rest)
        = (List.range ch.cols).map (fun col => (fun i => ch.D i col, ch.jacknife_index))
          ++ cols_of rest := by
      simp [cols_of]
    rw [h, List.length_append, ih]
    simp

theorem cols_of_hcat (D1 : Nat → Nat → F) (c1 : Nat) (D2 : Nat → Nat → F) (c2 b b1 b2 : Nat) :
    (cols_of [TraceChunk.hcat D1 c1 D2 c2 b]).map Prod.fst
      = (cols_of [({ D := D1, cols := c1, jacknife_index := b1 } : TraceChunk F),
          { D := D2, cols := c2, jacknife_index := b2 }]).map Prod.fst := by
  simp only [cols_of, TraceChunk.hcat, List.flatMap_cons, List.flatMap_nil, List.append_nil,
    List.map_append, List.map_map, List.range_add]
  congr 1
  · apply List.map_congr_left
    intro col hcol
    have h := List.mem_range.mp hcol
    funext i
    simp [h]
  · apply List.map_congr_left
    intro col _
    funext i
    simp

theorem sum_map_one (l : List (Nat → F)) :
    (l.map (fun _ => (1 : F))).sum = (l.length : F) := by
  induction l with
  | nil => simp
  | cons a l ih => simp [ih, add_comm]

/-- C24.  The totals of the trace estimator do not depend on the chunking: for an active
component and two lists of chunks that add the same columns in the same order, each chunk
counted in a jackknife block of the component, the finalised `_XXtz`, `_XXtWz`, `ytXXty`
and `n_var_local` agree; so they do for the chunk `[D1 D2]` added in one call and `D1`,
`D2` added in two calls, in whatever blocks; and for a component whose counters start at
zero `n_var_local` is the total number of columns added. -/
theorem trace_totals_chunking (c : PVE_Component F) (hact : c.is_active = true)
    (cs1 cs2 : List (TraceChunk F))
    (hidx1 : ∀ ch ∈ cs1, ch.jacknife_index < c.n_jacknife_local)
    (hidx2 : ∀ ch ∈ cs2, ch.jacknife_index < c.n_jacknife_local)
    (hcols : (cols_of cs1).map Prod.fst = (cols_of cs2).map Prod.fst) :
    ((finalised_after c cs1)._XXtz = (finalised_after c cs2)._XXtz
      ∧ (finalised_after c cs1)._XXtWz = (finalised_after c cs2)._XXtWz
      ∧ (finalised_after c cs1).ytXXty = (finalised_after c cs2).ytXXty
      ∧ (finalised_after c cs1).n_var_local = (finalised_after c cs2).n_var_local)
    ∧ (∀ (D1 D2 : Nat → Nat → F) (c1 c2 b b1 b2 : Nat), b < c.n_jacknife_local →
        b1 < c.n_jacknife_local → b2 < c.n_jacknife_local →
        (finalised_after c [TraceChunk.hcat D1 c1 D2 c2 b])._XXtz
            = (finalised_after c [{ D := D1, cols := c1, jacknife_index := b1 },
                { D := D2, cols := c2, jacknife_index := b2 }])._XXtz
        ∧ (finalised_after c [TraceChunk.hcat D1 c1 D2 c2 b])._XXtWz
            = (finalised_after c [{ D := D1, cols := c1, jacknife_index := b1 },
                { D := D2, cols := c2, jacknife_index := b2 }])._XXtWz
        ∧ (finalised_after c [TraceChunk.hcat D1 c1 D2 c2 b]).ytXXty
            = (finalised_after c [{ D := D1, cols := c1, jacknife_index := b1 },
                { D := D2, cols := c2, jacknife_index := b2 }]).ytXXty
        ∧ (finalised_after c [TraceChunk.hcat D1 c1 D2 c2 b]).n_var_local
            = (finalised_after c [{ D := D1, cols := c1, jacknife_index := b1 },
                { D := D2, cols := c2, jacknife_index := b2 }]).n_var_local)
    ∧ ((∀ b, c.n_vars_local b = 0) →
        (finalised_after c cs1).n_var_local = (((cs1.map TraceChunk.cols).sum : Nat) : F)) := by
  have key : ∀ (l1 l2 : List (TraceChunk F)),
      (∀ ch ∈ l1, ch.jacknife_index < c.n_jacknife_local) →
      (∀ ch ∈ l2, ch.jacknife_index < c.n_jacknife_local) →
      (cols_of l1).map Prod.fst = (cols_of l2).map Prod.fst →
      (finalised_after c l1)._XXtz = (finalised_after c l2)._XXtz
      ∧ (finalised_after c l1)._XXtWz = (finalised_after c l2)._XXtWz
      ∧ (finalised_after c l1).ytXXty = (finalised_after c l2).ytXXty
      ∧ (finalised_after c l1).n_var_local = (finalised_after c l2).n_var_local := by
    intro l1 l2 h1 h2 hc
    obtain ⟨a1, a2, a3, a4, _⟩ := finalise_totals c l1 h1 hact
    obtain ⟨b1, b2, b3, b4, _⟩ := finalise_totals c l2 h2 hact
    unfold finalised_after
    refine ⟨?_, ?_, ?_, ?_⟩
    · funext i d
      rw [a1, b1, hc]
    · funext i d
      rw [a2, b2, hc]
    · rw [a3, b3, hc]
    · rw [a4, b4, hc]
  refine ⟨key cs1 cs2 hidx1 hidx2 hcols, ?_, ?_⟩
  · intro D1 D2 c1 c2 b b1 b2 hb hb1 hb2
    refine key _ _ ?_ ?_ (cols_of_hcat D1 c1 D2 c2 b b1 b2)
    · intro ch hch
      rw [List.mem_singleton] at hch
      rw [hch]
      exact hb
    · intro ch hch
      simp only [List.mem_cons, List.mem_singleton, List.not_mem_nil, or_false] at hch
      rcases hch with h | h <;> rw [h]
      · exact hb1
      · exact hb2
  · intro hz
    obtain ⟨_, _, _, a4, _⟩ := finalise_totals c cs1 hidx1 hact
    unfold finalised_after
    rw [a4, sum_map_one, List.length_map, cols_of_length]
    simp [hz]

/-- C24, on a fresh component with two blocks: the two columns of the example added in
two calls, in the blocks 0 and 1, and added in one call, in block 1. -/
theorem trace_totals_chunking_witness :
    (exP_fresh ℚ).is_active = true
    ∧ (∀ ch ∈ exP_chunks ℚ, ch.jacknife_index < (exP_fresh ℚ).n_jacknife_local)
    ∧ (∀ ch ∈ exP_joined ℚ, ch.jacknife_index < (exP_fresh ℚ).n_jacknife_local)
    ∧ (cols_of (exP_chunks ℚ)).map Prod.fst = (cols_of (exP_joined ℚ)).map Prod.fst
    ∧ ((finalised_after (exP_fresh ℚ) (exP_chunks ℚ))._XXtz
          = (finalised_after (exP_fresh ℚ) (exP_joined ℚ))._XXtz
      ∧ (finalised_after (exP_fresh ℚ) (exP_chunks ℚ))._XXtWz
          = (finalised_after (exP_fresh ℚ) (exP_joined ℚ))._XXtWz
      ∧ (finalised_after (exP_fresh ℚ) (exP_chunks ℚ)).ytXXty
          = (finalised_after (exP_fresh ℚ) (exP_joined ℚ)).ytXXty
      ∧ (finalised_after (exP_fresh ℚ) (exP_chunks ℚ)).n_var_local
          = (finalised_after (exP_fresh ℚ) (exP_joined ℚ)).n_var_local)
    ∧ (finalised_after (exP_fresh ℚ) (exP_chunks ℚ)).n_var_local = ((2 : Nat) : ℚ) :=
  ⟨rfl, exP_idx_chunks, by simp [exP_joined, TraceChunk.hcat, exP_fresh, PVE_Component.new],
    (cols_of_hcat _ 1 _ 1 1 0 1).symm,
    (trace_totals_chunking (exP_fresh ℚ) rfl (exP_chunks ℚ) (exP_joined ℚ) exP_idx_chunks
      (by simp [exP_joined, TraceChunk.hcat, exP_fresh, PVE_Component.new])
      (cols_of_hcat _ 1 _ 1 1 0 1).symm).1,
    (trace_totals_chunking (exP_fresh ℚ) rfl (exP_chunks ℚ) (exP_joined ℚ) exP_idx_chunks
      (by simp [exP_joined, TraceChunk.hcat, exP_fresh, PVE_Component.new])
      (cols_of_hcat _ 1 _ 1 1 0 1).symm).2.2 (fun _ => rfl)⟩

end TraceChunking
/-! ## The order of the passes -/

section PassOrder

/-- Chunks filled in increasing order by a monotone chunk index list, when concatenated,
the indices in increasing order. -/
theorem flatten_filter_eq_range (f : Nat → Nat) (N C : Nat)
    (hmono : ∀ a b, a ≤ b → b < N → f a ≤ f b) (hlt : ∀ k, k < N → f k < C) :
    ((List.range C).map (fun c => (List.range N).filter (fun kk => f kk = c))).flatten
      = List.range N := by
  have hs : (((List.range C).map
      (fun c => (List.range N).filter (fun kk => f kk = c))).flatten).Pairwise
      (fun a b => a < b) := by
    rw [List.pairwise_flatten]
    constructor
    · intro l hl
      obtain ⟨c, _, rfl⟩ := List.mem_map.mp hl
      exact (List.pairwise_lt_range N).filter _
    · rw [List.pairwise_map]
      refine (List.pairwise_lt_range C).imp ?_
      intro c c2 hcc x hx y hy
      have hx2 := List.mem_filter.mp hx
      have hy2 := List.mem_filter.mp hy
      have fx : f x = c := by simpa using hx2.2
      have fy : f y = c2 := by simpa using hy2.2
      by_contra hcon
      have := hmono y x (by omega) (List.mem_range.mp hx2.1)
      omega
  have hmem : ∀ x, x ∈ ((List.range C).map
      (fun c => (List.range N).filter (fun kk => f kk = c))).flatten ↔ x ∈ List.range N := by
    intro x
    simp only [List.mem_flatten, List.mem_map, List.mem_range]
    constructor
    · rintro ⟨l, ⟨c, _, rfl⟩, hx⟩
      exact List.mem_range.mp (List.mem_filter.mp hx).1
    · intro hx
      exact ⟨_, ⟨f x, hlt x hx, rfl⟩,
        List.mem_filter.mpr ⟨List.mem_range.mpr hx, by simp⟩⟩
  haveI : IsAntisymm Nat (fun a b => a < b) := ⟨fun a b h1 h2 => by omega⟩
  haveI : IsIrrefl Nat (fun a b => a < b) := ⟨fun a h => by omega⟩
  exact List.eq_of_perm_of_sorted
    ((List.perm_ext_iff_of_nodup (List.Pairwise.imp (fun h => by omega) hs)
      (List.nodup_range N)).mpr hmem)
    hs (List.pairwise_lt_range N)

/-- Chunks filled from the last to the first by a monotone chunk index and reversed list,
when concatenated, the indices in decreasing order. -/
theorem flatten_filter_eq_reverse (f : Nat → Nat) (N C : Nat)
    (hmono : ∀ a b, a ≤ b → b < N → f a ≤ f b) (hlt : ∀ k, k < N → f k < C) :
    ((List.range C).map
      (fun c => ((List.range N).filter (fun kk => C - 1 - f kk = c)).reverse)).flatten
      = (List.range N).reverse := by
  have hs : (((List.range C).map
      (fun c => ((List.range N).filter (fun kk => C - 1 - f kk = c)).reverse)).flatten).Pairwise
      (fun a b => b < a) := by
    rw [List.pairwise_flatten]
    constructor
    · intro l hl
      obtain ⟨c, _, rfl⟩ := List.mem_map.mp hl
      rw [List.pairwise_reverse]
      exact (List.pairwise_lt_range N).filter _
    · rw [List.pairwise_map]
      refine (List.pairwise_lt_range C).imp ?_
      intro c c2 hcc x hx y hy
      have hx2 := List.mem_filter.mp (List.mem_reverse.mp hx)
      have hy2 := List.mem_filter.mp (List.mem_reverse.mp hy)
      have fx : C - 1 - f x = c := by simpa using hx2.2
      have fy : C - 1 - f y = c2 := by simpa using hy2.2
      by_contra hcon
      have := hmono x y (by omega) (List.mem_range.mp hy2.1)
      omega
  have hmem : ∀ x, x ∈ ((List.range C).map
      (fun c => ((List.range N).filter (fun kk => C - 1 - f kk = c)).reverse)).flatten
      ↔ x ∈ (List.range N).reverse := by
    intro x
    simp only [List.mem_flatten, List.mem_map, List.mem_range, List.mem_reverse]
    constructor
    · rintro ⟨l, ⟨c, _, rfl⟩, hx⟩
      exact List.mem_range.mp (List.mem_filter.mp (List.mem_reverse.mp hx)).1
    · intro hx
      have := hlt x hx
      exact ⟨_, ⟨C - 1 - f x, by omega, rfl⟩,
        List.mem_reverse.mpr (List.mem_filter.mpr ⟨List.mem_range.mpr hx, by simp⟩)⟩
  have hr : ((List.range N).reverse).Pairwise (fun a b => b < a) :=
    List.pairwise_reverse.mpr (List.pairwise_lt_range N)
  haveI : IsAntisymm Nat (fun a b => b < a) := ⟨fun a b h1 h2 => by omega⟩
  exact List.eq_of_perm_of_sorted
    ((List.perm_ext_iff_of_nodup (List.Pairwise.imp (fun h => by omega) hs)
      (List.nodup_reverse.mpr (List.nodup_range N))).mpr hmem)
    hs hr

theorem mul_lt_of_lt_segs (n s c : Nat) (hs : 0 < s) (hc : c < (n + s - 1) / s) :
    c * s < n := by
  have h := (Nat.le_div_iff_mul_le hs).mp (Nat.succ_le_of_lt hc)
  rw [Nat.succ_mul] at h
  generalize c * s = a at h ⊢
  omega

theorem div_lt_segs (n s k : Nat) (hs : 0 < s) (hk : k < n) : k / s < (n + s - 1) / s := by
  have e : n + s - 1 = (n - 1) + s := by omega
  rw [e, Nat.add_div_right _ hs]
  exact Nat.lt_succ_of_le (Nat.div_le_div_right (by omega))

/-- A list without repetition whose members lie in a window of `s` numbers has at most `s`
members. -/
theorem length_le_of_window (l : List Nat) (hl : l.Nodup) (a s : Nat)
    (h : ∀ k ∈ l, a ≤ k ∧ k < a + s) : l.length ≤ s := by
  rw [← List.toFinset_card_of_nodup hl]
  calc l.toFinset.card ≤ (Finset.Ico a (a + s)).card := by
        apply Finset.card_le_card
        intro k hk
        rw [List.mem_toFinset] at hk
        exact Finset.mem_Ico.mpr (h k hk)
    _ = s := by simp

variable {F : Type} [Field F]

theorem ch_index_mono (vb : VBayesX2 F) (he : vb.n_effects = 1 ∨ vb.n_effects = 2)
    (a b : Nat) (hab : a ≤ b) (hb : b < vb.n_effects * vb.n_var) :
    ch_index vb a ≤ ch_index vb b := by
  unfold ch_index
  by_cases ha : a < vb.n_var
  · by_cases hb2 : b < vb.n_var
    · simp only [ha, hb2, if_true]
      exact Nat.div_le_div_right hab
    · simp only [ha, hb2, if_true, if_false]
      by_cases hm : 0 < vb.p.main_chunk_size
      · exact Nat.le_trans
          (Nat.le_of_lt (div_lt_segs vb.n_var vb.p.main_chunk_size a hm ha))
          (Nat.le_add_right _ _)
      · have h0 : vb.p.main_chunk_size = 0 := by omega
        simp [h0]
  · have hb2 : ¬ b < vb.n_var := by omega
    simp only [ha, hb2, if_false]
    have h2 : b < 2 * vb.n_var := by
      rcases he with h | h <;> rw [h] at hb <;> omega
    have ea : a % vb.n_var = a - vb.n_var := by
      rw [Nat.mod_eq_sub_mod (by omega), Nat.mod_eq_of_lt (by omega)]
    have eb : b % vb.n_var = b - vb.n_var := by
      rw [Nat.mod_eq_sub_mod (by omega), Nat.mod_eq_of_lt (by omega)]
    rw [ea, eb]
    exact Nat.add_le_add_left (Nat.div_le_div_right (by omega)) _

theorem ch_index_lt_n_chunks (vb : VBayesX2 F) (he : vb.n_effects = 1 ∨ vb.n_effects = 2)
    (hm : 0 < vb.p.main_chunk_size) (hg : 0 < vb.p.gxe_chunk_size)
    (k : Nat) (hk : k < vb.n_effects * vb.n_var) : ch_index vb k < n_chunks vb := by
  unfold ch_index n_chunks
  by_cases h1 : k < vb.n_var
  · simp only [h1, if_true]
    have := div_lt_segs vb.n_var vb.p.main_chunk_size k hm h1
    split_ifs
    · exact Nat.lt_of_lt_of_le this (Nat.le_add_right _ _)
    · exact this
  · have h2 : vb.n_effects = 2 := by
      rcases he with h | h
      · rw [h] at hk
        omega
      · exact h
    rw [h2] at hk
    have hn : 0 < vb.n_var := by omega
    simp only [h1, if_false, h2, show 1 < 2 by decide, if_true]
    exact Nat.add_lt_add_left
      (div_lt_segs vb.n_var vb.p.gxe_chunk_size (k % vb.n_var) hg (Nat.mod_lt _ hn)) _

theorem div_eq_window (k s c : Nat) (hs : 0 < s) (h : k / s = c) :
    c * s ≤ k ∧ k < c * s + s := by
  have h1 := Nat.div_add_mod k s
  have h2 := Nat.mod_lt k hs
  rw [h, Nat.mul_comm] at h1
  generalize c * s = a at h1 ⊢
  omega

theorem mod_of_second (n k : Nat) (h1 : n ≤ k) (h2 : k < 2 * n) : k % n = k - n := by
  rw [Nat.mod_eq_sub_mod h1, Nat.mod_eq_of_lt (by omega)]

theorem fwd_chunk_nonempty (vb : VBayesX2 F) (he : vb.n_effects = 1 ∨ vb.n_effects = 2)
    (hm : 0 < vb.p.main_chunk_size) (hg : 0 < vb.p.gxe_chunk_size)
    (c : Nat) (hc : c < n_chunks vb) :
    ∃ kk, kk < vb.n_effects * vb.n_var ∧ ch_index vb kk = c := by
  by_cases h1 : c < (vb.n_var + vb.p.main_chunk_size - 1) / vb.p.main_chunk_size
  · have hlt := mul_lt_of_lt_segs vb.n_var vb.p.main_chunk_size c hm h1
    refine ⟨c * vb.p.main_chunk_size, ?_, ?_⟩
    · rcases he with h | h <;> rw [h] <;> omega
    · simp only [ch_index, hlt, if_true]
      exact Nat.mul_div_cancel _ hm
  · have h2 : vb.n_effects = 2 := by
      rcases he with h | h
      · exfalso
        simp only [n_chunks, h, lt_irrefl, if_false] at hc
        exact h1 hc
      · exact h
    simp only [n_chunks, h2, show 1 < 2 by decide, if_true] at hc
    generalize hM : (vb.n_var + vb.p.main_chunk_size - 1) / vb.p.main_chunk_size = M at h1 hc
    have hcG : c - M < (vb.n_var + vb.p.gxe_chunk_size - 1) / vb.p.gxe_chunk_size := by
      omega
    have hlt := mul_lt_of_lt_segs vb.n_var vb.p.gxe_chunk_size (c - M) hg hcG
    refine ⟨vb.n_var + (c - M) * vb.p.gxe_chunk_size, ?_, ?_⟩
    · rw [h2]
      omega
    · have hnot : ¬ vb.n_var + (c - M) * vb.p.gxe_chunk_size < vb.n_var := by omega
      simp only [ch_index, hnot, if_false, hM]
      rw [Nat.add_mod_left, Nat.mod_eq_of_lt hlt, Nat.mul_div_cancel _ hg]
      omega

theorem fwd_chunk_shape (vb : VBayesX2 F) (he : vb.n_effects = 1 ∨ vb.n_effects = 2)
    (hm : 0 < vb.p.main_chunk_size) (hg : 0 < vb.p.gxe_chunk_size) (c : Nat) :
    ((∀ k ∈ (List.range (vb.n_effects * vb.n_var)).filter (fun kk => ch_index vb kk = c),
        k < vb.n_var)
      ∧ ((List.range (vb.n_effects * vb.n_var)).filter
          (fun kk => ch_index vb kk = c)).length ≤ vb.p.main_chunk_size)
    ∨ ((∀ k ∈ (List.range (vb.n_effects * vb.n_var)).filter (fun kk => ch_index vb kk = c),
        vb.n_var ≤ k)
      ∧ ((List.range (vb.n_effects * vb.n_var)).filter
          (fun kk => ch_index vb kk = c)).length ≤ vb.p.gxe_chunk_size) := by
  have hnd : ((List.range (vb.n_effects * vb.n_var)).filter
      (fun kk => ch_index vb kk = c)).Nodup := (List.nodup_range _).filter _
  have hN : ∀ k, k < vb.n_effects * vb.n_var → k < 2 * vb.n_var := by
    intro k hk
    rcases he with h | h <;> rw [h] at hk <;> omega
  by_cases h1 : c < (vb.n_var + vb.p.main_chunk_size - 1) / vb.p.main_chunk_size
  · left
    have hmain : ∀ k ∈ (List.range (vb.n_effects * vb.n_var)).filter
        (fun kk => ch_index vb kk = c), k < vb.n_var ∧ k / vb.p.main_chunk_size = c := by
      intro k hk
      have hk2 := List.mem_filter.mp hk
      have hc : ch_index vb k = c := by simpa using hk2.2
      by_cases hkn : k < vb.n_var
      · simp only [ch_index, hkn, if_true] at hc
        exact ⟨hkn, hc⟩
      · exfalso
        simp only [ch_index, hkn, if_false] at hc
        have hle : (vb.n_var + vb.p.main_chunk_size - 1) / vb.p.main_chunk_size ≤ c := by
          rw [← hc]
          exact Nat.le_add_right _ _
        exact absurd h1 (Nat.not_lt.mpr hle)
    refine ⟨fun k hk => (hmain k hk).1, ?_⟩
    exact length_le_of_window _ hnd (c * vb.p.main_chunk_size) _
      (fun k hk => div_eq_window k _ c hm (hmain k hk).2)
  · right
    generalize hM : (vb.n_var + vb.p.main_chunk_size - 1) / vb.p.main_chunk_size = M at h1
    have hint : ∀ k ∈ (List.range (vb.n_effects * vb.n_var)).filter
        (fun kk => ch_index vb kk = c),
        vb.n_var ≤ k ∧ (k - vb.n_var) / vb.p.gxe_chunk_size = c - M := by
      intro k hk
      have hk2 := List.mem_filter.mp hk
      have hc : ch_index vb k = c := by simpa using hk2.2
      by_cases hkn : k < vb.n_var
      · exfalso
        simp only [ch_index, hkn, if_true] at hc
        have := div_lt_segs vb.n_var vb.p.main_chunk_size k hm hkn
        rw [hM, hc] at this
        exact h1 this
      · simp only [ch_index, hkn, if_false, hM] at hc
        rw [mod_of_second vb.n_var k (by omega) (hN k (List.mem_range.mp hk2.1))] at hc
        exact ⟨by omega, by omega⟩
    refine ⟨fun k hk => (hint k hk).1, ?_⟩
    refine length_le_of_window _ hnd (vb.n_var + (c - M) * vb.p.gxe_chunk_size) _ ?_
    intro k hk
    have h := div_eq_window (k - vb.n_var) _ (c - M) hg (hint k hk).2
    have := (hint k hk).1
    omega

/-- C23.  The order of the passes, for a model with main effects only or with both effect
types (`n_effects` 1 or 2) and chunk sizes `≥ 1` (the sizes that the constructor has
clamped to `n_var`, which are `≥ 1` when `n_var ≥ 1` and the options are): the forward chunks,
concatenated, list `0, 1, …, n_effects·n_var − 1` in increasing order; no forward chunk is
empty; a forward chunk holds either indices below `n_var` only, at most `main_chunk_size`
of them, or indices from `n_var` on only, at most `gxe_chunk_size` of them; the backward
chunks, concatenated, list the same indices in decreasing order; and `updateAllParams`
runs over the forward chunks when `count` is even and over the backward chunks when
`count` is odd. -/
theorem pass_order (m : MathFns F) (vb : VBayesX2 F)
    (he : vb.n_effects = 1 ∨ vb.n_effects = 2)
    (hm : 0 < vb.p.main_chunk_size) (hg : 0 < vb.p.gxe_chunk_size) :
    (fwd_pass_chunks vb).flatten = List.range (vb.n_effects * vb.n_var)
    ∧ (∀ chunk ∈ fwd_pass_chunks vb, chunk ≠ [])
    ∧ (∀ chunk ∈ fwd_pass_chunks vb,
        ((∀ k ∈ chunk, k < vb.n_var) ∧ chunk.length ≤ vb.p.main_chunk_size)
        ∨ ((∀ k ∈ chunk, vb.n_var ≤ k) ∧ chunk.length ≤ vb.p.gxe_chunk_size))
    ∧ (back_pass_chunks vb).flatten = (List.range (vb.n_effects * vb.n_var)).reverse
    ∧ (∀ (count round_index : Nat) (grid : Nat → Hyps F × VariationalParameters F),
        (count % 2 = 0 → updateAllParams m vb count round_index grid
          = updateAllParams_pass m vb (fwd_pass_chunks vb) count round_index grid)
        ∧ (count % 2 = 1 → updateAllParams m vb count round_index grid
          = updateAllParams_pass m vb (back_pass_chunks vb) count round_index grid)) := by
  refine ⟨?_, ?_, ?_, ?_, ?_⟩
  · exact flatten_filter_eq_range (ch_index vb) _ _ (ch_index_mono vb he)
      (ch_index_lt_n_chunks vb he hm hg)
  · intro chunk hc
    obtain ⟨c, hcl, rfl⟩ := List.mem_map.mp hc
    obtain ⟨kk, hk1, hk2⟩ := fwd_chunk_nonempty vb he hm hg c (List.mem_range.mp hcl)
    have : kk ∈ (List.range (vb.n_effects * vb.n_var)).filter
        (fun kk => ch_index vb kk = c) :=
      List.mem_filter.mpr ⟨List.mem_range.mpr hk1, by simpa using hk2⟩
    exact List.ne_nil_of_mem this
  · intro chunk hc
    obtain ⟨c, _, rfl⟩ := List.mem_map.mp hc
    exact fwd_chunk_shape vb he hm hg c
  · exact flatten_filter_eq_reverse (ch_index vb) _ _ (ch_index_mono vb he)
      (ch_index_lt_n_chunks vb he hm hg)
  · intro count round_index grid
    constructor
    · intro h
      rw [updateAllParams_eq_pass]
      simp [h]
    · intro h
      rw [updateAllParams_eq_pass]
      simp [h]

/-- C23, on the example data: two variants, both effect types, chunks of two. -/
theorem pass_order_witness :
    ((exA_vb ℚ).n_effects = 1 ∨ (exA_vb ℚ).n_effects = 2)
    ∧ 0 < (exA_vb ℚ).p.main_chunk_size ∧ 0 < (exA_vb ℚ).p.gxe_chunk_size
    ∧ (fwd_pass_chunks (exA_vb ℚ)).flatten = List.range 4
    ∧ (back_pass_chunks (exA_vb ℚ)).flatten = (List.range 4).reverse :=
  ⟨Or.inr rfl, by decide, by decide,
    (pass_order ⟨fun _ => 0, fun _ => 1⟩ (exA_vb ℚ) (Or.inr rfl) (by decide)
      (by decide)).1,
    (pass_order ⟨fun _ => 0, fun _ => 1⟩ (exA_vb ℚ) (Or.inr rfl) (by decide)
      (by decide)).2.2.2.1⟩

end PassOrder
/-! ## A chunk and its variants one at a time -/

section GaussSeidel

variable {F : Type} [Field F]

theorem beta_step_congr (m : MathFns F) (vb : VBayesX2 F) (chunk chunk2 : List Nat)
    (A A2 : Nat → F) (Dc Dc2 : Nat → Nat → F) (hyps : Hyps F) (v : VariationalParameters F)
    (rd rd2 : Nat → F) (y : Nat → F) (ii ii2 : Nat)
    (hjj : chunk2.getD ii2 0 = chunk.getD ii 0)
    (hAA : A2 ii2 - ∑ mm ∈ range ii2, rd2 mm * Dc2 mm ii2
      = A ii - ∑ mm ∈ range ii, rd mm * Dc mm ii) :
    (_internal_updateAlphaMu_beta_step m vb chunk2 A2 Dc2 hyps ({ v with ym := y }, rd2) ii2).1
      = { (_internal_updateAlphaMu_beta_step m vb chunk A Dc hyps (v, rd) ii).1 with ym := y }
    ∧ (_internal_updateAlphaMu_beta_step m vb chunk2 A2 Dc2 hyps ({ v with ym := y }, rd2) ii2).2
          ii2
        = (_internal_updateAlphaMu_beta_step m vb chunk A Dc hyps (v, rd) ii).2 ii := by
  have hS : ∀ r : F, A2 ii2 + (r - ∑ mm ∈ range ii2, rd2 mm * Dc2 mm ii2)
      = A ii + (r - ∑ mm ∈ range ii, rd mm * Dc mm ii) := fun r => by
    linear_combination hAA
  cases hmog : vb.p.mode_mog_prior_beta <;>
    simp only [_internal_updateAlphaMu_beta_step, hmog, hjj, hS, Bool.false_eq_true, if_false,
      if_true, Function.update_same, and_self]

theorem gam_step_congr (m : MathFns F) (vb : VBayesX2 F) (chunk chunk2 : List Nat)
    (A A2 : Nat → F) (Dc Dc2 : Nat → Nat → F) (hyps : Hyps F) (rr rr2 : Nat → F)
    (v : VariationalParameters F) (rd rd2 : Nat → F) (y : Nat → F) (ii ii2 : Nat)
    (hjj : chunk2.getD ii2 0 % vb.n_var = chunk.getD ii 0 % vb.n_var)
    (hrr : rr2 ii2 = rr ii)
    (hAA : A2 ii2 - ∑ mm ∈ range ii2, rd2 mm * Dc2 mm ii2
      = A ii - ∑ mm ∈ range ii, rd mm * Dc mm ii) :
    (_internal_updateAlphaMu_gam_step m vb chunk2 A2 Dc2 hyps rr2
        ({ v with yx := y }, rd2) ii2).1
      = { (_internal_updateAlphaMu_gam_step m vb chunk A Dc hyps rr (v, rd) ii).1
          with yx := y }
    ∧ (_internal_updateAlphaMu_gam_step m vb chunk2 A2 Dc2 hyps rr2
          ({ v with yx := y }, rd2) ii2).2 ii2
        = (_internal_updateAlphaMu_gam_step m vb chunk A Dc hyps rr (v, rd) ii).2 ii := by
  have hS : ∀ r : F, A2 ii2 + (r - ∑ mm ∈ range ii2, rd2 mm * Dc2 mm ii2)
      = A ii + (r - ∑ mm ∈ range ii, rd mm * Dc mm ii) := fun r => by
    linear_combination hAA
  cases hmog : vb.p.mode_mog_prior_gam <;>
    simp only [_internal_updateAlphaMu_gam_step, hmog, hjj, hrr, hS, Bool.false_eq_true,
      if_false, if_true, Function.update_same, and_self]

theorem take_succ_getD (l : List Nat) (t : Nat) (ht : t < l.length) :
    l.take (t + 1) = l.take t ++ [l.getD t 0] := by
  induction l generalizing t with
  | nil => simp at ht
  | cons a l ih =>
    cases t with
    | zero => simp
    | succ t =>
      simp only [List.length_cons, Nat.add_lt_add_iff_right] at ht
      simp [ih t ht]

theorem with_ym_self (vp : VariationalParameters F) :
    ({ vp with ym := fun i => vp.ym i + ∑ mm ∈ range 0, (0 : F) }) = vp := by
  cases vp
  simp

theorem updateAlphaMuChunk_single_beta (m : MathFns F) (vb : VBayesX2 F) (k : Nat)
    (hk : k / vb.n_var = 0) (h : Hyps F) (w : VariationalParameters F) :
    updateAlphaMuChunk m vb [k] (h, w)
      = (h, { (_internal_updateAlphaMu_beta_step m vb [k]
                (computeGeneResidualCorrelation vb (col_block3 vb [k]) 0 w)
                (fun a b => ∑ i ∈ range vb.n_samples,
                  col_block3 vb [k] i a * col_block3 vb [k] i b) h (w, fun _ => 0) 0).1 with
          ym := fun i =>
            (_internal_updateAlphaMu_beta_step m vb [k]
                (computeGeneResidualCorrelation vb (col_block3 vb [k]) 0 w)
                (fun a b => ∑ i ∈ range vb.n_samples,
                  col_block3 vb [k] i a * col_block3 vb [k] i b) h (w, fun _ => 0) 0).1.ym i
              + col_block3 vb [k] i 0
                * (_internal_updateAlphaMu_beta_step m vb [k]
                    (computeGeneResidualCorrelation vb (col_block3 vb [k]) 0 w)
                    (fun a b => ∑ i ∈ range vb.n_samples,
                      col_block3 vb [k] i a * col_block3 vb [k] i b) h
                    (w, fun _ => 0) 0).2 0 }) := by
  have hr : List.range 1 = [0] := rfl
  unfold updateAlphaMuChunk adjustParams _internal_updateAlphaMu_beta
  simp only [List.getD_cons_zero, hk, if_true, List.length_singleton, hr,
    List.foldl_cons, List.foldl_nil, Finset.sum_range_one]

theorem updateAlphaMuChunk_single_gam (m : MathFns F) (vb : VBayesX2 F) (k : Nat)
    (hk : k / vb.n_var ≠ 0) (h : Hyps F) (w : VariationalParameters F) :
    updateAlphaMuChunk m vb [k] (h, w)
      = (h, { (_internal_updateAlphaMu_gam_step m vb [k]
                (computeGeneResidualCorrelation vb (col_block3 vb [k]) (k / vb.n_var) w)
                (if 1 < vb.p.gxe_chunk_size then
                  fun a b => ∑ i ∈ range vb.n_samples,
                    col_block3 vb [k] i a * w.eta_sq i * col_block3 vb [k] i b
                 else fun _ _ => 0) h (rr_k_gam vb [k] w) (w, fun _ => 0) 0).1 with
          yx := fun i =>
            (_internal_updateAlphaMu_gam_step m vb [k]
                (computeGeneResidualCorrelation vb (col_block3 vb [k]) (k / vb.n_var) w)
                (if 1 < vb.p.gxe_chunk_size then
                  fun a b => ∑ i ∈ range vb.n_samples,
                    col_block3 vb [k] i a * w.eta_sq i * col_block3 vb [k] i b
                 else fun _ _ => 0) h (rr_k_gam vb [k] w) (w, fun _ => 0) 0).1.yx i
              + col_block3 vb [k] i 0
                * (_internal_updateAlphaMu_gam_step m vb [k]
                    (computeGeneResidualCorrelation vb (col_block3 vb [k]) (k / vb.n_var) w)
                    (if 1 < vb.p.gxe_chunk_size then
                      fun a b => ∑ i ∈ range vb.n_samples,
                        col_block3 vb [k] i a * w.eta_sq i * col_block3 vb [k] i b
                     else fun _ _ => 0) h (rr_k_gam vb [k] w) (w, fun _ => 0) 0).2 0 }) := by
  have hr : List.range 1 = [0] := rfl
  unfold updateAlphaMuChunk adjustParams _internal_updateAlphaMu_gam
  simp only [List.getD_cons_zero, hk, if_false, List.length_singleton, hr,
    List.foldl_cons, List.foldl_nil, Finset.sum_range_one]

/-- The correlation of a column with the patch `D·rr_diff` of the residual. -/
theorem sum_patch_swap (n t : Nat) (D : Nat → Nat → F) (rd g : Nat → F) :
    ∑ i ∈ range n, (∑ mm ∈ range t, D i mm * rd mm) * g i
      = ∑ mm ∈ range t, rd mm * ∑ i ∈ range n, D i mm * g i := by
  simp only [Finset.sum_mul, Finset.mul_sum]
  rw [Finset.sum_comm]
  refine Finset.sum_congr rfl (fun mm _ => Finset.sum_congr rfl (fun i _ => ?_))
  ring

theorem beta_fold_frame (m : MathFns F) (vb : VBayesX2 F) (chunk : List Nat)
    (A : Nat → F) (Dc : Nat → Nat → F) (hyps : Hyps F) (l : List Nat)
    (st : VariationalParameters F × (Nat → F)) :
    (l.foldl (_internal_updateAlphaMu_beta_step m vb chunk A Dc hyps) st).1.ym = st.1.ym
    ∧ (l.foldl (_internal_updateAlphaMu_beta_step m vb chunk A Dc hyps) st).1.yx = st.1.yx
    ∧ (l.foldl (_internal_updateAlphaMu_beta_step m vb chunk A Dc hyps) st).1.eta = st.1.eta := by
  induction l generalizing st with
  | nil => exact ⟨rfl, rfl, rfl⟩
  | cons a l ih =>
    rw [List.foldl_cons]
    obtain ⟨g1, g2, _⟩ := beta_step_facts m vb chunk A Dc hyps st a
    have g3 := (beta_step_sameEnv m vb chunk A Dc hyps st a).2.1
    obtain ⟨h1, h2, h3⟩ := ih (_internal_updateAlphaMu_beta_step m vb chunk A Dc hyps st a)
    exact ⟨h1.trans g1, h2.trans g2, h3.trans g3⟩

theorem with_ym_twice (v : VariationalParameters F) (y1 y2 y3 : Nat → F) (h : y2 = y3) :
    ({ ({ v with ym := y1 } : VariationalParameters F) with ym := y2 })
      = { v with ym := y3 } := by
  subst h
  rfl

theorem with_yx_twice (v : VariationalParameters F) (y1 y2 y3 : Nat → F) (h : y2 = y3) :
    ({ ({ v with yx := y1 } : VariationalParameters F) with yx := y2 })
      = { v with yx := y3 } := by
  subst h
  rfl

theorem beta_chunk_prefix (m : MathFns F) (vb : VBayesX2 F) (chunk : List Nat) (h : Hyps F)
    (vp0 : VariationalParameters F) (hee : ∀ k ∈ chunk, k / vb.n_var = 0)
    (t : Nat) (ht : t ≤ chunk.length) :
    (chunk.take t).foldl (fun hv k => updateAlphaMuChunk m vb [k] hv) (h, vp0)
      = (h, { ((List.range t).foldl
                (_internal_updateAlphaMu_beta_step m vb chunk
                  (computeGeneResidualCorrelation vb (col_block3 vb chunk) 0 vp0)
                  (fun a b => ∑ i ∈ range vb.n_samples,
                    col_block3 vb chunk i a * col_block3 vb chunk i b) h)
                (vp0, fun _ => 0)).1 with
          ym := fun i =>
            ((List.range t).foldl
                (_internal_updateAlphaMu_beta_step m vb chunk
                  (computeGeneResidualCorrelation vb (col_block3 vb chunk) 0 vp0)
                  (fun a b => ∑ i ∈ range vb.n_samples,
                    col_block3 vb chunk i a * col_block3 vb chunk i b) h)
                (vp0, fun _ => 0)).1.ym i
              + ∑ mm ∈ range t, col_block3 vb chunk i mm
                * ((List.range t).foldl
                    (_internal_updateAlphaMu_beta_step m vb chunk
                      (computeGeneResidualCorrelation vb (col_block3 vb chunk) 0 vp0)
                      (fun a b => ∑ i ∈ range vb.n_samples,
                        col_block3 vb chunk i a * col_block3 vb chunk i b) h)
                    (vp0, fun _ => 0)).2 mm }) := by
  induction t with
  | zero =>
    simp only [List.take_zero, List.foldl_nil, List.range_zero, Finset.range_zero,
      Finset.sum_empty, add_zero]
  | succ t ih =>
    have ht2 : t < chunk.length := ht
    have ih := ih (Nat.le_of_lt ht2)
    have hk : chunk.getD t 0 / vb.n_var = 0 := by
      apply hee
      rw [List.getD_eq_getElem _ _ ht2]
      exact List.getElem_mem _
    rw [take_succ_getD chunk t ht2, List.foldl_append, ih, List.foldl_cons, List.foldl_nil,
      List.range_succ, List.foldl_append, List.foldl_cons, List.foldl_nil]
    generalize hst : (List.range t).foldl
      (_internal_updateAlphaMu_beta_step m vb chunk
        (computeGeneResidualCorrelation vb (col_block3 vb chunk) 0 vp0)
        (fun a b => ∑ i ∈ range vb.n_samples,
          col_block3 vb chunk i a * col_block3 vb chunk i b) h)
      (vp0, fun _ => 0) = st
    obtain ⟨f1, f2, f3⟩ := beta_fold_frame m vb chunk
      (computeGeneResidualCorrelation vb (col_block3 vb chunk) 0 vp0)
      (fun a b => ∑ i ∈ range vb.n_samples,
        col_block3 vb chunk i a * col_block3 vb chunk i b) h (List.range t)
      (vp0, fun _ => 0)
    rw [hst] at f1 f2 f3
    simp only at f1 f2 f3
    obtain ⟨v, rd⟩ := st
    simp only at f1 f2 f3 ⊢
    rw [updateAlphaMuChunk_single_beta m vb _ hk]
    have hAA : computeGeneResidualCorrelation vb (col_block3 vb [chunk.getD t 0]) 0
          { v with ym := fun i => v.ym i + ∑ mm ∈ range t, col_block3 vb chunk i mm * rd mm } 0
        - ∑ mm ∈ range 0, (fun _ => (0 : F)) mm
            * (fun a b => ∑ i ∈ range vb.n_samples,
                col_block3 vb [chunk.getD t 0] i a * col_block3 vb [chunk.getD t 0] i b) mm 0
        = computeGeneResidualCorrelation vb (col_block3 vb chunk) 0 vp0 t
          - ∑ mm ∈ range t, rd mm
            * (fun a b => ∑ i ∈ range vb.n_samples,
                col_block3 vb chunk i a * col_block3 vb chunk i b) mm t := by
      have hD : ∀ i, col_block3 vb [chunk.getD t 0] i 0 = col_block3 vb chunk i t := fun i => rfl
      simp only [Finset.range_zero, Finset.sum_empty, sub_zero]
      rw [← sum_patch_swap]
      unfold computeGeneResidualCorrelation
      by_cases h1 : vb.n_effects = 1
      · simp only [h1, if_true, hD, f1]
        rw [← Finset.sum_sub_distrib]
        exact Finset.sum_congr rfl (fun i _ => by ring)
      · simp only [h1, if_false, if_true, hD, f1, f2, f3]
        rw [← Finset.sum_sub_distrib]
        exact Finset.sum_congr rfl (fun i _ => by ring)
    obtain ⟨c1, c2⟩ := beta_step_congr m vb chunk [chunk.getD t 0]
      (computeGeneResidualCorrelation vb (col_block3 vb chunk) 0 vp0)
      (computeGeneResidualCorrelation vb (col_block3 vb [chunk.getD t 0]) 0
        { v with ym := fun i => v.ym i + ∑ mm ∈ range t, col_block3 vb chunk i mm * rd mm })
      (fun a b => ∑ i ∈ range vb.n_samples,
        col_block3 vb chunk i a * col_block3 vb chunk i b)
      (fun a b => ∑ i ∈ range vb.n_samples,
        col_block3 vb [chunk.getD t 0] i a * col_block3 vb [chunk.getD t 0] i b)
      h v rd (fun _ => 0)
      (fun i => v.ym i + ∑ mm ∈ range t, col_block3 vb chunk i mm * rd mm) t 0 rfl hAA
    rw [c1, c2]
    obtain ⟨g1, _, _, _, _, g6, _⟩ := beta_step_facts m vb chunk
      (computeGeneResidualCorrelation vb (col_block3 vb chunk) 0 vp0)
      (fun a b => ∑ i ∈ range vb.n_samples,
        col_block3 vb chunk i a * col_block3 vb chunk i b) h (v, rd) t
    refine congrArg (Prod.mk h) (with_ym_twice _ _ _ _ ?_)
    funext i
    rw [Finset.sum_range_succ, g1]
    have hsum : ∑ mm ∈ range t, col_block3 vb chunk i mm
          * (_internal_updateAlphaMu_beta_step m vb chunk
              (computeGeneResidualCorrelation vb (col_block3 vb chunk) 0 vp0)
              (fun a b => ∑ i ∈ range vb.n_samples,
                col_block3 vb chunk i a * col_block3 vb chunk i b) h (v, rd) t).2 mm
        = ∑ mm ∈ range t, col_block3 vb chunk i mm * rd mm := by
      refine Finset.sum_congr rfl (fun mm hmm => ?_)
      rw [g6 mm (Nat.ne_of_lt (Finset.mem_range.mp hmm))]
    rw [hsum]
    have hD : col_block3 vb [chunk.getD t 0] i 0 = col_block3 vb chunk i t := rfl
    rw [hD]
    simp only
    ring

theorem gam_fold_frame (m : MathFns F) (vb : VBayesX2 F) (chunk : List Nat)
    (A : Nat → F) (Dc : Nat → Nat → F) (hyps : Hyps F) (rr : Nat → F) (l : List Nat)
    (st : VariationalParameters F × (Nat → F)) :
    (l.foldl (_internal_updateAlphaMu_gam_step m vb chunk A Dc hyps rr) st).1.ym = st.1.ym
    ∧ (l.foldl (_internal_updateAlphaMu_gam_step m vb chunk A Dc hyps rr) st).1.yx = st.1.yx
    ∧ (l.foldl (_internal_updateAlphaMu_gam_step m vb chunk A Dc hyps rr) st).1.eta = st.1.eta
    ∧ (l.foldl (_internal_updateAlphaMu_gam_step m vb chunk A Dc hyps rr) st).1.eta_sq
        = st.1.eta_sq := by
  induction l generalizing st with
  | nil => exact ⟨rfl, rfl, rfl, rfl⟩
  | cons a l ih =>
    rw [List.foldl_cons]
    obtain ⟨g1, g2, _⟩ := gam_step_facts m vb chunk A Dc hyps rr st a
    obtain ⟨_, g3, g4⟩ := gam_step_sameEnv m vb chunk A Dc hyps rr st a
    obtain ⟨h1, h2, h3, h4⟩ :=
      ih (_internal_updateAlphaMu_gam_step m vb chunk A Dc hyps rr st a)
    exact ⟨h1.trans g1, h2.trans g2, h3.trans g3, h4.trans g4⟩

theorem nodup_map_getD (f : Nat → Nat) (chunk : List Nat) (hnd : (chunk.map f).Nodup)
    (a b : Nat) (hab : a < b) (hb : b < chunk.length) :
    f (chunk.getD a 0) ≠ f (chunk.getD b 0) := by
  have ha : a < chunk.length := Nat.lt_trans hab hb
  rw [List.getD_eq_getElem _ _ ha, List.getD_eq_getElem _ _ hb]
  intro heq
  have ha2 : a < (chunk.map f).length := by rw [List.length_map]; exact ha
  have hb2 : b < (chunk.map f).length := by rw [List.length_map]; exact hb
  have : (chunk.map f)[a] = (chunk.map f)[b] := by
    rw [List.getElem_map, List.getElem_map]
    exact heq
  have := (List.Nodup.getElem_inj_iff hnd).mp this
  omega

theorem gam_chunk_prefix (m : MathFns F) (vb : VBayesX2 F) (chunk : List Nat) (h : Hyps F)
    (vp0 : VariationalParameters F) (hee : ∀ k ∈ chunk, k / vb.n_var ≠ 0)
    (he0 : chunk.getD 0 0 / vb.n_var ≠ 0) (h1 : vb.n_effects ≠ 1)
    (hnd : (chunk.map (fun k => k % vb.n_var)).Nodup)
    (hD : 1 < vb.p.gxe_chunk_size ∨ chunk.length ≤ 1)
    (t : Nat) (ht : t ≤ chunk.length) :
    (chunk.take t).foldl (fun hv k => updateAlphaMuChunk m vb [k] hv) (h, vp0)
      = (h, { ((List.range t).foldl
                (_internal_updateAlphaMu_gam_step m vb chunk
                  (computeGeneResidualCorrelation vb (col_block3 vb chunk)
                    (chunk.getD 0 0 / vb.n_var) vp0)
                  (if 1 < vb.p.gxe_chunk_size then
                    fun a b => ∑ i ∈ range vb.n_samples,
                      col_block3 vb chunk i a * vp0.eta_sq i * col_block3 vb chunk i b
                   else fun _ _ => 0) h (rr_k_gam vb chunk vp0))
                (vp0, fun _ => 0)).1 with
          yx := fun i =>
            ((List.range t).foldl
                (_internal_updateAlphaMu_gam_step m vb chunk
                  (computeGeneResidualCorrelation vb (col_block3 vb chunk)
                    (chunk.getD 0 0 / vb.n_var) vp0)
                  (if 1 < vb.p.gxe_chunk_size then
                    fun a b => ∑ i ∈ range vb.n_samples,
                      col_block3 vb chunk i a * vp0.eta_sq i * col_block3 vb chunk i b
                   else fun _ _ => 0) h (rr_k_gam vb chunk vp0))
                (vp0, fun _ => 0)).1.yx i
              + ∑ mm ∈ range t, col_block3 vb chunk i mm
                * ((List.range t).foldl
                    (_internal_updateAlphaMu_gam_step m vb chunk
                      (computeGeneResidualCorrelation vb (col_block3 vb chunk)
                        (chunk.getD 0 0 / vb.n_var) vp0)
                      (if 1 < vb.p.gxe_chunk_size then
                        fun a b => ∑ i ∈ range vb.n_samples,
                          col_block3 vb chunk i a * vp0.eta_sq i * col_block3 vb chunk i b
                       else fun _ _ => 0) h (rr_k_gam vb chunk vp0))
                    (vp0, fun _ => 0)).2 mm }) := by
  induction t with
  | zero =>
    simp only [List.take_zero, List.foldl_nil, List.range_zero, Finset.range_zero,
      Finset.sum_empty, add_zero]
  | succ t ih =>
    have ht2 : t < chunk.length := ht
    have ih := ih (Nat.le_of_lt ht2)
    have hk : chunk.getD t 0 / vb.n_var ≠ 0 := by
      apply hee
      rw [List.getD_eq_getElem _ _ ht2]
      exact List.getElem_mem _
    have hn : 0 < vb.n_var := by
      rcases Nat.eq_zero_or_pos vb.n_var with h0 | h0
      · rw [h0, Nat.div_zero] at hk
        exact absurd rfl hk
      · exact h0
    rw [take_succ_getD chunk t ht2, List.foldl_append, ih, List.foldl_cons, List.foldl_nil,
      List.range_succ, List.foldl_append, List.foldl_cons, List.foldl_nil]
    obtain ⟨f1, f2, f3, f4⟩ := gam_fold_frame m vb chunk
      (computeGeneResidualCorrelation vb (col_block3 vb chunk) (chunk.getD 0 0 / vb.n_var) vp0)
      (if 1 < vb.p.gxe_chunk_size then
        fun a b => ∑ i ∈ range vb.n_samples,
          col_block3 vb chunk i a * vp0.eta_sq i * col_block3 vb chunk i b
       else fun _ _ => 0) h (rr_k_gam vb chunk vp0) (List.range t) (vp0, fun _ => 0)
    obtain ⟨_, _, _, _, f5, _⟩ := gam_fold_facts m vb chunk
      (computeGeneResidualCorrelation vb (col_block3 vb chunk) (chunk.getD 0 0 / vb.n_var) vp0)
      (if 1 < vb.p.gxe_chunk_size then
        fun a b => ∑ i ∈ range vb.n_samples,
          col_block3 vb chunk i a * vp0.eta_sq i * col_block3 vb chunk i b
       else fun _ _ => 0) h vp0 (fun _ => 0) hn
      (nodup_map_getD (fun k => k % vb.n_var) chunk hnd) t (Nat.le_of_lt ht2)
    have f5 := f5 (chunk.getD t 0 % vb.n_var)
      (fun ii hii => nodup_map_getD (fun k => k % vb.n_var) chunk hnd ii t hii ht2)
    generalize hst : (List.range t).foldl
      (_internal_updateAlphaMu_gam_step m vb chunk
        (computeGeneResidualCorrelation vb (col_block3 vb chunk)
          (chunk.getD 0 0 / vb.n_var) vp0)
        (if 1 < vb.p.gxe_chunk_size then
          fun a b => ∑ i ∈ range vb.n_samples,
            col_block3 vb chunk i a * vp0.eta_sq i * col_block3 vb chunk i b
         else fun _ _ => 0) h (rr_k_gam vb chunk vp0))
      (vp0, fun _ => 0) = st at f1 f2 f3 f4 f5 ⊢
    obtain ⟨v, rd⟩ := st
    simp only at f1 f2 f3 f4 f5 ⊢
    rw [updateAlphaMuChunk_single_gam m vb _ hk]
    have hrr : rr_k_gam vb [chunk.getD t 0]
          { v with yx := fun i => v.yx i + ∑ mm ∈ range t, col_block3 vb chunk i mm * rd mm } 0
        = rr_k_gam vb chunk vp0 t := by
      rw [rr_k_gam_eq, rr_k_gam_eq, ← f5]
      rfl
    have hsw : ∑ mm ∈ range t, rd mm
          * (if 1 < vb.p.gxe_chunk_size then
              fun a b => ∑ i ∈ range vb.n_samples,
                col_block3 vb chunk i a * vp0.eta_sq i * col_block3 vb chunk i b
             else fun _ _ => 0) mm t
        = ∑ i ∈ range vb.n_samples, (∑ mm ∈ range t, col_block3 vb chunk i mm * rd mm)
            * (vp0.eta_sq i * col_block3 vb chunk i t) := by
      rcases hD with hg | hl
      · simp only [hg, if_true]
        rw [sum_patch_swap]
        refine Finset.sum_congr rfl (fun mm _ => ?_)
        congr 1
        exact Finset.sum_congr rfl (fun i _ => by ring)
      · have ht0 : t = 0 := by omega
        subst ht0
        simp
    have hAA : computeGeneResidualCorrelation vb (col_block3 vb [chunk.getD t 0])
          (chunk.getD t 0 / vb.n_var)
          { v with yx := fun i => v.yx i + ∑ mm ∈ range t, col_block3 vb chunk i mm * rd mm } 0
        - ∑ mm ∈ range 0, (fun _ => (0 : F)) mm
            * (if 1 < vb.p.gxe_chunk_size then
                fun a b => ∑ i ∈ range vb.n_samples,
                  col_block3 vb [chunk.getD t 0] i a
                    * ({ v with yx := fun i => v.yx i
                          + ∑ mm ∈ range t, col_block3 vb chunk i mm * rd mm } :
                        VariationalParameters F).eta_sq i
                    * col_block3 vb [chunk.getD t 0] i b
               else fun _ _ => 0) mm 0
        = computeGeneResidualCorrelation vb (col_block3 vb chunk)
            (chunk.getD 0 0 / vb.n_var) vp0 t
          - ∑ mm ∈ range t, rd mm
            * (if 1 < vb.p.gxe_chunk_size then
                fun a b => ∑ i ∈ range vb.n_samples,
                  col_block3 vb chunk i a * vp0.eta_sq i * col_block3 vb chunk i b
               else fun _ _ => 0) mm t := by
      have hDD : ∀ i, col_block3 vb [chunk.getD t 0] i 0 = col_block3 vb chunk i t :=
        fun i => rfl
      rw [hsw]
      simp only [Finset.range_zero, Finset.sum_empty, sub_zero]
      unfold computeGeneResidualCorrelation
      simp only [h1, hk, he0, if_false, hDD, f1, f2, f3, f4]
      rw [← Finset.sum_sub_distrib]
      exact Finset.sum_congr rfl (fun i _ => by ring)
    obtain ⟨c1, c2⟩ := gam_step_congr m vb chunk [chunk.getD t 0]
      (computeGeneResidualCorrelation vb (col_block3 vb chunk) (chunk.getD 0 0 / vb.n_var) vp0)
      (computeGeneResidualCorrelation vb (col_block3 vb [chunk.getD t 0])
        (chunk.getD t 0 / vb.n_var)
        { v with yx := fun i => v.yx i + ∑ mm ∈ range t, col_block3 vb chunk i mm * rd mm })
      (if 1 < vb.p.gxe_chunk_size then
        fun a b => ∑ i ∈ range vb.n_samples,
          col_block3 vb chunk i a * vp0.eta_sq i * col_block3 vb chunk i b
       else fun _ _ => 0)
      (if 1 < vb.p.gxe_chunk_size then
        fun a b => ∑ i ∈ range vb.n_samples,
          col_block3 vb [chunk.getD t 0] i a
            * ({ v with yx := fun i => v.yx i
                  + ∑ mm ∈ range t, col_block3 vb chunk i mm * rd mm } :
                VariationalParameters F).eta_sq i
            * col_block3 vb [chunk.getD t 0] i b
       else fun _ _ => 0)
      h (rr_k_gam vb chunk vp0)
      (rr_k_gam vb [chunk.getD t 0]
        { v with yx := fun i => v.yx i + ∑ mm ∈ range t, col_block3 vb chunk i mm * rd mm })
      v rd (fun _ => 0)
      (fun i => v.yx i + ∑ mm ∈ range t, col_block3 vb chunk i mm * rd mm) t 0 rfl hrr hAA
    rw [c1, c2]
    obtain ⟨_, g2, _, _, _, g6, _⟩ := gam_step_facts m vb chunk
      (computeGeneResidualCorrelation vb (col_block3 vb chunk) (chunk.getD 0 0 / vb.n_var) vp0)
      (if 1 < vb.p.gxe_chunk_size then
        fun a b => ∑ i ∈ range vb.n_samples,
          col_block3 vb chunk i a * vp0.eta_sq i * col_block3 vb chunk i b
       else fun _ _ => 0) h (rr_k_gam vb chunk vp0) (v, rd) t
    refine congrArg (Prod.mk h) (with_yx_twice _ _ _ _ ?_)
    funext i
    rw [Finset.sum_range_succ, g2]
    have hsum : ∑ mm ∈ range t, col_block3 vb chunk i mm
          * (_internal_updateAlphaMu_gam_step m vb chunk
              (computeGeneResidualCorrelation vb (col_block3 vb chunk)
                (chunk.getD 0 0 / vb.n_var) vp0)
              (if 1 < vb.p.gxe_chunk_size then
                fun a b => ∑ i ∈ range vb.n_samples,
                  col_block3 vb chunk i a * vp0.eta_sq i * col_block3 vb chunk i b
               else fun _ _ => 0) h (rr_k_gam vb chunk vp0) (v, rd) t).2 mm
        = ∑ mm ∈ range t, col_block3 vb chunk i mm * rd mm := by
      refine Finset.sum_congr rfl (fun mm hmm => ?_)
      rw [g6 mm (Nat.ne_of_lt (Finset.mem_range.mp hmm))]
    rw [hsum]
    have hDi : col_block3 vb [chunk.getD t 0] i 0 = col_block3 vb chunk i t := rfl
    rw [hDi]
    simp only
    ring

/-- C22.  The Gauss–Seidel update within a chunk is coordinate ascent one variant at a
time: for a chunk of pass indices of one effect type with pairwise distinct variants,
whose `D_corr` is `DᵀD` (main effects) or `Dᵀ·diag(η²)·D` (interaction effects, which the
code fills when `gxe_chunk_size > 1`; a chunk of at most one index reads none of it), the
update of the chunk with `A = Dᵀ·r` computed once, followed by the patch `ym += D·rr_diff`
(resp. `yx += D·rr_diff`), gives the same hyperparameters and the same variational
parameters, `α`, `μ₁`, `μ₂`, `s₁²`, `s₂²`, `ym` and `yx` among them, as the updates of its
indices in the same order as singleton chunks. -/
theorem chunk_gauss_seidel (m : MathFns F) (vb : VBayesX2 F) (chunk : List Nat)
    (hv : Hyps F × VariationalParameters F) (hwf : chunkWellFormed vb chunk)
    (hidx : ∀ k ∈ chunk, k < vb.n_effects * vb.n_var)
    (hD : chunk.getD 0 0 / vb.n_var = 0 ∨ 1 < vb.p.gxe_chunk_size ∨ chunk.length ≤ 1) :
    updateAlphaMuChunk m vb chunk hv
      = chunk.foldl (fun hv k => updateAlphaMuChunk m vb [k] hv) hv := by
  obtain ⟨h, vp0⟩ := hv
  obtain ⟨hsame, hnd⟩ := hwf
  by_cases he0 : chunk.getD 0 0 / vb.n_var = 0
  · have hee : ∀ k ∈ chunk, k / vb.n_var = 0 := fun k hk => (hsame k hk).trans he0
    have P := beta_chunk_prefix m vb chunk h vp0 hee chunk.length (Nat.le_refl _)
    rw [List.take_length] at P
    rw [P]
    unfold updateAlphaMuChunk adjustParams _internal_updateAlphaMu_beta
    simp only [he0, if_true]
  · have hee : ∀ k ∈ chunk, k / vb.n_var ≠ 0 := fun k hk => by
      rw [hsame k hk]
      exact he0
    have hne : chunk ≠ [] := by
      intro hnil
      rw [hnil] at he0
      simp at he0
    have h1 : vb.n_effects ≠ 1 := by
      intro h1
      obtain ⟨k0, rest, hc⟩ := List.exists_cons_of_ne_nil hne
      have hk0 := hidx k0 (by rw [hc]; exact List.mem_cons_self _ _)
      rw [h1, Nat.one_mul] at hk0
      exact hee k0 (by rw [hc]; exact List.mem_cons_self _ _) (Nat.div_eq_of_lt hk0)
    have hD2 : 1 < vb.p.gxe_chunk_size ∨ chunk.length ≤ 1 := hD.resolve_left he0
    have P := gam_chunk_prefix m vb chunk h vp0 hee he0 h1 hnd hD2 chunk.length
      (Nat.le_refl _)
    rw [List.take_length] at P
    rw [P]
    unfold updateAlphaMuChunk adjustParams _internal_updateAlphaMu_gam
    simp only [he0, if_false]

/-- C22, on the chunk of the two interaction effects of the example. -/
theorem chunk_gauss_seidel_witness :
    chunkWellFormed (exA_vb ℚ) [2, 3]
    ∧ (∀ k ∈ ([2, 3] : List Nat), k < (exA_vb ℚ).n_effects * (exA_vb ℚ).n_var)
    ∧ 1 < (exA_vb ℚ).p.gxe_chunk_size
    ∧ updateAlphaMuChunk ⟨fun _ => 0, fun _ => 1⟩ (exA_vb ℚ) [2, 3] (exA_hyps ℚ, exA_vp ℚ)
      = ([2, 3] : List Nat).foldl
          (fun hv k => updateAlphaMuChunk ⟨fun _ => 0, fun _ => 1⟩ (exA_vb ℚ) [k] hv)
          (exA_hyps ℚ, exA_vp ℚ) :=
  ⟨by unfold chunkWellFormed; simp [exA_vb], by simp [exA_vb], by decide,
    chunk_gauss_seidel ⟨fun _ => 0, fun _ => 1⟩ (exA_vb ℚ) [2, 3] (exA_hyps ℚ, exA_vp ℚ)
      (by unfold chunkWellFormed; simp [exA_vb]) (by simp [exA_vb])
      (Or.inr (Or.inl (by decide)))⟩

end GaussSeidel
/-! ### One turn on the example with two variants -/

section ExD

variable {F : Type} [LinearOrderedField F]

theorem exD_fwd : fwd_pass_chunks (exD_vb F) = [[0, 1]] := by
  simp [fwd_pass_chunks, n_chunks, ch_index, exD_vb, exC_p, List.range_succ, List.filter_cons]

theorem exD_back : back_pass_chunks (exD_vb F) = [[1, 0]] := by
  simp [back_pass_chunks, n_chunks, ch_index, exD_vb, exC_p, List.range_succ,
    List.filter_cons]

/-- One call of `updateAllParams` on the example from a state with zero posterior mean:
the variational parameters. -/
theorem exD_update_vp (m : MathFns F) (count : Nat)
    (grid : Nat → Hyps F × VariationalParameters F) (nn : Nat)
    (hym : ∀ i, (grid nn).2.ym i = 0) (hmu0 : (grid nn).2.mu1_beta 0 = 0)
    (hmu1 : (grid nn).2.mu1_beta 1 = 0) :
    (updateAllParams m (exD_vb F) count 2 grid nn).2.alpha_beta 0
        = exC_alpha m (grid nn).1
    ∧ (updateAllParams m (exD_vb F) count 2 grid nn).2.alpha_beta 1
        = exC_alpha m (grid nn).1
    ∧ (updateAllParams m (exD_vb F) count 2 grid nn).2.mu1_beta 0 = 0
    ∧ (updateAllParams m (exD_vb F) count 2 grid nn).2.mu1_beta 1 = 0
    ∧ ∀ i, (updateAllParams m (exD_vb F) count 2 grid nn).2.ym i = 0 := by
  by_cases hc : (count % 2 == 0) = true
  · simp only [updateAllParams, hc, if_true, exD_fwd, updateAlphaMu, List.foldl_cons,
      List.foldl_nil]
    simp [exD_vb, exC_p, updateAlphaMuChunk, adjustParams, _internal_updateAlphaMu_beta,
      _internal_updateAlphaMu_beta_step, computeGeneResidualCorrelation, col_block3,
      calcVarqBeta, hym, hmu0, hmu1, Finset.sum_range_succ, alpha_cnst, VBayesX2.N,
      List.range_succ, exC_alpha, exC_s1]
  · simp only [updateAllParams, hc, if_false, exD_back, updateAlphaMu, List.foldl_cons,
      List.foldl_nil]
    simp [exD_vb, exC_p, updateAlphaMuChunk, adjustParams, _internal_updateAlphaMu_beta,
      _internal_updateAlphaMu_beta_step, computeGeneResidualCorrelation, col_block3,
      calcVarqBeta, hym, hmu0, hmu1, Finset.sum_range_succ, alpha_cnst, VBayesX2.N,
      List.range_succ, exC_alpha, exC_s1]

/-- One call of `updateAllParams` on the example from a state with zero posterior mean:
the hyperparameters that `maximiseHyps` assigns. -/
theorem exD_update_hyps (m : MathFns F) (count : Nat)
    (grid : Nat → Hyps F × VariationalParameters F) (nn : Nat)
    (hym : ∀ i, (grid nn).2.ym i = 0) (hmu0 : (grid nn).2.mu1_beta 0 = 0)
    (hmu1 : (grid nn).2.mu1_beta 1 = 0) :
    (updateAllParams m (exD_vb F) count 2 grid nn).1.sigma
        = (1 + 1 + 1 + 1 + (5 - 1) * (exC_alpha m (grid nn).1 * exC_s1 (grid nn).1
            + exC_alpha m (grid nn).1 * exC_s1 (grid nn).1)) / 5
    ∧ (updateAllParams m (exD_vb F) count 2 grid nn).1.lambda 0
        = (exC_alpha m (grid nn).1 + exC_alpha m (grid nn).1) / 2
    ∧ (updateAllParams m (exD_vb F) count 2 grid nn).1.slab_var 0
        = (exC_alpha m (grid nn).1 * exC_s1 (grid nn).1
            + exC_alpha m (grid nn).1 * exC_s1 (grid nn).1)
          / (exC_alpha m (grid nn).1 + exC_alpha m (grid nn).1)
    ∧ (updateAllParams m (exD_vb F) count 2 grid nn).1.slab_relative_var 0
        = (exC_alpha m (grid nn).1 * exC_s1 (grid nn).1
            + exC_alpha m (grid nn).1 * exC_s1 (grid nn).1)
          / (exC_alpha m (grid nn).1 + exC_alpha m (grid nn).1)
          / ((1 + 1 + 1 + 1 + (5 - 1) * (exC_alpha m (grid nn).1 * exC_s1 (grid nn).1
            + exC_alpha m (grid nn).1 * exC_s1 (grid nn).1)) / 5) := by
  by_cases hc : (count % 2 == 0) = true
  · simp only [updateAllParams, hc, if_true, exD_fwd, updateAlphaMu, List.foldl_cons,
      List.foldl_nil]
    simp [exD_vb, exC_p, updateAlphaMuChunk, adjustParams, _internal_updateAlphaMu_beta,
      _internal_updateAlphaMu_beta_step, computeGeneResidualCorrelation, col_block3,
      calcVarqBeta, hym, hmu0, hmu1, Finset.sum_range_succ, alpha_cnst, VBayesX2.N,
      List.range_succ, compute_pve, maximiseHyps, maximiseHypsEffect, calcExpLinear,
      exC_alpha, exC_s1]
  · simp only [updateAllParams, hc, if_false, exD_back, updateAlphaMu, List.foldl_cons,
      List.foldl_nil]
    simp [exD_vb, exC_p, updateAlphaMuChunk, adjustParams, _internal_updateAlphaMu_beta,
      _internal_updateAlphaMu_beta_step, computeGeneResidualCorrelation, col_block3,
      calcVarqBeta, hym, hmu0, hmu1, Finset.sum_range_succ, alpha_cnst, VBayesX2.N,
      List.range_succ, compute_pve, maximiseHyps, maximiseHypsEffect, calcExpLinear,
      exC_alpha, exC_s1]

end ExD
section ExDRun

theorem exD_turn_alpha_diff {F : Type} [LinearOrderedField F] (m : MathFns F) (n_grid : Nat)
    (s : InnerLoopState F) (nn : Nat)
    (hym : ∀ i, (s.grid nn).2.ym i = 0) (hmu0 : (s.grid nn).2.mu1_beta 0 = 0)
    (hmu1 : (s.grid nn).2.mu1_beta 1 = 0)
    (ha : (s.grid nn).2.alpha_beta 1 = (s.grid nn).2.alpha_beta 0) :
    (runInnerLoop_turn m (exD_vb F) 2 n_grid s).alpha_diff nn
      = |(s.grid nn).2.alpha_beta 0 - exC_alpha m (s.grid nn).1| := by
  simp only [runInnerLoop_turn]
  rw [show (exD_vb F).n_var = 2 from rfl]
  simp only [maxCoeff, List.range_succ, List.range_zero, List.nil_append, List.foldl_cons,
    List.foldl_nil, List.foldl_append, max_self]
  rw [(exD_update_vp m s.count s.grid nn hym hmu0 hmu1).1,
    (exD_update_vp m s.count s.grid nn hym hmu0 hmu1).2.1, ha, max_self]

theorem exD_turn_converged {F : Type} [LinearOrderedField F] (m : MathFns F) (n_grid : Nat)
    (s : InnerLoopState F) (nn : Nat) :
    (runInnerLoop_turn m (exD_vb F) 2 n_grid s).converged nn
      = if (runInnerLoop_turn m (exD_vb F) 2 n_grid s).alpha_diff nn < 1 / 10 then true
        else s.converged nn := by
  simp [runInnerLoop_turn, diagnose_convergence, exD_vb, exC_p]

theorem exD_turn_all_converged {F : Type} [LinearOrderedField F] (m : MathFns F)
    (s : InnerLoopState F) :
    (runInnerLoop_turn m (exD_vb F) 2 2 s).all_converged
      = if ((runInnerLoop_turn m (exD_vb F) 2 2 s).converged 0
          && (runInnerLoop_turn m (exD_vb F) 2 2 s).converged 1) = true then true
        else s.all_converged := by
  simp [runInnerLoop_turn, List.range_succ]

theorem exD_init_grid {F : Type} [LinearOrderedField F] (nn : Nat) :
    ((runInnerLoop_init (exD_vb F) (exC_vp_init F) (exC_hyps F)).grid nn).1 = exC_hyps F nn
    ∧ (∀ i, ((runInnerLoop_init (exD_vb F) (exC_vp_init F) (exC_hyps F)).grid nn).2.ym i = 0)
    ∧ (∀ j, ((runInnerLoop_init (exD_vb F) (exC_vp_init F) (exC_hyps F)).grid
        nn).2.mu1_beta j = 0)
    ∧ (∀ j, ((runInnerLoop_init (exD_vb F) (exC_vp_init F) (exC_hyps F)).grid
        nn).2.alpha_beta j = 1 / 2) := by
  simp [runInnerLoop_init, setup_variational_params, updateSSq, calcVarqBeta, exD_vb, exC_p,
    exC_vp_init]

end ExDRun
section ExDReal

/-- Second turn, grid point 0: under the maximised hyperparameters `α` drops below
`36/100`. -/
theorem exD_a2A (h1 : Hyps ℝ) (a : ℝ) (ha : 1 / 2 ≤ a) (ha2 : a ≤ 51 / 100)
    (hl : h1.lambda 0 = (a + a) / 2) (hv : h1.slab_var 0 = (a * 1 + a * 1) / (a + a))
    (hr : h1.slab_relative_var 0
      = (a * 1 + a * 1) / (a + a) / ((1 + 1 + 1 + 1 + (5 - 1) * (a * 1 + a * 1)) / 5)) :
    exC_alpha ⟨Real.log, Real.exp⟩ h1 ≤ 36 / 100 := by
  have e0 := eps_pos_real
  have e1 := eps_le_real
  have ha0 : (0 : ℝ) < a := by linarith
  have hl1 : h1.lambda 0 = a := by rw [hl]; ring
  have hv1 : h1.slab_var 0 = 1 := by rw [hv]; field_simp
  have hr1 : h1.slab_relative_var 0 = 5 / (4 + 8 * a) := by rw [hr]; field_simp; ring
  have hr2 : 615 / 1000 ≤ h1.slab_relative_var 0 := by
    rw [hr1, le_div_iff₀ (by linarith)]; linarith
  have ho1 : a / (1 - a) ≤ 1041 / 1000 := by
    rw [div_le_iff₀ (by linarith)]; linarith
  have ho0 : 0 < a / (1 - a) := div_pos ha0 (by linarith)
  apply exC_alpha_le h1 _ (186 / 100) (1042 / 1000)
  · rw [hv1]; norm_num
  · norm_num
  · linarith
  · linarith
  · rw [hl1]; linarith
  · rw [hl1]; linarith
  · norm_num
  · norm_num
  · norm_num

/-- Second turn, grid point 1: under the maximised hyperparameters `α` stays between
`33/100` and `34/100`. -/
theorem exD_a2B (h1 : Hyps ℝ) (a : ℝ) (ha : 1 / 3 ≤ a) (ha2 : a ≤ 334 / 1000)
    (hl : h1.lambda 0 = (a + a) / 2)
    (hv : h1.slab_var 0 = (a * (1 / 400) + a * (1 / 400)) / (a + a))
    (hr : h1.slab_relative_var 0
      = (a * (1 / 400) + a * (1 / 400)) / (a + a)
        / ((1 + 1 + 1 + 1 + (5 - 1) * (a * (1 / 400) + a * (1 / 400))) / 5)) :
    33 / 100 ≤ exC_alpha ⟨Real.log, Real.exp⟩ h1
    ∧ exC_alpha ⟨Real.log, Real.exp⟩ h1 ≤ 34 / 100 := by
  have e0 := eps_pos_real
  have e1 := eps_le_real
  have ha0 : (0 : ℝ) < a := by linarith
  have hl1 : h1.lambda 0 = a := by rw [hl]; ring
  have hv1 : h1.slab_var 0 = 1 / 400 := by rw [hv]; field_simp; ring
  have hr1 : h1.slab_relative_var 0 = 5 / (1600 + 8 * a) := by rw [hr]; field_simp; ring
  have hr2 : 0 < h1.slab_relative_var 0 := by rw [hr1]; apply div_pos <;> linarith
  have hr3 : h1.slab_relative_var 0 ≤ 1 / 320 := by
    rw [hr1, div_le_iff₀ (by linarith)]; linarith
  have ho1 : a / (1 - a) ≤ 502 / 1000 := by
    rw [div_le_iff₀ (by linarith)]; linarith
  have ho2 : 1 / 2 ≤ a / (1 - a) := by
    rw [le_div_iff₀ (by linarith)]; linarith
  constructor
  · apply exC_alpha_ge h1 _ (1 + 1 / 80) (1 / 2)
    · rw [hv1]; norm_num
    · norm_num
    · nlinarith
    · linarith
    · norm_num
    · rw [hl1]; linarith
    · norm_num
    · norm_num
    · norm_num
  · apply exC_alpha_le h1 _ 1 (503 / 1000)
    · rw [hv1]; norm_num
    · norm_num
    · linarith
    · linarith
    · rw [hl1]; linarith
    · rw [hl1]; linarith
    · norm_num
    · norm_num
    · norm_num

/-- The first turn on the example: grid point 0 passes the test on `α`, grid point 1 does
not; the posterior mean is still zero and the hyperparameters have been maximised. -/
theorem exD_turn1 (nn : Nat) :
    (runInnerLoop_after ⟨Real.log, Real.exp⟩ (exD_vb ℝ) 2 2 (exC_vp_init ℝ) (exC_hyps ℝ)
        1).alpha_diff nn
      = |1 / 2 - exC_alpha ⟨Real.log, Real.exp⟩ (exC_hyps ℝ nn)|
    ∧ (∀ i, ((runInnerLoop_after ⟨Real.log, Real.exp⟩ (exD_vb ℝ) 2 2 (exC_vp_init ℝ)
        (exC_hyps ℝ) 1).grid nn).2.ym i = 0)
    ∧ ((runInnerLoop_after ⟨Real.log, Real.exp⟩ (exD_vb ℝ) 2 2 (exC_vp_init ℝ)
        (exC_hyps ℝ) 1).grid nn).2.mu1_beta 0 = 0
    ∧ ((runInnerLoop_after ⟨Real.log, Real.exp⟩ (exD_vb ℝ) 2 2 (exC_vp_init ℝ)
        (exC_hyps ℝ) 1).grid nn).2.mu1_beta 1 = 0
    ∧ ((runInnerLoop_after ⟨Real.log, Real.exp⟩ (exD_vb ℝ) 2 2 (exC_vp_init ℝ)
        (exC_hyps ℝ) 1).grid nn).2.alpha_beta 0
        = exC_alpha ⟨Real.log, Real.exp⟩ (exC_hyps ℝ nn)
    ∧ ((runInnerLoop_after ⟨Real.log, Real.exp⟩ (exD_vb ℝ) 2 2 (exC_vp_init ℝ)
        (exC_hyps ℝ) 1).grid nn).2.alpha_beta 1
        = exC_alpha ⟨Real.log, Real.exp⟩ (exC_hyps ℝ nn)
    ∧ ((runInnerLoop_after ⟨Real.log, Real.exp⟩ (exD_vb ℝ) 2 2 (exC_vp_init ℝ)
        (exC_hyps ℝ) 1).grid nn).1.lambda 0
        = (exC_alpha ⟨Real.log, Real.exp⟩ (exC_hyps ℝ nn)
            + exC_alpha ⟨Real.log, Real.exp⟩ (exC_hyps ℝ nn)) / 2
    ∧ ((runInnerLoop_after ⟨Real.log, Real.exp⟩ (exD_vb ℝ) 2 2 (exC_vp_init ℝ)
        (exC_hyps ℝ) 1).grid nn).1.slab_var 0
        = (exC_alpha ⟨Real.log, Real.exp⟩ (exC_hyps ℝ nn) * exC_s1 (exC_hyps ℝ nn)
            + exC_alpha ⟨Real.log, Real.exp⟩ (exC_hyps ℝ nn) * exC_s1 (exC_hyps ℝ nn))
          / (exC_alpha ⟨Real.log, Real.exp⟩ (exC_hyps ℝ nn)
            + exC_alpha ⟨Real.log, Real.exp⟩ (exC_hyps ℝ nn))
    ∧ ((runInnerLoop_after ⟨Real.log, Real.exp⟩ (exD_vb ℝ) 2 2 (exC_vp_init ℝ)
        (exC_hyps ℝ) 1).grid nn).1.slab_relative_var 0
        = (exC_alpha ⟨Real.log, Real.exp⟩ (exC_hyps ℝ nn) * exC_s1 (exC_hyps ℝ nn)
            + exC_alpha ⟨Real.log, Real.exp⟩ (exC_hyps ℝ nn) * exC_s1 (exC_hyps ℝ nn))
          / (exC_alpha ⟨Real.log, Real.exp⟩ (exC_hyps ℝ nn)
            + exC_alpha ⟨Real.log, Real.exp⟩ (exC_hyps ℝ nn))
          / ((1 + 1 + 1 + 1 + (5 - 1)
              * (exC_alpha ⟨Real.log, Real.exp⟩ (exC_hyps ℝ nn) * exC_s1 (exC_hyps ℝ nn)
                + exC_alpha ⟨Real.log, Real.exp⟩ (exC_hyps ℝ nn) * exC_s1 (exC_hyps ℝ nn)))
            / 5) := by
  obtain ⟨g1, g2, g3, g4⟩ := exD_init_grid (F := ℝ) nn
  have hu := exD_update_vp ⟨Real.log, Real.exp⟩ 0
    (runInnerLoop_init (exD_vb ℝ) (exC_vp_init ℝ) (exC_hyps ℝ)).grid nn g2 (g3 0) (g3 1)
  have hh := exD_update_hyps ⟨Real.log, Real.exp⟩ 0
    (runInnerLoop_init (exD_vb ℝ) (exC_vp_init ℝ) (exC_hyps ℝ)).grid nn g2 (g3 0) (g3 1)
  rw [g1] at hu hh
  have ha := exD_turn_alpha_diff ⟨Real.log, Real.exp⟩ 2
    (runInnerLoop_init (exD_vb ℝ) (exC_vp_init ℝ) (exC_hyps ℝ)) nn g2 (g3 0) (g3 1)
    ((g4 1).trans (g4 0).symm)
  rw [g1, g4] at ha
  rw [show (1 : Nat) = 0 + 1 from rfl, runInnerLoop_after_grid, runInnerLoop_after_succ,
    runInnerLoop_after_zero]
  refine ⟨?_, ?_, ?_, ?_, ?_, ?_, ?_, ?_, ?_⟩
  · rw [ha]
  · intro i
    rw [hu.2.2.2.2 i]
  · rw [hu.2.2.1]
  · rw [hu.2.2.2.1]
  · rw [hu.1]
  · rw [hu.2.1]
  · rw [hh.2.1]
  · rw [hh.2.2.1]
  · rw [hh.2.2.2]

/-- The second turn on the example: the change of `α` at each grid point. -/
theorem exD_turn2 (nn : Nat) :
    (runInnerLoop_after ⟨Real.log, Real.exp⟩ (exD_vb ℝ) 2 2 (exC_vp_init ℝ) (exC_hyps ℝ)
        2).alpha_diff nn
      = |exC_alpha ⟨Real.log, Real.exp⟩ (exC_hyps ℝ nn)
          - exC_alpha ⟨Real.log, Real.exp⟩
              ((runInnerLoop_after ⟨Real.log, Real.exp⟩ (exD_vb ℝ) 2 2 (exC_vp_init ℝ)
                (exC_hyps ℝ) 1).grid nn).1| := by
  obtain ⟨_, t2, t3, t3b, t4, t4b, _⟩ := exD_turn1 nn
  rw [show (2 : Nat) = 1 + 1 from rfl, runInnerLoop_after_succ,
    exD_turn_alpha_diff _ _ _ _ t2 t3 t3b (t4b.trans t4.symm), t4]

theorem exD_diff1A :
    (runInnerLoop_after ⟨Real.log, Real.exp⟩ (exD_vb ℝ) 2 2 (exC_vp_init ℝ) (exC_hyps ℝ)
        1).alpha_diff 0 < 1 / 10 := by
  rw [(exD_turn1 0).1, abs_lt]
  obtain ⟨h1, h2⟩ := exC_a1A
  constructor <;> linarith

theorem exD_diff1B :
    ¬ (runInnerLoop_after ⟨Real.log, Real.exp⟩ (exD_vb ℝ) 2 2 (exC_vp_init ℝ) (exC_hyps ℝ)
        1).alpha_diff 1 < 1 / 10 := by
  rw [(exD_turn1 1).1, not_lt]
  obtain ⟨h1, h2⟩ := exC_a1B
  rw [abs_of_nonneg (by linarith)]
  linarith

theorem exD_diff2A :
    ¬ (runInnerLoop_after ⟨Real.log, Real.exp⟩ (exD_vb ℝ) 2 2 (exC_vp_init ℝ) (exC_hyps ℝ)
        2).alpha_diff 0 < 1 / 10 := by
  rw [exD_turn2 0, not_lt]
  obtain ⟨h1, h2⟩ := exC_a1A
  obtain ⟨_, _, _, _, _, _, t5, t6, t7⟩ := exD_turn1 0
  rw [exC_s1_A] at t6 t7
  have h3 := exD_a2A _ _ h1 h2 t5 t6 t7
  rw [abs_of_nonneg (by linarith)]
  linarith

theorem exD_diff2B :
    (runInnerLoop_after ⟨Real.log, Real.exp⟩ (exD_vb ℝ) 2 2 (exC_vp_init ℝ) (exC_hyps ℝ)
        2).alpha_diff 1 < 1 / 10 := by
  rw [exD_turn2 1, abs_lt]
  obtain ⟨h1, h2⟩ := exC_a1B
  obtain ⟨_, _, _, _, _, _, t5, t6, t7⟩ := exD_turn1 1
  rw [exC_s1_B] at t6 t7
  obtain ⟨h3, h4⟩ := exD_a2B _ _ h1 h2 t5 t6 t7
  constructor <;> linarith

end ExDReal
section ExDClaims

/-- The run on the example: the loop is left after two turns with `all_converged` set. -/
theorem exD_run :
    runInnerLoop ⟨Real.log, Real.exp⟩ (exD_vb ℝ) 2 2 (exC_vp_init ℝ) (exC_hyps ℝ)
      = runInnerLoop_after ⟨Real.log, Real.exp⟩ (exD_vb ℝ) 2 2 (exC_vp_init ℝ) (exC_hyps ℝ) 2
    ∧ (runInnerLoop_after ⟨Real.log, Real.exp⟩ (exD_vb ℝ) 2 2 (exC_vp_init ℝ) (exC_hyps ℝ)
        2).all_converged = true := by
  have e1 : runInnerLoop_after ⟨Real.log, Real.exp⟩ (exD_vb ℝ) 2 2 (exC_vp_init ℝ)
      (exC_hyps ℝ) 1 = runInnerLoop_turn ⟨Real.log, Real.exp⟩ (exD_vb ℝ) 2 2
        (runInnerLoop_init (exD_vb ℝ) (exC_vp_init ℝ) (exC_hyps ℝ)) :=
    runInnerLoop_after_succ _ _ _ _ _ _ 0
  have e2 : runInnerLoop_after ⟨Real.log, Real.exp⟩ (exD_vb ℝ) 2 2 (exC_vp_init ℝ)
      (exC_hyps ℝ) 2 = runInnerLoop_turn ⟨Real.log, Real.exp⟩ (exD_vb ℝ) 2 2
        (runInnerLoop_after ⟨Real.log, Real.exp⟩ (exD_vb ℝ) 2 2 (exC_vp_init ℝ)
          (exC_hyps ℝ) 1) :=
    runInnerLoop_after_succ _ _ _ _ _ _ 1
  have d1A := exD_diff1A
  have d1B := exD_diff1B
  have d2A := exD_diff2A
  have d2B := exD_diff2B
  rw [e1] at d1A d1B
  rw [e2] at d2A d2B
  have c1A : (runInnerLoop_after ⟨Real.log, Real.exp⟩ (exD_vb ℝ) 2 2 (exC_vp_init ℝ)
      (exC_hyps ℝ) 1).converged 0 = true := by
    rw [e1, exD_turn_converged, if_pos d1A]
  have c1B : (runInnerLoop_after ⟨Real.log, Real.exp⟩ (exD_vb ℝ) 2 2 (exC_vp_init ℝ)
      (exC_hyps ℝ) 1).converged 1 = false := by
    rw [e1, exD_turn_converged, if_neg d1B]
    rfl
  have a1 : (runInnerLoop_after ⟨Real.log, Real.exp⟩ (exD_vb ℝ) 2 2 (exC_vp_init ℝ)
      (exC_hyps ℝ) 1).all_converged = false := by
    have c1A2 := c1A
    have c1B2 := c1B
    rw [e1] at c1A2 c1B2
    rw [e1, exD_turn_all_converged, c1A2, c1B2]
    rfl
  have c2A : (runInnerLoop_after ⟨Real.log, Real.exp⟩ (exD_vb ℝ) 2 2 (exC_vp_init ℝ)
      (exC_hyps ℝ) 2).converged 0 = true := by
    rw [e2, exD_turn_converged, if_neg d2A, c1A]
  have c2B : (runInnerLoop_after ⟨Real.log, Real.exp⟩ (exD_vb ℝ) 2 2 (exC_vp_init ℝ)
      (exC_hyps ℝ) 2).converged 1 = true := by
    rw [e2, exD_turn_converged, if_pos d2B]
  have a2 : (runInnerLoop_after ⟨Real.log, Real.exp⟩ (exD_vb ℝ) 2 2 (exC_vp_init ℝ)
      (exC_hyps ℝ) 2).all_converged = true := by
    have c2A2 := c2A
    have c2B2 := c2B
    rw [e2] at c2A2 c2B2
    rw [e2, exD_turn_all_converged, c2A2, c2B2]
    rfl
  refine ⟨?_, a2⟩
  unfold runInnerLoop
  rw [show (exD_vb ℝ).p.vb_iter_max = 8 + 1 + 1 from rfl,
    runInnerLoop_loop_go _ _ _ _ _ _ rfl (Nat.succ_pos 9), ← e1,
    runInnerLoop_loop_go _ _ _ _ _ _ a1
      (by rw [runInnerLoop_after_count]; exact Nat.succ_lt_succ (Nat.succ_pos 8)), ← e2,
    runInnerLoop_loop_stop _ _ _ _ _ _ a2]

/-- Both rows of the grid of the example pass the validation for two variants. -/
theorem exD_grid_valid_points : validate_grid (exD_grid ℝ) 2 = [0, 1] := by
  rw [validate_grid_eq_filter]
  simp [exD_grid, validate_grid_test, List.range_succ, List.filter_cons, Double.recip,
    Double.le, Double.lt, Double.isfinite, recip_value_two]
  norm_num

/-- The rows of the grid of the example carry the hyperparameters of `exC_hyps`. -/
theorem exD_grid_rows (nn : Nat) (h : nn < 2) :
    (exD_grid ℝ).entry nn 0 = .finite (exC_hyps ℝ nn).sigma
    ∧ (exD_grid ℝ).entry nn 1 = .finite ((exC_hyps ℝ nn).slab_relative_var 0)
    ∧ (exD_grid ℝ).entry nn 3 = .finite ((exC_hyps ℝ nn).lambda 0)
    ∧ (exC_hyps ℝ nn).slab_var 0
        = (exC_hyps ℝ nn).sigma * (exC_hyps ℝ nn).slab_relative_var 0 := by
  interval_cases nn <;> simp [exD_grid, exC_hyps] <;> norm_num

/-- C8, on the example with two variants and two grid points: the loop is left with
`all_converged` set and each grid point has satisfied the criterion at some turn. -/
theorem runInnerLoop_convergence_gate_witness :
    (runInnerLoop ⟨Real.log, Real.exp⟩ (exD_vb ℝ) 2 2 (exC_vp_init ℝ)
        (exC_hyps ℝ)).all_converged = true
    ∧ (∀ nn, nn < 2 → ∃ k, 1 ≤ k
        ∧ k ≤ (runInnerLoop ⟨Real.log, Real.exp⟩ (exD_vb ℝ) 2 2 (exC_vp_init ℝ)
            (exC_hyps ℝ)).count
        ∧ criterionAt (exD_vb ℝ).p
            (runInnerLoop_after ⟨Real.log, Real.exp⟩ (exD_vb ℝ) 2 2 (exC_vp_init ℝ)
              (exC_hyps ℝ) k) nn) :=
  ⟨exD_run.1.symm ▸ exD_run.2,
    (runInnerLoop_convergence_gate ⟨Real.log, Real.exp⟩ (exD_vb ℝ) 2 2 (exC_vp_init ℝ)
      (exC_hyps ℝ) (exD_run.1.symm ▸ exD_run.2)).2.2.1⟩

/-- C8, counterexample. On the example (two variants, two grid points whose rows
`(16/3, 3/4, 0, 2/3, 0)` and `(1/75, 3/4, 0, 1/2, 0)` both pass the validation of the grid
for two variants, the second round of inference, hyperparameters maximised at every turn,
the test on `α` alone with `α_tol = 1/10` set by the user) the loop of `runInnerLoop` is
left after two turns, before the cap of ten, with `all_converged` set, and grid point 0,
whose flag was set at the first turn, does not satisfy the criterion at the final turn:
its `α` has moved by more than `1/10`. -/
theorem runInnerLoop_gate_counterexample :
    (exD_vb ℝ).n_var = 2
    ∧ validate_grid (exD_grid ℝ) (exD_vb ℝ).n_var = [0, 1]
    ∧ (∀ nn, nn < 2 →
        (exD_grid ℝ).entry nn 0 = .finite (exC_hyps ℝ nn).sigma
        ∧ (exD_grid ℝ).entry nn 1 = .finite ((exC_hyps ℝ nn).slab_relative_var 0)
        ∧ (exD_grid ℝ).entry nn 3 = .finite ((exC_hyps ℝ nn).lambda 0)
        ∧ (exC_hyps ℝ nn).slab_var 0
            = (exC_hyps ℝ nn).sigma * (exC_hyps ℝ nn).slab_relative_var 0)
    ∧ (runInnerLoop ⟨Real.log, Real.exp⟩ (exD_vb ℝ) 2 2 (exC_vp_init ℝ)
        (exC_hyps ℝ)).all_converged = true
    ∧ (runInnerLoop ⟨Real.log, Real.exp⟩ (exD_vb ℝ) 2 2 (exC_vp_init ℝ)
        (exC_hyps ℝ)).count = 2
    ∧ (exD_vb ℝ).p.vb_iter_max = 10
    ∧ ¬ criterionAt (exD_vb ℝ).p
        (runInnerLoop ⟨Real.log, Real.exp⟩ (exD_vb ℝ) 2 2 (exC_vp_init ℝ) (exC_hyps ℝ)) 0 := by
  rw [exD_run.1]
  refine ⟨rfl, exD_grid_valid_points, exD_grid_rows, exD_run.2,
    runInnerLoop_after_count _ _ _ _ _ _ 2, rfl, fun h => ?_⟩
  exact exD_diff2A (h.2.1 rfl)

end ExDClaims
/-! ### Updates do not read the variances they derive -/

section AgreeBasics

variable {F : Type} [Field F]

end AgreeBasics
section AgreeSteps

variable {F : Type} [Field F]

end AgreeSteps

section AgreeFolds

variable {F : Type} [Field F]

end AgreeFolds
section AgreeChunk

variable {F : Type} [Field F]

end AgreeChunk
/-! ### What the evidence lower bound and `maximiseHyps` read -/

section LiveReaders

variable {F : Type} [Field F]

end LiveReaders
/-! ### Every variant is visited by a pass -/

section PassCover

variable {F : Type} [Field F]

end PassCover
/-! ### The weights of the environments with at most one environment -/

section WeightsFrame

variable {F : Type} [Field F]

end WeightsFrame
/-! ### Claims on resuming the inner loop -/

section ResumeBase

variable {F : Type} [Field F]

end ResumeBase

section ResumeLoop

variable {F : Type} [LinearOrderedField F]

end ResumeLoop

section ResumeClaims

end ResumeClaims
/-! ### One iteration on the example with two environments -/

section ExR

variable {F : Type} [LinearOrderedField F]

end ExR
section ExRTurn

variable {F : Type} [LinearOrderedField F]

end ExRTurn
section ExRStates

variable {F : Type} [LinearOrderedField F]

end ExRStates
section ExRRun

variable {F : Type} [LinearOrderedField F]

end ExRRun

section ExRReal

end ExRReal
section ExRClaims

/-- The matrix `dXtEEX` of the example is the one of its `X` and `E`. -/
theorem exR_dXtEEX_eq (j l mm : Nat) (hj : j < 2) (hl : l < 2) (hm : mm < 2) :
    exR_dXtEEX ℝ j (l * 2 + mm)
      = ∑ i ∈ range 5, exR_X ℝ i j * exR_X ℝ i j * (exR_E ℝ i l * exR_E ℝ i mm) := by
  interval_cases j <;> interval_cases l <;> interval_cases mm <;>
    simp [exR_dXtEEX, exR_X, exR_E, Finset.sum_range_succ] <;> norm_num

end ExRClaims

end LEMMA
